import Mathlib

/-!
# Signature tool of the activation manager: a shallow embedding

The development follows `platform/activation_manager/signature_tool`:

* `ecurve_point.cpp`  : `extended_euclid`, `inverse`, `modul`, `ECurvePoint`
* `gost3410_2012.cpp` : the curve constants, `b_int_to_hex`, `sign_message`,
  `check_sign`, `generate_key_pair`
* `gost.cpp`, `gosthash.cpp`, `gost28147_1989.cpp` : the block cipher, the hash
  and `GOSTCalc::hash`
* `gost_cbc.cpp` : `get_gamma`, `gost_cbc_encrypt`
* `py_module/src/encrypt.cpp` : `encrypt`

`b_int` (an unbounded signed integer) is `Int`; `unsigned int` is a `Nat` kept
below `2 ^ 32` by explicit reduction; a byte is a `Nat` below `256`; a
`std::string` is a `List Char`; a thrown exception is `none`.
-/

namespace SignatureTool

/-! ## gost.h / gost.cpp: the block cipher -/

/-- The type `unsigned int`: reduction modulo `2 ^ 32`. -/
def u32 (n : Nat) : Nat := n % 4294967296

/-- The macro `c2l(c,l)` applied at offset `off` of `c`: four bytes read as a
little-endian word. -/
def c2l (c : List Nat) (off : Nat) : Nat :=
  c.getD off 0 ||| (c.getD (off + 1) 0 <<< 8) ||| (c.getD (off + 2) 0 <<< 16)
    ||| (c.getD (off + 3) 0 <<< 24)

/-- The macro `l2c(l,c)`: the four bytes it stores, low byte first. -/
def l2c (l : Nat) : List Nat :=
  [l &&& 0xff, (l >>> 8) &&& 0xff, (l >>> 16) &&& 0xff, (l >>> 24) &&& 0xff]

/-- The struct `struct_kbox` (`KBOX`): eight S-boxes of sixteen entries. -/
structure KBOX where
  k1 : List Nat
  k2 : List Nat
  k3 : List Nat
  k4 : List Nat
  k5 : List Nat
  k6 : List Nat
  k7 : List Nat
  k8 : List Nat

/-- The struct `gost_ctx`: eight key words and the four combined tables. -/
structure gost_ctx where
  key : List Nat
  k87 : List Nat
  k65 : List Nat
  k43 : List Nat
  k21 : List Nat

/-- The function `kboxinit(c, kbox)` for a non-`NULL` `kbox`, with
`__optimized__` defined as in `gost.cpp`: the tables are built and then
shifted in place (`<<=` on `unsigned int`). -/
def kboxinit (c : gost_ctx) (kbox : KBOX) : gost_ctx :=
  { c with
    k87 := (List.range 256).map fun i =>
      u32 (((kbox.k8.getD (i >>> 4) 0 <<< 4) ||| kbox.k7.getD (i &&& 15) 0) <<< 24)
    k65 := (List.range 256).map fun i =>
      u32 (((kbox.k6.getD (i >>> 4) 0 <<< 4) ||| kbox.k5.getD (i &&& 15) 0) <<< 16)
    k43 := (List.range 256).map fun i =>
      u32 (((kbox.k4.getD (i >>> 4) 0 <<< 4) ||| kbox.k3.getD (i &&& 15) 0) <<< 8)
    k21 := (List.range 256).map fun i =>
      (kbox.k2.getD (i >>> 4) 0 <<< 4) ||| kbox.k1.getD (i &&& 15) 0 }

/-- The function `gost_set_key(ctx, key)`: eight little-endian words. -/
def gost_set_key (ctx : gost_ctx) (key : List Nat) : gost_ctx :=
  { ctx with key := (List.range 8).map fun i => c2l key (4 * i) }

/-- The round function `f(c, x)` with `__optimized__` defined. -/
def f (c : gost_ctx) (x : Nat) : Nat :=
  let x := c.k87.getD ((x >>> 24) &&& 255) 0 ||| c.k65.getD ((x >>> 16) &&& 255) 0
    ||| c.k43.getD ((x >>> 8) &&& 255) 0 ||| c.k21.getD (x &&& 255) 0
  u32 (x <<< 11) ||| (x >>> (32 - 11))

/-- Two statements of `gost_encrypt`:
`n2 ^= f(ctx, n1+ctx->key[i]); n1 ^= f(ctx, n2+ctx->key[j]);` on `(n1, n2)`. -/
def gost_round2 (ctx : gost_ctx) (i j : Nat) (n : Nat × Nat) : Nat × Nat :=
  let n2 := n.2 ^^^ f ctx (u32 (n.1 + ctx.key.getD i 0))
  let n1 := n.1 ^^^ f ctx (u32 (n2 + ctx.key.getD j 0))
  (n1, n2)

/-- Eight statements of `gost_encrypt` with the keys in the order `0..7`. -/
def gost_pass_up (ctx : gost_ctx) (n : Nat × Nat) : Nat × Nat :=
  gost_round2 ctx 6 7 (gost_round2 ctx 4 5 (gost_round2 ctx 2 3 (gost_round2 ctx 0 1 n)))

/-- Eight statements of `gost_encrypt` with the keys in the order `7..0`. -/
def gost_pass_down (ctx : gost_ctx) (n : Nat × Nat) : Nat × Nat :=
  gost_round2 ctx 1 0 (gost_round2 ctx 3 2 (gost_round2 ctx 5 4 (gost_round2 ctx 7 6 n)))

/-- The function `gost_encrypt(src, dst, ctx, enc)`: the eight bytes written to
`dst`; `enc` is the C truth value of the last argument. -/
def gost_encrypt (src : List Nat) (ctx : gost_ctx) (enc : Bool) : List Nat :=
  let n : Nat × Nat := (c2l src 0, c2l src 4)
  let n :=
    if enc then
      gost_pass_down ctx (gost_pass_up ctx (gost_pass_up ctx (gost_pass_up ctx n)))
    else
      gost_pass_down ctx (gost_pass_down ctx (gost_pass_down ctx (gost_pass_up ctx n)))
  l2c n.2 ++ l2c n.1

/-! ## gosthash.h / gosthash.cpp: the hash -/

/-- The constant `GOST_HASH_BYTES_SZ`. -/
def GOST_HASH_BYTES_SZ : Nat := 32
/-- The constant `GOST_HASH_BLOCK_BYTES_SZ`. -/
def GOST_HASH_BLOCK_BYTES_SZ : Nat := 32

/-- The table `GOSThash_example_kbox`. -/
def GOSThash_example_kbox : KBOX :=
  { k1 := [0x4, 0xa, 0x9, 0x2, 0xd, 0x8, 0x0, 0xe, 0x6, 0xb, 0x1, 0xc, 0x7, 0xf, 0x5, 0x3]
    k2 := [0xe, 0xb, 0x4, 0xc, 0x6, 0xd, 0xf, 0xa, 0x2, 0x3, 0x8, 0x1, 0x0, 0x7, 0x5, 0x9]
    k3 := [0x5, 0x8, 0x1, 0xd, 0xa, 0x3, 0x4, 0x2, 0xe, 0xf, 0xc, 0x7, 0x6, 0x0, 0x9, 0xb]
    k4 := [0x7, 0xd, 0xa, 0x1, 0x0, 0x8, 0x9, 0xf, 0xe, 0x4, 0x6, 0xc, 0xb, 0x2, 0x5, 0x3]
    k5 := [0x6, 0xc, 0x7, 0x1, 0x5, 0xf, 0xd, 0x8, 0x4, 0xa, 0x9, 0xe, 0x0, 0x3, 0xb, 0x2]
    k6 := [0x4, 0xb, 0xa, 0x0, 0x7, 0x2, 0x1, 0xd, 0x3, 0x6, 0x8, 0x5, 0x9, 0xc, 0xf, 0xe]
    k7 := [0xd, 0xb, 0x4, 0x1, 0x3, 0xf, 0x5, 0x9, 0x0, 0xa, 0xe, 0x7, 0x6, 0x8, 0x2, 0xc]
    k8 := [0x1, 0xf, 0xd, 0x0, 0x5, 0x7, 0xa, 0x4, 0x9, 0x2, 0x3, 0xe, 0x6, 0xb, 0x8, 0xc] }

/-- The table `gosthash_C`, each row of eight words laid out in memory as
little-endian bytes (`__litle_end__`). -/
def gosthash_C : List (List Nat) :=
  [ [0x00000000, 0x00000000, 0x00000000, 0x00000000,
     0x00000000, 0x00000000, 0x00000000, 0x00000000].flatMap l2c,
    [0xFF00FF00, 0xFF00FF00, 0x00FF00FF, 0x00FF00FF,
     0x00FFFF00, 0xFF0000FF, 0x000000FF, 0xFF00FFFF].flatMap l2c,
    [0x00000000, 0x00000000, 0x00000000, 0x00000000,
     0x00000000, 0x00000000, 0x00000000, 0x00000000].flatMap l2c ]

/-- The table `GOSThash_example1_M`: the 32 bytes of the first test message,
`This is message, length=32 bytes`. -/
def GOSThash_example1_M : List Nat :=
  [0x54, 0x68, 0x69, 0x73, 0x20, 0x69, 0x73, 0x20, 0x6D, 0x65, 0x73, 0x73, 0x61, 0x67, 0x65, 0x2C,
   0x20, 0x6C, 0x65, 0x6E, 0x67, 0x74, 0x68, 0x3D, 0x33, 0x32, 0x20, 0x62, 0x79, 0x74, 0x65, 0x73]

/-- The table `GOSThash_example1_Hash`: the digest expected for the first test
message. -/
def GOSThash_example1_Hash : List Nat :=
  [0xB1, 0xC4, 0x66, 0xD3, 0x75, 0x19, 0xB8, 0x2E, 0x83, 0x19, 0x81, 0x9F, 0xF3, 0x25, 0x95, 0xE0,
   0x47, 0xA2, 0x8C, 0xB6, 0xF8, 0x3E, 0xFF, 0x1C, 0x69, 0x16, 0xA8, 0x15, 0xA6, 0x37, 0xFF, 0xFA]

/-- The table `GOSThash_example2_M`: the 50 bytes of the second test message,
`Suppose the original message has length = 50 bytes`. -/
def GOSThash_example2_M : List Nat :=
  [0x53, 0x75, 0x70, 0x70, 0x6f, 0x73, 0x65, 0x20, 0x74, 0x68, 0x65, 0x20, 0x6f, 0x72, 0x69, 0x67,
   0x69, 0x6e, 0x61, 0x6c, 0x20, 0x6d, 0x65, 0x73, 0x73, 0x61, 0x67, 0x65, 0x20, 0x68, 0x61, 0x73,
   0x20, 0x6c, 0x65, 0x6e, 0x67, 0x74, 0x68, 0x20, 0x3d, 0x20, 0x35, 0x30, 0x20, 0x62, 0x79, 0x74,
   0x65, 0x73]

/-- The table `GOSThash_example2_Hash`: the digest expected for the second test
message. -/
def GOSThash_example2_Hash : List Nat :=
  [0x47, 0x1A, 0xBA, 0x57, 0xA6, 0x0A, 0x77, 0x0D, 0x3A, 0x76, 0x13, 0x06, 0x35, 0xC1, 0xFB, 0xEA,
   0x4E, 0xF1, 0x4D, 0xE5, 0x1F, 0x78, 0xb4, 0xAE, 0x57, 0xDD, 0x89, 0x3B, 0x62, 0xF5, 0x52, 0x08]

/-- The call `memcpy(dst + off, src, n)` (also `memmove`, `memset` with `src`
the fill bytes): the new contents of `dst`. -/
def memcpy (dst : List Nat) (off : Nat) (src : List Nat) (n : Nat) : List Nat :=
  dst.take off ++ src.take n ++ dst.drop (off + n)

/-- The function `GOSThash_xorstr(dst, src1, src2, len)`: the `len` bytes
written to `dst`. -/
def GOSThash_xorstr (src1 src2 : List Nat) (len : Nat) : List Nat :=
  (List.range len).map fun i => src1.getD i 0 ^^^ src2.getD i 0

/-- The loop of `GOSThash_sumstr` (branch `__litle_end__`) over the words that
remain: `c = a + c + b; *pdst++ = c; c = ((c < a) || (c < b)) ? 1 : 0`. -/
def GOSThash_sumstr_loop : List Nat → List Nat → Nat → List Nat
  | a :: psrc, b :: pdst, c =>
    let c := u32 (a + c + b)
    c :: GOSThash_sumstr_loop psrc pdst (if c < a ∨ c < b then 1 else 0)
  | _, _, _ => []

/-- The function `GOSThash_sumstr(dst, src, len)`: the `len` bytes of `dst`
afterwards, both buffers being read as `len/4` little-endian words. -/
def GOSThash_sumstr (dst src : List Nat) (len : Nat) : List Nat :=
  (GOSThash_sumstr_loop ((List.range (len / 4)).map fun i => c2l src (4 * i))
    ((List.range (len / 4)).map fun i => c2l dst (4 * i)) 0).flatMap l2c

/-- The function `GOSThash_A(dst, src)`: the 32 bytes of `dst`. -/
def GOSThash_A (src : List Nat) : List Nat :=
  let buf := src.take (GOST_HASH_BYTES_SZ / 4)
  let dst := (src.drop (GOST_HASH_BYTES_SZ / 4)).take (GOST_HASH_BYTES_SZ / 4 * 3)
  dst ++ GOSThash_xorstr buf dst (GOST_HASH_BYTES_SZ / 4)

/-- The function `GOSThash_P(dst, src)` (the branch compiled for 32 bytes with
`__optimized__`): the 32 bytes of `dst`. -/
def GOSThash_P (src : List Nat) : List Nat :=
  let buf := src
  [buf.getD 0 0, buf.getD 8 0, buf.getD 16 0, buf.getD 24 0,
   buf.getD 1 0, buf.getD 9 0, buf.getD 17 0, buf.getD 25 0,
   buf.getD 2 0, buf.getD 10 0, buf.getD 18 0, buf.getD 26 0,
   buf.getD 3 0, buf.getD 11 0, buf.getD 19 0, buf.getD 27 0,
   buf.getD 4 0, buf.getD 12 0, buf.getD 20 0, buf.getD 28 0,
   buf.getD 5 0, buf.getD 13 0, buf.getD 21 0, buf.getD 29 0,
   buf.getD 6 0, buf.getD 14 0, buf.getD 22 0, buf.getD 30 0,
   buf.getD 7 0, buf.getD 15 0, buf.getD 23 0, buf.getD 31 0]

/-- The `while(1)` loop of `GOSThash_keygen` from the state `(U, V, i)`: the
keys `K[i], ..., K[3]` it writes; the first argument counts the keys left. -/
def GOSThash_keygen_loop : Nat → List Nat → List Nat → Nat → List (List Nat)
  | 0, _, _, _ => []
  | n + 1, U, V, i =>
    let W := GOSThash_xorstr U V GOST_HASH_BYTES_SZ
    let K := GOSThash_P W
    let i := i + 1
    if i = 4 then [K]
    else
      let U := GOSThash_A U
      let U := GOSThash_xorstr U (gosthash_C.getD (i - 1) []) GOST_HASH_BYTES_SZ
      let V := GOSThash_A V
      let V := GOSThash_A V
      K :: GOSThash_keygen_loop n U V i

/-- The function `GOSThash_keygen(Hi_1, Mi, K)`: the four keys. -/
def GOSThash_keygen (Hi_1 Mi : List Nat) : List (List Nat) :=
  GOSThash_keygen_loop 4 (Hi_1.take GOST_HASH_BYTES_SZ) (Mi.take GOST_HASH_BYTES_SZ) 0

/-- The function `GOSThash_enctransform(H, S, K, ctx)`: the 32 bytes of `S` and
the cipher context, whose key is left at `K[3]`. -/
def GOSThash_enctransform (H : List Nat) (K : List (List Nat)) (ctx : gost_ctx) :
    List Nat × gost_ctx :=
  (List.range 4).foldl
    (fun (acc : List Nat × gost_ctx) i =>
      let ctx := gost_set_key acc.2 (K.getD i [])
      (acc.1 ++ gost_encrypt (H.drop (8 * i)) ctx true, ctx))
    ([], ctx)

/-- The function `GOSThash_fi(src)` (the branch for 16-bit words): the 32 bytes
of `src` afterwards; a `short` is read and stored little-endian. -/
def GOSThash_fi (src : List Nat) : List Nat :=
  let w := fun (i : Nat) => src.getD (2 * i) 0 ||| (src.getD (2 * i + 1) 0 <<< 8)
  let xr := w 0 ^^^ w 1 ^^^ w 2 ^^^ w 3 ^^^ w 12 ^^^ w 15
  (src.drop (GOST_HASH_BYTES_SZ / 16)).take (GOST_HASH_BYTES_SZ / 16 * 15)
    ++ [xr &&& 0xff, (xr >>> 8) &&& 0xff]

/-- The function `GOSThash_mixtransformation(Hi_1, Si, Mi, Hi)`: the 32 bytes
of `Hi`. -/
def GOSThash_mixtransformation (Hi_1 Si Mi : List Nat) : List Nat :=
  let buf := Si.take GOST_HASH_BYTES_SZ
  let buf := GOSThash_fi^[12] buf
  let buf := GOSThash_xorstr buf Mi GOST_HASH_BYTES_SZ
  let buf := GOSThash_fi buf
  let Hi := GOSThash_xorstr buf Hi_1 GOST_HASH_BYTES_SZ
  GOSThash_fi^[61] Hi

/-- The function `GOSThash_steptransformation(Hi_1, Mi, Hi, ctx)`: the 32 bytes
of `Hi` and the cipher context. -/
def GOSThash_steptransformation (Hi_1 Mi : List Nat) (ctx : gost_ctx) :
    List Nat × gost_ctx :=
  let K := GOSThash_keygen Hi_1 Mi
  let S := GOSThash_enctransform Hi_1 K ctx
  (GOSThash_mixtransformation Hi_1 S.1 Mi, S.2)

/-- The struct `GOSTHASHstate` (`GOSTHASH_CTX`); `datalen[0]` and `datalen[1]`
are the fields `datalen0` and `datalen1`. -/
structure GOSTHASH_CTX where
  buffer : List Nat
  datalen0 : Nat
  datalen1 : Nat
  Hi : List Nat
  Z : List Nat
  gost_enc_ctx : gost_ctx

/-- The function `GOSThashTransform(ctx, input)`; `input` points to a
`gost_hashblock`, the 32 bytes at the front of the list. -/
def GOSThashTransform (ctx : GOSTHASH_CTX) (input : List Nat) : GOSTHASH_CTX :=
  let input := input.take GOST_HASH_BLOCK_BYTES_SZ
  let Z := GOSThash_sumstr ctx.Z input 32
  let r := GOSThash_steptransformation ctx.Hi input ctx.gost_enc_ctx
  { ctx with Z := Z, Hi := r.1, gost_enc_ctx := r.2 }

/-- The function `GOSThash_Init(ctx)` for a non-`NULL` context; the buffer and
the cipher key keep whatever the memory held. -/
def GOSThash_Init (ctx : GOSTHASH_CTX) : GOSTHASH_CTX :=
  { ctx with
    datalen0 := 0
    datalen1 := 0
    Z := List.replicate GOST_HASH_BLOCK_BYTES_SZ 0
    Hi := List.replicate GOST_HASH_BYTES_SZ 0
    gost_enc_ctx := kboxinit ctx.gost_enc_ctx GOSThash_example_kbox }

/-- The `for` loop of `GOSThash_Update` from the state `(ctx, i)`:
`for (; i + 32 - 1 < inputLen; i += 32) GOSThashTransform(ctx, input + i)`,
in `unsigned int` arithmetic.  The first argument bounds the iterations. -/
def GOSThash_Update_loop : Nat → GOSTHASH_CTX → List Nat → Nat → Nat → GOSTHASH_CTX × Nat
  | 0, ctx, _, _, i => (ctx, i)
  | fuel + 1, ctx, input, inputLen, i =>
    if u32 (i + GOST_HASH_BLOCK_BYTES_SZ - 1) < inputLen then
      GOSThash_Update_loop fuel (GOSThashTransform ctx (input.drop i)) input inputLen
        (u32 (i + GOST_HASH_BLOCK_BYTES_SZ))
    else (ctx, i)

/-- The function `GOSThash_Update(ctx, input, inputLen)`.  The loop is given
`inputLen / 32 + 1` iterations, enough whenever `i + 31` does not wrap. -/
def GOSThash_Update (ctx : GOSTHASH_CTX) (input : List Nat) (inputLen : Nat) : GOSTHASH_CTX :=
  let index := (ctx.datalen0 >>> 3) &&& (GOST_HASH_BLOCK_BYTES_SZ - 1)
  let datalen0 := u32 (ctx.datalen0 + u32 (inputLen <<< 3))
  let datalen1 := if datalen0 < u32 (inputLen <<< 3) then u32 (ctx.datalen1 + 1) else ctx.datalen1
  let datalen1 := u32 (datalen1 + (inputLen >>> 29))
  let ctx := { ctx with datalen0 := datalen0, datalen1 := datalen1 }
  let partLen := GOST_HASH_BLOCK_BYTES_SZ - index
  if inputLen ≥ partLen then
    let ctx := { ctx with buffer := memcpy ctx.buffer index input partLen }
    let ctx := GOSThashTransform ctx ctx.buffer
    let r := GOSThash_Update_loop (inputLen / 32 + 1) ctx input inputLen partLen
    let ctx := r.1
    let i := r.2
    { ctx with buffer := memcpy ctx.buffer 0 (input.drop i) (inputLen - i) }
  else
    { ctx with buffer := memcpy ctx.buffer index input inputLen }

/-- The function `GOSThash_Final(ctx, digest)`: the context afterwards and the
32 bytes of `digest`. -/
def GOSThash_Final (ctx : GOSTHASH_CTX) : GOSTHASH_CTX × List Nat :=
  let index := (ctx.datalen0 >>> 3) &&& (GOST_HASH_BLOCK_BYTES_SZ - 1)
  let ctx :=
    if index > 0 then
      let partLen := GOST_HASH_BLOCK_BYTES_SZ - index
      let ctx := { ctx with buffer := memcpy ctx.buffer index (List.replicate partLen 0) partLen }
      GOSThashTransform ctx ctx.buffer
    else ctx
  let L := List.replicate 32 0
  let L := memcpy L 0 (l2c ctx.datalen0 ++ l2c ctx.datalen1) 8
  let r := GOSThash_steptransformation ctx.Hi L ctx.gost_enc_ctx
  let ctx := { ctx with Hi := r.1, gost_enc_ctx := r.2 }
  let r := GOSThash_steptransformation ctx.Hi ctx.Z ctx.gost_enc_ctx
  ({ ctx with gost_enc_ctx := r.2 }, r.1)

/-! ## ecurve_point.cpp -/

/-- The `while (b > 0)` loop of `extended_euclid`.  The state is
`(a, b, x2, x1, y2, y1)`; the result is `(d, x, y)` as stored after the loop.
The first argument bounds the number of iterations. -/
def extended_euclid_loop : Nat → Int → Int → Int → Int → Int → Int → Int × Int × Int
  | 0, a, _, x2, _, y2, _ => (a, x2, y2)
  | fuel + 1, a, b, x2, x1, y2, y1 =>
    if b > 0 then
      let q := Int.tdiv a b
      let r := a - q * b
      let x := x2 - q * x1
      let y := y2 - q * y1
      extended_euclid_loop fuel b r x1 x y1 y
    else (a, x2, y2)

/-- The function `extended_euclid(a, b, &x, &y, &d)`, returning `(d, x, y)`.
The loop is given `b + 1` iterations, which it never exhausts
(`extended_euclid_loop_exit`). -/
def extended_euclid (a b : Int) : Int × Int × Int :=
  if b = 0 then (a, 1, 0)
  else extended_euclid_loop (b.toNat + 1) a b 1 0 0 1

/-- The function `inverse(a, n)`: the Bezout coefficient of `a` when the gcd is
one, and `0` otherwise. -/
def inverse (a n : Int) : Int :=
  let r := extended_euclid a n
  if r.1 = 1 then r.2.1 else 0

/-- The function `modul(src, m)`; `/` and `%` of `b_int` truncate toward
zero.  This is the value for `m ≠ 0`; for `m = 0` the divisions throw, which
`modul_throw` models. -/
def modul (src m : Int) : Int :=
  if src < 0 then Int.tmod (src + m - m * Int.tdiv src m) m
  else Int.tmod src m

/-- The class `ECurvePoint`, fields in the order of the header. -/
structure ECurvePoint where
  x : Int
  y : Int
  p : Int
  a : Int
  is_O : Bool
  deriving DecidableEq, Repr

namespace ECurvePoint

/-- The operator `ECurvePoint::operator+=`; the value is the new `*this`. -/
def add (self pt2 : ECurvePoint) : ECurvePoint :=
  if pt2.is_O then self
  else if self.is_O then pt2
  else if self.y = -pt2.y then { self with is_O := true }
  else
    let x_tmp := self.x
    if self.x ≠ pt2.x then
      let lambda_denumerator := modul (pt2.x - self.x) self.p
      let lambda_numerator := modul (pt2.y - self.y) self.p
      let inverse_lambda_denumerator := modul (inverse lambda_denumerator self.p) self.p
      let lambda := modul (lambda_numerator * inverse_lambda_denumerator) self.p
      let lambda_2 := modul (lambda * lambda) self.p
      let x := modul (lambda_2 - self.x - pt2.x) self.p
      { self with x := x, y := modul (lambda * (x_tmp - x) - self.y) self.p }
    else
      let lambda_denumerator := modul (2 * self.y) self.p
      let lambda_numerator := modul (3 * self.x * self.x + self.a) self.p
      let inverse_lambda_denumerator := modul (inverse lambda_denumerator self.p) self.p
      let lambda := modul (lambda_numerator * inverse_lambda_denumerator) self.p
      let lambda_2 := modul (lambda * lambda) self.p
      let x := modul (lambda_2 - 2 * self.x) self.p
      { self with x := x, y := modul (lambda * (x_tmp - x) - self.y) self.p }

/-- The `while (n > 0)` loop of `operator*=` on the state `(result, point, n)`;
`n & 1` is the parity of the positive `n` and `n >> 1` its half. -/
def mul_loop : Nat → ECurvePoint → ECurvePoint → Int → ECurvePoint
  | 0, result, _, _ => result
  | fuel + 1, result, point, n =>
    if n > 0 then
      let result := if n % 2 ≠ 0 then result.add point else result
      let point := point.add point
      mul_loop fuel result point (n / 2)
    else result

/-- The operator `ECurvePoint::operator*=`; the loop is given `k` iterations,
which it never exhausts since `n` at least halves (`mul_loop_fuel`). -/
def mul (self : ECurvePoint) (k : Int) : ECurvePoint :=
  mul_loop k.toNat { x := 0, y := 0, p := self.p, a := self.a, is_O := true } self k

end ECurvePoint

/-! ## ecurve_point.cpp with the exception of the `b_int` division -/

/-- The operator `/` of `b_int` (`cpp_int`): the quotient truncated toward
zero; a zero divisor throws `std::overflow_error`, which is `none`. -/
def b_int_div (a b : Int) : Option Int :=
  if b = 0 then none else some (Int.tdiv a b)

/-- The operator `%` of `b_int` (`cpp_int`): the remainder of the truncated
division; a zero divisor throws `std::overflow_error`, which is `none`. -/
def b_int_mod (a b : Int) : Option Int :=
  if b = 0 then none else some (Int.tmod a b)

/-- The function `modul(src, m)` with the exception of its divisions: `none`
when `/` or `%` throws. -/
def modul_throw (src m : Int) : Option Int :=
  if src < 0 then (b_int_div src m).bind fun d => b_int_mod (src + m - m * d) m
  else b_int_mod src m

/-- The operator `ECurvePoint::operator+=` with the exception of the
divisions in `modul`: `none` when one of its calls throws, and otherwise the
new `*this`. -/
def ECurvePoint.add_throw (self pt2 : ECurvePoint) : Option ECurvePoint :=
  if pt2.is_O then some self
  else if self.is_O then some pt2
  else if self.y = -pt2.y then some { self with is_O := true }
  else
    let x_tmp := self.x
    if self.x ≠ pt2.x then
      (modul_throw (pt2.x - self.x) self.p).bind fun lambda_denumerator =>
      (modul_throw (pt2.y - self.y) self.p).bind fun lambda_numerator =>
      (modul_throw (inverse lambda_denumerator self.p) self.p).bind
        fun inverse_lambda_denumerator =>
      (modul_throw (lambda_numerator * inverse_lambda_denumerator) self.p).bind fun lambda =>
      (modul_throw (lambda * lambda) self.p).bind fun lambda_2 =>
      (modul_throw (lambda_2 - self.x - pt2.x) self.p).bind fun x =>
      (modul_throw (lambda * (x_tmp - x) - self.y) self.p).bind fun y =>
      some { self with x := x, y := y }
    else
      (modul_throw (2 * self.y) self.p).bind fun lambda_denumerator =>
      (modul_throw (3 * self.x * self.x + self.a) self.p).bind fun lambda_numerator =>
      (modul_throw (inverse lambda_denumerator self.p) self.p).bind
        fun inverse_lambda_denumerator =>
      (modul_throw (lambda_numerator * inverse_lambda_denumerator) self.p).bind fun lambda =>
      (modul_throw (lambda * lambda) self.p).bind fun lambda_2 =>
      (modul_throw (lambda_2 - 2 * self.x) self.p).bind fun x =>
      (modul_throw (lambda * (x_tmp - x) - self.y) self.p).bind fun y =>
      some { self with x := x, y := y }

/-- The `while (n > 0)` loop of `operator*=` on the state `(result, point, n)`
with the exception of the divisions: `none` when `result += point` or
`point += point` throws. -/
def ECurvePoint.mul_loop_throw : Nat → ECurvePoint → ECurvePoint → Int → Option ECurvePoint
  | 0, result, _, _ => some result
  | fuel + 1, result, point, n =>
    if n > 0 then
      (if n % 2 ≠ 0 then result.add_throw point else some result).bind fun result =>
      (point.add_throw point).bind fun point =>
      ECurvePoint.mul_loop_throw fuel result point (n / 2)
    else some result

/-- The operator `ECurvePoint::operator*=` with the exception of the
divisions; the loop is given `k` iterations, as in `ECurvePoint.mul`. -/
def ECurvePoint.mul_throw (self : ECurvePoint) (k : Int) : Option ECurvePoint :=
  ECurvePoint.mul_loop_throw k.toNat
    { x := 0, y := 0, p := self.p, a := self.a, is_O := true } self k

/-! ## gost3410_2012.cpp: curve constants -/

/-- The field modulus. -/
def p : Int := 57896044618658097711785492504343953926634992332820282019728792003956564821041
/-- The curve coefficient `a`. -/
def a : Int := 7
/-- The curve coefficient `b`. -/
def b : Int := 43308876546767276905765904595650931995942111794451039583252968842033849580414
/-- The constant `m` (unused by the signer). -/
def m : Int := 57896044618658097711785492504343953927082934583725450622380973592137631069619
/-- The order of the generator. -/
def q : Int := 57896044618658097711785492504343953927082934583725450622380973592137631069619
/-- The abscissa of the generator. -/
def x_p : Int := 2
/-- The ordinate of the generator. -/
def y_p : Int := 4018974056539037503335449422937059775635739389905545080690979365213431566280

/-- The generator as every entry point builds it:
`ECurvePoint P( x_p, y_p, a, p, false )`. -/
def P : ECurvePoint := { x := x_p, y := y_p, p := p, a := a, is_O := false }

/-! ## Strings and their conversions (standard library and `cpp_int`) -/

/-- Modelled from the spec: the letter case of the stream inserter of `cpp_int`
under `std::hex`, which is library code and not part of the sources; the spec
gives the signature wire format as uppercase hex. -/
def cpp_int_hex_uppercase : Bool := true

/-- One hexadecimal digit, with capital letters when `upper` is set. -/
def hex_digit (upper : Bool) (n : Nat) : Char :=
  if n < 10 then Char.ofNat (48 + n)
  else if upper then Char.ofNat (55 + n) else Char.ofNat (87 + n)

/-- The digits of `n` in base sixteen put in front of `acc`, most significant
first; the first argument bounds the number of digits. -/
def to_hex_loop (upper : Bool) : Nat → Nat → List Char → List Char
  | 0, _, acc => acc
  | fuel + 1, n, acc =>
    if n < 16 then hex_digit upper n :: acc
    else to_hex_loop upper fuel (n / 16) (hex_digit upper (n % 16) :: acc)

/-- What `ss << std::hex << n` writes for a non-negative integer with no
field width: its hexadecimal digits, `0` for zero. -/
def to_hex (upper : Bool) (n : Nat) : List Char := to_hex_loop upper (n + 1) n []

/-- The effect of `std::setfill('0') << std::setw(w)` on the next item `s`:
zeros in front up to width `w`, nothing cut. -/
def setw_fill0 (w : Nat) (s : List Char) : List Char :=
  List.replicate (w - s.length) '0' ++ s

/-- The value of one hexadecimal digit, in either case. -/
def hex_value (c : Char) : Option Nat :=
  if '0' ≤ c ∧ c ≤ '9' then some (c.toNat - 48)
  else if 'a' ≤ c ∧ c ≤ 'f' then some (c.toNat - 87)
  else if 'A' ≤ c ∧ c ≤ 'F' then some (c.toNat - 55)
  else none

/-- Reading hexadecimal digits from the left onto the value read so far;
`none` at a character that is not a digit. -/
def parse_hex_loop : List Char → Nat → Option Nat
  | [], acc => some acc
  | c :: cs, acc =>
    match hex_value c with
    | none => none
    | some v => parse_hex_loop cs (acc * 16 + v)

/-- The constructor call `b_int( std::string("0x") + digits )`: the digits read
in base sixteen (zero when there is none); the constructor throws at any other
character. -/
def b_int_0x (digits : List Char) : Option Int :=
  (parse_hex_loop digits 0).map Int.ofNat

/-- The call `s.substr(pos, len)`, which throws when `pos` is past the end. -/
def substr (s : List Char) (pos len : Nat) : Option (List Char) :=
  if pos > s.length then none else some ((s.drop pos).take len)

/-! ## gost28147_1989.cpp -/

/-- The memory of the local `GOSTHASH_CTX ctx` of `GOSTCalc::hash` before
`GOSThash_Init`; every field that is read is written first. -/
def GOSTHASH_CTX_local : GOSTHASH_CTX :=
  { buffer := List.replicate GOST_HASH_BLOCK_BYTES_SZ 0
    datalen0 := 0
    datalen1 := 0
    Hi := List.replicate GOST_HASH_BYTES_SZ 0
    Z := List.replicate GOST_HASH_BLOCK_BYTES_SZ 0
    gost_enc_ctx :=
      { key := List.replicate 8 0, k87 := List.replicate 256 0, k65 := List.replicate 256 0,
        k43 := List.replicate 256 0, k21 := List.replicate 256 0 } }

/-- The 32 bytes of `digest` in `GOSTCalc::hash(message)`; `message.size()` is
converted to `unsigned int` at the call of `GOSThash_Update`. -/
def GOSTCalc_digest (message : List Nat) : List Nat :=
  let ctx := GOSThash_Init GOSTHASH_CTX_local
  let ctx := GOSThash_Update ctx message (u32 message.length)
  (GOSThash_Final ctx).2

/-- The function `GOSTCalc::hash(message)`: every digest byte as two uppercase
hexadecimal digits. -/
def GOSTCalc_hash (message : List Nat) : List Char :=
  ((List.range GOST_HASH_BYTES_SZ).map fun i =>
    setw_fill0 2 (to_hex true ((GOSTCalc_digest message).getD i 0))).flatten

/-! ## gost3410_2012.cpp: the signer -/

/-- The function `b_int_to_hex(src)`; the inserter throws for a negative
number under `std::hex`. -/
def b_int_to_hex (src : Int) : Option (List Char) :=
  if src < 0 then none
  else some (setw_fill0 64 (to_hex cpp_int_hex_uppercase src.toNat))

/-- The function `GOST3410_2012::sign_message(message, private_key)`, with the
value `gen` that `gen()` returns made an argument. -/
def sign_message (message : List Nat) (private_key : List Char) (gen : Nat) :
    Option (List Char) := do
  let k := modul gen q
  let e ← b_int_0x (GOSTCalc_hash message)
  let e := modul e q
  let d ← b_int_0x private_key
  let C := P.mul k
  let r := modul C.x q
  let s := modul (r * d + k * e) q
  let s_hex ← b_int_to_hex s
  let r_hex ← b_int_to_hex r
  pure (s_hex ++ r_hex)

/-- The function `GOST3410_2012::check_sign` after the strings are parsed:
the statements from `b_int v = ...` on. -/
def check_sign_core (e s r x_q y_q : Int) : Bool :=
  let v := modul (inverse e q) q
  let z1 := modul (s * v) q
  let z2 := modul (-r * v) q
  let Q : ECurvePoint := { x := x_q, y := y_q, p := p, a := a, is_O := false }
  let nC := (P.mul z1).add (Q.mul z2)
  let R := modul nC.x q
  if R = r then true else false

/-- The function `GOST3410_2012::check_sign(message, sign, public_key)`. -/
def check_sign (message : List Nat) (sign public_key : List Char) : Option Bool := do
  let s_str ← substr sign 0 64
  let r_str ← substr sign 64 64
  let x_q_str ← substr public_key 0 64
  let y_q_str ← substr public_key 64 64
  let e ← b_int_0x (GOSTCalc_hash message)
  let s ← b_int_0x s_str
  let r ← b_int_0x r_str
  let x_q ← b_int_0x x_q_str
  let y_q ← b_int_0x y_q_str
  pure (check_sign_core e s r x_q y_q)

/-- The struct `KeyPair`. -/
structure KeyPair where
  public_key : List Char
  private_key : List Char
  deriving DecidableEq

/-- The function `GOST3410_2012::generate_key_pair()`, with the value `gen`
that `gen()` returns made an argument. -/
def generate_key_pair (gen : Nat) : Option KeyPair := do
  let d := modul gen q
  let Q := P.mul d
  let private_key ← b_int_to_hex d
  let x_hex ← b_int_to_hex Q.x
  let y_hex ← b_int_to_hex Q.y
  pure { public_key := x_hex ++ y_hex, private_key := private_key }

/-! ## gost_cbc.cpp: the gamma mode -/

/-- The constant `C1`. -/
def C1 : Nat := 0x01010101
/-- The constant `C2`. -/
def C2 : Nat := 0x01010104

/-- The function `get_gamma(g)`: the eight bytes of `g` afterwards. -/
def get_gamma (g : List Nat) : List Nat :=
  let s0 := c2l g 0
  let s1 := c2l g 4
  let s0 := u32 (s0 + C1)
  let s1 := u32 (s1 + C2)
  let s1 := if s1 < C2 then u32 (s1 + 1) else s1
  l2c s0 ++ l2c s1

/-- The memory `gost_cbc_encrypt` works on: the caller's buffers `output` and
`ivec`, the locals `gamma`, `encgamma` and `l`, and the number `pos` of bytes
by which the pointers `in` and `out` have advanced. -/
structure gost_cbc_state where
  output : List Nat
  ivec : List Nat
  gamma : List Nat
  encgamma : List Nat
  l : Int
  pos : Nat

/-- The loop `for (l = length; l > sizeof(gost_cblock); l -= sizeof(gost_cblock))`
of `gost_cbc_encrypt` from the state `s`, for `l ≥ 0`.  The two word stores
`*(unsigned int*)out = *(unsigned int*)in ^ ...` are the XOR of the eight bytes
at `in` with the eight bytes of `encgamma`.  The first argument bounds the
iterations. -/
def gost_cbc_loop : Nat → gost_ctx → List Nat → gost_cbc_state → gost_cbc_state
  | 0, _, _, s => s
  | fuel + 1, ctx, input, s =>
    if s.l > 8 then
      let gamma := get_gamma s.gamma
      let encgamma := gost_encrypt gamma ctx true
      let output := memcpy s.output s.pos
        ((List.range 8).map fun i => input.getD (s.pos + i) 0 ^^^ encgamma.getD i 0) 8
      gost_cbc_loop fuel ctx input
        { s with output := output, gamma := gamma, encgamma := encgamma,
                 l := s.l - 8, pos := s.pos + 8 }
    else s

/-- The function `gost_cbc_encrypt(input, output, length, ctx, ivec, enc)`: the
memory when it returns.  `output` and `ivec` are distinct buffers and `output`
has room for `length` bytes; `encgamma` is uninitialised at entry (here empty);
the argument `enc` is never read.
The comparison `l > sizeof(gost_cblock)` is unsigned, so that a negative
`length` sends the loop through the whole address space: undefined behaviour,
`none`.  The first loop is given `length` iterations; the last one,
`for (; l > 0; l--) *out++ = (*in++) ^ (*pchar++)`, stores `l ≤ 8` bytes. -/
def gost_cbc_encrypt (input output : List Nat) (length : Int) (ctx : gost_ctx)
    (ivec : List Nat) (enc : Int) : Option gost_cbc_state :=
  if length < 0 then none
  else
    let s : gost_cbc_state :=
      { output := output, ivec := ivec, gamma := gost_encrypt ivec ctx true, encgamma := [],
        l := length, pos := 0 }
    let s := gost_cbc_loop length.toNat ctx input s
    if s.l > 0 then
      let gamma := get_gamma s.gamma
      let encgamma := gost_encrypt gamma ctx true
      let n := s.l.toNat
      some { s with
        output := memcpy s.output s.pos
          ((List.range n).map fun i => input.getD (s.pos + i) 0 ^^^ encgamma.getD i 0) n
        gamma := gamma, encgamma := encgamma, l := 0, pos := s.pos + n }
    else some s

/-! ## encrypt.cpp: the frame around DES-EDE3-CBC

A `std::string` of bytes is a `List Nat`. -/

/-- The OpenSSL routine `DES_ede3_cbc_encrypt(input, output, length, ks1, ks2,
ks3, ivec, enc)`, with the schedules `DES_set_key` derives from three keys, is
library code and a parameter of the model: `run input k1 k2 k3 ivec enc` is the
content of `output` after the call on the `length` bytes `input`, of which the
routine writes `length` (a multiple of 8 at every call of `encrypt`). -/
structure DES_ede3_cbc where
  run : List Nat → List Nat → List Nat → List Nat → List Nat → Bool → List Nat
  length_run : ∀ input k1 k2 k3 ivec enc, (run input k1 k2 k3 ivec enc).length = input.length

/-- The conversion of a `size_t` to `int`, as in `int len = input.length()`:
the value modulo `2 ^ 32` read as two's complement. -/
def int_of_size (n : Nat) : Int := Int.bmod n 4294967296

/-- The call `s.resize(n, c)` of `std::string` with an `int` argument `n`,
which converts to `size_t`: `s` cut or filled with `c` to `n` bytes; a negative
`n` converts to more than `max_size()` and `std::length_error` is thrown. -/
def resize (s : List Nat) (n : Int) (c : Nat) : Option (List Nat) :=
  if n < 0 then none
  else some (s.take n.toNat ++ List.replicate (n.toNat - s.length) c)

/-- The eight bytes of the `int64_t size` that `sst.write((const char*)&size,
sizeof(int64_t))` copies, low byte first (the byte order of the targets). -/
def int64_bytes (size : Nat) : List Nat :=
  (List.range 8).map fun i => size / 256 ^ i % 256

/-- Lines 48-59 of `encrypt`: the value of `input_string` in encrypt mode when
the cipher is reached.  The stream holds the eight bytes of `size` and the
input, all of which are read back; `len & 7` on the `int len` is its residue
modulo 8 and `/` truncates. -/
def encrypt_frame (input : List Nat) : Option (List Nat) :=
  let size := input.length
  let input_string := int64_bytes size ++ input
  let len := int_of_size input_string.length
  resize input_string (Int.tdiv (len + 7) 8 * 8) ((8 - len % 8).toNat % 256)

/-- Lines 69-98 of `encrypt`, common to both modes, from the values of
`input_string` and `len` that lines 43-67 leave: the buffers are sized, the
cipher is run, once or twice, and the result is compared and returned. -/
def encrypt_cipher (des : DES_ede3_cbc) (keys : List (List Nat))
    (input input_string : List Nat) (len : Int) (is_encrypt : Bool) : Option (List Nat) := do
  let iv1 := keys.getD 3 []
  let encrypted ← resize [] len 0
  let decrypted ← resize [] len 0
  let encrypted :=
    if is_encrypt then
      memcpy encrypted 0 (des.run (input_string.take len.toNat) (keys.getD 0 []) (keys.getD 1 [])
        (keys.getD 2 []) iv1 true) len.toNat
    else input
  let iv2 := keys.getD 3 []
  let decrypted :=
    memcpy decrypted 0 (des.run (encrypted.take len.toNat) (keys.getD 0 []) (keys.getD 1 [])
      (keys.getD 2 []) iv2 false) len.toNat
  if is_encrypt ∧ input_string ≠ decrypted then none
  else some (if is_encrypt then encrypted else decrypted)

/-- The function `encrypt(keys, input, is_encrypt)`; `none` is a thrown
exception.  In decrypt mode `input_string` stays empty. -/
def encrypt (des : DES_ede3_cbc) (keys : List (List Nat)) (input : List Nat)
    (is_encrypt : Bool) : Option (List Nat) :=
  let len := int_of_size input.length
  if is_encrypt then
    (encrypt_frame input).bind fun input_string =>
      let len := int_of_size input_string.length
      encrypt_cipher des keys input input_string len is_encrypt
  else if Int.tmod len 8 ≠ 0 then none
  else encrypt_cipher des keys input [] len is_encrypt

/-! ## gost.cpp without `__optimized__`, and the remaining tables and functions of gosthash.cpp -/

/-- The function `kboxinit(c, kbox)` for a non-`NULL` `kbox` when
`__optimized__` is not defined: the tables are left unshifted. -/
def kboxinit_unoptimized (c : gost_ctx) (kbox : KBOX) : gost_ctx :=
  { c with
    k87 := (List.range 256).map fun i =>
      (kbox.k8.getD (i >>> 4) 0 <<< 4) ||| kbox.k7.getD (i &&& 15) 0
    k65 := (List.range 256).map fun i =>
      (kbox.k6.getD (i >>> 4) 0 <<< 4) ||| kbox.k5.getD (i &&& 15) 0
    k43 := (List.range 256).map fun i =>
      (kbox.k4.getD (i >>> 4) 0 <<< 4) ||| kbox.k3.getD (i &&& 15) 0
    k21 := (List.range 256).map fun i =>
      (kbox.k2.getD (i >>> 4) 0 <<< 4) ||| kbox.k1.getD (i &&& 15) 0 }

/-- The round function `f(c, x)` when `__optimized__` is not defined: the
shifts are applied to the table entries, in `u32`. -/
def f_unoptimized (c : gost_ctx) (x : Nat) : Nat :=
  let x := u32 (c.k87.getD ((x >>> 24) &&& 255) 0 <<< 24)
    ||| u32 (c.k65.getD ((x >>> 16) &&& 255) 0 <<< 16)
    ||| u32 (c.k43.getD ((x >>> 8) &&& 255) 0 <<< 8) ||| c.k21.getD (x &&& 255) 0
  u32 (x <<< 11) ||| (x >>> (32 - 11))

/-- The table `GOSThash_example1_K1` (eight `unsigned int`). -/
def GOSThash_example1_K1 : List Nat :=
  [0x33206d54, 0x326c6568, 0x20657369, 0x626e7373,
   0x79676120, 0x74746769, 0x65686573, 0x733d2c20]

/-- The table `GOSThash_example1_K2`. -/
def GOSThash_example1_K2 : List Nat :=
  [0x4d393320, 0x090d326c, 0x161a2065, 0x1d00626e,
   0x06417967, 0x130e7474, 0x0d166568, 0x110c733d]

/-- The table `GOSThash_example1_K3`. -/
def GOSThash_example1_K3 : List Nat :=
  [0xf513b239, 0x3fa109f2, 0x3abae91a, 0x620c1dff,
   0xc7e1f941, 0x850013f1, 0x730df216, 0x80b111f3]

/-- The table `GOSThash_example1_K4`. -/
def GOSThash_example1_K4 : List Nat :=
  [0xa18b0aec, 0xa804c05e, 0xac0cc5ba, 0xee1d620c,
   0xe7b8c7e1, 0xece27a00, 0xff1b73f2, 0xa0e2804e]

/-- The table `test_S`. -/
def test_S : List Nat :=
  [0x32bc0b1b, 0x42abbcce, 0x5d9bcffd, 0x5203ebc8,
   0x00ff0e28, 0x8d345899, 0x0d2a562d, 0xe7860419]

/-- The table `test_SMix`. -/
def test_SMix : List Nat :=
  [0x3315c034, 0x561c7de3, 0x883da687, 0xd99c4124,
   0x42de7624, 0x68a03b8c, 0x505367a4, 0xcf9a8c65]

/-- The loop of `GOSThash_xorstr(dst, src1, src2, len)` on a memory in which
the three buffers lie at the offsets `dst`, `src1`, `src2` and may overlap:
`for (i = 0; i < len; ++i) dst[i] = src1[i] ^ src2[i]` from `i` on; the first
argument counts the bytes left. -/
def GOSThash_xorstr_mem : Nat → List Nat → Nat → Nat → Nat → Nat → List Nat
  | 0, mem, _, _, _, _ => mem
  | n + 1, mem, dst, src1, src2, i =>
    GOSThash_xorstr_mem n
      (mem.set (dst + i) (mem.getD (src1 + i) 0 ^^^ mem.getD (src2 + i) 0)) dst src1 src2 (i + 1)

/-- The function `GOSThash_mixtransformation(Hi_1, Si, Mi, Hi)` called with
`Hi == Hi_1`, as `GOSThashTransform` and `GOSThash` call it through
`GOSThash_steptransformation`: the 32 bytes of that buffer afterwards.  For the
one statement that reads `Hi_1` and writes `Hi`, the local `buf` and the shared
buffer are laid out as one memory, `buf` first. -/
def GOSThash_mixtransformation_inplace (Hi_1 Si Mi : List Nat) : List Nat :=
  let buf := Si.take GOST_HASH_BYTES_SZ
  let buf := GOSThash_fi^[12] buf
  let buf := GOSThash_xorstr buf Mi GOST_HASH_BYTES_SZ
  let buf := GOSThash_fi buf
  let mem := GOSThash_xorstr_mem GOST_HASH_BYTES_SZ (buf ++ Hi_1.take GOST_HASH_BYTES_SZ)
    GOST_HASH_BYTES_SZ 0 GOST_HASH_BYTES_SZ 0
  GOSThash_fi^[61] (mem.drop GOST_HASH_BYTES_SZ)

/-- The loop `for (i = msg_bits_len; i >= sizeof(gost_hashblock)*BITS_IN_BYTE;
i -= sizeof(gost_hashblock)*BITS_IN_BYTE)` of `GOSThash`, for `i ≥ 0`, from the
state `(Hi, Z, ctx)`, the bytes from the pointer `M` on, and `i`.  The first
argument bounds the iterations. -/
def GOSThash_loop :
    Nat → List Nat × List Nat × gost_ctx → List Nat → Int →
      (List Nat × List Nat × gost_ctx) × List Nat × Int
  | 0, k, M, i => (k, M, i)
  | fuel + 1, k, M, i =>
    if i ≥ 256 then
      let r := GOSThash_steptransformation k.1 (M.take 32) k.2.2
      let Z := GOSThash_sumstr k.2.1 (M.take 32) 32
      GOSThash_loop fuel (r.1, Z, r.2) (M.drop 32) (i - 256)
    else (k, M, i)

/-- The function `GOSThash(M, msg_bits_len, H0, ctx, hash)`: the 32 bytes of
`hash` and the cipher context; `H0 = NULL` is `none`.  The comparison of the
loop is unsigned, so that a negative `msg_bits_len` sends it past the message:
undefined behaviour, `none`.  The loop is given `msg_bits_len / 256 + 1`
iterations. -/
def GOSThash (M : List Nat) (msg_bits_len : Int) (H0 : Option (List Nat)) (ctx : gost_ctx) :
    Option (List Nat × gost_ctx) :=
  if msg_bits_len < 0 then none
  else
    let L := List.replicate 32 0
    let Z := List.replicate 32 0
    let Hi :=
      match H0 with
      | none => List.replicate 32 0
      | some h => h.take 32
    let r := GOSThash_loop (msg_bits_len.toNat / 256 + 1) (Hi, Z, ctx) M msg_bits_len
    let k := r.1
    let M := r.2.1
    let i := r.2.2
    let k :=
      if i > 0 then
        let Mlast := memcpy (List.replicate 32 0) 0 M (Int.tdiv i 8).toNat
        let Z := GOSThash_sumstr k.2.1 Mlast 32
        let s := GOSThash_steptransformation k.1 Mlast k.2.2
        (s.1, Z, s.2)
      else k
    let L := memcpy L 0 (l2c msg_bits_len.toNat) 4
    let s := GOSThash_steptransformation k.1 L k.2.2
    let t := GOSThash_steptransformation s.1 k.2.1 s.2
    some (t.1, t.2)

/-! ## Definitions used in the statements -/

/-- A list of characters all of which are hexadecimal digits. -/
def is_hex (l : List Char) : Prop := ∀ c ∈ l, ∃ v, hex_value c = some v ∧ v < 16

/-- A point over the modulus `pp` with coefficient `aa` whose coordinate
fields lie in `[0, pp)`. -/
def ECurvePoint.in_range (pp aa : Int) (pt : ECurvePoint) : Prop :=
  pt.p = pp ∧ pt.a = aa ∧ 0 ≤ pt.x ∧ pt.x < pp ∧ 0 ≤ pt.y ∧ pt.y < pp

/-- The bytes of the ASCII string `device:ABCDEF`. -/
def msg_device : List Nat := [100, 101, 118, 105, 99, 101, 58, 65, 66, 67, 68, 69, 70]

/-- The string of 128 zeros. -/
def zeros128 : List Char := List.replicate 128 '0'

/-- The string of 64 zeros followed by 64 letters `F`: `s = 0`, `r = 2^256 - 1`. -/
def sig_r_max : List Char := List.replicate 64 '0' ++ List.replicate 64 'F'

/-- The string of 128 letters `f`. -/
def pub_all_f : List Char := List.replicate 128 'f'

/-- The value of `"0x" + c.hash(message)` for the message `device:ABCDEF`. -/
def hash_device : Int := 0x565F498B27F27EA1D181C198ED09DBF19EBC9E4C6027E2F14D06B5E46A5F2943

/-- The private key `123456789` as 64 hexadecimal digits. -/
def priv_example : List Char :=
  "00000000000000000000000000000000000000000000000000000000075BCD15".toList

/-- The public key that `generate_key_pair` returns for the draw `123456789`. -/
def pub_example : List Char :=
  ("5290DF488823D2FD0710559E2CD6F660E4A3F8093A4C8224292552D2FA6C7716" ++
   "005103B3C53198FDEF5029D5B5D6233E757FE01892A083966A4B216523413048").toList

/-- The signature that `sign_message` returns for `device:ABCDEF`, the private
key `123456789` and the draw `987654321987654321`. -/
def sig_example : List Char :=
  ("5E37C52261C18D2A23CE63D66CF111AE5BE851DC26EDEB7287880B85E0B5F523" ++
   "7E96605200782FD9898B796DF0210E25DE997DC6C8FDB5BB29C84274668CAD35").toList

/-- The part of a hash context that `GOSThashTransform` reads and writes:
`(Hi, Z, gost_enc_ctx)`. -/
def GOSTHASH_CTX.core (ctx : GOSTHASH_CTX) : List Nat × List Nat × gost_ctx :=
  (ctx.Hi, ctx.Z, ctx.gost_enc_ctx)

/-- The function `GOSThashTransform` on the part of the context it touches. -/
def transform_core (k : List Nat × List Nat × gost_ctx) (input : List Nat) :
    List Nat × List Nat × gost_ctx :=
  ((GOSThashTransform
    { buffer := [], datalen0 := 0, datalen1 := 0, Hi := k.1, Z := k.2.1, gost_enc_ctx := k.2.2 }
    input).core)

/-- The effect of `n` calls of `GOSThashTransform` on the successive 32-byte
blocks of `data`. -/
def absorb_core : Nat → List Nat × List Nat × gost_ctx → List Nat → List Nat × List Nat × gost_ctx
  | 0, k, _ => k
  | n + 1, k, data => absorb_core n (transform_core k data) (data.drop 32)

/-- The number of bytes waiting in the buffer of a hash context: the variable
`index` of `GOSThash_Update` and `GOSThash_Final`. -/
def GOSTHASH_CTX.index (ctx : GOSTHASH_CTX) : Nat :=
  (ctx.datalen0 >>> 3) &&& (GOST_HASH_BLOCK_BYTES_SZ - 1)

/-- The digest that `GOSThash_Final` computes, from the fields it reads:
`(Hi, Z, gost_enc_ctx)`, the two length words and the bytes waiting in the
buffer. -/
def final_core (k : List Nat × List Nat × gost_ctx) (datalen0 datalen1 : Nat)
    (pending : List Nat) : List Nat :=
  let k := if pending.length > 0 then
      transform_core k (pending ++ List.replicate (32 - pending.length) 0)
    else k
  let L := memcpy (List.replicate 32 0) 0 (l2c datalen0 ++ l2c datalen1) 8
  let r := GOSThash_steptransformation k.1 L k.2.2
  (GOSThash_steptransformation r.1 k.2.1 r.2).1

/-- Square-and-multiply: `acc * b ^ e` modulo `n`; the first argument bounds the
number of steps. -/
def pow_mod_loop : Nat → Nat → Nat → Nat → Nat → Nat
  | 0, _, _, n, acc => acc % n
  | fuel + 1, b, e, n, acc =>
    if e = 0 then acc % n
    else pow_mod_loop fuel (b * b % n) (e / 2) n (if e % 2 = 1 then acc * b % n else acc)

/-- The power `a ^ e` modulo `n`. -/
def pow_mod (a e n : Nat) : Nat := pow_mod_loop e a e n 1

/-- The test of a Lucas certificate: the witness `a` has order exactly `n - 1`
modulo `n`, `fs` being the prime factors of `n - 1` with multiplicity. -/
def lucas_test (n a : Nat) (fs : List Nat) : Bool :=
  decide (1 < n) && decide (fs.prod = n - 1) && decide (pow_mod a (n - 1) n = 1) &&
    fs.all fun r => decide (pow_mod a ((n - 1) / r) n ≠ 1)

/-- The field modulus `p` as a natural number. -/
def pN : Nat := 57896044618658097711785492504343953926634992332820282019728792003956564821041

/-- The group order `q` as a natural number. -/
def qN : Nat := 57896044618658097711785492504343953927082934583725450622380973592137631069619

/-- The curve `y² = x³ + a·x + b` of the signer over the integers modulo `l`. -/
def W (l : Nat) : WeierstrassCurve.Affine (ZMod l) :=
  { a₁ := 0, a₂ := 0, a₃ := 0, a₄ := ((a : Int) : ZMod l), a₆ := ((b : Int) : ZMod l) }

/-- The object `pt` of the program represents the point `Q` of the curve
modulo `l`. -/
def Rep (l : Nat) (pt : ECurvePoint) (Q : (W l).Point) : Prop :=
  pt.in_range p a ∧
    ((pt.is_O = true ∧ Q = 0) ∨
      (pt.is_O = false ∧
        ∃ h : (W l).Nonsingular ((pt.x : Int) : ZMod l) ((pt.y : Int) : ZMod l),
          Q = WeierstrassCurve.Affine.Point.some h))

/-- The chord and tangent formulas of `operator+=` for a slope `num / den`,
with the inverse `inv` of the denominator supplied and checked: `none` when the
product of the denominator and `inv` is not `1` modulo `p`. -/
def add_with (s t : ECurvePoint) (num den inv : Int) : Option ECurvePoint :=
  if modul (den * inv) p = 1 then
    let lambda := modul (num * inv) p
    let x := modul (modul (lambda * lambda) p - s.x - t.x) p
    some { s with x := x, y := modul (lambda * (s.x - x) - s.y) p }
  else none

/-- The sum of two objects by the formulas of `operator+=`, with the inverse of
the denominator supplied and checked: `none` when the check fails, when the
test `y == -pt2.y` of `operator+=` holds, or when the abscissas are equal and
the ordinates are not. -/
def add_checked (s t : ECurvePoint) (inv : Int) : Option ECurvePoint :=
  if t.is_O then some s
  else if s.is_O then some t
  else if s.y = -t.y then none
  else if s.x ≠ t.x then add_with s t (modul (t.y - s.y) p) (modul (t.x - s.x) p) inv
  else if s.y = t.y then add_with s t (modul (3 * s.x * s.x + a) p) (modul (2 * s.y) p) inv
  else none

/-- The loop of `operator*=` with every addition made by `add_checked`; each
step takes the two inverses it needs from the list. -/
def mul_loop_checked : List (Int × Int) → ECurvePoint → ECurvePoint → Int → Option ECurvePoint
  | [], result, _, n => if n > 0 then none else some result
  | hint :: hints, result, point, n =>
    if n > 0 then
      match (if n % 2 ≠ 0 then add_checked result point hint.1 else some result),
          add_checked point point hint.2 with
      | some result2, some point2 => mul_loop_checked hints result2 point2 (n / 2)
      | _, _ => none
    else some result

/-- The abscissa of a point of the curve, `0` for the point at infinity. -/
def abscissa (l : Nat) : (W l).Point → ZMod l
  | WeierstrassCurve.Affine.Point.zero => 0
  | @WeierstrassCurve.Affine.Point.some _ _ _ x _ _ => x

/-- The object holding the opposite of the generator. -/
def neg_P : ECurvePoint := { x := x_p, y := p - y_p, p := p, a := a, is_O := false }

/-- The inverses of the denominators met by the double-and-add run that carries
the generator to its opposite under the scalar `q - 1`: for each step the one
of the addition to the result (`0` when there is none) and the one of the
doubling.  Every entry is checked by the run before it is used. -/
def generator_hints : List (Int × Int) :=
  [(0, 10297018950366695783893339349991847804652198502529290759859202820577721280788),
   (0, 8645285083300209222280025331962050226912534920561291482682724566830400429880),
   (0, 52403153686248078066818380037604151207603092576119274033513163468582878526025),
   (0, 5708038338600388883607649062241987003055915264226007071936836052607567694068),
   (33573996857635524081271406674581966374080417057004739296510476995823460294036, 54228057396316792814819067792720292888460853439888670300933930286035777505049),
   (44620332663089510090917975940266984257174226675344292192879402123611592167445, 10890922417849983117077502947589829525356726664302090628789074693927217913127),
   (0, 27980527040224366524730725839417394233527796001045050444304435764308920035151),
   (51392274182677245265773663014088643618164760726356094340979197225255908897081, 21483204462478124337235047715313793126268494934151570234788543212646060834286),
   (15020875905868702548034086015098499920562887109794997550703281200995989251133, 35389298436266711175224808325254679149522015612078670208464429156271411584886),
   (0, 36829546081214104510141378423517018399706252837440332707714523573428521407433),
   (30413126333003781554533113957339499567092819453537457004048688271853222789184, 32819362909129294239521282582326725184759583597316041965704036776056888493159),
   (0, 55747125507330709970585430881896851321563402432946376326777885062597811313007),
   (47300734389257911315647738290494957663058997340714551808866541643461012388119, 50857594409662672940786578644891055347175463693904136052287814177723020887548),
   (44333979519254239295809754728334454383055006883052455932039663253716087136972, 34710736693549707307644457943233324435905530861176369219679471432832980052667),
   (52541958001292094585007313822582747280016610417284293842728788177075379813383, 47070191294535190903822028923100323819390049943339710253329283420123062165435),
   (28368016710269714198148021627575838205137724089155577096738295824397752864395, 46125529040040910122033816617777274739513189041564998550811199929044267678717),
   (0, 15288088464856304520708163366326531067194730321311769801762005043739803101000),
   (0, 5643792636586030723186536400797372464562167754548640472132673017788624619647),
   (1400275659611793302357935081161731734247609806121596435055397380535190949864, 31292224874271579197408394222152211304476080597312484549917299911140315629297),
   (53575247872212087042323154716127645885078005907676677388739896014850351612598, 51154428892669152328500629975113778282741065870667364086820657014022523337714),
   (0, 25486009310493389063027634170982553664113277770024522162933315593478632186724),
   (0, 6611487618676711651645318167021607732009769057257464825791952832270764433875),
   (25812990925875014404012861515269833238543116850103016077192437993900639158547, 52267181589305694127898779533616775711818259890493915914679358174960034586774),
   (9778191240132527205061772103416427887357720014017199316332112884785804075431, 31343089253392744543390475372988035187079474262965679544117987345201266564313),
   (0, 36513843330822727310014624804932262830868255117564762112213783929419412673832),
   (20079297897919558789981889215891699866509945435248595932196629116725646730066, 7142475904168344596347470446115831953491101869005166662316736617377350670196),
   (0, 46061000004453021377264665665634951895556101811139945755658267030609959552349),
   (49872009965923773750692601059865306078780946805902727123679875199108309140784, 31371772356142637368639832605508915393706075489160503674004194574025336600623),
   (32256464762309299763400504477190176613725038179167228586508384156327100938199, 36991124834564010504453986897670544883862926239449177215852037802916887491464),
   (23116517129781145868577125547457926808814738640721105318987867444786073816097, 25202333822850681728649204532917652398756194238860372793760422439406111766773),
   (0, 41923766199696058907809825646018072208288504315939714286910771222217944259748),
   (0, 2863210028708458797731250574501569332015734589448926942008411209994997312828),
   (43345806321286827392206588211517580758041483239851122780639632526644500034226, 23664200686987427630011216820778989625959590706799303260258813304378836210184),
   (0, 23880468646335398245925846787069940235296271573603080384406375953556522786977),
   (0, 28180087752891687544845110961647840609538663675688851911754571687146738173554),
   (32497352913674919398545027195159138127197491491053934805850104151113574091558, 55365723408504536195544383579136817181319022985811359461395066582739863293830),
   (1851007833473206281622825904284344864786366519162682342815647859119772491800, 2971814741271911779509427798734977351104643823844772120024810792016418410409),
   (0, 31894407671713024950290877659664434115474233071413902280771054933352985427315),
   (0, 57015103634090089323108303752797427164897154451686103903690255193640094145251),
   (0, 591800274158004834487441097102236763819588199904746183512692209955221153331),
   (0, 40121968333852932092519706401910271349781489276549566514680707896198093730652),
   (0, 56969026562301693372187458740842048910131080228222916789894680658693088792164),
   (33104085313524188201455042377807373822073750237499822240355277658751985057912, 9256250350294562428793215876743885422534280566629106879429962808096493029288),
   (51809834675385062092610440892007491509641791382064770995853504998294264458647, 2103670675260076266566138763138019166244491131220348652073366942191945225322),
   (48781742028560999629138482818096655937607706408051398605733651433700742554276, 7383230469136816015157683226959907441327069783153210622685295232627026524069),
   (9907148037473747602754995219697734940634809988338862896732278515406669156930, 26872383437453534583812784384697525341260847922330574886013762555586778391608),
   (40715624627018147592323222527466418896645779390307342253763723480203157333255, 11991660690409196852978542804950658639127334241654732936507716329801881449572),
   (36693709296161490234115905721330955174522301258224225216851184495786414164430, 11022740868602991303450596242132733961591610798936893022865907914924995946457),
   (0, 32532885218593006360831254759632758426993311355967996860389038766801764435921),
   (0, 3784958826430790579122017644574695696231883628632221810356124242036805312101),
   (17208464245142278960225563243752047661623190619273486391712693485406759547576, 29579182552926221106132636104460574932181067227280894167324942082558679523882),
   (16936818991139786406875447267555417216875879000702246197544891318721108330838, 2783047680612437898957018803436864364594976054188218442482258457943708579720),
   (48428327710280165770536338165552557570796150095343159527312790354895453705120, 40934673807511125237541049438449272871396304215003257252976168618118127131820),
   (0, 27227633771956693179902601679888637707987597435618007781193458986927430227604),
   (0, 44282032786207872595106133554898774408394845127232782485460046561176003299596),
   (42748337413051819119482172262034977040429216245487779956416883024934229020193, 35556480535643443268433731048001390068896455406093821103367470580180707744407),
   (49943530413581352902112107230482285023973808798998312497028003603290619505099, 49483640292359659627620906281678431889771809735343018006252607769741022937892),
   (0, 1289008454860309812625951192128587396183497033160868499930924283467673172162),
   (48575918885791102814541867179507622138827379862435562635793175599559909726196, 20067706733921962324729705072273472023564084954906230119781766439261158018747),
   (0, 48616034794826749517898166918740126886002071680257233707713795913756588692714),
   (0, 1246445867544759180492396972512505412759938942525497528952789072301921624012),
   (0, 22437656256677836439441839731157253240131761298875354581520701133945818962861),
   (55454263579383878120069930060282075314249346555976732826223729142761392355441, 3252327243934716723368855026328072752790240326894993055269057758389870603335),
   (49299989011587191195110358817929058847943251934455666910948032851991604381933, 27971009904063240727686558082722293240841375865576096424061265516088884140452),
   (0, 48995020202758616978255977564799134335728496723943762507268764442506742657223),
   (0, 57810556938105050963463397784949627082598127036863601757273579782758020246537),
   (1702274495856000179383608907116264466155454597636197001151488491168254376388, 11800675830721520461105956589602899102018151409250540023923287301753248707035),
   (0, 9573366981478595499829298780188081023449753632267989711592599245502187083104),
   (20316799044809764030101585360410006773344107428714438441317939245304460362341, 48348733432914810142281666815846238664276053937867019908248628011070984325420),
   (0, 13996595607542601350799745889798797305493065923514762709797377846630413647118),
   (18068563989126775754614082808419583020837317664467368602290586932760482380133, 4323376422117710979338280984863201026818633771232730270715288379317040596253),
   (0, 28217975941137270987152874681086155969187964348265658673212272077649550862930),
   (11024401745688043217648773144872913126137182700454686088070945789650289035679, 34780928376528360949811901912631957196909488924830883907182754565866360399347),
   (0, 51333393748764635047133376445851535356539653744141625136152423396705638566482),
   (0, 2206840069212712333626151750230887452169794577615063267987708318012376245294),
   (0, 29696345345385946214911793630932642535264645810981087953617137457957763590656),
   (0, 18764885198622013442745102623671656344960947899618965696839787727946808220666),
   (49575073619313120715886850480049556896948639386927848335495324996593666041454, 55999780239357031177594140262986179918086872738418849545731866140431941198110),
   (30805017093116420236869949077220623071236416772387113686595441494824606259146, 9944609767262144954433577199994190820510984582111878888000739907680365923111),
   (0, 37857922284674926909917238393779664065090326194938507247385366636965686305707),
   (37276812737783367084925840859509918674460741327487093503799307239677340264988, 21499724928917694455465748160145809793511093748738690896578608987572608813811),
   (28477644165160015990974568299909423583658136547556655443028138837223421945155, 17511410702012767767840429577923936896975375251354314163235253592198072054696),
   (11248883921955817368057065898731359248565660712089441396167402517830432839202, 20885815458053574994212259393523841810668605288856249202330709181581200121896),
   (0, 25787544365485919422464423746002937345676261667980141913703739639774774558617),
   (24091550701932536138613328425727459313386091573001124901964502620031334460893, 5634638677829807313877550647679485843042387584561545350665363540093824534930),
   (0, 22189039863972789634834444458370944026588184637846107123663014742898885119290),
   (0, 54529231040534540434753593094136132981736585751533337606514387440701616997607),
   (31030760132736901864989219064422707810071464031177872756812132153622408819053, 54775128746269062100606471968359360227074232312539761730177041956744080935195),
   (0, 37216983566115200742181935226891939622577809575341547983313242980824283818936),
   (42211911010538423232619243064372267124307879599098927809154026731524265198460, 16729928961858261112209191829348382051909553605476611330886290570358021092988),
   (0, 53176734796896633121010807097350184496836738840248830068857184537016355168024),
   (0, 11310013902441859866288372941299935817919955200484767798561600919906106951366),
   (14571222421394272734100272698157690636803752786377132441547135515543469193588, 57427555744261769640876052734086787758928142037576073395901841491159250158508),
   (0, 19614930925852230349332727351217834321170001809760598946674605679253252934797),
   (0, 17263000431371043816923221297315412355627862439778832377322912591770459690807),
   (46563900937136111638350914104400040742796136078968767464110049510988441776938, 47686619145334703242796735371225180255894222651522076740611181563418086062076),
   (0, 25547783701414351526926766769095905860595549792993771346942239249234982264937),
   (0, 3450793794635404383639783134883619154930352378962698499316132486386986285805),
   (0, 40157021950107056645126545248584444331429293431347970269176575131597722277897),
   (1835483578762862980843833729656828937893786421077361891931901644798276661172, 17294303016265502687148869436931609824950322978175200173856254697475218720192),
   (49566429834814321553205966308622911714988180251737634530424404362011856518379, 54763305505914546424203778277135867240865333971841681414156197753419090939702),
   (0, 23372945080743577264270917218466853885437144821665193752472947207371423150336),
   (0, 53401902974441940180703593945648734010227416809000301713089484040460057325805),
   (0, 50286864351675401049281252231738224269770549930778704858208084659517461199583),
   (0, 5918480952674809032430511711628718754130585681152995604527422807908634324643),
   (20143313257438120505632544786587854687162317732387503356178704826095948916966, 53688616334894487191870164401112781746125036815343315163305406905833558917180),
   (0, 25343401106254727874314481913649258255503017838567070936872074790064508137241),
   (16208024701432696710633325265354483273819690554293717825079318089482060615282, 46281541515326840741051090273278648876397958074968425787107325674626472092973),
   (0, 27266821327498665357470014106759719603874801773664858273865390392747652094404),
   (0, 2481118728920290732926892226871462090509059923792753547436869202530003956482),
   (0, 426115286345481343937543958298109220904682973114828655962031849735263512364),
   (26165409930932703116330892449070849193740523754284465462272865768983335843510, 22441866018800256149581108604747516177480695043943512799045823982423665171405),
   (0, 32612819698458057049434502644019635893914857878255195652282268246709339505153),
   (12565932236170794174316555578304841938030002989423001889115616388609221525801, 23616216225390969249728427700732808595966036844478346659677398334225609226307),
   (10580611360354143230626071154908721663693436348916432730200266372398476139843, 50250148286590439294045078409344895286705900756298839833373512879480517425418),
   (35969042943453669103351245475885021595492888065111879062796760103754974342223, 18048708806854673069128452886104744306718984110921243197282024245514986006255),
   (53071593798293046008113362802616451484318725011469689533029921006570911752250, 15953187779628015262233282771888902222220754334299232748485064886857127645885),
   (18895603297353769029818262879716232515885121395647323308663930687180601774892, 32773863880793985111311421485578162713461672908945009067709645564659510519129),
   (17627771032582339709516187311343496677843720513818856991276289845852840999255, 11645348473282941671017870720877944838733638817674058185452304008551434656613),
   (18366494896126389758934336699031639930680654107251998030106171498500263486922, 1363423389258740190905965768958241161071865895389304246621339091524270918488),
   (0, 824474596249465639138294685938559851930944854232102189663247339109744271460),
   (0, 3545624589337158744095444761443089953754201197197709538219541335861968665720),
   (0, 36573736230326925285801628903407333218557028198009917188358594937456254951806),
   (0, 55032297524983361247477152694533174234462011995741197612697943629551241464260),
   (2623959247245985816986761161286148522292329472380510145868545411064788989895, 42109352180178368215720491370577492163498607239503031300962027944498342551223),
   (0, 2851193253174242039039247505672836145877449355097633659395514812311667080134),
   (6511343447417622175939651457841262239350808111518720241302146722914458440310, 31339607730087447228542319452201665824874293049608096344726035939892057012332),
   (0, 45651649099384302194079604837441600038238085230138964391638533180983056760226),
   (45610284272168244636862597803663512279372755490416273076199454807664041503176, 43901329880914963336371477792194300894161976175045117426371828404633407246837),
   (0, 10342333832015892636950975643927071466079004811995221666778709727961962990744),
   (0, 15897337602484859583572523233543132200724909402357661384979794216371104487460),
   (0, 12079924592133575786047170298113938557644997482412708858622649909081042288980),
   (0, 48797486453225660986630074794629374719248306508345484503957774289932805928202),
   (0, 32970380767809876105073647562604108655306632771907907910628462653798698118496),
   (0, 1898749876060828081534511554055071576037417728260857412979706365234683784479),
   (0, 41592347730705287339627810051672893831841896951890939357600370853292342036885),
   (0, 38906915487937702706756981740572083723310436829102319312425853348816345250800),
   (0, 53417513672434917068112911209463454146888002130675414628325906834525165592419),
   (0, 38584580414563792642616418318321560060188154153267244647714294800169572875429),
   (0, 11597153071504207714656445115525328289347464898786484647926786932124865686899),
   (0, 35702488630442288638780478838067932876068027772579981410120090984372680607365),
   (0, 43847353771670624382277245307805039869808139698994137510849467473011003078755),
   (0, 26913803117958475191410083317415309456164877591169003722742961167076632170315),
   (0, 27502197829658514750840048420048583719780837836773471427790183794207546386581),
   (0, 33240353254597378468734846663429142473692062919757086307541867717647148129259),
   (0, 9344520551389343738285717619604553525571772578067218104688975271704909561587),
   (0, 6352566913449887656530067582811445651062603517757540977095116794030548947220),
   (0, 1932448108562682056930358531504928807047562092531601541347944584324231854774),
   (0, 5234942339534087821828773708035378488321370777858292036399731714973581872528),
   (0, 44950342056602489992753038619763347535836973655732339500398106158084030953811),
   (0, 38559546221036775847113062293810510102686675669946233677408214921467257605123),
   (0, 30174720502611460258929635440363760744880521109677188303138506906285075231109),
   (0, 5322221723233686127594517384105136929332095359065866745022039008126301667492),
   (0, 6481709259141301690133419015109872792894550574973525313274252829225714422814),
   (0, 4337606693426460332188659325924657514588757682928046923651717625460986989872),
   (0, 29239362582502427521037756730446879273348899781202967183433620799363731851022),
   (0, 7357416898940892314921930817920538422958119457114338662389880693921644621258),
   (0, 571691748725690726861684783523419049192568602547538558745406561229225745956),
   (0, 16212006051160174078294640680647123143272274769276245356945076880213232106404),
   (0, 14914163885051051939708659196545365262156894673204885768242849537153924344694),
   (0, 40545294699796284033511046367742150467536585694903962436440428997623695855924),
   (0, 39873999324007604009003399653610570882875439740124378597083774670012073550613),
   (0, 5921277291418458418248183860909260196326921812865409176232694142560459404418),
   (0, 23058206152911716862056257139851890611961545045889605971007844104013130006320),
   (0, 15226485832716267806100248444102035759337914342339288186672688622575123555686),
   (0, 8543800090210523731839943257889838021144315548527061459658825513560115029112),
   (0, 56149784260755269665771666506628861147142329796097200197672230949641412331189),
   (0, 49024895216679829425382629715594426095398378981691429661316801115107927392033),
   (0, 31204558410858368435077076927515473866472920392631857038781798414908713355134),
   (0, 36351041837443263409778732990785205720939373603998902770259122595105911116128),
   (0, 8233550976395490643972260618637777518963800840263903380912182134771418555835),
   (0, 26742964112779840759171060890743620691959932149611488220075304183534950021334),
   (0, 36031269307424295026954740580536321474027124865785151501926191661205778312057),
   (0, 41963450603949394448336523642496024081708641585035184262703675659505517957303),
   (0, 15381441170990712011148978796464231171843565360731274483681101578028271695233),
   (0, 14724975161439505177296695575195290766162864794624273097379030233318506866380),
   (0, 28430264686427343919798841244613046861298524720077744164454187205062403275277),
   (0, 24868289018623973241909081718053444634144679727416840367798439305078261672389),
   (0, 39215455151027524288170906310534901717067143661096959901887404736243345436119),
   (0, 52017926757541210181019774830451958583085845465664093848816966845446801632845),
   (0, 48808585295361591952841165357555095789412302230568148044662719233505511663589),
   (0, 18156572090726070116812921460677070761572915102635115667566308042461044760873),
   (0, 49554431907881233005915810436776637182580304795909195429009425982264770212866),
   (0, 43220544920198356427884953896453372470237195722495107907898622176991610667253),
   (0, 21192162244692246905270835087502575914602350152158286870904390962142260294013),
   (0, 55364617607312381874535642340851685106440907836738588190501659803918596735094),
   (0, 23382725149685045451437744965844737419376374550677960057440907931853693883371),
   (0, 57475596769507538084279541087375353959670925165074219169111259027039156410435),
   (0, 52415485599447843932645322623612010674771435106912452688667361216649519322375),
   (0, 35152568051037542165102355437982931569583903280571991170433655670194320826708),
   (0, 4427788199486089747604088260154082280297378224770566376878352898272645528889),
   (0, 24697401569066241606799349563489178899282065521148548454599490400899081851272),
   (0, 52488792399727638357200947170370301598470701616551335801335425766338883542925),
   (0, 16458566275991568633601382105625672519138947392444574559055684891719820849885),
   (0, 48736065594247950971970124375305723464664224576735365245977103546397180132431),
   (0, 24968244152271163779290159476068961437370204174213619424051710703580875960555),
   (0, 31255878612320866726394879088042414144679324889934582092745972496310579432659),
   (0, 20146172479198998351593910861648669924246807483469427729072755189871602575134),
   (0, 21141326242984751636489503120991261462142299225147407441775490173318388534838),
   (0, 20369312334329948809032900552088904476661388158892597295746104158589993083882),
   (0, 18141815504202466345560121534444396327820484719225418330766043279772781962519),
   (0, 50615765572735380522188475076678545067063907161089493107145591931664235486196),
   (0, 41106318534630656139928463785412377747270156800747722575178447376059218471508),
   (0, 52433477427968617729914299723262977934694253583767538275034233439971371754052),
   (0, 47536838416192976276941762853272224703544127257028944774166211015210646857774),
   (0, 32714574816920498956959091199397972566060929121710131785843225467685335249300),
   (0, 26839575024576180670480258205796441113064161250455038296559593392998987985918),
   (0, 20153543097032335346422585047386992484825314626191149010930432531269399281551),
   (0, 51699730650952527563880526740507953242975800684335966978068642259326178243991),
   (0, 36956639838145031648192664602579215514167826427799429467803988138835451171898),
   (0, 19671980521799364177677146592646268044028604244800062049200472052179046732505),
   (0, 53504615496862080129096182254208107019498144100624283457424927916310056822555),
   (0, 41164508199287801019905609652720921231839814794276559601972121167532619372592),
   (0, 29494565232418663991174859196809296952063259689069141912548418706178803185876),
   (0, 18079304345821704550073069788490407482058806342630870876711785970585049484331),
   (0, 4574144765024004014943146267279533064049323535145503159956005000568694701031),
   (0, 11722009973447296610016623077571202734285432343373897480502118572600697636962),
   (0, 41633621838910838125692493132425930190623413557125114035273974087630447682331),
   (0, 17642465485361553360750504942271860583463622459171175895034834413930201320316),
   (0, 45886274516718927391631521891100788542448488578072399240503814821796436971193),
   (0, 21430017470315187221404329843492920061299446296782121748098556825156405616499),
   (0, 42095503372814893306024682401942210173909920945752005826992675223901022565038),
   (0, 56987944483338872518482668676711683631930804370322996993144679716199886839295),
   (0, 40827898281633347513121841625289567924200817852975382324684883744891137324031),
   (0, 51422794342529963973560554525837284365714881798721232290739449451496192207656),
   (0, 17796069927958345349566417483876183297745287077109078756486894182882260785291),
   (0, 52288539442880543519860883136286706122617851532919216544699020582501843028026),
   (0, 1280640893980335696732937703238883022100301499742850933496658692502938963810),
   (0, 49890301819741094442627649787403678479216869686720008855182237133251173896613),
   (0, 20550026681049625819291021199655106597303134696212521101062067633248327157688),
   (0, 19983433969054937063151538120340018617629274804405205273336972230155589592130),
   (0, 12307604476014231747468976858239008982685854447207380611830673041163244492366),
   (0, 45135657406733269540764737822389800508969326720648921411967230234228019680172),
   (0, 42493521668975403014364286739171909904241805968418941899453416791454507532731),
   (0, 27186431587068515331480924670439339479257704380335465695622970994510428113973),
   (0, 35369542381969451168173876954391716335686246725152851170610000051963013049922),
   (0, 35766936303448845311280263115485405501030367241195648429701939009475667632079),
   (0, 50942042277254835814198085396079201629615787579026429167411177840783926139415),
   (0, 3557105027967442244083150861206416683770175810276882683455561620029427122771),
   (0, 5621345025113663766550880169426485047076674836700246271130909962398234570235),
   (0, 36730792347153360946420462447677703051626348964906350850527547726475443431604),
   (0, 32653482203254520390336060435806529188372155441708938400088703022451141345558),
   (0, 49357005257605638086573682764499052760481411359010484884001690575963873330611),
   (0, 22234962489332685126910679021196811382401847129269041715684490542551727280825),
   (0, 53854714929757908763351559657629893082831787134168803825732075055463939632264),
   (0, 45412710091818564437801413721866050876599882634724788178017616034855351803415),
   (0, 18483887427725728566592556788221518585440360567816486376617284019276513692208),
   (0, 44444156140062815909382684752296925326699716043282306305655102140014701234490),
   (0, 21600207353173908448599668306691278468515187505333984054739804211191228143548),
   (0, 4782183066894565586750447457775633106349193379371762196018042574377984145263),
   (0, 26207780834778177815283419947918875319654923603423960707337998820459999348282),
   (0, 46093116803055760091184513215029408204392673127618967969650285296092898722708),
   (0, 53642811173399953216473484009915740443555784693554165987820209514386008561361),
   (0, 27101910946046244533811095160289558753811475191934791637369586650473231625589),
   (0, 1824326138562551390914760832573671015949541393850750346676645172750152478126),
   (14555903225764474938124748085030006316438954788921183772723739486022810466685, 52443584861245159759047134936263247780023005200717543340152853051667821173435)]

/-! ## Auxiliary definitions for the cipher, the hash and the curve -/

/-- The type `u8` of the S-box entries: every entry of the eight tables is
below 256. -/
def KBOX.bytes (kbox : KBOX) : Prop :=
  ∀ x ∈ kbox.k1 ++ kbox.k2 ++ kbox.k3 ++ kbox.k4 ++ kbox.k5 ++ kbox.k6 ++ kbox.k7 ++ kbox.k8,
    x < 256

/-- The type `unsigned int` of the four tables of a cipher context: every entry
is below `2 ^ 32`. -/
def gost_ctx.words (c : gost_ctx) : Prop :=
  ∀ x ∈ c.k87 ++ c.k65 ++ c.k43 ++ c.k21, x < 2 ^ 32

/-- The value of a byte string read as a little-endian integer. -/
def le_value : List Nat → Nat
  | [] => 0
  | b :: bs => b + 256 * le_value bs

/-- A running sum `Z` whose first two 32-bit lanes are full. -/
def Z_carry : List Nat := List.replicate 8 255 ++ List.replicate 24 0

/-- A block whose first lane is `1` and whose second lane is full. -/
def M_carry : List Nat := [1, 0, 0, 0, 255, 255, 255, 255] ++ List.replicate 24 0

/-- The curve equation `y² ≡ x³ + a·x + b (mod p)` of the signer. -/
def on_curve (x y : Int) : Bool := decide ((y * y - (x * x * x + a * x + b)) % p = 0)

/-- Entry `i` of the table `k87` that `kboxinit` builds from the S-boxes `kbox`. -/
def k87_entry (kbox : KBOX) (i : Nat) : Nat :=
  u32 (((kbox.k8.getD (i >>> 4) 0 <<< 4) ||| kbox.k7.getD (i &&& 15) 0) <<< 24)

/-- Entry `i` of the table `k65` that `kboxinit` builds from the S-boxes `kbox`. -/
def k65_entry (kbox : KBOX) (i : Nat) : Nat :=
  u32 (((kbox.k6.getD (i >>> 4) 0 <<< 4) ||| kbox.k5.getD (i &&& 15) 0) <<< 16)

/-- Entry `i` of the table `k43` that `kboxinit` builds from the S-boxes `kbox`. -/
def k43_entry (kbox : KBOX) (i : Nat) : Nat :=
  u32 (((kbox.k4.getD (i >>> 4) 0 <<< 4) ||| kbox.k3.getD (i &&& 15) 0) <<< 8)

/-- Entry `i` of the table `k21` that `kboxinit` builds from the S-boxes `kbox`. -/
def k21_entry (kbox : KBOX) (i : Nat) : Nat :=
  (kbox.k2.getD (i >>> 4) 0 <<< 4) ||| kbox.k1.getD (i &&& 15) 0

/-- The tables of the context `c` are the ones `kboxinit` builds from `kbox`. -/
def gost_ctx.has_kbox (c : gost_ctx) (kbox : KBOX) : Prop :=
  c.k87 = (List.range 256).map (k87_entry kbox) ∧ c.k65 = (List.range 256).map (k65_entry kbox) ∧
    c.k43 = (List.range 256).map (k43_entry kbox) ∧ c.k21 = (List.range 256).map (k21_entry kbox)

/-- The function `GOSThash_fi` with the 32 bytes named at once; any other
length goes to `GOSThash_fi`. -/
def fi_k : List Nat → List Nat
  | [b0, b1, b2, b3, b4, b5, b6, b7, b8, b9, b10, b11, b12, b13, b14, b15, b16, b17, b18, b19, b20, b21, b22, b23, b24, b25, b26, b27, b28, b29, b30, b31] =>
    [b2, b3, b4, b5, b6, b7, b8, b9, b10, b11, b12, b13, b14, b15, b16, b17, b18, b19, b20, b21, b22, b23, b24, b25, b26, b27, b28, b29, b30, b31,
     ((b0 ||| (b1 <<< 8)) ^^^ (b2 ||| (b3 <<< 8)) ^^^ (b4 ||| (b5 <<< 8)) ^^^ (b6 ||| (b7 <<< 8)) ^^^ (b24 ||| (b25 <<< 8)) ^^^ (b30 ||| (b31 <<< 8))) &&& 0xff,
     (((b0 ||| (b1 <<< 8)) ^^^ (b2 ||| (b3 <<< 8)) ^^^ (b4 ||| (b5 <<< 8)) ^^^ (b6 ||| (b7 <<< 8)) ^^^ (b24 ||| (b25 <<< 8)) ^^^ (b30 ||| (b31 <<< 8))) >>> 8) &&& 0xff]
  | src => GOSThash_fi src

/-- The function `GOSThash_P` with the 32 bytes named at once. -/
def P_k : List Nat → List Nat
  | [b0, b1, b2, b3, b4, b5, b6, b7, b8, b9, b10, b11, b12, b13, b14, b15, b16, b17, b18, b19, b20, b21, b22, b23, b24, b25, b26, b27, b28, b29, b30, b31] =>
    [b0, b8, b16, b24, b1, b9, b17, b25, b2, b10, b18, b26, b3, b11, b19, b27, b4, b12, b20, b28, b5, b13, b21, b29, b6, b14, b22, b30, b7, b15, b23, b31]
  | src => GOSThash_P src

/-- The function `GOSThash_A` with the 32 bytes named at once. -/
def A_k : List Nat → List Nat
  | [b0, b1, b2, b3, b4, b5, b6, b7, b8, b9, b10, b11, b12, b13, b14, b15, b16, b17, b18, b19, b20, b21, b22, b23, b24, b25, b26, b27, b28, b29, b30, b31] =>
    [b8, b9, b10, b11, b12, b13, b14, b15, b16, b17, b18, b19, b20, b21, b22, b23, b24, b25, b26, b27, b28, b29, b30, b31, b0 ^^^ b8, b1 ^^^ b9, b2 ^^^ b10, b3 ^^^ b11, b4 ^^^ b12, b5 ^^^ b13, b6 ^^^ b14, b7 ^^^ b15]
  | src => GOSThash_A src

/-- The eight little-endian words of a 32-byte string, as `gost_set_key` and
`GOSThash_sumstr` read them, with the 32 bytes named at once. -/
def key_k : List Nat → List Nat
  | [b0, b1, b2, b3, b4, b5, b6, b7, b8, b9, b10, b11, b12, b13, b14, b15, b16, b17, b18, b19, b20, b21, b22, b23, b24, b25, b26, b27, b28, b29, b30, b31] =>
    [(b0 ||| (b1 <<< 8) ||| (b2 <<< 16) ||| (b3 <<< 24)),
     (b4 ||| (b5 <<< 8) ||| (b6 <<< 16) ||| (b7 <<< 24)),
     (b8 ||| (b9 <<< 8) ||| (b10 <<< 16) ||| (b11 <<< 24)),
     (b12 ||| (b13 <<< 8) ||| (b14 <<< 16) ||| (b15 <<< 24)),
     (b16 ||| (b17 <<< 8) ||| (b18 <<< 16) ||| (b19 <<< 24)),
     (b20 ||| (b21 <<< 8) ||| (b22 <<< 16) ||| (b23 <<< 24)),
     (b24 ||| (b25 <<< 8) ||| (b26 <<< 16) ||| (b27 <<< 24)),
     (b28 ||| (b29 <<< 8) ||| (b30 <<< 16) ||| (b31 <<< 24))]
  | key => (List.range 8).map fun i => c2l key (4 * i)

/-- The function `GOSThash_xorstr` computed in one pass over the two strings
when both have `len` bytes. -/
def xor_k (src1 src2 : List Nat) (len : Nat) : List Nat :=
  if src1.length = len ∧ src2.length = len then List.zipWith (fun x y => x ^^^ y) src1 src2
  else GOSThash_xorstr src1 src2 len

/-- Entry `i` of an S-box packed four bits per entry, entry 0 lowest. -/
def sbox (packed i : Nat) : Nat := (packed >>> (4 * i)) &&& 15

/-- The round function `f` on the S-boxes `GOSThash_example_kbox`, each packed
into one number (`f_p_eq`). -/
def f_p (x : Nat) : Nat :=
  let i87 := (x >>> 24) &&& 255
  let i65 := (x >>> 16) &&& 255
  let i43 := (x >>> 8) &&& 255
  let i21 := x &&& 255
  let x := u32 (((sbox 0xc8b6e3294a750df1 (i87 >>> 4) <<< 4) ||| sbox 0xc2867ea095f314bd (i87 &&& 15)) <<< 24)
    ||| u32 (((sbox 0xefc95863d1270ab4 (i65 >>> 4) <<< 4) ||| sbox 0x2b30e9a48df517c6 (i65 &&& 15)) <<< 16)
    ||| u32 (((sbox 0x352bc64ef9801ad7 (i43 >>> 4) <<< 4) ||| sbox 0xb9067cfe243ad185 (i43 &&& 15)) <<< 8)
    ||| ((sbox 0x95701832afd6c4be (i21 >>> 4) <<< 4) ||| sbox 0x35f7c1b6e08d29a4 (i21 &&& 15))
  u32 (x <<< 11) ||| (x >>> (32 - 11))

/-- The function `gost_round2` for a round function `F` and the key words. -/
def round2_F (F : Nat → Nat) (key : List Nat) (i j : Nat) (n : Nat × Nat) : Nat × Nat :=
  let n2 := n.2 ^^^ F (u32 (n.1 + key.getD i 0))
  let n1 := n.1 ^^^ F (u32 (n2 + key.getD j 0))
  (n1, n2)

/-- The function `gost_pass_up` for a round function `F` and the key words. -/
def pass_up_F (F : Nat → Nat) (key : List Nat) (n : Nat × Nat) : Nat × Nat :=
  round2_F F key 6 7 (round2_F F key 4 5 (round2_F F key 2 3 (round2_F F key 0 1 n)))

/-- The function `gost_pass_down` for a round function `F` and the key words. -/
def pass_down_F (F : Nat → Nat) (key : List Nat) (n : Nat × Nat) : Nat × Nat :=
  round2_F F key 1 0 (round2_F F key 3 2 (round2_F F key 5 4 (round2_F F key 7 6 n)))

/-- The function `gost_encrypt` with `enc = 1` for a round function `F` and the
key words. -/
def encrypt_F (F : Nat → Nat) (key : List Nat) (src : List Nat) : List Nat :=
  let n : Nat × Nat := (c2l src 0, c2l src 4)
  let n := pass_down_F F key (pass_up_F F key (pass_up_F F key (pass_up_F F key n)))
  l2c n.2 ++ l2c n.1

/-- The loop of `GOSThash_keygen` on `xor_k`, `P_k` and `A_k`. -/
def keygen_loop_F : Nat → List Nat → List Nat → Nat → List (List Nat)
  | 0, _, _, _ => []
  | n + 1, U, V, i =>
    let W := xor_k U V GOST_HASH_BYTES_SZ
    let K := P_k W
    let i := i + 1
    if i = 4 then [K]
    else
      let U := A_k U
      let U := xor_k U (gosthash_C.getD (i - 1) []) GOST_HASH_BYTES_SZ
      let V := A_k V
      let V := A_k V
      K :: keygen_loop_F n U V i

/-- The 32 bytes that `GOSThash_enctransform` writes, for a round function `F`. -/
def enctransform_F (F : Nat → Nat) (H : List Nat) (K : List (List Nat)) : List Nat :=
  (List.range 4).foldl
    (fun (acc : List Nat) i => acc ++ encrypt_F F (key_k (K.getD i [])) (H.drop (8 * i)))
    []

/-- The function `GOSThash_mixtransformation` on `fi_k` and `xor_k`. -/
def mix_F (Hi_1 Si Mi : List Nat) : List Nat :=
  let buf := Si.take GOST_HASH_BYTES_SZ
  let buf := fi_k^[12] buf
  let buf := xor_k buf Mi GOST_HASH_BYTES_SZ
  let buf := fi_k buf
  let Hi := xor_k buf Hi_1 GOST_HASH_BYTES_SZ
  fi_k^[61] Hi

/-- The 32 bytes that `GOSThash_steptransformation` writes, for a round
function `F`. -/
def step_F (F : Nat → Nat) (Hi_1 Mi : List Nat) : List Nat :=
  mix_F Hi_1 (enctransform_F F Hi_1
    (keygen_loop_F 4 (Hi_1.take GOST_HASH_BYTES_SZ) (Mi.take GOST_HASH_BYTES_SZ) 0)) Mi

/-- The sum `GOSThash_sumstr(dst, src, 32)` on the words read by `key_k`. -/
def sumstr_k (dst src : List Nat) : List Nat :=
  (GOSThash_sumstr_loop (key_k src) (key_k dst) 0).flatMap l2c

/-- The function `GOSThashTransform` on the pair `(Hi, Z)`, for a round
function `F`. -/
def transform_F (F : Nat → Nat) (k : List Nat × List Nat) (input : List Nat) :
    List Nat × List Nat :=
  (step_F F k.1 (input.take 32), sumstr_k k.2 (input.take 32))

/-- The effect of `n` calls of `GOSThashTransform` on the pair `(Hi, Z)`. -/
def absorb_F (F : Nat → Nat) : Nat → List Nat × List Nat → List Nat → List Nat × List Nat
  | 0, k, _ => k
  | n + 1, k, data => absorb_F F n (transform_F F k data) (data.drop 32)

/-- The digest that `GOSThash_Final` computes from the pair `(Hi, Z)`, the two
length words and the bytes waiting in the buffer, for a round function `F`. -/
def final_F (F : Nat → Nat) (k : List Nat × List Nat) (datalen0 datalen1 : Nat)
    (pending : List Nat) : List Nat :=
  let k := if pending.length > 0 then
      transform_F F k (pending ++ List.replicate (32 - pending.length) 0)
    else k
  let L := memcpy (List.replicate 32 0) 0 (l2c datalen0 ++ l2c datalen1) 8
  step_F F (step_F F k.1 L) k.2

/-- The digest of a message shorter than `2 ^ 29` bytes as the definitions
above compute it: `GOSTCalc_digest_eq` proves it equal to `GOSTCalc_digest`. -/
def digest_F (message : List Nat) : List Nat :=
  final_F f_p
    (absorb_F f_p (message.length / 32) (List.replicate 32 0, List.replicate 32 0) message)
    (8 * message.length) 0 (message.drop (32 * (message.length / 32)))

/-- The variables of the loop of `extended_euclid`. -/
structure extended_euclid_state where
  a : Int
  b : Int
  x2 : Int
  x1 : Int
  y2 : Int
  y1 : Int

/-- One pass through the body of the `while (b > 0)` loop of
`extended_euclid`. -/
def extended_euclid_body (s : extended_euclid_state) : extended_euclid_state :=
  let q := Int.tdiv s.a s.b
  let r := s.a - q * s.b
  let x := s.x2 - q * s.x1
  let y := s.y2 - q * s.y1
  { a := s.b, b := r, x2 := s.x1, x1 := x, y2 := s.y1, y1 := y }

/-- The variables of `extended_euclid(a, b, ..)` when the loop is reached. -/
def extended_euclid_init (a b : Int) : extended_euclid_state :=
  { a := a, b := b, x2 := 1, x1 := 0, y2 := 0, y1 := 1 }

/-- A stand-in for the library cipher, used to instantiate the statements:
every byte is XORed with the first byte of the first key. -/
def xor_cipher : DES_ede3_cbc where
  run := fun input k1 _ _ _ _ => input.map fun x => x ^^^ k1.getD 0 0
  length_run := fun input _ _ _ _ _ => List.length_map input _

/-- Four blocks of eight bytes as `convert_string_to_des_keys` leaves them:
three keys and the initial vector. -/
def keys_example : List (List Nat) :=
  [[1, 35, 69, 103, 137, 171, 205, 239], [35, 69, 103, 137, 171, 205, 239, 1],
   [69, 103, 137, 171, 205, 239, 1, 35], [0, 17, 34, 51, 68, 85, 102, 119]]

/-- A cipher context: the S-boxes of the hash example and the key bytes
`0..31`. -/
def ctx_example : gost_ctx :=
  gost_set_key (kboxinit { key := [], k87 := [], k65 := [], k43 := [], k21 := [] }
    GOSThash_example_kbox) (List.range 32)

/-! ## Definitions that follow the specification -/

/-- The sixteen 16-bit little-endian words of a 32-byte block. -/
def words16 (b : List Nat) : List Nat :=
  (List.range 16).map fun i => b.getD (2 * i) 0 + 256 * b.getD (2 * i + 1) 0

/-- The bytes of a list of 16-bit words, low byte first. -/
def bytes16 (w : List Nat) : List Nat :=
  w.flatMap fun x => [x % 256, x / 256 % 256]

/-- The specification's `φ` on sixteen 16-bit words: the XOR of the words 0, 1,
2, 3, 12 and 15 is placed at word 15 after the words 1..15 have moved down to
0..14. -/
def phi_spec (w : List Nat) : List Nat :=
  (w.drop 1).take 15 ++
    [w.getD 0 0 ^^^ w.getD 1 0 ^^^ w.getD 2 0 ^^^ w.getD 3 0 ^^^ w.getD 12 0 ^^^ w.getD 15 0]

/-- The specification's `⊕` on two blocks. -/
def xor_spec (a b : List Nat) : List Nat := List.zipWith (fun x y => x ^^^ y) a b

/-- The specification's mixing: `φ^61(φ(M ⊕ φ^12(S)) ⊕ H_prev)` on the words of
the three blocks, as bytes. -/
def mix_spec (H_prev S M : List Nat) : List Nat :=
  bytes16 (phi_spec^[61]
    (xor_spec (phi_spec (xor_spec (words16 M) (phi_spec^[12] (words16 S)))) (words16 H_prev)))

/-- The specification's `A(X) = X[8..32] ‖ (X[0..8] ⊕ X[8..16])`. -/
def A_spec (X : List Nat) : List Nat :=
  X.drop 8 ++ xor_spec (X.take 8) ((X.drop 8).take 8)

/-- The specification's byte permutation `P`: `dst[4i + k − 1] = src[8(k − 1) + i]`
for `i` in `0..7` and `k` in `1..4`; position `n = 4i + (k − 1)`. -/
def P_spec (src : List Nat) : List Nat :=
  (List.range 32).map fun n => src.getD (8 * (n % 4) + n / 4) 0

/-- The specification's constants `C_1 = C_3 = 0` and `C_2`, the fixed constant
(row 1 of `gosthash_C`). -/
def C_spec (j : Nat) : List Nat :=
  if j = 2 then gosthash_C.getD 1 [] else List.replicate 32 0

/-- The specification's `U_j`, from `U_1 = H`: `U_j = A(U_{j−1}) ⊕ C_{j−1}`; the
argument is `j − 1`. -/
def U_spec (H : List Nat) : Nat → List Nat
  | 0 => H
  | j + 1 => xor_spec (A_spec (U_spec H j)) (C_spec (j + 1))

/-- The specification's `V_j`, from `V_1 = M`: `V_j = A(A(V_{j−1}))`; the
argument is `j − 1`. -/
def V_spec (M : List Nat) : Nat → List Nat
  | 0 => M
  | j + 1 => A_spec (A_spec (V_spec M j))

/-- The specification's four keys `K_j = P(U_j ⊕ V_j)`. -/
def keygen_spec (H M : List Nat) : List (List Nat) :=
  (List.range 4).map fun j => P_spec (xor_spec (U_spec H j) (V_spec M j))

/-- The S-box `S_{j+1}` of a set, for `j` in `0..7`: `k1`, ..., `k8`. -/
def KBOX.S (kbox : KBOX) (j : Nat) : List Nat :=
  [kbox.k1, kbox.k2, kbox.k3, kbox.k4, kbox.k5, kbox.k6, kbox.k7, kbox.k8].getD j []

/-- An S-box set all of whose entries are below 16. -/
def KBOX.nibbles (kbox : KBOX) : Prop :=
  ∀ x ∈ kbox.k1 ++ kbox.k2 ++ kbox.k3 ++ kbox.k4 ++ kbox.k5 ++ kbox.k6 ++ kbox.k7 ++ kbox.k8,
    x < 16

/-- Nibble `j` of a word. -/
def nibble (x j : Nat) : Nat := x / 16 ^ j % 16

/-- The word whose nibble `j` is `S_{j+1}[nibble j of x]`. -/
def substitute (kbox : KBOX) (x : Nat) : Nat :=
  ((List.range 8).map fun j => (kbox.S j).getD (nibble x j) 0 * 16 ^ j).sum

/-- The rotation of a 32-bit word by 11 bits to the left. -/
def rotl11 (x : Nat) : Nat := x * 2 ^ 11 % 2 ^ 32 + x / 2 ^ 21

/-- The gamma block `g_j` of the gamma mode: `g_0 = E(iv)` and `g_{j+1}` is
`get_gamma` of `g_j`. -/
def gost_cbc_gamma (ctx : gost_ctx) (ivec : List Nat) (j : Nat) : List Nat :=
  get_gamma^[j] (gost_encrypt ivec ctx true)

/-- The keystream block `ks_j = E(g_{j+1})`. -/
def gost_cbc_keystream (ctx : gost_ctx) (ivec : List Nat) (j : Nat) : List Nat :=
  gost_encrypt (gost_cbc_gamma ctx ivec (j + 1)) ctx true

/-- Byte `i` of the output of the gamma mode:
`input[i] XOR ks_{⌊i/8⌋}[i mod 8]`. -/
def gost_cbc_byte (ctx : gost_ctx) (ivec input : List Nat) (i : Nat) : Nat :=
  input.getD i 0 ^^^ (gost_cbc_keystream ctx ivec (i / 8)).getD (i % 8) 0

/-! ## Lemmas on `modul` -/

theorem tmod_of_neg (x m : Int) : x.tmod m = -((-x).tmod m) := by
  rw [Int.tmod_def, Int.tmod_def, Int.neg_tdiv]; ring

theorem modul_eq_emod (x m : Int) (hm : 0 < m) : modul x m = x % m := by
  unfold modul
  split
  · rename_i hx
    have h1 : x + m - m * x.tdiv m = m + x.tmod m := by rw [Int.tmod_def]; ring
    have h2 : -m < x.tmod m := by
      have := Int.tmod_lt_of_pos (-x) hm
      rw [tmod_of_neg]; omega
    have h3 : x.tmod m ≤ 0 := by
      have := Int.tmod_nonneg m (show 0 ≤ -x by omega)
      rw [tmod_of_neg]; omega
    rw [h1, Int.tmod_eq_emod (by omega) (by omega), Int.add_emod_self_left]
    have h4 : x.tmod m = x + m * (- x.tdiv m) := by rw [Int.tmod_def]; ring
    rw [h4, Int.add_mul_emod_self_left]
  · rename_i hx
    exact Int.tmod_eq_emod (by omega) (by omega)

theorem modul_nonneg (x m : Int) (hm : 0 < m) : 0 ≤ modul x m := by
  rw [modul_eq_emod x m hm]; exact Int.emod_nonneg x (by omega)

theorem modul_lt (x m : Int) (hm : 0 < m) : modul x m < m := by
  rw [modul_eq_emod x m hm]; exact Int.emod_lt_of_pos x hm

theorem q_pos : 0 < q := by decide
theorem p_pos : 0 < p := by decide

/-! ## Lemmas on hexadecimal strings -/

theorem hex_value_hex_digit (upper : Bool) (n : Nat) (h : n < 16) :
    hex_value (hex_digit upper n) = some n := by
  revert upper n
  decide

theorem parse_hex_loop_append (l1 l2 : List Char) (acc : Nat) :
    parse_hex_loop (l1 ++ l2) acc = (parse_hex_loop l1 acc).bind (parse_hex_loop l2) := by
  induction l1 generalizing acc with
  | nil => simp [parse_hex_loop]
  | cons c cs ih =>
    simp only [List.cons_append, parse_hex_loop]
    cases hex_value c with
    | none => simp
    | some v => simp [ih]

theorem to_hex_loop_acc (upper : Bool) (fuel n : Nat) (acc : List Char) :
    to_hex_loop upper fuel n acc = to_hex_loop upper fuel n [] ++ acc := by
  induction fuel generalizing n acc with
  | zero => simp [to_hex_loop]
  | succ fuel ih =>
    simp only [to_hex_loop]
    split
    · simp
    · rw [ih, ih (n / 16) [hex_digit upper (n % 16)]]; simp

/-- Reading back the digits of `n` continues the number read so far. -/
theorem parse_to_hex_loop (upper : Bool) (fuel n a : Nat) (h : n < fuel) :
    parse_hex_loop (to_hex_loop upper fuel n []) a
      = some (a * 16 ^ (to_hex_loop upper fuel n []).length + n) := by
  induction fuel generalizing n a with
  | zero => omega
  | succ fuel ih =>
    simp only [to_hex_loop]
    split
    · rename_i hn
      simp [parse_hex_loop, hex_value_hex_digit upper n hn]
    · rename_i hn
      rw [to_hex_loop_acc, parse_hex_loop_append, ih (n / 16) a (by omega)]
      simp only [Option.some_bind, parse_hex_loop,
        hex_value_hex_digit upper (n % 16) (Nat.mod_lt _ (by decide)), List.length_append,
        List.length_singleton, pow_succ]
      congr 1
      have := Nat.div_add_mod n 16
      nlinarith [Nat.div_add_mod n 16]

theorem to_hex_loop_length (upper : Bool) (fuel n k : Nat) (h : n < fuel) (hk : n < 16 ^ (k + 1)) :
    (to_hex_loop upper fuel n []).length ≤ k + 1 := by
  induction fuel generalizing n k with
  | zero => omega
  | succ fuel ih =>
    simp only [to_hex_loop]
    split
    · simp
    · rename_i hn
      rw [to_hex_loop_acc]
      cases k with
      | zero => simp at hk; omega
      | succ k =>
        have := ih (n / 16) k (by omega) (by rw [pow_succ] at hk; omega)
        simp; omega

theorem to_hex_loop_pos (upper : Bool) (fuel n : Nat) (h : n < fuel) :
    0 < (to_hex_loop upper fuel n []).length := by
  cases fuel with
  | zero => omega
  | succ fuel =>
    simp only [to_hex_loop]
    split
    · simp
    · rw [to_hex_loop_acc]; simp

theorem hex_value_lt (c : Char) (v : Nat) (h : hex_value c = some v) : v < 16 := by
  unfold hex_value at h
  split at h
  · rename_i hc
    obtain ⟨h1, h2⟩ := hc
    have h1 : ('0' : Char).toNat ≤ c.toNat := h1
    have h2 : c.toNat ≤ ('9' : Char).toNat := h2
    simp at h; simp at h1 h2; omega
  · split at h
    · rename_i hc
      obtain ⟨h1, h2⟩ := hc
      have h1 : ('a' : Char).toNat ≤ c.toNat := h1
      have h2 : c.toNat ≤ ('f' : Char).toNat := h2
      simp at h; simp at h1 h2; omega
    · split at h
      · rename_i hc
        obtain ⟨h1, h2⟩ := hc
        have h1 : ('A' : Char).toNat ≤ c.toNat := h1
        have h2 : c.toNat ≤ ('F' : Char).toNat := h2
        simp at h; simp at h1 h2; omega
      · simp at h

theorem to_hex_loop_mem (upper : Bool) (fuel n : Nat) (c : Char)
    (hc : c ∈ to_hex_loop upper fuel n []) : ∃ d, d < 16 ∧ c = hex_digit upper d := by
  induction fuel generalizing n with
  | zero => simp [to_hex_loop] at hc
  | succ fuel ih =>
    simp only [to_hex_loop] at hc
    split at hc
    · rename_i hn
      simp at hc; exact ⟨n, hn, hc⟩
    · rw [to_hex_loop_acc] at hc
      simp at hc
      rcases hc with hc | hc
      · exact ih _ hc
      · exact ⟨n % 16, Nat.mod_lt _ (by decide), hc⟩

theorem is_hex_parse (l : List Char) (h : is_hex l) (a : Nat) :
    ∃ n, parse_hex_loop l a = some n := by
  induction l generalizing a with
  | nil => exact ⟨a, rfl⟩
  | cons c cs ih =>
    obtain ⟨v, hv, _⟩ := h c (by simp)
    simp only [parse_hex_loop, hv]
    exact ih (fun c hc => h c (by simp [hc])) _

theorem parse_is_hex (l : List Char) (a n : Nat) (h : parse_hex_loop l a = some n) :
    is_hex l := by
  induction l generalizing a with
  | nil => intro c hc; simp at hc
  | cons c cs ih =>
    simp only [parse_hex_loop] at h
    cases hv : hex_value c with
    | none => simp [hv] at h
    | some v =>
      simp [hv] at h
      intro c' hc'
      simp at hc'
      rcases hc' with rfl | hc'
      · exact ⟨v, hv, hex_value_lt _ _ hv⟩
      · exact ih _ h c' hc'

theorem is_hex_append (l1 l2 : List Char) (h1 : is_hex l1) (h2 : is_hex l2) :
    is_hex (l1 ++ l2) := by
  intro c hc
  simp at hc
  rcases hc with hc | hc
  · exact h1 c hc
  · exact h2 c hc

theorem is_hex_replicate_zero (k : Nat) : is_hex (List.replicate k '0') := by
  intro c hc
  simp at hc
  rw [hc.2]
  exact ⟨0, by decide, by decide⟩

theorem is_hex_to_hex (upper : Bool) (n : Nat) : is_hex (to_hex upper n) := by
  intro c hc
  obtain ⟨d, hd, rfl⟩ := to_hex_loop_mem upper _ _ c hc
  exact ⟨d, hex_value_hex_digit upper d hd, hd⟩

theorem is_hex_setw (upper : Bool) (w n : Nat) : is_hex (setw_fill0 w (to_hex upper n)) :=
  is_hex_append _ _ (is_hex_replicate_zero _) (is_hex_to_hex upper n)

theorem parse_replicate_zero (k : Nat) (l : List Char) :
    parse_hex_loop (List.replicate k '0' ++ l) 0 = parse_hex_loop l 0 := by
  induction k with
  | zero => simp
  | succ k ih =>
    simp only [List.replicate_succ, List.cons_append, parse_hex_loop]
    have : hex_value '0' = some 0 := by decide
    simp [this, ih]

/-- Reading back a zero-filled hexadecimal field gives the number written. -/
theorem parse_setw_to_hex (upper : Bool) (w n : Nat) :
    parse_hex_loop (setw_fill0 w (to_hex upper n)) 0 = some n := by
  unfold setw_fill0 to_hex
  rw [parse_replicate_zero, parse_to_hex_loop upper (n + 1) n 0 (by omega)]
  simp

/-- A number below `16 ^ (k + 1)` fills a field of width `k + 1` exactly. -/
theorem setw_to_hex_length (upper : Bool) (k n : Nat) (h : n < 16 ^ (k + 1)) :
    (setw_fill0 (k + 1) (to_hex upper n)).length = k + 1 := by
  unfold setw_fill0 to_hex
  have := to_hex_loop_length upper (n + 1) n k (by omega) h
  simp; omega

/-! ## Lemmas on the signer's strings -/

theorem is_hex_GOSTCalc_hash (message : List Nat) : is_hex (GOSTCalc_hash message) := by
  intro c hc
  unfold GOSTCalc_hash at hc
  simp only [List.mem_flatten, List.mem_map] at hc
  obtain ⟨l, ⟨i, _, rfl⟩, hc⟩ := hc
  exact is_hex_setw true 2 _ c hc

/-- The string `"0x" + c.hash(message)` always converts to a `b_int`, and to a
non-negative one. -/
theorem b_int_0x_GOSTCalc_hash (message : List Nat) :
    ∃ e : Int, b_int_0x (GOSTCalc_hash message) = some e ∧ 0 ≤ e := by
  obtain ⟨n, hn⟩ := is_hex_parse _ (is_hex_GOSTCalc_hash message) 0
  exact ⟨n, by simp [b_int_0x, hn], by omega⟩

theorem b_int_0x_nonneg (l : List Char) (d : Int) (h : b_int_0x l = some d) : 0 ≤ d := by
  unfold b_int_0x at h
  cases hp : parse_hex_loop l 0 with
  | none => simp [hp] at h
  | some n => simp [hp] at h; omega

/-- The function `b_int_to_hex` on a number in `[0, 2^256)`: 64 digits that
read back as the number. -/
theorem b_int_to_hex_spec (x : Int) (h0 : 0 ≤ x) (h1 : x < 2 ^ 256) :
    ∃ h, b_int_to_hex x = some h ∧ h.length = 64 ∧ b_int_0x h = some x ∧ is_hex h ∧
      h = setw_fill0 64 (to_hex cpp_int_hex_uppercase x.toNat) := by
  refine ⟨setw_fill0 64 (to_hex cpp_int_hex_uppercase x.toNat), ?_, ?_, ?_, ?_, rfl⟩
  · simp [b_int_to_hex]; omega
  · apply setw_to_hex_length cpp_int_hex_uppercase 63
    have : (16:Nat) ^ (63 + 1) = 2 ^ 256 := by norm_num
    rw [this]
    zify
    rw [Int.toNat_of_nonneg h0]
    exact_mod_cast h1
  · simp [b_int_0x, parse_setw_to_hex, Int.toNat_of_nonneg h0]
  · exact is_hex_setw _ _ _

theorem q_lt : q < 2 ^ 256 := by unfold q; norm_num
theorem p_lt : p < 2 ^ 256 := by unfold p; norm_num

/-! ## Lemmas on `ECurvePoint` -/

theorem ECurvePoint.add_in_range (pp aa : Int) (hp : 0 < pp) (s t : ECurvePoint)
    (hs : s.in_range pp aa) (ht : t.in_range pp aa) : (s.add t).in_range pp aa := by
  obtain ⟨hs1, hs2, hs3, hs4, hs5, hs6⟩ := hs
  unfold ECurvePoint.add
  split
  · exact ⟨hs1, hs2, hs3, hs4, hs5, hs6⟩
  · split
    · exact ht
    · split
      · exact ⟨hs1, hs2, hs3, hs4, hs5, hs6⟩
      · split
        · refine ⟨hs1, hs2, ?_, ?_, ?_, ?_⟩ <;> simp only [hs1]
          · exact modul_nonneg _ _ hp
          · exact modul_lt _ _ hp
          · exact modul_nonneg _ _ hp
          · exact modul_lt _ _ hp
        · refine ⟨hs1, hs2, ?_, ?_, ?_, ?_⟩ <;> simp only [hs1]
          · exact modul_nonneg _ _ hp
          · exact modul_lt _ _ hp
          · exact modul_nonneg _ _ hp
          · exact modul_lt _ _ hp

theorem ECurvePoint.mul_loop_in_range (pp aa : Int) (hp : 0 < pp) (fuel : Nat)
    (result point : ECurvePoint) (n : Int)
    (hr : result.in_range pp aa) (hpt : point.in_range pp aa) :
    (ECurvePoint.mul_loop fuel result point n).in_range pp aa := by
  induction fuel generalizing result point n with
  | zero => exact hr
  | succ fuel ih =>
    simp only [ECurvePoint.mul_loop]
    split
    · apply ih
      · split
        · exact ECurvePoint.add_in_range pp aa hp _ _ hr hpt
        · exact hr
      · exact ECurvePoint.add_in_range pp aa hp _ _ hpt hpt
    · exact hr

theorem ECurvePoint.mul_in_range (pp aa : Int) (hp : 0 < pp) (pt : ECurvePoint) (k : Int)
    (hpt : pt.in_range pp aa) : (pt.mul k).in_range pp aa := by
  unfold ECurvePoint.mul
  apply ECurvePoint.mul_loop_in_range pp aa hp _ _ _ _ _ hpt
  obtain ⟨h1, h2, _⟩ := hpt
  exact ⟨h1, h2, le_refl _, hp, le_refl _, hp⟩

theorem P_in_range : P.in_range p a := by
  unfold ECurvePoint.in_range; decide

theorem ECurvePoint.mul_zero (pt : ECurvePoint) :
    pt.mul 0 = { x := 0, y := 0, p := pt.p, a := pt.a, is_O := true } := by
  simp [ECurvePoint.mul, ECurvePoint.mul_loop]

/-! ## Lemmas on the incremental hash -/

theorem transform_core_eq (ctx : GOSTHASH_CTX) (input : List Nat) :
    (GOSThashTransform ctx input).core = transform_core ctx.core input := by
  simp [transform_core, GOSThashTransform, GOSTHASH_CTX.core]

theorem transform_buffer (ctx : GOSTHASH_CTX) (input : List Nat) :
    (GOSThashTransform ctx input).buffer = ctx.buffer := by
  simp [GOSThashTransform]

theorem transform_datalen0 (ctx : GOSTHASH_CTX) (input : List Nat) :
    (GOSThashTransform ctx input).datalen0 = ctx.datalen0 := by
  simp [GOSThashTransform]

theorem transform_datalen1 (ctx : GOSTHASH_CTX) (input : List Nat) :
    (GOSThashTransform ctx input).datalen1 = ctx.datalen1 := by
  simp [GOSThashTransform]

/-- Only the first 32 bytes at `input` are read. -/
theorem transform_core_take (k : List Nat × List Nat × gost_ctx) (input : List Nat) :
    transform_core k (input.take 32) = transform_core k input := by
  simp [transform_core, GOSThashTransform, GOST_HASH_BLOCK_BYTES_SZ, List.take_take]

theorem transform_core_append (k : List Nat × List Nat × gost_ctx) (blk rest : List Nat)
    (h : blk.length = 32) : transform_core k (blk ++ rest) = transform_core k blk := by
  rw [← transform_core_take k (blk ++ rest), List.take_append_of_le_length (by omega),
    List.take_of_length_le (by omega)]

/-- The loop of `GOSThash_Update` runs `GOSThashTransform` over the whole
blocks left from offset `i` on. -/
theorem Update_loop_eq (fuel : Nat) (ctx : GOSTHASH_CTX) (input : List Nat) (inputLen i : Nat)
    (hi : i ≤ inputLen) (hlen : inputLen < 2 ^ 31) (hfuel : (inputLen - i) / 32 < fuel) :
    let r := GOSThash_Update_loop fuel ctx input inputLen i
    r.1.core = absorb_core ((inputLen - i) / 32) ctx.core (input.drop i) ∧
    r.1.buffer = ctx.buffer ∧ r.1.datalen0 = ctx.datalen0 ∧ r.1.datalen1 = ctx.datalen1 ∧
    r.2 = i + 32 * ((inputLen - i) / 32) := by
  induction fuel generalizing ctx i with
  | zero => omega
  | succ fuel ih =>
    simp only [GOSThash_Update_loop, GOST_HASH_BLOCK_BYTES_SZ, u32]
    have h1 : (i + 32 - 1) % 4294967296 = i + 31 := by omega
    rw [h1]
    split
    · rename_i hc
      have h2 : (i + 32) % 4294967296 = i + 32 := by omega
      rw [h2]
      have h3 : (inputLen - i) / 32 = (inputLen - (i + 32)) / 32 + 1 := by omega
      obtain ⟨e1, e2, e3, e4, e5⟩ := ih (GOSThashTransform ctx (List.drop i input)) (i + 32)
        (by omega) (by omega)
      refine ⟨?_, ?_, ?_, ?_, ?_⟩
      · rw [e1, h3, transform_core_eq]
        simp only [absorb_core, List.drop_drop]
      · rw [e2, transform_buffer]
      · rw [e3, transform_datalen0]
      · rw [e4, transform_datalen1]
      · rw [e5]; omega
    · rename_i hc
      have h3 : (inputLen - i) / 32 = 0 := by omega
      simp [h3, absorb_core]

theorem index_eq (ctx : GOSTHASH_CTX) : ctx.index = ctx.datalen0 / 8 % 32 := by
  unfold GOSTHASH_CTX.index GOST_HASH_BLOCK_BYTES_SZ
  rw [Nat.shiftRight_eq_div_pow]
  exact Nat.and_pow_two_sub_one_eq_mod _ 5

theorem index_lt (ctx : GOSTHASH_CTX) : ctx.index < 32 := by
  rw [index_eq]; omega

/-- What `GOSThash_Update` does to a context whose buffer holds `index` waiting
bytes, for an input shorter than `2 ^ 29` bytes: the whole blocks of the waiting
bytes followed by the input are transformed in order, the rest waits in the
buffer, and the bit count grows by eight times the length. -/
theorem Update_spec (ctx : GOSTHASH_CTX) (input : List Nat)
    (hidx : ctx.index ≤ ctx.buffer.length) (hlen : input.length < 2 ^ 29) :
    let c := GOSThash_Update ctx input input.length
    c.core = absorb_core ((ctx.index + input.length) / 32) ctx.core
          (ctx.buffer.take ctx.index ++ input) ∧
    c.datalen0 = (ctx.datalen0 + 8 * input.length) % 4294967296 ∧
    c.datalen1 = (if (ctx.datalen0 + 8 * input.length) % 4294967296 < 8 * input.length
      then (ctx.datalen1 + 1) % 4294967296 else ctx.datalen1) % 4294967296 ∧
    c.buffer.take ((ctx.index + input.length) % 32)
      = (ctx.buffer.take ctx.index ++ input).drop (32 * ((ctx.index + input.length) / 32)) ∧
    (ctx.index + input.length) % 32 ≤ c.buffer.length := by
  have hi := index_lt ctx
  have hi2 : (ctx.datalen0 >>> 3) &&& (32 - 1) = ctx.index := rfl
  have hsl : input.length <<< 3 = 8 * input.length := by rw [Nat.shiftLeft_eq]; omega
  have hsr : input.length >>> 29 = 0 := by
    rw [Nat.shiftRight_eq_div_pow]; exact Nat.div_eq_of_lt hlen
  have hu : u32 (8 * input.length) = 8 * input.length := by unfold u32; omega
  have hpl : (ctx.buffer.take ctx.index).length = ctx.index := by
    rw [List.length_take]; omega
  simp only [GOSThash_Update, hi2, hsl, hsr, hu, GOST_HASH_BLOCK_BYTES_SZ]
  split
  · rename_i hge
    generalize hc2 : GOSThashTransform _ _ = c2
    have hbuf : (memcpy ctx.buffer ctx.index input (32 - ctx.index)).take 32
        = (ctx.buffer.take ctx.index ++ input).take 32 := by
      unfold memcpy
      rw [List.append_assoc, List.take_append_eq_append_take, List.take_append_eq_append_take,
        @List.take_append_eq_append_take _ (List.take ctx.index ctx.buffer)]
      simp only [hpl, List.length_take]
      have : min (32 - ctx.index) input.length = 32 - ctx.index := by omega
      rw [this, List.take_take]
      have h0 : 32 - ctx.index - (32 - ctx.index) = 0 := by omega
      rw [h0]
      simp
    have hcore : c2.core = transform_core ctx.core (ctx.buffer.take ctx.index ++ input) := by
      rw [← hc2, transform_core_eq, ← transform_core_take, hbuf, transform_core_take]
      rfl
    have hd0 : c2.datalen0 = u32 (ctx.datalen0 + 8 * input.length) := by rw [← hc2]; rfl
    have hd1 : c2.datalen1 = u32 ((if u32 (ctx.datalen0 + 8 * input.length) < 8 * input.length
        then u32 (ctx.datalen1 + 1) else ctx.datalen1) + 0) := by rw [← hc2]; rfl
    obtain ⟨e1, e2, e3, e4, e5⟩ := Update_loop_eq (input.length / 32 + 1) c2 input input.length
      (32 - ctx.index) hge (by omega) (by omega)
    have hq : (ctx.index + input.length) / 32 = (input.length - (32 - ctx.index)) / 32 + 1 := by
      omega
    refine ⟨?_, ?_, ?_, ?_, ?_⟩
    · show (GOSThash_Update_loop _ c2 input input.length (32 - ctx.index)).1.core = _
      rw [e1, hq, hcore]
      simp only [absorb_core]
      congr 1
      rw [List.drop_append_eq_append_drop, hpl]
      have : List.drop 32 (List.take ctx.index ctx.buffer) = [] := by
        apply List.drop_eq_nil_of_le; omega
      rw [this]; rfl
    · show (GOSThash_Update_loop _ c2 input input.length (32 - ctx.index)).1.datalen0 = _
      rw [e3, hd0]; rfl
    · show (GOSThash_Update_loop _ c2 input input.length (32 - ctx.index)).1.datalen1 = _
      rw [e4, hd1]; simp only [u32, Nat.add_zero]
    · simp only [e5]
      unfold memcpy
      simp only [List.take_zero, List.nil_append, Nat.zero_add]
      have hr : input.length - (32 - ctx.index + 32 * ((input.length - (32 - ctx.index)) / 32))
          = (ctx.index + input.length) % 32 := by omega
      rw [hr, List.drop_append_eq_append_drop, hpl]
      have h1 : List.drop (32 * ((ctx.index + input.length) / 32)) (List.take ctx.index ctx.buffer)
          = [] := by apply List.drop_eq_nil_of_le; rw [hpl]; omega
      have h2 : 32 * ((ctx.index + input.length) / 32) - ctx.index
          = 32 - ctx.index + 32 * ((input.length - (32 - ctx.index)) / 32) := by omega
      rw [h1, h2, List.nil_append]
      have h3 : (List.drop (32 - ctx.index + 32 * ((input.length - (32 - ctx.index)) / 32))
          input).length = (ctx.index + input.length) % 32 := by
        rw [List.length_drop]; omega
      rw [List.take_append_of_le_length (by rw [List.length_take]; omega), List.take_take,
        Nat.min_self, List.take_of_length_le (by omega)]
    · simp only [e5]
      unfold memcpy
      simp only [List.length_append, List.length_take, List.length_drop]
      omega
  · rename_i hlt
    have hq : (ctx.index + input.length) / 32 = 0 := by omega
    have hr : (ctx.index + input.length) % 32 = ctx.index + input.length := by omega
    refine ⟨?_, ?_, ?_, ?_, ?_⟩
    · rw [hq]; rfl
    · rfl
    · simp only [u32, Nat.add_zero]
    · rw [hq, hr]
      unfold memcpy
      simp only [Nat.mul_zero, List.drop_zero]
      rw [List.take_of_length_le (l := input) (by omega),
        List.take_append_of_le_length (by simp [hpl]),
        List.take_of_length_le (by simp [hpl])]
    · rw [hr]
      unfold memcpy
      simp only [List.length_append, List.length_take, List.length_drop]
      omega


theorem Update_index (ctx : GOSTHASH_CTX) (input : List Nat)
    (hidx : ctx.index ≤ ctx.buffer.length) (hlen : input.length < 2 ^ 29) :
    (GOSThash_Update ctx input input.length).index = (ctx.index + input.length) % 32 := by
  obtain ⟨_, h, _⟩ := Update_spec ctx input hidx hlen
  rw [index_eq, index_eq, h]
  omega

/-- The digest of `GOSThash_Final` depends on the context only through
`(Hi, Z, gost_enc_ctx)`, the bit count and the bytes waiting in the buffer. -/
theorem Final_eq (ctx : GOSTHASH_CTX) (hidx : ctx.index ≤ ctx.buffer.length) :
    (GOSThash_Final ctx).2
      = final_core ctx.core ctx.datalen0 ctx.datalen1 (ctx.buffer.take ctx.index) := by
  have hi := index_lt ctx
  have hi2 : (ctx.datalen0 >>> 3) &&& (32 - 1) = ctx.index := rfl
  have hpl : (ctx.buffer.take ctx.index).length = ctx.index := by
    rw [List.length_take]; omega
  simp only [GOSThash_Final, final_core, GOST_HASH_BLOCK_BYTES_SZ, hi2, hpl]
  split
  · rename_i hpos
    have hbuf : (memcpy ctx.buffer ctx.index (List.replicate (32 - ctx.index) 0)
        (32 - ctx.index)).take 32
        = ctx.buffer.take ctx.index ++ List.replicate (32 - ctx.index) 0 := by
      unfold memcpy
      rw [List.take_of_length_le (l := List.replicate (32 - ctx.index) 0) (by simp),
        List.take_append_of_le_length (by simp [hpl]; omega),
        List.take_of_length_le (by simp [hpl]; omega)]
    generalize hc2 : GOSThashTransform _ _ = c2
    have hcore : c2.core = transform_core ctx.core
        (ctx.buffer.take ctx.index ++ List.replicate (32 - ctx.index) 0) := by
      rw [← hc2, transform_core_eq, ← transform_core_take, hbuf]
      rfl
    have hd0 : c2.datalen0 = ctx.datalen0 := by rw [← hc2]; rfl
    have hd1 : c2.datalen1 = ctx.datalen1 := by rw [← hc2]; rfl
    rw [← hcore, hd0, hd1]
    rfl
  · rfl

theorem absorb_core_append (n : Nat) (k : List Nat × List Nat × gost_ctx) (X Y : List Nat)
    (hn : n = X.length / 32) :
    absorb_core ((X.length + Y.length) / 32) k (X ++ Y)
      = absorb_core ((X.length % 32 + Y.length) / 32) (absorb_core n k X)
          (X.drop (32 * n) ++ Y) := by
  induction n generalizing k X with
  | zero =>
    have h1 : X.length % 32 = X.length := by omega
    simp [h1, absorb_core]
  | succ n ih =>
    have hX : 32 ≤ X.length := by omega
    have h1 : (X.length + Y.length) / 32 = ((X.drop 32).length + Y.length) / 32 + 1 := by
      rw [List.length_drop]; omega
    have h2 : transform_core k (X ++ Y) = transform_core k X := by
      rw [← transform_core_take k (X ++ Y), List.take_append_of_le_length hX,
        transform_core_take]
    have h3 : (X ++ Y).drop 32 = X.drop 32 ++ Y := List.drop_append_of_le_length hX
    rw [h1]
    simp only [absorb_core]
    rw [h2, h3, ih _ (X.drop 32) (by rw [List.length_drop]; omega), List.drop_drop]
    have h4 : (X.drop 32).length % 32 = X.length % 32 := by rw [List.length_drop]; omega
    have h5 : 32 + 32 * n = 32 * (n + 1) := by ring
    rw [h4, h5]

theorem Init_index (ctx : GOSTHASH_CTX) : (GOSThash_Init ctx).index = 0 := by
  simp [GOSThash_Init, GOSTHASH_CTX.index]

theorem Init_datalen0 (ctx : GOSTHASH_CTX) : (GOSThash_Init ctx).datalen0 = 0 := by
  simp [GOSThash_Init]

theorem Init_datalen1 (ctx : GOSTHASH_CTX) : (GOSThash_Init ctx).datalen1 = 0 := by
  simp [GOSThash_Init]

/-! ## C10 -/

/-- C10: hash split invariance.  For every context memory, every byte string
and every split of it into `A` and `B` with `|A| + |B| < 2^29` (so that no
32-bit length arithmetic wraps), `GOSThash_Init; GOSThash_Update(A);
GOSThash_Update(B); GOSThash_Final` yields the same digest as `GOSThash_Init;
GOSThash_Update(A ‖ B); GOSThash_Final`. -/
theorem GOSThash_split_invariance (ctx : GOSTHASH_CTX) (A B : List Nat)
    (hlen : A.length + B.length < 2 ^ 29) :
    (GOSThash_Final (GOSThash_Update (GOSThash_Update (GOSThash_Init ctx) A A.length) B
        B.length)).2
      = (GOSThash_Final (GOSThash_Update (GOSThash_Init ctx) (A ++ B) (A ++ B).length)).2 := by
  have h0 := Init_index ctx
  have hA : A.length < 2 ^ 29 := by omega
  have hB : B.length < 2 ^ 29 := by omega
  have hAB : (A ++ B).length < 2 ^ 29 := by rw [List.length_append]; omega
  have hi0 : (GOSThash_Init ctx).index ≤ (GOSThash_Init ctx).buffer.length := by omega
  obtain ⟨a1, a2, a3, a4, a5⟩ := Update_spec (GOSThash_Init ctx) A hi0 hA
  have ai := Update_index (GOSThash_Init ctx) A hi0 hA
  obtain ⟨m1, m2, m3, m4, m5⟩ := Update_spec (GOSThash_Init ctx) (A ++ B) hi0 hAB
  have mi := Update_index (GOSThash_Init ctx) (A ++ B) hi0 hAB
  simp only [h0, Nat.zero_add, List.take_zero, List.nil_append, Init_datalen0,
    Init_datalen1] at a1 a2 a3 a4 a5 ai m1 m2 m3 m4 m5 mi
  generalize GOSThash_Update (GOSThash_Init ctx) A A.length = cA at a1 a2 a3 a4 a5 ai ⊢
  generalize GOSThash_Update (GOSThash_Init ctx) (A ++ B) (A ++ B).length = cM
    at m1 m2 m3 m4 m5 mi ⊢
  have hiA : cA.index ≤ cA.buffer.length := by rw [ai]; exact a5
  obtain ⟨b1, b2, b3, b4, b5⟩ := Update_spec cA B hiA hB
  have bi := Update_index cA B hiA hB
  generalize GOSThash_Update cA B B.length = cAB at b1 b2 b3 b4 b5 bi ⊢
  simp only [ai] at b1 b4 b5 bi
  rw [a4] at b1 b4
  have hsum : (A.length % 32 + B.length) % 32 = (A.length + B.length) % 32 := by omega
  have hquo : (A.length + B.length) / 32 = A.length / 32 + (A.length % 32 + B.length) / 32 := by
    omega
  rw [hsum] at b4 b5 bi
  rw [List.length_append] at m1 m3 m4 m5 mi m2
  rw [Final_eq cAB (by rw [bi]; exact b5), Final_eq cM (by rw [mi]; exact m5), bi, mi, b4, m4]
  have hcore : cAB.core = cM.core := by
    rw [b1, m1, a1, absorb_core_append (A.length / 32) _ A B rfl]
  have hd0 : cAB.datalen0 = cM.datalen0 := by
    rw [b2, m2, a2]; omega
  have hd1 : cAB.datalen1 = cM.datalen1 := by
    rw [b3, m3, a3, a2]
    split <;> split <;> split <;> omega
  have hpend : List.drop (32 * ((A.length % 32 + B.length) / 32))
      (List.drop (32 * (A.length / 32)) A ++ B)
      = List.drop (32 * ((A.length + B.length) / 32)) (A ++ B) := by
    rw [hquo, Nat.mul_add, ← List.drop_drop,
      @List.drop_append_of_le_length _ A _ _ (by omega)]
  rw [hcore, hd0, hd1, hpend]

/-- C10 (witness): a message of 70 bytes split after byte 40, the first update
ending inside the second block. -/
theorem GOSThash_split_invariance_witness :
    (GOSThash_Final (GOSThash_Update (GOSThash_Update (GOSThash_Init GOSTHASH_CTX_local)
        (List.range 40) (List.range 40).length) (List.replicate 30 9)
        (List.replicate 30 9).length)).2
      = (GOSThash_Final (GOSThash_Update (GOSThash_Init GOSTHASH_CTX_local)
        (List.range 40 ++ List.replicate 30 9) (List.range 40 ++ List.replicate 30 9).length)).2 :=
  GOSThash_split_invariance GOSTHASH_CTX_local (List.range 40) (List.replicate 30 9)
    (by simp)

/-! ## The hash computed on named bytes and packed S-boxes -/

theorem getD_map_range (g : Nat → Nat) (n i : Nat) (h : i < n) :
    ((List.range n).map g).getD i 0 = g i := by
  rw [List.getD_eq_getElem _ _ (by simpa using h)]
  simp

theorem kboxinit_has_kbox (c : gost_ctx) (kbox : KBOX) : (kboxinit c kbox).has_kbox kbox :=
  ⟨rfl, rfl, rfl, rfl⟩

theorem fi_k_eq (src : List Nat) : fi_k src = GOSThash_fi src := by
  unfold fi_k
  split <;> rfl

theorem P_k_eq (src : List Nat) : P_k src = GOSThash_P src := by
  unfold P_k
  split <;> rfl

theorem A_k_eq (src : List Nat) : A_k src = GOSThash_A src := by
  unfold A_k
  split <;> rfl

theorem key_k_eq (key : List Nat) : key_k key = (List.range 8).map fun i => c2l key (4 * i) := by
  unfold key_k
  split <;> rfl

theorem xor_k_eq (src1 src2 : List Nat) (len : Nat) :
    xor_k src1 src2 len = GOSThash_xorstr src1 src2 len := by
  unfold xor_k
  split
  · rename_i h
    obtain ⟨h1, h2⟩ := h
    unfold GOSThash_xorstr
    apply List.ext_getElem
    · simp [h1, h2]
    · intro i hi1 hi2
      simp only [List.length_zipWith, h1, h2, Nat.min_self] at hi1
      simp only [List.getElem_zipWith, List.getElem_map, List.getElem_range]
      rw [List.getD_eq_getElem _ _ (by omega), List.getD_eq_getElem _ _ (by omega)]
  · rfl

theorem sumstr_k_eq (dst src : List Nat) : sumstr_k dst src = GOSThash_sumstr dst src 32 := by
  unfold sumstr_k GOSThash_sumstr
  rw [key_k_eq, key_k_eq]

/-- The S-boxes of the hash, each packed into one number. -/
theorem example_kbox_packed (j : Nat) (hj : j < 16) :
    GOSThash_example_kbox.k1.getD j 0 = sbox 0x35f7c1b6e08d29a4 j ∧
    GOSThash_example_kbox.k2.getD j 0 = sbox 0x95701832afd6c4be j ∧
    GOSThash_example_kbox.k3.getD j 0 = sbox 0xb9067cfe243ad185 j ∧
    GOSThash_example_kbox.k4.getD j 0 = sbox 0x352bc64ef9801ad7 j ∧
    GOSThash_example_kbox.k5.getD j 0 = sbox 0x2b30e9a48df517c6 j ∧
    GOSThash_example_kbox.k6.getD j 0 = sbox 0xefc95863d1270ab4 j ∧
    GOSThash_example_kbox.k7.getD j 0 = sbox 0xc2867ea095f314bd j ∧
    GOSThash_example_kbox.k8.getD j 0 = sbox 0xc8b6e3294a750df1 j := by
  interval_cases j <;> decide

theorem byte_index (y : Nat) : y &&& 255 < 256 ∧ (y &&& 255) >>> 4 < 16 ∧
    (y &&& 255) &&& 15 < 16 := by
  have h1 : y &&& 255 < 256 := Nat.lt_succ_of_le Nat.and_le_right
  refine ⟨h1, ?_, Nat.lt_succ_of_le Nat.and_le_right⟩
  rw [Nat.shiftRight_eq_div_pow]
  omega

/-- The round function of a context built from the S-boxes of the hash. -/
theorem f_p_eq (c : gost_ctx) (h : c.has_kbox GOSThash_example_kbox) (x : Nat) :
    f c x = f_p x := by
  obtain ⟨h1, h2, h3, h4⟩ := h
  obtain ⟨a1, a2, a3⟩ := byte_index (x >>> 24)
  obtain ⟨b1, b2, b3⟩ := byte_index (x >>> 16)
  obtain ⟨c1, c2, c3⟩ := byte_index (x >>> 8)
  obtain ⟨d1, d2, d3⟩ := byte_index x
  unfold f f_p
  rw [h1, h2, h3, h4, getD_map_range _ _ _ a1, getD_map_range _ _ _ b1,
    getD_map_range _ _ _ c1, getD_map_range _ _ _ d1]
  simp only [k87_entry, k65_entry, k43_entry, k21_entry,
    (example_kbox_packed _ a2).2.2.2.2.2.2.2, (example_kbox_packed _ a3).2.2.2.2.2.2.1,
    (example_kbox_packed _ b2).2.2.2.2.2.1, (example_kbox_packed _ b3).2.2.2.2.1,
    (example_kbox_packed _ c2).2.2.2.1, (example_kbox_packed _ c3).2.2.1,
    (example_kbox_packed _ d2).2.1, (example_kbox_packed _ d3).1]

theorem gost_round2_F (c : gost_ctx) (F : Nat → Nat) (h : ∀ x, f c x = F x) (i j : Nat)
    (n : Nat × Nat) : gost_round2 c i j n = round2_F F c.key i j n := by
  simp only [gost_round2, round2_F, h]

theorem gost_encrypt_F (c : gost_ctx) (F : Nat → Nat) (h : ∀ x, f c x = F x) (src : List Nat) :
    gost_encrypt src c true = encrypt_F F c.key src := by
  simp only [gost_encrypt, encrypt_F, gost_pass_up, gost_pass_down, pass_up_F, pass_down_F,
    gost_round2_F c F h, if_true]

theorem keygen_loop_F_eq (n : Nat) (U V : List Nat) (i : Nat) :
    keygen_loop_F n U V i = GOSThash_keygen_loop n U V i := by
  induction n generalizing U V i with
  | zero => rfl
  | succ n ih =>
    simp only [keygen_loop_F, GOSThash_keygen_loop, xor_k_eq, P_k_eq, A_k_eq, ih]

theorem mix_F_eq (Hi_1 Si Mi : List Nat) :
    mix_F Hi_1 Si Mi = GOSThash_mixtransformation Hi_1 Si Mi := by
  have hfi : fi_k = GOSThash_fi := funext fi_k_eq
  simp only [mix_F, GOSThash_mixtransformation, xor_k_eq, hfi]

theorem enctransform_F_eq (c : gost_ctx) (F : Nat → Nat) (h : ∀ x, f c x = F x)
    (H : List Nat) (K : List (List Nat)) :
    (GOSThash_enctransform H K c).1 = enctransform_F F H K ∧
      (∀ x, f (GOSThash_enctransform H K c).2 x = F x) := by
  have hr : List.range 4 = [0, 1, 2, 3] := rfl
  have hk : ∀ (c2 : gost_ctx) (key : List Nat) (x : Nat),
      f (gost_set_key c2 key) x = f c2 x := fun _ _ _ => rfl
  have e : ∀ (c2 : gost_ctx) (i : Nat), (∀ x, f c2 x = F x) →
      gost_encrypt (H.drop (8 * i)) (gost_set_key c2 (K.getD i [])) true
        = encrypt_F F (key_k (K.getD i [])) (H.drop (8 * i)) := by
    intro c2 i h2
    rw [gost_encrypt_F _ F (fun x => (hk c2 _ x).trans (h2 x)), key_k_eq]
    rfl
  have h0 : ∀ x, f (gost_set_key c (K.getD 0 [])) x = F x := fun x => (hk _ _ x).trans (h x)
  have h1 : ∀ x, f (gost_set_key (gost_set_key c (K.getD 0 [])) (K.getD 1 [])) x = F x :=
    fun x => (hk _ _ x).trans (h0 x)
  have h2 : ∀ x, f (gost_set_key (gost_set_key (gost_set_key c (K.getD 0 [])) (K.getD 1 []))
      (K.getD 2 [])) x = F x := fun x => (hk _ _ x).trans (h1 x)
  have h3 : ∀ x, f (gost_set_key (gost_set_key (gost_set_key (gost_set_key c (K.getD 0 []))
      (K.getD 1 [])) (K.getD 2 [])) (K.getD 3 [])) x = F x := fun x => (hk _ _ x).trans (h2 x)
  simp only [GOSThash_enctransform, enctransform_F, hr, List.foldl]
  refine ⟨?_, h3⟩
  rw [e _ 0 h, e _ 1 h0, e _ 2 h1, e _ 3 h2]

theorem step_F_eq (c : gost_ctx) (F : Nat → Nat) (h : ∀ x, f c x = F x) (Hi_1 Mi : List Nat) :
    (GOSThash_steptransformation Hi_1 Mi c).1 = step_F F Hi_1 Mi ∧
      (∀ x, f (GOSThash_steptransformation Hi_1 Mi c).2 x = F x) := by
  obtain ⟨e1, e2⟩ := enctransform_F_eq c F h Hi_1 (GOSThash_keygen Hi_1 Mi)
  refine ⟨?_, e2⟩
  simp only [GOSThash_steptransformation, step_F, e1, mix_F_eq]
  rw [keygen_loop_F_eq]
  rfl

theorem transform_core_F (F : Nat → Nat) (k : List Nat × List Nat × gost_ctx)
    (h : ∀ x, f k.2.2 x = F x) (input : List Nat) :
    ((transform_core k input).1, (transform_core k input).2.1)
        = transform_F F (k.1, k.2.1) input ∧
      (∀ x, f (transform_core k input).2.2 x = F x) := by
  obtain ⟨e1, e2⟩ := step_F_eq k.2.2 F h k.1 (input.take 32)
  refine ⟨?_, e2⟩
  simp only [transform_core, GOSThashTransform, GOSTHASH_CTX.core, transform_F,
    GOST_HASH_BLOCK_BYTES_SZ, e1, sumstr_k_eq]

theorem absorb_core_F (F : Nat → Nat) (n : Nat) (k : List Nat × List Nat × gost_ctx)
    (h : ∀ x, f k.2.2 x = F x) (data : List Nat) :
    ((absorb_core n k data).1, (absorb_core n k data).2.1)
        = absorb_F F n (k.1, k.2.1) data ∧
      (∀ x, f (absorb_core n k data).2.2 x = F x) := by
  induction n generalizing k data with
  | zero => exact ⟨rfl, h⟩
  | succ n ih =>
    obtain ⟨e1, e2⟩ := transform_core_F F k h data
    simp only [absorb_core, absorb_F]
    rw [← e1]
    exact ih _ e2 _

theorem final_core_F (F : Nat → Nat) (k : List Nat × List Nat × gost_ctx)
    (h : ∀ x, f k.2.2 x = F x) (datalen0 datalen1 : Nat) (pending : List Nat) :
    final_core k datalen0 datalen1 pending
      = final_F F (k.1, k.2.1) datalen0 datalen1 pending := by
  unfold final_core final_F
  by_cases hp : pending.length > 0
  · obtain ⟨e1, e2⟩ := transform_core_F F k h
      (pending ++ List.replicate (32 - pending.length) 0)
    simp only [hp, if_true]
    obtain ⟨s1, s2⟩ := step_F_eq _ F e2
      (transform_core k (pending ++ List.replicate (32 - pending.length) 0)).1
      (memcpy (List.replicate 32 0) 0 (l2c datalen0 ++ l2c datalen1) 8)
    obtain ⟨t1, _⟩ := step_F_eq _ F s2
      (GOSThash_steptransformation
        (transform_core k (pending ++ List.replicate (32 - pending.length) 0)).1
        (memcpy (List.replicate 32 0) 0 (l2c datalen0 ++ l2c datalen1) 8)
        (transform_core k (pending ++ List.replicate (32 - pending.length) 0)).2.2).1
      (transform_core k (pending ++ List.replicate (32 - pending.length) 0)).2.1
    rw [t1, s1, ← e1]
  · simp only [hp, if_false]
    obtain ⟨s1, s2⟩ := step_F_eq _ F h k.1
      (memcpy (List.replicate 32 0) 0 (l2c datalen0 ++ l2c datalen1) 8)
    obtain ⟨t1, _⟩ := step_F_eq _ F s2
      (GOSThash_steptransformation k.1
        (memcpy (List.replicate 32 0) 0 (l2c datalen0 ++ l2c datalen1) 8) k.2.2).1 k.2.1
    rw [t1, s1]

/-- The digest of `GOSTCalc::hash` for a message shorter than `2 ^ 29` bytes is
the one `digest_F` computes. -/
theorem GOSTCalc_digest_eq (message : List Nat) (hlen : message.length < 2 ^ 29) :
    GOSTCalc_digest message = digest_F message := by
  have h0 := Init_index GOSTHASH_CTX_local
  have hi0 : (GOSThash_Init GOSTHASH_CTX_local).index
      ≤ (GOSThash_Init GOSTHASH_CTX_local).buffer.length := by omega
  obtain ⟨m1, m2, m3, m4, m5⟩ := Update_spec (GOSThash_Init GOSTHASH_CTX_local) message hi0 hlen
  have mi := Update_index (GOSThash_Init GOSTHASH_CTX_local) message hi0 hlen
  simp only [h0, Nat.zero_add, List.take_zero, List.nil_append, Init_datalen0,
    Init_datalen1] at m1 m2 m3 m4 m5 mi
  have hu : u32 message.length = message.length := by unfold u32; omega
  unfold GOSTCalc_digest
  simp only [hu]
  generalize GOSThash_Update (GOSThash_Init GOSTHASH_CTX_local) message message.length = cM
    at m1 m2 m3 m4 m5 mi ⊢
  rw [Final_eq cM (by rw [mi]; exact m5), mi, m4, m1, m2, m3]
  have hk : ∀ x, f (GOSThash_Init GOSTHASH_CTX_local).core.2.2 x = f_p x :=
    f_p_eq _ (kboxinit_has_kbox _ _)
  obtain ⟨a1, a2⟩ := absorb_core_F f_p (message.length / 32) _ hk message
  rw [final_core_F f_p _ a2, a1]
  have hd0 : 8 * message.length % 4294967296 = 8 * message.length := by omega
  have hd1 : (if 8 * message.length < 8 * message.length
      then 1 % 4294967296 else 0) % 4294967296 = 0 := by simp
  rw [hd0, hd1]
  rfl

set_option maxRecDepth 1000000 in
/-- The digest of the first test message, as `digest_F` computes it. -/
theorem digest_F_example1 : digest_F GOSThash_example1_M = GOSThash_example1_Hash := by
  decide!

set_option maxRecDepth 1000000 in
/-- The digest of the second test message, as `digest_F` computes it. -/
theorem digest_F_example2 : digest_F GOSThash_example2_M = GOSThash_example2_Hash := by
  decide!

set_option maxRecDepth 1000000 in
/-- The digest of `device:ABCDEF`, as `digest_F` computes it. -/
theorem digest_F_device : digest_F msg_device
    = [86, 95, 73, 139, 39, 242, 126, 161, 209, 129, 193, 152, 237, 9, 219, 241,
       158, 188, 158, 76, 96, 39, 226, 241, 77, 6, 181, 228, 106, 95, 41, 67] := by
  decide!

/-! ## Lemmas on `extended_euclid` and `inverse` -/

/-- The loop of `extended_euclid` on non-negative `a`, `b`, started with
coefficients that express `a` and `b` in `a0`, `b0`: it ends within `b + 1`
iterations with the gcd and coefficients that express it. -/
theorem extended_euclid_loop_spec (fuel : Nat) (a b x2 x1 y2 y1 a0 b0 : Int)
    (ha : 0 ≤ a) (hb : 0 ≤ b) (hfuel : b.toNat < fuel)
    (h2 : a = a0 * x2 + b0 * y2) (h1 : b = a0 * x1 + b0 * y1) :
    (extended_euclid_loop fuel a b x2 x1 y2 y1).1
        = a0 * (extended_euclid_loop fuel a b x2 x1 y2 y1).2.1
          + b0 * (extended_euclid_loop fuel a b x2 x1 y2 y1).2.2 ∧
      (extended_euclid_loop fuel a b x2 x1 y2 y1).1 = (Nat.gcd a.toNat b.toNat : Int) := by
  induction fuel generalizing a b x2 x1 y2 y1 with
  | zero => omega
  | succ fuel ih =>
    simp only [extended_euclid_loop]
    split
    · rename_i hpos
      have hq : Int.tdiv a b = a / b := Int.tdiv_eq_ediv ha hb
      have hr : a - a / b * b = a % b := by
        have := Int.emod_add_ediv a b
        linarith [Int.mul_comm (a / b) b]
      have hr0 : 0 ≤ a % b := Int.emod_nonneg a (by omega)
      have hr1 : a % b < b := Int.emod_lt_of_pos a hpos
      rw [hq, hr]
      have hg : Nat.gcd a.toNat b.toNat = Nat.gcd b.toNat (a % b).toNat := by
        have h3 : (a % b).toNat = a.toNat % b.toNat := by
          zify
          rw [Int.toNat_of_nonneg hr0, Int.toNat_of_nonneg ha, Int.toNat_of_nonneg hb]
        rw [h3, Nat.gcd_comm a.toNat, Nat.gcd_rec b.toNat a.toNat, Nat.gcd_comm]
      rw [hg]
      apply ih b (a % b) x1 (x2 - a / b * x1) y1 (y2 - a / b * y1) hb hr0 (by omega) h1
      rw [← hr, h2, h1]; ring
    · rename_i hpos
      have hb0 : b = 0 := by omega
      refine ⟨h2, ?_⟩
      rw [hb0]
      simp [Int.toNat_of_nonneg ha]

/-- The function `extended_euclid` on non-negative arguments returns the gcd
with Bezout coefficients. -/
theorem extended_euclid_spec (a b : Int) (ha : 0 ≤ a) (hb : 0 ≤ b) :
    (extended_euclid a b).1 = a * (extended_euclid a b).2.1 + b * (extended_euclid a b).2.2 ∧
      (extended_euclid a b).1 = (Nat.gcd a.toNat b.toNat : Int) := by
  unfold extended_euclid
  split
  · rename_i hb0
    simp [hb0, Int.toNat_of_nonneg ha]
  · exact extended_euclid_loop_spec (b.toNat + 1) a b 1 0 0 1 a b ha hb (by omega)
      (by ring) (by ring)

/-- The function `inverse(a, n)` for `a ≥ 0` coprime to `n > 0` returns an
inverse of `a` modulo `n`. -/
theorem inverse_mul_emod (a n : Int) (ha : 0 ≤ a) (hn : 0 < n)
    (hg : Nat.gcd a.toNat n.toNat = 1) : (a * inverse a n) % n = 1 % n := by
  obtain ⟨h1, h2⟩ := extended_euclid_spec a n ha (by omega)
  unfold inverse
  rw [hg] at h2
  simp only [h2, Nat.cast_one, if_true]
  have h3 : a * (extended_euclid a n).2.1 = 1 + n * (-(extended_euclid a n).2.2) := by
    rw [h2] at h1; push_cast at h1; linarith
  rw [h3, Int.add_mul_emod_self_left]

/-! ## Lemmas on `check_sign` and `sign_message` -/

theorem substr_zero (s : List Char) (len : Nat) : substr s 0 len = some (s.take len) := by
  simp [substr]

theorem substr_of_le (s : List Char) (pos len : Nat) (h : pos ≤ s.length) :
    substr s pos len = some ((s.drop pos).take len) := by
  simp [substr]; omega

/-- With both strings at least 64 characters long and all five numbers
readable, `check_sign` is `check_sign_core` of the numbers read. -/
theorem check_sign_parsed (message : List Nat) (sign public_key : List Char)
    (e s r x_q y_q : Int)
    (hsl : 64 ≤ sign.length) (hpl : 64 ≤ public_key.length)
    (he : b_int_0x (GOSTCalc_hash message) = some e)
    (hs : b_int_0x (sign.take 64) = some s)
    (hr : b_int_0x ((sign.drop 64).take 64) = some r)
    (hx : b_int_0x (public_key.take 64) = some x_q)
    (hy : b_int_0x ((public_key.drop 64).take 64) = some y_q) :
    check_sign message sign public_key = some (check_sign_core e s r x_q y_q) := by
  simp [check_sign, substr_zero, substr_of_le _ 64 64 hsl, substr_of_le _ 64 64 hpl,
    he, hs, hr, hx, hy]

theorem modul_zero_left (m : Int) : modul 0 m = 0 := by
  simp [modul]

theorem check_sign_core_zero (e x_q y_q : Int) : check_sign_core e 0 0 x_q y_q = true := by
  simp [check_sign_core, modul_zero_left, ECurvePoint.mul_zero, ECurvePoint.add]

theorem check_sign_core_eq (e s r x_q y_q : Int) :
    check_sign_core e s r x_q y_q = decide
      (modul ((P.mul (modul (s * modul (inverse e q) q) q)).add
        (ECurvePoint.mul { x := x_q, y := y_q, p := p, a := a, is_O := false }
          (modul (-r * modul (inverse e q) q) q))).x q = r) := by
  simp [check_sign_core]

/-- The point at infinity that `operator+=` returns keeps the `x` field of the
left operand. -/
theorem ECurvePoint.add_is_O_x (s t : ECurvePoint) (h : (s.add t).is_O = true) :
    (s.add t).x = s.x := by
  unfold ECurvePoint.add at h ⊢
  split
  · rfl
  · rename_i h1
    split
    · rename_i h2
      rw [if_neg h1, if_pos h2] at h
      simp [h] at h1
    · rename_i h2
      split
      · rfl
      · rename_i h3
        rw [if_neg h1, if_neg h2, if_neg h3] at h
        split at h <;> simp at h <;> simp [h] at h2

theorem sign_message_parsed (message : List Nat) (private_key : List Char) (gen : Nat)
    (d e : Int) (hd : b_int_0x private_key = some d)
    (he : b_int_0x (GOSTCalc_hash message) = some e) :
    sign_message message private_key gen =
      (b_int_to_hex (modul (modul (P.mul (modul gen q)).x q * d + modul gen q * modul e q) q)).bind
        fun s_hex => (b_int_to_hex (modul (P.mul (modul gen q)).x q)).bind
          fun r_hex => some (s_hex ++ r_hex) := by
  simp [sign_message, he, hd]

/-! ## Running the point operations with supplied inverses -/

theorem modul_modEq (x m : Int) (hm : 0 < m) : modul x m ≡ x [ZMOD m] := by
  rw [modul_eq_emod x m hm]; exact Int.mod_modEq x m

theorem add_with_spec (s t r : ECurvePoint) (num den inv : Int)
    (h : add_with s t num den inv = some r) :
    modul (den * inv) p = 1 ∧
      r = { s with
        x := modul (modul (modul (num * inv) p * modul (num * inv) p) p - s.x - t.x) p
        y := modul (modul (num * inv) p *
            (s.x - modul (modul (modul (num * inv) p * modul (num * inv) p) p
              - s.x - t.x) p) - s.y) p } := by
  unfold add_with at h
  by_cases hc : modul (den * inv) p = 1
  · simp only [hc, if_true, Option.some.injEq] at h
    exact ⟨hc, h.symm⟩
  · simp [hc] at h

set_option maxRecDepth 1000000 in
/-- The hash of `device:ABCDEF` as `check_sign` and `sign_message` read it. -/
theorem b_int_0x_hash_device : b_int_0x (GOSTCalc_hash msg_device) = some hash_device := by
  unfold GOSTCalc_hash
  rw [GOSTCalc_digest_eq msg_device (by decide), digest_F_device]
  decide!

/-- C2 (counterexample): the signature of 128 zeros has `s = 0` and `r = 0`,
both outside `[1, q)`, and `check_sign` returns true for it, here for the
message `device:ABCDEF` and the public key made of 128 sevens. -/
theorem check_sign_accepts_zero_signature :
    b_int_0x (zeros128.take 64) = some 0 ∧ b_int_0x ((zeros128.drop 64).take 64) = some 0 ∧
    check_sign msg_device zeros128 (List.replicate 128 '7') = some true := by
  obtain ⟨e, he, _⟩ := b_int_0x_GOSTCalc_hash msg_device
  have hs : b_int_0x (zeros128.take 64) = some 0 := by decide
  have hr : b_int_0x ((zeros128.drop 64).take 64) = some 0 := by decide
  refine ⟨hs, hr, ?_⟩
  rw [check_sign_parsed msg_device zeros128 (List.replicate 128 '7') e 0 0
    54036308310747557864333126337387690331525992843965596551746872537026127165303
    54036308310747557864333126337387690331525992843965596551746872537026127165303
    (by simp [zeros128]) (by simp) he hs hr (by decide) (by decide), check_sign_core_zero]

/-- C2 (amended): `check_sign` returns false for every signature whose `r`
(read from the second 64 hex digits) is `q` or more, whatever the message, `s`
and the public key. -/
theorem check_sign_rejects_r_ge_q (message : List Nat) (sign public_key : List Char)
    (e s r x_q y_q : Int)
    (hsl : 64 ≤ sign.length) (hpl : 64 ≤ public_key.length)
    (he : b_int_0x (GOSTCalc_hash message) = some e)
    (hs : b_int_0x (sign.take 64) = some s)
    (hr : b_int_0x ((sign.drop 64).take 64) = some r)
    (hx : b_int_0x (public_key.take 64) = some x_q)
    (hy : b_int_0x ((public_key.drop 64).take 64) = some y_q)
    (hq : q ≤ r) :
    check_sign message sign public_key = some false := by
  rw [check_sign_parsed message sign public_key e s r x_q y_q hsl hpl he hs hr hx hy,
    check_sign_core_eq]
  have := modul_lt ((P.mul (modul (s * modul (inverse e q) q) q)).add
        (ECurvePoint.mul { x := x_q, y := y_q, p := p, a := a, is_O := false }
          (modul (-r * modul (inverse e q) q) q))).x q q_pos
  exact congrArg some (decide_eq_false (by omega))

/-- C2 (witness): the signature with `r = 2^256 - 1` is rejected. -/
theorem check_sign_rejects_r_ge_q_witness :
    check_sign msg_device sig_r_max (List.replicate 128 '7') = some false := by
  obtain ⟨e, he, _⟩ := b_int_0x_GOSTCalc_hash msg_device
  exact check_sign_rejects_r_ge_q msg_device sig_r_max (List.replicate 128 '7') e 0
    115792089237316195423570985008687907853269984665640564039457584007913129639935
    54036308310747557864333126337387690331525992843965596551746872537026127165303
    54036308310747557864333126337387690331525992843965596551746872537026127165303
    (by simp [sig_r_max]) (by simp) he (by decide) (by decide) (by decide) (by decide)
    (by unfold q; norm_num)

/-! ## C3 -/

/-- C3 (counterexample): for the empty message, the signature of 128 zeros and
the public key of 128 letters `f`, both scalars `z1` and `z2` are zero, the
point `nC = z1·P + z2·Q` that `check_sign` computes is the point at infinity, and
`check_sign` returns true. -/
theorem check_sign_accepts_infinity :
    ∃ e : Int, b_int_0x (GOSTCalc_hash []) = some e ∧
      ((P.mul (modul (0 * modul (inverse e q) q) q)).add
        (ECurvePoint.mul
          { x := 115792089237316195423570985008687907853269984665640564039457584007913129639935,
            y := 115792089237316195423570985008687907853269984665640564039457584007913129639935,
            p := p, a := a, is_O := false }
          (modul (-0 * modul (inverse e q) q) q))).is_O = true ∧
      check_sign [] zeros128 pub_all_f = some true := by
  obtain ⟨e, he, _⟩ := b_int_0x_GOSTCalc_hash []
  refine ⟨e, he, ?_, ?_⟩
  · simp [modul_zero_left, ECurvePoint.mul_zero, ECurvePoint.add]
  · rw [check_sign_parsed [] zeros128 pub_all_f e 0 0
      115792089237316195423570985008687907853269984665640564039457584007913129639935
      115792089237316195423570985008687907853269984665640564039457584007913129639935
      (by simp [zeros128]) (by simp [pub_all_f]) he (by decide) (by decide) (by decide)
      (by decide), check_sign_core_zero]

/-- C3 (amended): when the point `nC = z1·P + z2·Q` computed by `check_sign` is
the point at infinity, `check_sign` does not reject on that ground: it returns
true exactly when `r` equals the `x` field of `z1·P` reduced mod `q`, which is
the `x` field that `nC` then holds. -/
theorem check_sign_at_infinity (message : List Nat) (sign public_key : List Char)
    (e s r x_q y_q : Int)
    (hsl : 64 ≤ sign.length) (hpl : 64 ≤ public_key.length)
    (he : b_int_0x (GOSTCalc_hash message) = some e)
    (hs : b_int_0x (sign.take 64) = some s)
    (hr : b_int_0x ((sign.drop 64).take 64) = some r)
    (hx : b_int_0x (public_key.take 64) = some x_q)
    (hy : b_int_0x ((public_key.drop 64).take 64) = some y_q)
    (hO : ((P.mul (modul (s * modul (inverse e q) q) q)).add
        (ECurvePoint.mul { x := x_q, y := y_q, p := p, a := a, is_O := false }
          (modul (-r * modul (inverse e q) q) q))).is_O = true) :
    check_sign message sign public_key
      = some (decide (modul (P.mul (modul (s * modul (inverse e q) q) q)).x q = r)) := by
  rw [check_sign_parsed message sign public_key e s r x_q y_q hsl hpl he hs hr hx hy,
    check_sign_core_eq, ECurvePoint.add_is_O_x _ _ hO]

/-- C3 (witness): the amended statement at the empty message, the signature of
128 zeros and the public key of 128 letters `f`. -/
theorem check_sign_at_infinity_witness :
    ∃ e : Int, check_sign [] zeros128 pub_all_f
      = some (decide (modul (P.mul (modul (0 * modul (inverse e q) q) q)).x q = 0)) := by
  obtain ⟨e, he, _⟩ := b_int_0x_GOSTCalc_hash []
  exact ⟨e, check_sign_at_infinity [] zeros128 pub_all_f e 0 0
      115792089237316195423570985008687907853269984665640564039457584007913129639935
      115792089237316195423570985008687907853269984665640564039457584007913129639935
      (by simp [zeros128]) (by simp [pub_all_f]) he (by decide) (by decide) (by decide)
      (by decide) (by simp [modul_zero_left, ECurvePoint.mul_zero, ECurvePoint.add])⟩

/-! ## C4 -/

/-- C4: `check_sign(M, sig, pub)` returns true exactly when
`x(z1·P + z2·Q) mod q = r`, where `e` is the hash read as an integer and passed
to `inverse` unreduced, `v = inverse(e, q)` reduced into `[0, q)`,
`z1 = s·v mod q`, `z2 = (−r)·v mod q`, `s`, `r` are the two halves of the
signature, `Q` the point read from the two halves of the public key, and the
point operations are `operator*` and `operator+` of the program; it returns
false otherwise. -/
theorem check_sign_iff (message : List Nat) (sign public_key : List Char)
    (e s r x_q y_q : Int)
    (hsl : 64 ≤ sign.length) (hpl : 64 ≤ public_key.length)
    (he : b_int_0x (GOSTCalc_hash message) = some e)
    (hs : b_int_0x (sign.take 64) = some s)
    (hr : b_int_0x ((sign.drop 64).take 64) = some r)
    (hx : b_int_0x (public_key.take 64) = some x_q)
    (hy : b_int_0x ((public_key.drop 64).take 64) = some y_q) :
    ∃ v z1 z2 : Int, ∃ Q : ECurvePoint,
      v = modul (inverse e q) q ∧ 0 ≤ v ∧ v < q ∧
      z1 = modul (s * v) q ∧ z2 = modul (-r * v) q ∧
      Q = { x := x_q, y := y_q, p := p, a := a, is_O := false } ∧
      (check_sign message sign public_key = some true ↔
        modul ((P.mul z1).add (Q.mul z2)).x q = r) ∧
      (check_sign message sign public_key = some false ↔
        modul ((P.mul z1).add (Q.mul z2)).x q ≠ r) := by
  refine ⟨_, _, _, _, rfl, modul_nonneg _ _ q_pos, modul_lt _ _ q_pos, rfl, rfl, rfl, ?_, ?_⟩
  · rw [check_sign_parsed message sign public_key e s r x_q y_q hsl hpl he hs hr hx hy,
      check_sign_core_eq]
    simp
  · rw [check_sign_parsed message sign public_key e s r x_q y_q hsl hpl he hs hr hx hy,
      check_sign_core_eq]
    simp

/-- C4 (witness): the characterisation for the message `device:ABCDEF`, the
signature `sig_example` and the public key `pub_example`. -/
theorem check_sign_iff_witness :
    ∃ v z1 z2 : Int, ∃ Q : ECurvePoint,
      v = modul (inverse hash_device q) q ∧ 0 ≤ v ∧ v < q ∧
      z1 = modul (42615944926353270798928704527757642668088060613043160299252154611191529207075 * v) q ∧
      z2 = modul (-57257110759622683213263777853788950614163265482200751818574921397455668686133 * v) q ∧
      Q = { x := 37345620606044634397712814556425226476146426761989782305016505322968219154198,
            y := 143140164083467660442490698316454636703197089365439772976480189006617849928,
            p := p, a := a, is_O := false } ∧
      (check_sign msg_device sig_example pub_example = some true ↔
        modul ((P.mul z1).add (Q.mul z2)).x q
          = 57257110759622683213263777853788950614163265482200751818574921397455668686133) ∧
      (check_sign msg_device sig_example pub_example = some false ↔
        modul ((P.mul z1).add (Q.mul z2)).x q
          ≠ 57257110759622683213263777853788950614163265482200751818574921397455668686133) :=
  check_sign_iff msg_device sig_example pub_example hash_device _ _ _ _
    (by simp [sig_example]) (by simp [pub_example]) b_int_0x_hash_device (by decide) (by decide)
    (by decide) (by decide)

/-! ## C5 -/

theorem r_bounds (k : Int) : 0 ≤ modul (P.mul k).x q ∧ modul (P.mul k).x q < 2 ^ 256 :=
  ⟨modul_nonneg _ _ q_pos, lt_trans (modul_lt _ _ q_pos) q_lt⟩

/-- The shape of the result of `sign_message`: the two numbers, their 64-digit
fields and the string returned. -/
theorem sign_message_halves (message : List Nat) (private_key : List Char) (gen : Nat)
    (d h : Int) (hd : b_int_0x private_key = some d)
    (hh : b_int_0x (GOSTCalc_hash message) = some h) :
    ∃ k e r s : Int, ∃ s_hex r_hex : List Char,
      k = modul gen q ∧ e = modul h q ∧
      r = modul (P.mul k).x q ∧ s = modul (r * d + k * e) q ∧
      b_int_to_hex s = some s_hex ∧ b_int_to_hex r = some r_hex ∧
      s_hex.length = 64 ∧ r_hex.length = 64 ∧
      b_int_0x s_hex = some s ∧ b_int_0x r_hex = some r ∧
      sign_message message private_key gen = some (s_hex ++ r_hex) ∧
      (s_hex ++ r_hex).take 64 = s_hex ∧ (s_hex ++ r_hex).drop 64 = r_hex := by
  obtain ⟨r_hex, hr1, hr2, hr3, _, _⟩ := b_int_to_hex_spec (modul (P.mul (modul gen q)).x q)
    (r_bounds _).1 (r_bounds _).2
  obtain ⟨s_hex, hs1, hs2, hs3, _, _⟩ := b_int_to_hex_spec
    (modul (modul (P.mul (modul gen q)).x q * d + modul gen q * modul h q) q)
    (modul_nonneg _ _ q_pos) (lt_trans (modul_lt _ _ q_pos) q_lt)
  refine ⟨_, _, _, _, s_hex, r_hex, rfl, rfl, rfl, rfl, hs1, hr1, hs2, hr2, hs3, hr3, ?_, ?_, ?_⟩
  · rw [sign_message_parsed message private_key gen d h hd hh, hs1, hr1]; rfl
  · rw [List.take_append_of_le_length (by omega), ← hs2, List.take_length]
  · rw [List.drop_append_of_le_length (by omega), ← hs2, List.drop_length]; rfl

/-- C5: for every message, private scalar `d` and nonce `k = gen mod q`,
`sign_message` returns `hex64(s)` followed by `hex64(r)`, where
`e = hash(M) mod q`, `r = x(k·P) mod q` and `s = (r·d + k·e) mod q`; `s` fills
the first 64 characters and `r` the last 64. -/
theorem sign_message_layout (message : List Nat) (private_key : List Char) (gen : Nat)
    (d h : Int) (hd : b_int_0x private_key = some d)
    (hh : b_int_0x (GOSTCalc_hash message) = some h) :
    ∃ k e r s : Int, ∃ s_hex r_hex : List Char,
      k = modul gen q ∧ e = modul h q ∧
      r = modul (P.mul k).x q ∧ s = modul (r * d + k * e) q ∧
      b_int_to_hex s = some s_hex ∧ b_int_to_hex r = some r_hex ∧
      s_hex.length = 64 ∧ r_hex.length = 64 ∧
      b_int_0x s_hex = some s ∧ b_int_0x r_hex = some r ∧
      sign_message message private_key gen = some (s_hex ++ r_hex) ∧
      (s_hex ++ r_hex).take 64 = s_hex ∧ (s_hex ++ r_hex).drop 64 = r_hex :=
  sign_message_halves message private_key gen d h hd hh

/-- C5 (witness): the layout for the message `device:ABCDEF`, the private key
`123456789` and the draw `987654321987654321`. -/
theorem sign_message_layout_witness :
    ∃ k e r s : Int, ∃ s_hex r_hex : List Char,
      k = modul (987654321987654321 : Nat) q ∧ e = modul hash_device q ∧
      r = modul (P.mul k).x q ∧ s = modul (r * 123456789 + k * e) q ∧
      b_int_to_hex s = some s_hex ∧ b_int_to_hex r = some r_hex ∧
      s_hex.length = 64 ∧ r_hex.length = 64 ∧
      b_int_0x s_hex = some s ∧ b_int_0x r_hex = some r ∧
      sign_message msg_device priv_example 987654321987654321 = some (s_hex ++ r_hex) ∧
      (s_hex ++ r_hex).take 64 = s_hex ∧ (s_hex ++ r_hex).drop 64 = r_hex :=
  sign_message_layout msg_device priv_example 987654321987654321 123456789 hash_device
    (by decide) b_int_0x_hash_device

/-! ## C6 -/

/-- C6 (counterexample): when the generator returns `0` the nonce is `0`, no
second draw is made, and the signature of `device:ABCDEF` under the private key
`1` is 128 zeros: `s = 0` and `r = 0`. -/
theorem sign_message_zero_draw :
    sign_message msg_device ['1'] 0 = some zeros128 ∧
    b_int_0x (zeros128.take 64) = some 0 ∧ b_int_0x ((zeros128.drop 64).take 64) = some 0 := by
  obtain ⟨h, hh, _⟩ := b_int_0x_GOSTCalc_hash msg_device
  refine ⟨?_, by decide, by decide⟩
  rw [sign_message_parsed msg_device ['1'] 0 1 h (by decide) hh]
  simp [modul_zero_left, ECurvePoint.mul_zero]
  decide

/-- C6 (amended): `sign_message` draws once and never resamples: the nonce is
`k = gen mod q`, which lies in `[0, q)` and may be `0`; `r = x(k·P) mod q` and
`s = (r·d + k·e) mod q` are written as computed, both in `[0, q)`, and both
are `0` when `k = 0`. -/
theorem sign_message_single_draw (message : List Nat) (private_key : List Char) (gen : Nat)
    (d h : Int) (hd : b_int_0x private_key = some d)
    (hh : b_int_0x (GOSTCalc_hash message) = some h) :
    ∃ out : List Char, ∃ k r s : Int,
      sign_message message private_key gen = some out ∧
      k = modul gen q ∧ 0 ≤ k ∧ k < q ∧
      r = modul (P.mul k).x q ∧ s = modul (r * d + k * modul h q) q ∧
      b_int_0x (out.take 64) = some s ∧ b_int_0x ((out.drop 64).take 64) = some r ∧
      0 ≤ r ∧ r < q ∧ 0 ≤ s ∧ s < q ∧ (k = 0 → r = 0 ∧ s = 0) := by
  obtain ⟨k, e, r, s, s_hex, r_hex, hk, he, hr, hs, _, _, hsl, hrl, hsp, hrp, hsm, ht, hdr⟩ :=
    sign_message_halves message private_key gen d h hd hh
  refine ⟨s_hex ++ r_hex, k, r, s, hsm, hk, ?_, ?_, hr, ?_, ?_, ?_, ?_, ?_, ?_, ?_, ?_⟩
  · rw [hk]; exact modul_nonneg _ _ q_pos
  · rw [hk]; exact modul_lt _ _ q_pos
  · rw [hs, he]
  · rw [ht]; exact hsp
  · rw [hdr, ← hrl, List.take_length]; exact hrp
  · rw [hr]; exact modul_nonneg _ _ q_pos
  · rw [hr]; exact modul_lt _ _ q_pos
  · rw [hs]; exact modul_nonneg _ _ q_pos
  · rw [hs]; exact modul_lt _ _ q_pos
  · intro hk0
    have hr0 : r = 0 := by
      rw [hr, hk0, ECurvePoint.mul_zero]; exact modul_zero_left q
    refine ⟨hr0, ?_⟩
    rw [hs, hr0, hk0]; simp [modul_zero_left]

/-- C6 (witness): the amended statement for the message `device:ABCDEF`, the
private key `123456789` and the draw `987654321987654321`. -/
theorem sign_message_single_draw_witness :
    ∃ out : List Char, ∃ k r s : Int,
      sign_message msg_device priv_example 987654321987654321 = some out ∧
      k = modul (987654321987654321 : Nat) q ∧ 0 ≤ k ∧ k < q ∧
      r = modul (P.mul k).x q ∧ s = modul (r * 123456789 + k * modul hash_device q) q ∧
      b_int_0x (out.take 64) = some s ∧ b_int_0x ((out.drop 64).take 64) = some r ∧
      0 ≤ r ∧ r < q ∧ 0 ≤ s ∧ s < q ∧ (k = 0 → r = 0 ∧ s = 0) :=
  sign_message_single_draw msg_device priv_example 987654321987654321 123456789 hash_device
    (by decide) b_int_0x_hash_device

/-! ## C7 -/

/-- C7: for every message, every private scalar (read from hexadecimal digits, so
`d ≥ 0`) and every draw of the generator, `sign_message` returns exactly 128
hexadecimal characters, and each half of 64 reads as an integer in
`[0, q − 1]`. -/
theorem sign_message_width (message : List Nat) (private_key : List Char) (gen : Nat)
    (d : Int) (hd : b_int_0x private_key = some d) :
    ∃ out : List Char, ∃ s r : Int,
      sign_message message private_key gen = some out ∧ out.length = 128 ∧ is_hex out ∧
      b_int_0x (out.take 64) = some s ∧ b_int_0x ((out.drop 64).take 64) = some r ∧
      0 ≤ d ∧ 0 ≤ s ∧ s ≤ q - 1 ∧ 0 ≤ r ∧ r ≤ q - 1 := by
  obtain ⟨h, hh, _⟩ := b_int_0x_GOSTCalc_hash message
  obtain ⟨k, e, r, s, s_hex, r_hex, hk, he, hr, hs, _, _, hsl, hrl, hsp, hrp, hsm, ht, hdr⟩ :=
    sign_message_halves message private_key gen d h hd hh
  have hs1 : is_hex s_hex := parse_is_hex s_hex 0 s.toNat (by
    unfold b_int_0x at hsp
    cases hp : parse_hex_loop s_hex 0 with
    | none => simp [hp] at hsp
    | some n => simp [hp] at hsp; simp [← hsp])
  have hr1 : is_hex r_hex := parse_is_hex r_hex 0 r.toNat (by
    unfold b_int_0x at hrp
    cases hp : parse_hex_loop r_hex 0 with
    | none => simp [hp] at hrp
    | some n => simp [hp] at hrp; simp [← hrp])
  have hsq := modul_lt (r * d + k * e) q q_pos
  have hrq := modul_lt (P.mul k).x q q_pos
  refine ⟨s_hex ++ r_hex, s, r, hsm, by simp [hsl, hrl], is_hex_append _ _ hs1 hr1, ?_, ?_,
    b_int_0x_nonneg _ _ hd, ?_, ?_, ?_, ?_⟩
  · rw [ht]; exact hsp
  · rw [hdr, ← hrl, List.take_length]; exact hrp
  · rw [hs]; exact modul_nonneg _ _ q_pos
  · rw [hs]; omega
  · rw [hr]; exact modul_nonneg _ _ q_pos
  · rw [hr]; omega

/-- C7 (witness): the width for the message `device:ABCDEF`, the private key
`123456789` and the draw `987654321987654321`. -/
theorem sign_message_width_witness :
    ∃ out : List Char, ∃ s r : Int,
      sign_message msg_device priv_example 987654321987654321 = some out ∧
      out.length = 128 ∧ is_hex out ∧
      b_int_0x (out.take 64) = some s ∧ b_int_0x ((out.drop 64).take 64) = some r ∧
      (0 : Int) ≤ 123456789 ∧ 0 ≤ s ∧ s ≤ q - 1 ∧ 0 ≤ r ∧ r ≤ q - 1 :=
  sign_message_width msg_device priv_example 987654321987654321 123456789 (by decide)

/-- The shape of the result of `generate_key_pair`: the scalar, the point and
their 64-digit fields. -/
theorem generate_key_pair_halves (gen : Nat) :
    ∃ d_hex x_hex y_hex : List Char,
      generate_key_pair gen = some { public_key := x_hex ++ y_hex, private_key := d_hex } ∧
      d_hex = setw_fill0 64 (to_hex cpp_int_hex_uppercase (modul gen q).toNat) ∧
      x_hex = setw_fill0 64 (to_hex cpp_int_hex_uppercase (P.mul (modul gen q)).x.toNat) ∧
      y_hex = setw_fill0 64 (to_hex cpp_int_hex_uppercase (P.mul (modul gen q)).y.toNat) ∧
      d_hex.length = 64 ∧ x_hex.length = 64 ∧ y_hex.length = 64 ∧
      is_hex d_hex ∧ is_hex (x_hex ++ y_hex) ∧
      b_int_0x d_hex = some (modul gen q) ∧ b_int_0x x_hex = some (P.mul (modul gen q)).x ∧
      b_int_0x y_hex = some (P.mul (modul gen q)).y := by
  have hd0 := modul_nonneg gen q q_pos
  have hd1 := modul_lt gen q q_pos
  obtain ⟨_, _, hx0, hx1, hy0, hy1⟩ := ECurvePoint.mul_in_range p a p_pos P (modul gen q) P_in_range
  obtain ⟨d_hex, hd2, hd3, hd4, hd5, hd6⟩ := b_int_to_hex_spec (modul gen q) hd0
    (lt_trans hd1 q_lt)
  obtain ⟨x_hex, hx2, hx3, hx4, hx5, hx6⟩ := b_int_to_hex_spec (P.mul (modul gen q)).x hx0
    (lt_trans hx1 p_lt)
  obtain ⟨y_hex, hy2, hy3, hy4, hy5, hy6⟩ := b_int_to_hex_spec (P.mul (modul gen q)).y hy0
    (lt_trans hy1 p_lt)
  refine ⟨d_hex, x_hex, y_hex, ?_, hd6, hx6, hy6, hd3, hx3, hy3, hd5,
    is_hex_append _ _ hx5 hy5, hd4, hx4, hy4⟩
  simp [generate_key_pair, hd2, hx2, hy2]


/-! ## C8 -/

/-- C9: for every draw of the generator, with `d = gen mod q` and `Q = P * d`
computed by `operator*`, `generate_key_pair` returns as private key the 64
zero-filled hexadecimal digits of `d` and as public key exactly 128 hexadecimal
digits: the 64 digits of the `x` field of `Q` followed by the 64 digits of its
`y` field. -/
theorem generate_key_pair_layout (gen : Nat) :
    ∃ d : Int, ∃ Q : ECurvePoint, ∃ d_hex x_hex y_hex : List Char,
      d = modul gen q ∧ 0 ≤ d ∧ d < q ∧ Q = P.mul d ∧
      generate_key_pair gen = some { public_key := x_hex ++ y_hex, private_key := d_hex } ∧
      d_hex = setw_fill0 64 (to_hex cpp_int_hex_uppercase d.toNat) ∧
      x_hex = setw_fill0 64 (to_hex cpp_int_hex_uppercase Q.x.toNat) ∧
      y_hex = setw_fill0 64 (to_hex cpp_int_hex_uppercase Q.y.toNat) ∧
      d_hex.length = 64 ∧ x_hex.length = 64 ∧ y_hex.length = 64 ∧
      (x_hex ++ y_hex).length = 128 ∧ is_hex d_hex ∧ is_hex (x_hex ++ y_hex) ∧
      b_int_0x d_hex = some d ∧ b_int_0x x_hex = some Q.x ∧ b_int_0x y_hex = some Q.y := by
  obtain ⟨d_hex, x_hex, y_hex, h1, h2, h3, h4, h5, h6, h7, h8, h9, h10, h11, h12⟩ :=
    generate_key_pair_halves gen
  exact ⟨_, _, d_hex, x_hex, y_hex, rfl, modul_nonneg _ _ q_pos, modul_lt _ _ q_pos, rfl, h1,
    h2, h3, h4, h5, h6, h7, by simp [h6, h7], h8, h9, h10, h11, h12⟩

/-! ## Primality of the group order `q` and of the field modulus `p` -/

theorem pow_mod_loop_eq (fuel b e n acc : Nat) (h : e ≤ fuel) :
    pow_mod_loop fuel b e n acc = acc * b ^ e % n := by
  induction fuel generalizing b e acc with
  | zero =>
    have : e = 0 := by omega
    simp [pow_mod_loop, this]
  | succ fuel ih =>
    simp only [pow_mod_loop]
    split
    · rename_i he; simp [he]
    · rename_i he
      rw [ih _ _ _ (by omega)]
      have hsplit : b ^ e = (b * b) ^ (e / 2) * b ^ (e % 2) := by
        rw [← pow_two, ← pow_mul, ← pow_add, Nat.div_add_mod]
      rw [hsplit]
      rcases Nat.mod_two_eq_zero_or_one e with h0 | h1
      · simp only [h0, pow_zero, mul_one]
        simp only [Nat.zero_ne_one, if_false]
        rw [Nat.mul_mod, Nat.pow_mod, Nat.mod_mod, ← Nat.pow_mod, ← Nat.mul_mod]
      · simp only [h1, pow_one, if_true]
        rw [Nat.mul_mod, Nat.pow_mod, Nat.mod_mod, Nat.mod_mod, ← Nat.pow_mod, ← Nat.mul_mod]
        congr 1; ring

theorem pow_mod_eq (a e n : Nat) : pow_mod a e n = a ^ e % n := by
  unfold pow_mod
  rw [pow_mod_loop_eq _ _ _ _ _ (le_refl e), one_mul]

theorem zmod_pow_eq_one_iff (n a e : Nat) (hn : 1 < n) :
    ((a : ZMod n) ^ e = 1) ↔ pow_mod a e n = 1 := by
  rw [pow_mod_eq]
  have h : ((a : ZMod n) ^ e = 1) ↔ (((a ^ e : ℕ) : ZMod n) = ((1 : ℕ) : ZMod n)) := by
    push_cast; rfl
  rw [h, ZMod.natCast_eq_natCast_iff', Nat.mod_eq_of_lt hn]

/-- The Lucas test with a certificate: `n` is prime when `lucas_test` accepts a
witness together with the list of the prime factors of `n - 1`. -/
theorem prime_of_lucas_test (n a : Nat) (fs : List Nat) (hfs : ∀ r ∈ fs, Nat.Prime r)
    (ht : lucas_test n a fs = true) : Nat.Prime n := by
  simp only [lucas_test, Bool.and_eq_true, decide_eq_true_eq, List.all_eq_true] at ht
  obtain ⟨⟨⟨hn, hprod⟩, h1⟩, h2⟩ := ht
  apply lucas_primality n (a : ZMod n)
  · exact (zmod_pow_eq_one_iff n a _ hn).2 h1
  · intro r hr hdvd
    rw [← hprod] at hdvd
    obtain ⟨s, hs, hrs⟩ := (Prime.dvd_prod_iff (Nat.Prime.prime hr)).1 hdvd
    have : r = s := (Nat.prime_dvd_prime_iff_eq hr (hfs s hs)).1 hrs
    subst this
    rw [Ne, zmod_pow_eq_one_iff n a _ hn]
    exact h2 r hs

/-! ### Lucas certificates -/

theorem prime_2 : Nat.Prime 2 := by norm_num

theorem prime_3 : Nat.Prime 3 := by norm_num

theorem prime_5 : Nat.Prime 5 := by norm_num

theorem prime_7 : Nat.Prime 7 := by norm_num

theorem prime_11 : Nat.Prime 11 := by norm_num

theorem prime_17 : Nat.Prime 17 := by norm_num

theorem prime_47 : Nat.Prime 47 := by norm_num

theorem prime_71 : Nat.Prime 71 := by norm_num

theorem prime_97 : Nat.Prime 97 := by norm_num

theorem prime_163 : Nat.Prime 163 := by norm_num

theorem prime_167 : Nat.Prime 167 := by norm_num

theorem prime_229 : Nat.Prime 229 := by norm_num

theorem prime_239 : Nat.Prime 239 := by norm_num

theorem prime_487 : Nat.Prime 487 := by norm_num

theorem prime_733 : Nat.Prime 733 := by norm_num

theorem prime_929 : Nat.Prime 929 := by norm_num

theorem prime_1063 : Nat.Prime 1063 := by norm_num

theorem prime_1571 : Nat.Prime 1571 := by norm_num

theorem prime_1723 : Nat.Prime 1723 := by norm_num

theorem prime_2243 : Nat.Prime 2243 := by norm_num

theorem prime_2843 : Nat.Prime 2843 := by norm_num

theorem prime_29123 : Nat.Prime 29123 := by norm_num

theorem prime_30697 : Nat.Prime 30697 := by norm_num

theorem prime_1841821 : Nat.Prime 1841821 :=
  prime_of_lucas_test _ 14
    [2, 2, 3, 5, 30697]
    (List.forall_mem_cons.2 ⟨prime_2,
      List.forall_mem_cons.2 ⟨prime_2,
      List.forall_mem_cons.2 ⟨prime_3,
      List.forall_mem_cons.2 ⟨prime_5,
      List.forall_mem_cons.2 ⟨prime_30697,
      List.forall_mem_nil _⟩⟩⟩⟩⟩)
    (by decide!)

theorem prime_11050927 : Nat.Prime 11050927 :=
  prime_of_lucas_test _ 5
    [2, 3, 1841821]
    (List.forall_mem_cons.2 ⟨prime_2,
      List.forall_mem_cons.2 ⟨prime_3,
      List.forall_mem_cons.2 ⟨prime_1841821,
      List.forall_mem_nil _⟩⟩⟩)
    (by decide!)

theorem prime_18332257 : Nat.Prime 18332257 :=
  prime_of_lucas_test _ 7
    [2, 2, 2, 2, 2, 3, 17, 47, 239]
    (List.forall_mem_cons.2 ⟨prime_2,
      List.forall_mem_cons.2 ⟨prime_2,
      List.forall_mem_cons.2 ⟨prime_2,
      List.forall_mem_cons.2 ⟨prime_2,
      List.forall_mem_cons.2 ⟨prime_2,
      List.forall_mem_cons.2 ⟨prime_3,
      List.forall_mem_cons.2 ⟨prime_17,
      List.forall_mem_cons.2 ⟨prime_47,
      List.forall_mem_cons.2 ⟨prime_239,
      List.forall_mem_nil _⟩⟩⟩⟩⟩⟩⟩⟩⟩)
    (by decide!)

theorem prime_198897931 : Nat.Prime 198897931 :=
  prime_of_lucas_test _ 2
    [2, 3, 3, 3, 3, 3, 5, 7, 11, 1063]
    (List.forall_mem_cons.2 ⟨prime_2,
      List.forall_mem_cons.2 ⟨prime_3,
      List.forall_mem_cons.2 ⟨prime_3,
      List.forall_mem_cons.2 ⟨prime_3,
      List.forall_mem_cons.2 ⟨prime_3,
      List.forall_mem_cons.2 ⟨prime_3,
      List.forall_mem_cons.2 ⟨prime_5,
      List.forall_mem_cons.2 ⟨prime_7,
      List.forall_mem_cons.2 ⟨prime_11,
      List.forall_mem_cons.2 ⟨prime_1063,
      List.forall_mem_nil _⟩⟩⟩⟩⟩⟩⟩⟩⟩⟩)
    (by decide!)

theorem prime_198916687 : Nat.Prime 198916687 :=
  prime_of_lucas_test _ 3
    [2, 3, 3, 11050927]
    (List.forall_mem_cons.2 ⟨prime_2,
      List.forall_mem_cons.2 ⟨prime_3,
      List.forall_mem_cons.2 ⟨prime_3,
      List.forall_mem_cons.2 ⟨prime_11050927,
      List.forall_mem_nil _⟩⟩⟩⟩)
    (by decide!)

theorem prime_339845903 : Nat.Prime 339845903 :=
  prime_of_lucas_test _ 10
    [2, 11, 71, 97, 2243]
    (List.forall_mem_cons.2 ⟨prime_2,
      List.forall_mem_cons.2 ⟨prime_11,
      List.forall_mem_cons.2 ⟨prime_71,
      List.forall_mem_cons.2 ⟨prime_97,
      List.forall_mem_cons.2 ⟨prime_2243,
      List.forall_mem_nil _⟩⟩⟩⟩⟩)
    (by decide!)

theorem prime_1193500123 : Nat.Prime 1193500123 :=
  prime_of_lucas_test _ 7
    [2, 3, 198916687]
    (List.forall_mem_cons.2 ⟨prime_2,
      List.forall_mem_cons.2 ⟨prime_3,
      List.forall_mem_cons.2 ⟨prime_198916687,
      List.forall_mem_nil _⟩⟩⟩)
    (by decide!)

theorem prime_13127263447 : Nat.Prime 13127263447 :=
  prime_of_lucas_test _ 5
    [2, 3, 11, 198897931]
    (List.forall_mem_cons.2 ⟨prime_2,
      List.forall_mem_cons.2 ⟨prime_3,
      List.forall_mem_cons.2 ⟨prime_11,
      List.forall_mem_cons.2 ⟨prime_198897931,
      List.forall_mem_nil _⟩⟩⟩⟩)
    (by decide!)

theorem prime_13128689701 : Nat.Prime 13128689701 :=
  prime_of_lucas_test _ 6
    [2, 2, 3, 3, 5, 5, 7, 733, 2843]
    (List.forall_mem_cons.2 ⟨prime_2,
      List.forall_mem_cons.2 ⟨prime_2,
      List.forall_mem_cons.2 ⟨prime_3,
      List.forall_mem_cons.2 ⟨prime_3,
      List.forall_mem_cons.2 ⟨prime_5,
      List.forall_mem_cons.2 ⟨prime_5,
      List.forall_mem_cons.2 ⟨prime_7,
      List.forall_mem_cons.2 ⟨prime_733,
      List.forall_mem_cons.2 ⟨prime_2843,
      List.forall_mem_nil _⟩⟩⟩⟩⟩⟩⟩⟩⟩)
    (by decide!)

theorem prime_30691541939087 : Nat.Prime 30691541939087 :=
  prime_of_lucas_test _ 5
    [2, 7, 167, 13127263447]
    (List.forall_mem_cons.2 ⟨prime_2,
      List.forall_mem_cons.2 ⟨prime_7,
      List.forall_mem_cons.2 ⟨prime_167,
      List.forall_mem_cons.2 ⟨prime_13127263447,
      List.forall_mem_nil _⟩⟩⟩⟩)
    (by decide!)

theorem prime_124602848683861421 : Nat.Prime 124602848683861421 :=
  prime_of_lucas_test _ 2
    [2, 2, 5, 18332257, 339845903]
    (List.forall_mem_cons.2 ⟨prime_2,
      List.forall_mem_cons.2 ⟨prime_2,
      List.forall_mem_cons.2 ⟨prime_5,
      List.forall_mem_cons.2 ⟨prime_18332257,
      List.forall_mem_cons.2 ⟨prime_339845903,
      List.forall_mem_nil _⟩⟩⟩⟩⟩)
    (by decide!)

theorem prime_10264479286108256281 : Nat.Prime 10264479286108256281 :=
  prime_of_lucas_test _ 22
    [2, 2, 2, 3, 3, 5, 929, 30691541939087]
    (List.forall_mem_cons.2 ⟨prime_2,
      List.forall_mem_cons.2 ⟨prime_2,
      List.forall_mem_cons.2 ⟨prime_2,
      List.forall_mem_cons.2 ⟨prime_3,
      List.forall_mem_cons.2 ⟨prime_3,
      List.forall_mem_cons.2 ⟨prime_5,
      List.forall_mem_cons.2 ⟨prime_929,
      List.forall_mem_cons.2 ⟨prime_30691541939087,
      List.forall_mem_nil _⟩⟩⟩⟩⟩⟩⟩⟩)
    (by decide!)

theorem prime_138452816382647330969 : Nat.Prime 138452816382647330969 :=
  prime_of_lucas_test _ 3
    [2, 2, 2, 487, 1571, 1723, 13128689701]
    (List.forall_mem_cons.2 ⟨prime_2,
      List.forall_mem_cons.2 ⟨prime_2,
      List.forall_mem_cons.2 ⟨prime_2,
      List.forall_mem_cons.2 ⟨prime_487,
      List.forall_mem_cons.2 ⟨prime_1571,
      List.forall_mem_cons.2 ⟨prime_1723,
      List.forall_mem_cons.2 ⟨prime_13128689701,
      List.forall_mem_nil _⟩⟩⟩⟩⟩⟩⟩)
    (by decide!)

theorem prime_296379762614331847955351590674378453956751398521495687 : Nat.Prime 296379762614331847955351590674378453956751398521495687 :=
  prime_of_lucas_test _ 17
    [2, 3, 29123, 1193500123, 10264479286108256281, 138452816382647330969]
    (List.forall_mem_cons.2 ⟨prime_2,
      List.forall_mem_cons.2 ⟨prime_3,
      List.forall_mem_cons.2 ⟨prime_29123,
      List.forall_mem_cons.2 ⟨prime_1193500123,
      List.forall_mem_cons.2 ⟨prime_10264479286108256281,
      List.forall_mem_cons.2 ⟨prime_138452816382647330969,
      List.forall_mem_nil _⟩⟩⟩⟩⟩⟩)
    (by decide!)

theorem prime_57896044618658097711785492504343953927082934583725450622380973592137631069619 : Nat.Prime 57896044618658097711785492504343953927082934583725450622380973592137631069619 :=
  prime_of_lucas_test _ 2
    [2, 3, 7, 163, 229, 124602848683861421, 296379762614331847955351590674378453956751398521495687]
    (List.forall_mem_cons.2 ⟨prime_2,
      List.forall_mem_cons.2 ⟨prime_3,
      List.forall_mem_cons.2 ⟨prime_7,
      List.forall_mem_cons.2 ⟨prime_163,
      List.forall_mem_cons.2 ⟨prime_229,
      List.forall_mem_cons.2 ⟨prime_124602848683861421,
      List.forall_mem_cons.2 ⟨prime_296379762614331847955351590674378453956751398521495687,
      List.forall_mem_nil _⟩⟩⟩⟩⟩⟩⟩)
    (by decide!)

/-! ## The curve of the signer modulo the prime factors of `p` -/

theorem p_eq_pN : p = (pN : Int) := by decide
theorem q_eq_qN : q = (qN : Int) := by decide

theorem cast_modul_dvd (l : Nat) (hl : l ∣ pN) (x : Int) :
    ((modul x p : Int) : ZMod l) = ((x : Int) : ZMod l) := by
  rw [modul_eq_emod x p p_pos, ZMod.intCast_eq_intCast_iff_dvd_sub]
  have h1 : (p : Int) ∣ x - x % p := Int.dvd_sub_of_emod_eq rfl
  have h2 : (l : Int) ∣ p := by rw [p_eq_pN]; exact_mod_cast hl
  exact dvd_trans h2 h1

theorem some_eq_some (l : Nat) {x y x2 y2 : ZMod l} (h : (W l).Nonsingular x y)
    (hx : x2 = x) (hy : y2 = y) :
    ∃ h2 : (W l).Nonsingular x2 y2,
      WeierstrassCurve.Affine.Point.some h = WeierstrassCurve.Affine.Point.some h2 := by
  subst hx; subst hy; exact ⟨h, rfl⟩

theorem W_negY (l : Nat) (x y : ZMod l) : (W l).negY x y = -y := by
  simp [WeierstrassCurve.Affine.negY, W]

/-- The formulas applied to two affine points with a slope whose denominator
is invertible give the sum on the curve modulo every prime factor of `p`. -/
theorem add_with_rep (l : Nat) [Fact (Nat.Prime l)] (hl : l ∣ pN) (s t r : ECurvePoint)
    (num den inv : Int)
    (h1 : (W l).Nonsingular ((s.x : Int) : ZMod l) ((s.y : Int) : ZMod l))
    (h2 : (W l).Nonsingular ((t.x : Int) : ZMod l) ((t.y : Int) : ZMod l))
    (hs : s.in_range p a) (hsO : s.is_O = false)
    (h : add_with s t num den inv = some r)
    (hslope : ((den : Int) : ZMod l) ≠ 0 →
      WeierstrassCurve.Affine.Point.some h1 + WeierstrassCurve.Affine.Point.some h2 ≠ 0 ∧
      (W l).slope ((s.x : Int) : ZMod l) ((t.x : Int) : ZMod l)
        ((s.y : Int) : ZMod l) ((t.y : Int) : ZMod l) * ((den : Int) : ZMod l)
        = ((num : Int) : ZMod l)) :
    Rep l r (WeierstrassCurve.Affine.Point.some h1 + WeierstrassCurve.Affine.Point.some h2) := by
  obtain ⟨hinv, hr⟩ := add_with_spec s t r num den inv h
  have hi : ((den : Int) : ZMod l) * ((inv : Int) : ZMod l) = 1 := by
    have := congrArg (fun z : Int => ((z : Int) : ZMod l)) hinv
    simp only [cast_modul_dvd l hl, Int.cast_mul, Int.cast_one] at this
    exact this
  have hden : ((den : Int) : ZMod l) ≠ 0 := by
    intro h0; rw [h0, zero_mul] at hi; exact zero_ne_one hi
  obtain ⟨hne, hsl⟩ := hslope hden
  have hlam : (W l).slope ((s.x : Int) : ZMod l) ((t.x : Int) : ZMod l)
        ((s.y : Int) : ZMod l) ((t.y : Int) : ZMod l)
      = ((num : Int) : ZMod l) * ((inv : Int) : ZMod l) := by
    rw [← hsl, mul_assoc, hi, mul_one]
  obtain ⟨sp, sa, sx0, sx1, sy0, sy1⟩ := hs
  subst hr
  refine ⟨⟨sp, sa, modul_nonneg _ _ p_pos, modul_lt _ _ p_pos, modul_nonneg _ _ p_pos,
    modul_lt _ _ p_pos⟩, Or.inr ⟨hsO, ?_⟩⟩
  have hxy : ((s.x : Int) : ZMod l) = ((t.x : Int) : ZMod l) →
      ((s.y : Int) : ZMod l) ≠ (W l).negY ((t.x : Int) : ZMod l) ((t.y : Int) : ZMod l) :=
    fun hx hy => hne (WeierstrassCurve.Affine.Point.add_of_Y_eq hx hy)
  rw [WeierstrassCurve.Affine.Point.add_of_imp hxy]
  apply some_eq_some
  · simp only [WeierstrassCurve.Affine.addX, hlam]
    simp only [cast_modul_dvd l hl, Int.cast_sub, Int.cast_mul, W]
    ring
  · simp only [WeierstrassCurve.Affine.addY, WeierstrassCurve.Affine.negAddY,
      WeierstrassCurve.Affine.negY, WeierstrassCurve.Affine.addX, hlam]
    simp only [cast_modul_dvd l hl, Int.cast_sub, Int.cast_mul, W]
    ring

/-- A sum computed by `add_checked` is the sum on the curve modulo every prime
factor of `p`. -/
theorem add_checked_rep (l : Nat) [Fact (Nat.Prime l)] (hl : l ∣ pN) (s t r : ECurvePoint)
    (inv : Int) (S T : (W l).Point) (hs : Rep l s S) (ht : Rep l t T)
    (h : add_checked s t inv = some r) :
    Rep l r (S + T) := by
  cases htO : t.is_O with
  | true =>
    have hT : T = 0 := by
      rcases ht.2 with ⟨_, h⟩ | ⟨h, _⟩
      · exact h
      · rw [htO] at h; exact absurd h (by decide)
    simp only [add_checked, htO, if_true, Option.some.injEq] at h
    rw [← h, hT, add_zero]; exact hs
  | false =>
    cases hsO : s.is_O with
    | true =>
      have hS : S = 0 := by
        rcases hs.2 with ⟨_, h⟩ | ⟨h, _⟩
        · exact h
        · rw [hsO] at h; exact absurd h (by decide)
      simp only [add_checked, htO, hsO, if_true, Bool.false_eq_true, if_false,
        Option.some.injEq] at h
      rw [← h, hS, zero_add]; exact ht
    | false =>
      obtain ⟨hsr, hsS⟩ := hs
      obtain ⟨htr, htT⟩ := ht
      rcases hsS with ⟨hc, _⟩ | ⟨_, h1, hS⟩
      · rw [hsO] at hc; exact absurd hc (by decide)
      rcases htT with ⟨hc, _⟩ | ⟨_, h2, hT⟩
      · rw [htO] at hc; exact absurd hc (by decide)
      subst hS; subst hT
      simp only [add_checked, htO, hsO, Bool.false_eq_true, if_false] at h
      by_cases hneg0 : s.y = -t.y
      · simp [hneg0] at h
      simp only [hneg0, if_false] at h
      by_cases hxx : s.x = t.x
      · simp only [hxx, ne_eq, not_true_eq_false, if_false] at h
        by_cases hyy : s.y = t.y
        · simp only [hyy, if_true] at h
          rw [← hxx, ← hyy] at h
          apply add_with_rep l hl s t r _ _ inv h1 h2 hsr hsO h
          intro hden
          rw [cast_modul_dvd l hl] at hden
          have hxc : ((s.x : Int) : ZMod l) = ((t.x : Int) : ZMod l) := by rw [hxx]
          have hneg : ((s.y : Int) : ZMod l) ≠
              (W l).negY ((t.x : Int) : ZMod l) ((t.y : Int) : ZMod l) := by
            rw [W_negY, ← hyy]
            intro h
            apply hden
            push_cast
            linear_combination h
          refine ⟨?_, ?_⟩
          · rw [WeierstrassCurve.Affine.Point.add_of_Y_ne hneg]
            exact WeierstrassCurve.Affine.Point.some_ne_zero _
          · rw [WeierstrassCurve.Affine.slope_of_Y_ne hxc hneg, cast_modul_dvd l hl,
              cast_modul_dvd l hl, W_negY]
            have h3 : ((s.y : Int) : ZMod l) - -((s.y : Int) : ZMod l) ≠ 0 := by
              intro h
              apply hden
              push_cast
              linear_combination h
            have hE : (((2 * s.y : Int)) : ZMod l)
                = ((s.y : Int) : ZMod l) - -((s.y : Int) : ZMod l) := by
              push_cast; ring
            rw [hE, div_mul_cancel₀ _ h3]
            simp only [W]
            push_cast
            ring
        · simp [hyy] at h
      · simp only [hxx, ne_eq, not_false_eq_true, if_true] at h
        apply add_with_rep l hl s t r _ _ inv h1 h2 hsr hsO h
        intro hden
        rw [cast_modul_dvd l hl] at hden
        have hxc : ((s.x : Int) : ZMod l) ≠ ((t.x : Int) : ZMod l) := by
          intro h
          apply hden
          push_cast
          rw [h]; ring
        refine ⟨?_, ?_⟩
        · rw [WeierstrassCurve.Affine.Point.add_of_X_ne hxc]
          exact WeierstrassCurve.Affine.Point.some_ne_zero _
        · rw [WeierstrassCurve.Affine.slope_of_X_ne hxc, cast_modul_dvd l hl,
            cast_modul_dvd l hl]
          have h3 : ((s.x : Int) : ZMod l) - ((t.x : Int) : ZMod l) ≠ 0 := sub_ne_zero.2 hxc
          push_cast
          field_simp
          ring

theorem nsmul_double (l : Nat) [Fact (Nat.Prime l)] (T : (W l).Point) (h : Nat) :
    h • (T + T) = (2 * h) • T := by
  rw [← two_nsmul, ← mul_nsmul]

/-- A run of the checked loop that succeeds computes `result + n • point` on
the curve modulo every prime factor of `p`. -/
theorem mul_loop_checked_rep (l : Nat) [Fact (Nat.Prime l)] (hl : l ∣ pN)
    (hints : List (Int × Int)) (result point : ECurvePoint) (n : Int) (R T : (W l).Point)
    (out : ECurvePoint) (hR : Rep l result R) (hT : Rep l point T) (hn : 0 ≤ n)
    (h : mul_loop_checked hints result point n = some out) :
    Rep l out (R + n.toNat • T) := by
  induction hints generalizing result point n R T with
  | nil =>
    by_cases hpos : n > 0
    · simp [mul_loop_checked, hpos] at h
    · have h0 : n = 0 := by omega
      simp only [mul_loop_checked, hpos, if_false, Option.some.injEq] at h
      rw [← h, h0, Int.toNat_zero, zero_nsmul, add_zero]; exact hR
  | cons hint hints ih =>
    by_cases hpos : n > 0
    · have hn2 : 0 ≤ n / 2 := by omega
      simp only [mul_loop_checked, hpos, if_true] at h
      cases hpp : add_checked point point hint.2 with
      | none =>
        rw [hpp] at h
        split at h <;> simp_all
      | some point2 =>
        have hTT := add_checked_rep l hl point point point2 _ T T hT hT hpp
        by_cases hodd : n % 2 ≠ 0
        · rw [if_pos hodd, hpp] at h
          cases hrp : add_checked result point hint.1 with
          | none => rw [hrp] at h; simp at h
          | some result2 =>
            rw [hrp] at h
            have hRT := add_checked_rep l hl result point result2 _ R T hR hT hrp
            have h3 := ih _ _ _ _ _ hRT hTT hn2 h
            have e : n.toNat = 2 * (n / 2).toNat + 1 := by omega
            rw [e, add_nsmul, one_nsmul, ← nsmul_double, add_comm _ T, ← add_assoc]
            exact h3
        · rw [if_neg hodd, hpp] at h
          have h3 := ih _ _ _ _ _ hR hTT hn2 h
          have e : n.toNat = 2 * (n / 2).toNat := by omega
          rw [e, ← nsmul_double]
          exact h3
    · have h0 : n = 0 := by omega
      simp only [mul_loop_checked, hpos, if_false, Option.some.injEq] at h
      rw [← h, h0, Int.toNat_zero, zero_nsmul, add_zero]; exact hR

theorem generator_equation :
    (y_p * y_p - (x_p * x_p * x_p + a * x_p + b)) % p = 0 := by decide

set_option maxRecDepth 1000000 in
theorem generator_two_y : modul (2 * y_p * modul (inverse (2 * y_p) p) p) p = 1 := by decide!

theorem dvd_p (l : Nat) (hl : l ∣ pN) : (l : Int) ∣ p := by
  rw [p_eq_pN]; exact_mod_cast hl

theorem generator_nonsingular_dvd (l : Nat) [Fact (Nat.Prime l)] (hl : l ∣ pN) :
    (W l).Nonsingular ((x_p : Int) : ZMod l) ((y_p : Int) : ZMod l) := by
  rw [WeierstrassCurve.Affine.nonsingular_iff, WeierstrassCurve.Affine.equation_iff]
  simp only [W]
  constructor
  · have h : (((y_p * y_p - (x_p * x_p * x_p + a * x_p + b) : Int)) : ZMod l) = 0 := by
      rw [ZMod.intCast_zmod_eq_zero_iff_dvd]
      exact dvd_trans (dvd_p l hl) (Int.dvd_of_emod_eq_zero generator_equation)
    push_cast at h
    linear_combination h
  · right
    intro h
    have h2 : (((2 * y_p : Int)) : ZMod l) = 0 := by
      push_cast
      linear_combination h
    have h3 := congrArg (fun z : Int => ((z : Int) : ZMod l)) generator_two_y
    simp only [cast_modul_dvd l hl, Int.cast_mul, Int.cast_one] at h3
    rw [Int.cast_mul] at h2
    rw [h2, zero_mul] at h3
    exact zero_ne_one h3

theorem Rep_P_dvd (l : Nat) [Fact (Nat.Prime l)] (hl : l ∣ pN) :
    Rep l P (WeierstrassCurve.Affine.Point.some (generator_nonsingular_dvd l hl)) :=
  ⟨P_in_range, Or.inr ⟨rfl, generator_nonsingular_dvd l hl, rfl⟩⟩

theorem Rep_neg_P_dvd (l : Nat) [Fact (Nat.Prime l)] (hl : l ∣ pN) :
    Rep l neg_P (-WeierstrassCurve.Affine.Point.some (generator_nonsingular_dvd l hl)) := by
  refine ⟨by unfold ECurvePoint.in_range neg_P; decide, Or.inr ⟨rfl, ?_⟩⟩
  rw [WeierstrassCurve.Affine.Point.neg_some]
  apply some_eq_some
  · rfl
  · rw [W_negY]; simp only [neg_P]
    push_cast
    have : ((p : Int) : ZMod l) = 0 := (ZMod.intCast_zmod_eq_zero_iff_dvd _ _).2 (dvd_p l hl)
    rw [this]
    simp

theorem Rep_infinity (l : Nat) (pt : ECurvePoint) (h : pt.in_range p a) :
    Rep l { x := 0, y := 0, p := pt.p, a := pt.a, is_O := true } 0 :=
  ⟨⟨h.1, h.2.1, le_refl _, p_pos, le_refl _, p_pos⟩, Or.inl ⟨rfl, rfl⟩⟩

theorem Rep_unique (l : Nat) (pt : ECurvePoint) (A B : (W l).Point) (hA : Rep l pt A)
    (hB : Rep l pt B) : A = B := by
  rcases hA.2 with ⟨h1, rfl⟩ | ⟨h1, hA1, rfl⟩ <;> rcases hB.2 with ⟨h2, rfl⟩ | ⟨h2, hB1, rfl⟩
  · rfl
  · rw [h1] at h2; exact absurd h2 (by decide)
  · rw [h1] at h2; exact absurd h2 (by decide)
  · rfl

set_option maxRecDepth 1000000 in
/-- The checked loop carries the generator to its opposite under the scalar
`q - 1`. -/
theorem mul_checked_generator :
    mul_loop_checked generator_hints
      { x := 0, y := 0, p := P.p, a := P.a, is_O := true } P (q - 1) = some neg_P := by
  decide!

theorem prime_qN : Nat.Prime qN :=
  prime_57896044618658097711785492504343953927082934583725450622380973592137631069619

/-- The generator is annihilated by `q` on the curve modulo every prime factor
of `p`. -/
theorem generator_order_dvd (l : Nat) [Fact (Nat.Prime l)] (hl : l ∣ pN) :
    qN • WeierstrassCurve.Affine.Point.some (generator_nonsingular_dvd l hl) = 0 := by
  have h := mul_loop_checked_rep l hl _ _ _ _ 0 _ neg_P (Rep_infinity l P P_in_range)
    (Rep_P_dvd l hl) (by decide) mul_checked_generator
  have h2 := Rep_unique l _ _ _ h (Rep_neg_P_dvd l hl)
  rw [zero_add] at h2
  have e : qN = (q - 1).toNat + 1 := by decide
  rw [e, add_nsmul, one_nsmul, h2, neg_add_cancel]

theorem generator_nsmul_eq_zero_iff_dvd (l : Nat) [Fact (Nat.Prime l)] (hl : l ∣ pN) (j : Nat) :
    j • WeierstrassCurve.Affine.Point.some (generator_nonsingular_dvd l hl) = 0 ↔ qN ∣ j := by
  haveI : Fact (Nat.Prime qN) := ⟨prime_qN⟩
  rw [← addOrderOf_dvd_iff_nsmul_eq_zero,
    addOrderOf_eq_prime (generator_order_dvd l hl)
      (WeierstrassCurve.Affine.Point.some_ne_zero _)]

/-- Two points of the curve other than the point at infinity with the same
abscissa are equal or opposite. -/
theorem abscissa_fiber (l : Nat) [Fact (Nat.Prime l)] (A B : (W l).Point) (hA : A ≠ 0)
    (hB : B ≠ 0) (h : abscissa l A = abscissa l B) : A = B ∨ A = -B := by
  cases A with
  | zero => exact absurd rfl hA
  | some h1 =>
    cases B with
    | zero => exact absurd rfl hB
    | some h2 =>
      simp only [abscissa] at h
      rcases WeierstrassCurve.Affine.Y_eq_of_X_eq h1.1 h2.1 h with hy | hy
      · left
        obtain ⟨h3, e⟩ := some_eq_some l h2 h hy
        rw [e]
      · right
        rw [WeierstrassCurve.Affine.Point.neg_some]
        obtain ⟨h3, e⟩ := some_eq_some l (WeierstrassCurve.Affine.nonsingular_neg h2) h hy
        rw [e]

theorem qN_sq : ¬ (qN - 1) ^ 2 ≤ 4 * pN := by
  decide!

/-- On a curve point `G` of exact order `Q`, at most two of the multiples
`j • G` with `0 < j < Q` share an abscissa. -/
theorem abscissa_fiber_card (l : Nat) [Fact (Nat.Prime l)] (G : (W l).Point) (Q : Nat)
    (hord : ∀ j : Nat, j • G = 0 ↔ Q ∣ j) :
    ∀ x ∈ (Finset.Ico 1 Q).image (fun j : Nat => abscissa l (j • G)),
      ((Finset.Ico 1 Q).filter (fun j : Nat => abscissa l (j • G) = x)).card ≤ 2 := by
  have hne : ∀ j : Nat, 0 < j → j < Q → j • G ≠ 0 := by
    intro j h0 h1 h
    have := Nat.le_of_dvd h0 ((hord j).1 h)
    omega
  intro x hx
  obtain ⟨j0, hj0, hx0⟩ := Finset.mem_image.1 hx
  rw [Finset.mem_Ico] at hj0
  have hsub : (Finset.Ico 1 Q).filter (fun j : Nat => abscissa l (j • G) = x)
      ⊆ {j0, Q - j0} := by
    intro j hj
    rw [Finset.mem_filter, Finset.mem_Ico] at hj
    obtain ⟨⟨hj1, hj2⟩, hjx⟩ := hj
    rw [Finset.mem_insert, Finset.mem_singleton]
    rcases abscissa_fiber l (j • G) (j0 • G) (hne j hj1 hj2) (hne j0 hj0.1 hj0.2)
      (by rw [hjx]; exact hx0.symm) with h | h
    · left
      rcases Nat.lt_trichotomy j j0 with hlt | heq | hgt
      · exfalso
        have e : j0 • G = (j0 - j) • G + j • G := by rw [← add_nsmul]; congr 1; omega
        rw [← h] at e
        have := hne (j0 - j) (by omega) (by omega)
        exact this (by
          have e2 : j • G + 0 = (j0 - j) • G + j • G := by rw [add_zero]; exact e
          rw [add_comm _ (j • G)] at e2
          exact (add_left_cancel e2).symm)
      · exact heq
      · exfalso
        have e : j • G = (j - j0) • G + j0 • G := by rw [← add_nsmul]; congr 1; omega
        rw [h] at e
        have := hne (j - j0) (by omega) (by omega)
        exact this (by
          have e2 : j0 • G + 0 = (j - j0) • G + j0 • G := by rw [add_zero]; exact e
          rw [add_comm _ (j0 • G)] at e2
          exact (add_left_cancel e2).symm)
    · right
      have h0 : (j + j0) • G = 0 := by rw [add_nsmul, h, neg_add_cancel]
      obtain ⟨c, hc⟩ := (hord _).1 h0
      rcases c with _ | _ | c
      · omega
      · omega
      · exfalso
        have : Q * (c + 1 + 1) ≥ 2 * Q := by nlinarith
        omega
  exact (Finset.card_le_card hsub).trans Finset.card_le_two

theorem pN_ne_one : pN ≠ 1 := by unfold pN; norm_num

theorem pN_pos : 0 < pN := by unfold pN; norm_num

/-- No prime factor `l` of `p` has `l² ≤ p`: on the curve modulo `l` the
generator has order `q`, its multiples `j • G` for `0 < j < q` share an abscissa
at most in pairs, so `q - 1 ≤ 2·l`. -/
theorem no_small_factor (l : Nat) (hmf : Nat.Prime l) (hl : l ∣ pN) (hsq : l ^ 2 ≤ pN) :
    False := by
  haveI : Fact (Nat.Prime l) := ⟨hmf⟩
  have hord := generator_nsmul_eq_zero_iff_dvd l hl
  generalize WeierstrassCurve.Affine.Point.some (generator_nonsingular_dvd l hl) = G at hord
  have hfib := abscissa_fiber_card l G qN hord
  have hcard := Finset.card_le_mul_card_image (Finset.Ico 1 qN) 2 hfib
  have himg : ((Finset.Ico 1 qN).image (fun j : Nat => abscissa l (j • G))).card ≤ l := by
    haveI : NeZero l := ⟨hmf.ne_zero⟩
    calc _ ≤ Fintype.card (ZMod l) := Finset.card_le_univ _
      _ = l := ZMod.card l
  rw [Nat.card_Ico] at hcard
  have h2 : qN - 1 ≤ 2 * l := hcard.trans (Nat.mul_le_mul_left 2 himg)
  apply qN_sq
  calc (qN - 1) ^ 2 ≤ (2 * l) ^ 2 := Nat.pow_le_pow_left h2 2
    _ = 4 * l ^ 2 := by ring
    _ ≤ 4 * pN := Nat.mul_le_mul_left 4 hsq

/-- The field modulus `p` is prime. -/
theorem prime_pN : Nat.Prime pN := by
  by_contra hnp
  exact no_small_factor (Nat.minFac pN) (Nat.minFac_prime pN_ne_one) (Nat.minFac_dvd pN)
    (Nat.minFac_sq_le_self pN_pos hnp)

/-! ## The curve of the signer and the objects of the program -/

theorem cast_modul (x : Int) : ((modul x p : Int) : ZMod pN) = ((x : Int) : ZMod pN) := by
  rw [modul_eq_emod x p p_pos, p_eq_pN, ZMod.intCast_mod]

theorem cast_eq_iff (x y : Int) (hx0 : 0 ≤ x) (hx1 : x < p) (hy0 : 0 ≤ y) (hy1 : y < p) :
    ((x : Int) : ZMod pN) = ((y : Int) : ZMod pN) ↔ x = y := by
  constructor
  · intro h
    rw [ZMod.intCast_eq_intCast_iff, Int.ModEq, ← p_eq_pN, Int.emod_eq_of_lt hx0 hx1,
      Int.emod_eq_of_lt hy0 hy1] at h
    exact h
  · intro h; rw [h]

theorem cast_eq_zero_iff (x : Int) (hx0 : 0 ≤ x) (hx1 : x < p) :
    ((x : Int) : ZMod pN) = 0 ↔ x = 0 := by
  have := cast_eq_iff x 0 hx0 hx1 (le_refl 0) p_pos
  simpa using this

theorem two_ne_zero_zmod : (2 : ZMod pN) ≠ 0 := by
  have h := cast_eq_zero_iff 2 (by norm_num) (by unfold p; norm_num)
  intro h2
  have : ((2 : Int) : ZMod pN) = 0 := by push_cast; exact h2
  have := h.1 this
  omega

/-- The modular inverse computed by the program, in the field. -/
theorem cast_inverse [Fact (Nat.Prime pN)] (den : Int) (h0 : 0 ≤ den) (h1 : den < p)
    (hne : ((den : Int) : ZMod pN) ≠ 0) :
    ((modul (inverse den p) p : Int) : ZMod pN) = (((den : Int) : ZMod pN))⁻¹ := by
  have hd : den ≠ 0 := fun h => hne ((cast_eq_zero_iff den h0 h1).2 h)
  have hg : Nat.gcd den.toNat p.toNat = 1 := by
    have hp : p.toNat = pN := by rw [p_eq_pN]; rfl
    rw [hp, Nat.gcd_comm]
    apply (Nat.Prime.coprime_iff_not_dvd Fact.out).2
    intro hdvd
    have := Nat.le_of_dvd (by omega) hdvd
    have h3 : (den.toNat : Int) < pN := by rw [Int.toNat_of_nonneg h0, ← p_eq_pN]; exact h1
    omega
  have h := inverse_mul_emod den p h0 p_pos hg
  have h2 : ((den * inverse den p : Int) : ZMod pN) = 1 := by
    have : ((den * inverse den p : Int) : ZMod pN) = (((1 : Int)) : ZMod pN) := by
      rw [ZMod.intCast_eq_intCast_iff, Int.ModEq, ← p_eq_pN]; exact h
    simpa using this
  rw [cast_modul]
  push_cast at h2
  exact eq_inv_of_mul_eq_one_right h2

theorem cast_a : ((a : Int) : ZMod pN) = 7 := by
  simp [a]

/-- The sum computed by `operator+=` for two affine operands, when the integer
test `y == -pt2.y` fails and the operands have different abscissas or are
equal, is the sum of the points they stand for. -/
theorem add_rep_affine [Fact (Nat.Prime pN)] (s t : ECurvePoint) (S T : (W pN).Point) (hs : Rep pN s S) (ht : Rep pN t T)
    (hsO : s.is_O = false) (htO : t.is_O = false) (hy : s.y ≠ -t.y)
    (hx : s.x ≠ t.x ∨ s.y = t.y) : Rep pN (s.add t) (S + T) := by
  have hrange := ECurvePoint.add_in_range p a p_pos s t hs.1 ht.1
  obtain ⟨⟨sp, sa, sx0, sx1, sy0, sy1⟩, hsS⟩ := hs
  obtain ⟨⟨tp, ta, tx0, tx1, ty0, ty1⟩, htT⟩ := ht
  rcases hsS with ⟨hc, _⟩ | ⟨_, h1, hS⟩
  · rw [hsO] at hc; exact absurd hc (by decide)
  rcases htT with ⟨hc, _⟩ | ⟨_, h2, hT⟩
  · rw [htO] at hc; exact absurd hc (by decide)
  refine ⟨hrange, Or.inr ?_⟩
  subst hS; subst hT
  by_cases hxx : s.x = t.x
  · -- doubling
    have hyy : s.y = t.y := by
      rcases hx with hx | hx
      · exact absurd hxx hx
      · exact hx
    have hy0 : s.y ≠ 0 := by
      intro h0; apply hy; rw [← hyy, h0]; rfl
    have hcy : ((s.y : Int) : ZMod pN) ≠ 0 := fun h => hy0 ((cast_eq_zero_iff _ sy0 sy1).1 h)
    have hden : (((2 * s.y : Int)) : ZMod pN) ≠ 0 := by
      push_cast
      exact mul_ne_zero two_ne_zero_zmod hcy
    have hneg : ((s.y : Int) : ZMod pN) ≠ (W pN).negY ((t.x : Int) : ZMod pN) ((t.y : Int) : ZMod pN) := by
      rw [W_negY, ← hyy]
      intro h
      apply hden
      push_cast
      linear_combination h
    have hxc : ((s.x : Int) : ZMod pN) = ((t.x : Int) : ZMod pN) := by rw [hxx]
    rw [WeierstrassCurve.Affine.Point.add_of_Y_ne hneg]
    have hadd : s.add t = { s with
        x := modul (modul (modul (modul (3 * s.x * s.x + s.a) s.p *
            modul (inverse (modul (2 * s.y) s.p) s.p) s.p) s.p *
            modul (modul (3 * s.x * s.x + s.a) s.p *
            modul (inverse (modul (2 * s.y) s.p) s.p) s.p) s.p) s.p - 2 * s.x) s.p
        y := modul (modul (modul (3 * s.x * s.x + s.a) s.p *
            modul (inverse (modul (2 * s.y) s.p) s.p) s.p) s.p *
            (s.x - modul (modul (modul (modul (3 * s.x * s.x + s.a) s.p *
            modul (inverse (modul (2 * s.y) s.p) s.p) s.p) s.p *
            modul (modul (3 * s.x * s.x + s.a) s.p *
            modul (inverse (modul (2 * s.y) s.p) s.p) s.p) s.p) s.p - 2 * s.x) s.p) - s.y) s.p } := by
      unfold ECurvePoint.add
      simp [hsO, htO, hy, hxx]
    rw [hadd]
    refine ⟨hsO, ?_⟩
    simp only [sp, sa]
    have hinv := cast_inverse (modul (2 * s.y) p) (modul_nonneg _ _ p_pos) (modul_lt _ _ p_pos)
      (by rw [cast_modul]; exact hden)
    have hslope : (W pN).slope ((s.x : Int) : ZMod pN) ((t.x : Int) : ZMod pN)
        ((s.y : Int) : ZMod pN) ((t.y : Int) : ZMod pN)
        = ((modul (modul (3 * s.x * s.x + a) p *
            modul (inverse (modul (2 * s.y) p) p) p) p : Int) : ZMod pN) := by
      rw [WeierstrassCurve.Affine.slope_of_Y_ne hxc hneg, cast_modul, Int.cast_mul, hinv,
        cast_modul, cast_modul, W_negY]
      simp only [W]
      push_cast
      rw [div_eq_mul_inv]
      congr 1
      · ring
      · congr 1; ring
    simp only [cast_modul, Int.cast_mul] at hslope
    apply some_eq_some
    · simp only [cast_modul, Int.cast_sub, Int.cast_mul, ← hslope,
        WeierstrassCurve.Affine.addX, W]
      push_cast
      rw [← hxc]
      ring
    · simp only [cast_modul, Int.cast_sub, Int.cast_mul, ← hslope,
        WeierstrassCurve.Affine.addY, WeierstrassCurve.Affine.negAddY,
        WeierstrassCurve.Affine.negY, WeierstrassCurve.Affine.addX, W]
      push_cast
      rw [← hxc]
      ring
  · -- chord
    have hxc : ((s.x : Int) : ZMod pN) ≠ ((t.x : Int) : ZMod pN) := fun h =>
      hxx ((cast_eq_iff _ _ sx0 sx1 tx0 tx1).1 h)
    have hden : (((t.x - s.x : Int)) : ZMod pN) ≠ 0 := by
      push_cast
      intro h
      apply hxc
      linear_combination -h
    rw [WeierstrassCurve.Affine.Point.add_of_X_ne hxc]
    have hadd : s.add t = { s with
        x := modul (modul (modul (modul (t.y - s.y) s.p *
            modul (inverse (modul (t.x - s.x) s.p) s.p) s.p) s.p *
            modul (modul (t.y - s.y) s.p *
            modul (inverse (modul (t.x - s.x) s.p) s.p) s.p) s.p) s.p - s.x - t.x) s.p
        y := modul (modul (modul (t.y - s.y) s.p *
            modul (inverse (modul (t.x - s.x) s.p) s.p) s.p) s.p *
            (s.x - modul (modul (modul (modul (t.y - s.y) s.p *
            modul (inverse (modul (t.x - s.x) s.p) s.p) s.p) s.p *
            modul (modul (t.y - s.y) s.p *
            modul (inverse (modul (t.x - s.x) s.p) s.p) s.p) s.p) s.p - s.x - t.x) s.p)
            - s.y) s.p } := by
      unfold ECurvePoint.add
      simp [hsO, htO, hy, hxx]
    rw [hadd]
    refine ⟨hsO, ?_⟩
    simp only [sp]
    have hinv := cast_inverse (modul (t.x - s.x) p) (modul_nonneg _ _ p_pos) (modul_lt _ _ p_pos)
      (by rw [cast_modul]; exact hden)
    have hslope : (W pN).slope ((s.x : Int) : ZMod pN) ((t.x : Int) : ZMod pN)
        ((s.y : Int) : ZMod pN) ((t.y : Int) : ZMod pN)
        = ((modul (modul (t.y - s.y) p *
            modul (inverse (modul (t.x - s.x) p) p) p) p : Int) : ZMod pN) := by
      rw [WeierstrassCurve.Affine.slope_of_X_ne hxc, cast_modul, Int.cast_mul, hinv,
        cast_modul, cast_modul]
      push_cast
      rw [div_eq_mul_inv]
      have h3 : ((s.x : Int) : ZMod pN) - ((t.x : Int) : ZMod pN) ≠ 0 := sub_ne_zero.2 hxc
      have h4 : ((t.x : Int) : ZMod pN) - ((s.x : Int) : ZMod pN) ≠ 0 := by
        push_cast at hden; exact hden
      field_simp
      ring
    simp only [cast_modul, Int.cast_mul, Int.cast_sub] at hslope
    apply some_eq_some
    · simp only [cast_modul, Int.cast_sub, Int.cast_mul, ← hslope,
        WeierstrassCurve.Affine.addX, W]
      ring
    · simp only [cast_modul, Int.cast_sub, Int.cast_mul, ← hslope,
        WeierstrassCurve.Affine.addY, WeierstrassCurve.Affine.negAddY,
        WeierstrassCurve.Affine.negY, WeierstrassCurve.Affine.addX, W]
      ring

/-- The sum computed by `operator+=` is the sum of the points its operands
stand for, unless that sum is the point at infinity or the left operand has
order two. -/
theorem add_rep [Fact (Nat.Prime pN)] (s t : ECurvePoint) (S T : (W pN).Point) (hs : Rep pN s S) (ht : Rep pN t T)
    (hne : S + T ≠ 0) (h2 : S + S ≠ 0 ∨ S = 0) : Rep pN (s.add t) (S + T) := by
  cases htO : t.is_O with
  | true =>
    have hT : T = 0 := by
      rcases ht.2 with ⟨_, h⟩ | ⟨h, _⟩
      · exact h
      · rw [htO] at h; exact absurd h (by decide)
    have : s.add t = s := by simp [ECurvePoint.add, htO]
    rw [this, hT, add_zero]; exact hs
  | false =>
    cases hsO : s.is_O with
    | true =>
      have hS : S = 0 := by
        rcases hs.2 with ⟨_, h⟩ | ⟨h, _⟩
        · exact h
        · rw [hsO] at h; exact absurd h (by decide)
      have : s.add t = t := by simp [ECurvePoint.add, htO, hsO]
      rw [this, hS, zero_add]; exact ht
    | false =>
      have hs0 := hs
      have ht0 := ht
      obtain ⟨⟨sp, sa, sx0, sx1, sy0, sy1⟩, hsS⟩ := hs
      obtain ⟨⟨tp, ta, tx0, tx1, ty0, ty1⟩, htT⟩ := ht
      rcases hsS with ⟨hc, _⟩ | ⟨_, h1, hS⟩
      · rw [hsO] at hc; exact absurd hc (by decide)
      rcases htT with ⟨hc, _⟩ | ⟨_, h2', hT⟩
      · rw [htO] at hc; exact absurd hc (by decide)
      subst hS; subst hT
      have hS0 : WeierstrassCurve.Affine.Point.some h1 ≠ 0 :=
        WeierstrassCurve.Affine.Point.some_ne_zero h1
      have hSS : WeierstrassCurve.Affine.Point.some h1 + WeierstrassCurve.Affine.Point.some h1
          ≠ 0 := by
        rcases h2 with h | h
        · exact h
        · exact absurd h hS0
      have hy : s.y ≠ -t.y := by
        intro h
        have hy0 : s.y = 0 := by omega
        apply hSS
        apply WeierstrassCurve.Affine.Point.add_self_of_Y_eq
        rw [W_negY, hy0]; simp
      have hx : s.x ≠ t.x ∨ s.y = t.y := by
        by_cases hxx : s.x = t.x
        · right
          have hxc : ((s.x : Int) : ZMod pN) = ((t.x : Int) : ZMod pN) := by rw [hxx]
          rcases WeierstrassCurve.Affine.Y_eq_of_X_eq h1.1 h2'.1 hxc with h | h
          · exact (cast_eq_iff _ _ sy0 sy1 ty0 ty1).1 h
          · exact absurd (WeierstrassCurve.Affine.Point.add_of_Y_eq hxc h) hne
        · left; exact hxx
      exact add_rep_affine s t _ _ hs0 ht0 hsO htO hy hx

theorem generator_nonsingular :
    (W pN).Nonsingular ((x_p : Int) : ZMod pN) ((y_p : Int) : ZMod pN) := by
  rw [WeierstrassCurve.Affine.nonsingular_iff, WeierstrassCurve.Affine.equation_iff]
  simp only [W]
  constructor
  · have h : (((y_p * y_p - (x_p * x_p * x_p + a * x_p + b) : Int)) : ZMod pN) = 0 := by
      rw [ZMod.intCast_zmod_eq_zero_iff_dvd, ← p_eq_pN]
      exact Int.dvd_of_emod_eq_zero generator_equation
    push_cast at h
    linear_combination h
  · right
    intro h
    have h2 : (((2 * y_p : Int)) : ZMod pN) = 0 := by
      push_cast
      linear_combination h
    rw [ZMod.intCast_zmod_eq_zero_iff_dvd, ← p_eq_pN] at h2
    exact absurd (Int.emod_eq_zero_of_dvd h2) (by decide)

theorem Rep_P : Rep pN P (WeierstrassCurve.Affine.Point.some generator_nonsingular) :=
  ⟨P_in_range, Or.inr ⟨rfl, generator_nonsingular, rfl⟩⟩

/-- The generator has order `q` on the curve. -/
theorem generator_order [Fact (Nat.Prime pN)] :
    qN • WeierstrassCurve.Affine.Point.some generator_nonsingular = 0 :=
  generator_order_dvd pN (dvd_refl pN)

theorem generator_nsmul_eq_zero_iff [Fact (Nat.Prime pN)] (j : Nat) :
    j • WeierstrassCurve.Affine.Point.some generator_nonsingular = 0 ↔ qN ∣ j := by
  haveI : Fact (Nat.Prime qN) := ⟨prime_qN⟩
  rw [← addOrderOf_dvd_iff_nsmul_eq_zero,
    addOrderOf_eq_prime generator_order (WeierstrassCurve.Affine.Point.some_ne_zero _)]

theorem qN_not_dvd_two_pow (i : Nat) : ¬ qN ∣ 2 ^ i := by
  intro h
  have h2 := Nat.Prime.dvd_of_dvd_pow prime_qN h
  have := Nat.le_of_dvd (by norm_num) h2
  unfold qN at this
  omega

theorem qN_dvd_two_mul (m : Nat) (h : qN ∣ 2 * m) : qN ∣ m := by
  rcases (Nat.Prime.dvd_mul prime_qN).1 h with h2 | h2
  · have := Nat.le_of_dvd (by norm_num) h2
    unfold qN at this
    omega
  · exact h2

/-- The loop of `operator*=` on a base point of order `q`: from a state that
stands for `(m • B, 2 ^ i • B)` with `m < 2 ^ i` and a scalar `n` left, where the
total `n · 2 ^ i + m` is below `q`, it ends with the object that stands for the
total times `B`. -/
theorem mul_loop_rep [Fact (Nat.Prime pN)] (B : (W pN).Point) (hB : ∀ j : Nat, j • B = 0 ↔ qN ∣ j) (fuel : Nat)
    (result point : ECurvePoint) (n : Int) (m i : Nat)
    (hres : Rep pN result (m • B)) (hpt : Rep pN point ((2 ^ i) • B)) (hm : m < 2 ^ i)
    (hn : 0 ≤ n) (hk : n.toNat * 2 ^ i + m < qN) (hfuel : n.toNat ≤ fuel) :
    Rep pN (ECurvePoint.mul_loop fuel result point n) ((n.toNat * 2 ^ i + m) • B) := by
  induction fuel generalizing result point n m i with
  | zero =>
    have h0 : n.toNat = 0 := by omega
    simp only [ECurvePoint.mul_loop, h0, Nat.zero_mul, Nat.zero_add]
    exact hres
  | succ fuel ih =>
    by_cases hpos : n > 0
    · have hn2 : 0 ≤ n / 2 := by omega
      have hf2 : (n / 2).toNat ≤ fuel := by omega
      have hSS : ∀ c : Nat, c • B + c • B ≠ 0 ∨ c • B = 0 := by
        intro c
        by_cases hc : c • B = 0
        · right; exact hc
        · left
          intro h
          rw [← two_nsmul, ← mul_nsmul] at h
          exact hc ((hB c).2 (qN_dvd_two_mul c (by rw [Nat.mul_comm]; exact (hB _).1 h)))
      have hpt2 : Rep pN (point.add point) ((2 ^ (i + 1)) • B) := by
        have h1 : (2 ^ (i + 1)) • B = (2 ^ i) • B + (2 ^ i) • B := by
          rw [pow_succ, mul_nsmul, two_nsmul]
        rw [h1]
        apply add_rep point point _ _ hpt hpt _ (hSS _)
        rw [← h1]
        intro h
        exact qN_not_dvd_two_pow _ ((hB _).1 h)
      by_cases hodd : n % 2 ≠ 0
      · simp only [ECurvePoint.mul_loop, hpos, hodd, if_true, not_false_eq_true, ne_eq]
        have e : n.toNat = 2 * (n / 2).toNat + 1 := by omega
        have hge : 2 ^ i ≤ n.toNat * 2 ^ i := Nat.le_mul_of_pos_left _ (by omega)
        have hres2 : Rep pN (result.add point) ((m + 2 ^ i) • B) := by
          rw [add_nsmul]
          apply add_rep result point _ _ hres hpt _ (hSS _)
          rw [← add_nsmul]
          intro h
          have := Nat.le_of_dvd (by positivity) ((hB _).1 h)
          omega
        have h3 := ih (result.add point) (point.add point) (n / 2) (m + 2 ^ i) (i + 1) hres2 hpt2
          (by rw [pow_succ]; omega) hn2
          (by rw [pow_succ]; rw [e] at hk; nlinarith) hf2
        have e2 : (n / 2).toNat * 2 ^ (i + 1) + (m + 2 ^ i) = n.toNat * 2 ^ i + m := by
          rw [e, pow_succ]; ring
        rw [e2] at h3; exact h3
      · simp only [ECurvePoint.mul_loop, hpos, hodd, if_true, if_false]
        have e : n.toNat = 2 * (n / 2).toNat := by omega
        have h3 := ih result (point.add point) (n / 2) m (i + 1) hres hpt2
          (by rw [pow_succ]; omega) hn2
          (by rw [pow_succ]; rw [e] at hk; nlinarith) hf2
        have e2 : (n / 2).toNat * 2 ^ (i + 1) + m = n.toNat * 2 ^ i + m := by
          rw [e, pow_succ]; ring
        rw [e2] at h3; exact h3
    · have h0 : n.toNat = 0 := by omega
      simp only [ECurvePoint.mul_loop, hpos, if_false, h0, Nat.zero_mul, Nat.zero_add]
      exact hres


/-- The operator `operator*=` on a base object that stands for a point of
order `q`, for a scalar in `[0, q)`: the result stands for the multiple. -/
theorem mul_rep [Fact (Nat.Prime pN)] (pt : ECurvePoint) (B : (W pN).Point) (hpt : Rep pN pt B)
    (hB : ∀ j : Nat, j • B = 0 ↔ qN ∣ j) (k : Int) (hk0 : 0 ≤ k) (hk1 : k < q) :
    Rep pN (pt.mul k) (k.toNat • B) := by
  have h := mul_loop_rep B hB k.toNat
    { x := 0, y := 0, p := pt.p, a := pt.a, is_O := true } pt k 0 0
    (by rw [zero_nsmul]; exact Rep_infinity pN pt hpt.1) (by rw [pow_zero, one_nsmul]; exact hpt)
    (by norm_num) hk0
    (by
      rw [pow_zero, Nat.mul_one, Nat.add_zero]
      have : (k.toNat : Int) < qN := by rw [Int.toNat_of_nonneg hk0, ← q_eq_qN]; exact hk1
      exact_mod_cast this)
    (le_refl _)
  rw [pow_zero, Nat.mul_one, Nat.add_zero] at h
  exact h

theorem toNat_lt_qN (k : Int) (hk0 : 0 ≤ k) (hk1 : k < q) : k.toNat < qN := by
  have : (k.toNat : Int) < qN := by rw [Int.toNat_of_nonneg hk0, ← q_eq_qN]; exact hk1
  exact_mod_cast this

/-- A multiple `d • G` of the generator with `0 < d < q` has order `q` too. -/
theorem multiple_nsmul_eq_zero_iff [Fact (Nat.Prime pN)] (d : Nat) (hd0 : 0 < d) (hd1 : d < qN) (j : Nat) :
    j • (d • WeierstrassCurve.Affine.Point.some generator_nonsingular) = 0 ↔ qN ∣ j := by
  rw [← mul_nsmul, generator_nsmul_eq_zero_iff, Nat.mul_comm]
  constructor
  · intro h
    rcases (Nat.Prime.dvd_mul prime_qN).1 h with h2 | h2
    · exact h2
    · have := Nat.le_of_dvd hd0 h2; omega
  · intro h; exact Dvd.dvd.mul_right h d

theorem Rep_affine (pt : ECurvePoint) (A : (W pN).Point) (h : Rep pN pt A) (hA : A ≠ 0) :
    pt = { x := pt.x, y := pt.y, p := p, a := a, is_O := false } := by
  obtain ⟨⟨hp, ha, _⟩, h2⟩ := h
  rcases h2 with ⟨_, h0⟩ | ⟨hO, _⟩
  · exact absurd h0 hA
  · cases pt; simp_all

theorem Rep_coord_eq (s t : ECurvePoint) (A : (W pN).Point) (hs : Rep pN s A) (ht : Rep pN t A)
    (hA : A ≠ 0) : s.x = t.x ∧ s.y = t.y := by
  obtain ⟨⟨_, _, sx0, sx1, sy0, sy1⟩, hs2⟩ := hs
  obtain ⟨⟨_, _, tx0, tx1, ty0, ty1⟩, ht2⟩ := ht
  rcases hs2 with ⟨_, h0⟩ | ⟨_, h1, hS⟩
  · exact absurd h0 hA
  rcases ht2 with ⟨_, h0⟩ | ⟨_, h2, hT⟩
  · exact absurd h0 hA
  rw [hS] at hT
  simp only [WeierstrassCurve.Affine.Point.some.injEq] at hT
  exact ⟨(cast_eq_iff _ _ sx0 sx1 tx0 tx1).1 hT.1, (cast_eq_iff _ _ sy0 sy1 ty0 ty1).1 hT.2⟩

/-- Multiples of the generator depend on the scalar modulo `q` only. -/
theorem generator_nsmul_mod [Fact (Nat.Prime pN)] (j : Nat) :
    j • WeierstrassCurve.Affine.Point.some generator_nonsingular
      = (j % qN) • WeierstrassCurve.Affine.Point.some generator_nonsingular := by
  conv_lhs => rw [← Nat.mod_add_div j qN]
  rw [add_nsmul, mul_nsmul, generator_order, nsmul_zero, add_zero]

/-- The scalars of `check_sign` for a signature made by `sign_message`:
`z1 + z2·d` is the nonce modulo `q`. -/
theorem scalars_sum (d k e r : Int) (hd0 : 0 ≤ d) (hk0 : 0 ≤ k) (hk1 : k < q) (he0 : 0 ≤ e)
    (he : e % q ≠ 0) :
    ((modul (modul (r * d + k * modul e q) q * modul (inverse e q) q) q).toNat
      + (modul (-r * modul (inverse e q) q) q).toNat * d.toNat) % qN = k.toNat := by
  have hg : Nat.gcd e.toNat q.toNat = 1 := by
    have hq : q.toNat = qN := by rw [q_eq_qN]; rfl
    rw [hq, Nat.gcd_comm]
    apply (Nat.Prime.coprime_iff_not_dvd prime_qN).2
    intro hdvd
    apply he
    have : (qN : Int) ∣ e := by
      rw [← Int.toNat_of_nonneg he0]; exact_mod_cast hdvd
    rw [q_eq_qN]; exact Int.emod_eq_zero_of_dvd this
  have hinv := inverse_mul_emod e q he0 q_pos hg
  simp only [modul_eq_emod _ q q_pos]
  generalize inverse e q = w at hinv
  have h1 : ((((r * d + k * (e % q)) % q * (w % q)) % q + (-r * (w % q)) % q * d)) % q = k := by
    have e1 : (((r * d + k * (e % q)) % q * (w % q)) % q + (-r * (w % q)) % q * d) % q
        = (k * (e * w % q)) % q := by
      apply Int.emod_emod_of_dvd _ (dvd_refl q) |>.symm.trans
      rw [Int.emod_emod_of_dvd _ (dvd_refl q)]
      apply Int.ModEq.eq
      have m1 : (r * d + k * (e % q)) % q * (w % q) % q ≡ (r * d + k * e) * w [ZMOD q] := by
        apply (Int.mod_modEq _ _).trans
        apply Int.ModEq.mul
        · apply (Int.mod_modEq _ _).trans
          exact Int.ModEq.add (Int.ModEq.refl _) (Int.ModEq.mul (Int.ModEq.refl _) (Int.mod_modEq _ _))
        · exact Int.mod_modEq _ _
      have m2 : (-r * (w % q)) % q * d ≡ (-r * w) * d [ZMOD q] := by
        apply Int.ModEq.mul _ (Int.ModEq.refl _)
        apply (Int.mod_modEq _ _).trans
        exact Int.ModEq.mul (Int.ModEq.refl _) (Int.mod_modEq _ _)
      have m3 : k * (e * w % q) ≡ k * (e * w) [ZMOD q] :=
        Int.ModEq.mul (Int.ModEq.refl _) (Int.mod_modEq _ _)
      refine (Int.ModEq.add m1 m2).trans (Int.ModEq.trans ?_ m3.symm)
      have : (r * d + k * e) * w + -r * w * d = k * (e * w) := by ring
      rw [this]
    rw [e1, hinv]
    have : (1 : Int) % q = 1 := by decide
    rw [this, Int.mul_one]
    exact Int.emod_eq_of_lt hk0 hk1
  have hz1 : 0 ≤ (r * d + k * (e % q)) % q * (w % q) % q := Int.emod_nonneg _ (by decide)
  have hz2 : 0 ≤ (-r * (w % q)) % q := Int.emod_nonneg _ (by decide)
  zify
  rw [Int.toNat_of_nonneg hz1, Int.toNat_of_nonneg hz2, Int.toNat_of_nonneg hd0,
    Int.toNat_of_nonneg hk0, ← q_eq_qN]
  exact h1


theorem double_ne_zero_or [Fact (Nat.Prime pN)] (c : Nat) :
    c • WeierstrassCurve.Affine.Point.some generator_nonsingular
        + c • WeierstrassCurve.Affine.Point.some generator_nonsingular ≠ 0 ∨
      c • WeierstrassCurve.Affine.Point.some generator_nonsingular = 0 := by
  by_cases hc : c • WeierstrassCurve.Affine.Point.some generator_nonsingular = 0
  · right; exact hc
  · left
    intro h
    rw [← two_nsmul, ← mul_nsmul] at h
    exact hc ((generator_nsmul_eq_zero_iff c).2
      (qN_dvd_two_mul c (by rw [Nat.mul_comm]; exact (generator_nsmul_eq_zero_iff _).1 h)))

/-- The arithmetic of the round trip: for a private scalar `d` and a nonce `k`
in `[1, q)` and a hash `e ≥ 0` not divisible by `q`, `check_sign_core` accepts
the pair `(s, r)` that `sign_message` computes, with the public point `d·P`. -/
theorem check_sign_core_sign (d k e : Int) (hd0 : 0 < d) (hd1 : d < q) (hk0 : 0 < k)
    (hk1 : k < q) (he0 : 0 ≤ e) (he : e % q ≠ 0) :
    check_sign_core e
      (modul (modul (P.mul k).x q * d + k * modul e q) q) (modul (P.mul k).x q)
      (P.mul d).x (P.mul d).y = true := by
  haveI : Fact (Nat.Prime pN) := ⟨prime_pN⟩
  have hGk := mul_rep P _ Rep_P generator_nsmul_eq_zero_iff k (le_of_lt hk0) hk1
  have hGd := mul_rep P _ Rep_P generator_nsmul_eq_zero_iff d (le_of_lt hd0) hd1
  have hdN := toNat_lt_qN d (le_of_lt hd0) hd1
  have hkN := toNat_lt_qN k (le_of_lt hk0) hk1
  have hd_pos : 0 < d.toNat := by omega
  have hk_pos : 0 < k.toNat := by omega
  have hdG : d.toNat • WeierstrassCurve.Affine.Point.some generator_nonsingular ≠ 0 := by
    intro h
    have := Nat.le_of_dvd hd_pos ((generator_nsmul_eq_zero_iff _).1 h)
    omega
  have hkG : k.toNat • WeierstrassCurve.Affine.Point.some generator_nonsingular ≠ 0 := by
    intro h
    have := Nat.le_of_dvd hk_pos ((generator_nsmul_eq_zero_iff _).1 h)
    omega
  have hQ := Rep_affine _ _ hGd hdG
  rw [check_sign_core_eq, ← hQ]
  generalize hr : modul (P.mul k).x q = r
  generalize hz1 : modul (modul (r * d + k * modul e q) q * modul (inverse e q) q) q = z1
  generalize hz2 : modul (-r * modul (inverse e q) q) q = z2
  have hsum := scalars_sum d k e r (le_of_lt hd0) (le_of_lt hk0) hk1 he0 he
  rw [hz1, hz2] at hsum
  have hz10 : 0 ≤ z1 := by rw [← hz1]; exact modul_nonneg _ _ q_pos
  have hz11 : z1 < q := by rw [← hz1]; exact modul_lt _ _ q_pos
  have hz20 : 0 ≤ z2 := by rw [← hz2]; exact modul_nonneg _ _ q_pos
  have hz21 : z2 < q := by rw [← hz2]; exact modul_lt _ _ q_pos
  have h1 := mul_rep P _ Rep_P generator_nsmul_eq_zero_iff z1 hz10 hz11
  have h2 := mul_rep (P.mul d) _ hGd (multiple_nsmul_eq_zero_iff d.toNat hd_pos hdN) z2 hz20 hz21
  have hS : z1.toNat • WeierstrassCurve.Affine.Point.some generator_nonsingular
      + z2.toNat • d.toNat • WeierstrassCurve.Affine.Point.some generator_nonsingular
      = k.toNat • WeierstrassCurve.Affine.Point.some generator_nonsingular := by
    rw [← mul_nsmul', ← add_nsmul, generator_nsmul_mod, hsum]
  have h3 := add_rep _ _ _ _ h1 h2 (by rw [hS]; exact hkG) (double_ne_zero_or _)
  rw [hS] at h3
  have hx := (Rep_coord_eq _ _ _ h3 hGk hkG).1
  rw [hx, hr]
  simp


/-! ## C1 -/

/-- C1: sign/verify round trip.  For every draw `gen_d` of `generate_key_pair`
whose private scalar `d = gen_d mod q` is in `[1, q)`, with the key pair as
`generate_key_pair` returns it, every draw `gen_k` of `sign_message` whose nonce
`k = gen_k mod q` is in `[1, q)`, and every message whose hash `e` is not
congruent to `0` modulo `q`, `sign_message` returns a signature and `check_sign`
returns true for the message, that signature and the public key. -/
theorem sign_then_check (message : List Nat) (gen_d gen_k : Nat) (e : Int)
    (hd : modul gen_d q ≠ 0) (hk : modul gen_k q ≠ 0)
    (he : b_int_0x (GOSTCalc_hash message) = some e) (heq : modul e q ≠ 0) :
    ∃ kp : KeyPair, ∃ sig : List Char,
      generate_key_pair gen_d = some kp ∧
      sign_message message kp.private_key gen_k = some sig ∧
      check_sign message sig kp.public_key = some true := by
  obtain ⟨d_hex, x_hex, y_hex, hkp, _, _, _, hdl, hxl, hyl, _, _, hdp, hxp, hyp⟩ :=
    generate_key_pair_halves gen_d
  obtain ⟨k, e', r, s, s_hex, r_hex, hk', he', hr, hs, _, _, hsl, hrl, hsp, hrp, hsm, ht, hdr⟩ :=
    sign_message_halves message d_hex gen_k (modul gen_d q) e hdp he
  refine ⟨_, s_hex ++ r_hex, hkp, hsm, ?_⟩
  have hd0 := modul_nonneg gen_d q q_pos
  have hd1 := modul_lt gen_d q q_pos
  have hk0 := modul_nonneg gen_k q q_pos
  have hk1 := modul_lt gen_k q q_pos
  have he0 := b_int_0x_nonneg _ _ he
  rw [check_sign_parsed message (s_hex ++ r_hex) (x_hex ++ y_hex) e s r
    (P.mul (modul gen_d q)).x (P.mul (modul gen_d q)).y (by simp [hsl]) (by simp [hxl]) he
    (by rw [ht]; exact hsp)
    (by rw [hdr, ← hrl, List.take_length]; exact hrp)
    (by rw [List.take_append_of_le_length (by omega), ← hxl, List.take_length]; exact hxp)
    (by
      rw [List.drop_append_of_le_length (by omega), ← hxl, List.drop_length, List.nil_append,
        hxl, ← hyl, List.take_length]
      exact hyp)]
  rw [hs, hr, he', hk']
  rw [check_sign_core_sign (modul gen_d q) (modul gen_k q) e (by omega) hd1 (by omega) hk1 he0
    (by rw [← modul_eq_emod e q q_pos]; exact heq)]

/-- C1 (witness): the round trip for the message `device:ABCDEF`, the key
draw `123456789` and the nonce draw `987654321987654321`. -/
theorem sign_then_check_witness :
    ∃ kp : KeyPair, ∃ sig : List Char,
      generate_key_pair 123456789 = some kp ∧
      sign_message msg_device kp.private_key 987654321987654321 = some sig ∧
      check_sign msg_device sig kp.public_key = some true :=
  sign_then_check msg_device 123456789 987654321987654321 hash_device (by decide) (by decide)
    b_int_0x_hash_device (by decide)

/-! ## C11, C12: the test vectors of the hash -/

/-- C11: `GOSTCalc::hash` applied to the 32 bytes of the ASCII message
`This is message, length=32 bytes` (the table `GOSThash_example1_M`) returns the
string `B1C466D3…A637FFFA`: the digest is the table `GOSThash_example1_Hash`,
written byte by byte as two uppercase hexadecimal digits. -/
theorem GOSTCalc_hash_example1 :
    GOSThash_example1_M = "This is message, length=32 bytes".toList.map Char.toNat ∧
      GOSTCalc_digest GOSThash_example1_M = GOSThash_example1_Hash ∧
      GOSTCalc_hash GOSThash_example1_M
        = "B1C466D37519B82E8319819FF32595E047A28CB6F83EFF1C6916A815A637FFFA".toList := by
  have hd := GOSTCalc_digest_eq GOSThash_example1_M (by decide)
  rw [digest_F_example1] at hd
  refine ⟨by decide, hd, ?_⟩
  unfold GOSTCalc_hash
  rw [hd]
  decide

/-- C12: `GOSTCalc::hash` applied to the 50 bytes of the ASCII message
`Suppose the original message has length = 50 bytes` (the table
`GOSThash_example2_M`) returns the string `471ABA57…62F55208`: the digest is the
table `GOSThash_example2_Hash`. -/
theorem GOSTCalc_hash_example2 :
    GOSThash_example2_M
        = "Suppose the original message has length = 50 bytes".toList.map Char.toNat ∧
      GOSTCalc_digest GOSThash_example2_M = GOSThash_example2_Hash ∧
      GOSTCalc_hash GOSThash_example2_M
        = "471ABA57A60A770D3A76130635C1FBEA4EF14DE51F78B4AE57DD893B62F55208".toList := by
  have hd := GOSTCalc_digest_eq GOSThash_example2_M (by decide)
  rw [digest_F_example2] at hd
  refine ⟨by decide, hd, ?_⟩
  unfold GOSTCalc_hash
  rw [hd]
  decide

/-! ## C13: the running sum -/

/-- C13 (the code at the failing input): with the running sum
`Z = FF FF FF FF FF FF FF FF 00 … 00` and the block
`M = 01 00 00 00 FF FF FF FF 00 … 00`, the block transform leaves
`Z = 00 00 00 00 FF FF FF FF 00 … 00`, which is `2^64 - 2^32` as a
little-endian integer, whereas `(Z + M) mod 2^256 = 2^65 - 2^32`: the carry
out of the second lane is lost.  The state is reached by `GOSThash_Update` on the
64 bytes `Z ‖ M`. -/
theorem GOSThashTransform_carry_lost :
    (GOSThashTransform { GOSTHASH_CTX_local with Z := Z_carry } M_carry).Z
        = [0, 0, 0, 0, 255, 255, 255, 255] ++ List.replicate 24 0 ∧
      le_value (GOSThashTransform { GOSTHASH_CTX_local with Z := Z_carry } M_carry).Z
        = 2 ^ 64 - 2 ^ 32 ∧
      (le_value Z_carry + le_value M_carry) % 2 ^ 256 = 2 ^ 65 - 2 ^ 32 ∧
      (GOSThash_Update (GOSThash_Init GOSTHASH_CTX_local) Z_carry 32).Z = Z_carry ∧
      (GOSThash_Update (GOSThash_Init GOSTHASH_CTX_local) (Z_carry ++ M_carry) 64).Z
        = [0, 0, 0, 0, 255, 255, 255, 255] ++ List.replicate 24 0 := by
  decide

/-! ## C14: the block cipher -/

theorem or_shiftLeft_eq_add (x y k : Nat) (h : x < 2 ^ k) : x ||| (y <<< k) = x + y * 2 ^ k := by
  rw [Nat.or_comm, Nat.shiftLeft_eq, Nat.mul_comm y, ← Nat.mul_add_lt_is_or h, Nat.add_comm]

theorem and_255 (x : Nat) : x &&& 255 = x % 256 := Nat.and_pow_two_sub_one_eq_mod x 8

/-- Four bytes read by `c2l`, as a sum. -/
theorem c2l_eq (b0 b1 b2 b3 : Nat) (h0 : b0 < 256) (h1 : b1 < 256) (h2 : b2 < 256) :
    b0 ||| (b1 <<< 8) ||| (b2 <<< 16) ||| (b3 <<< 24)
      = b0 + b1 * 256 + b2 * 65536 + b3 * 16777216 := by
  rw [or_shiftLeft_eq_add b0 b1 8 (by omega), or_shiftLeft_eq_add _ b2 16 (by omega),
    or_shiftLeft_eq_add _ b3 24 (by omega)]
  norm_num

/-- The macro `l2c` after `c2l` on four bytes gives the bytes back. -/
theorem l2c_c2l (b0 b1 b2 b3 : Nat) (h0 : b0 < 256) (h1 : b1 < 256) (h2 : b2 < 256)
    (h3 : b3 < 256) :
    l2c (b0 ||| (b1 <<< 8) ||| (b2 <<< 16) ||| (b3 <<< 24)) = [b0, b1, b2, b3] := by
  rw [c2l_eq b0 b1 b2 b3 h0 h1 h2]
  simp only [l2c, Nat.shiftRight_eq_div_pow]
  have e : (0xff : Nat) = 255 := rfl
  simp only [e, and_255]
  congr 1
  · omega
  congr 1
  · omega
  congr 1
  · omega
  congr 1
  omega

/-- The macro `c2l` after `l2c` gives the word back. -/
theorem c2l_l2c (w : Nat) (h : w < 2 ^ 32) (rest : List Nat) :
    c2l (l2c w ++ rest) 0 = w := by
  simp only [l2c, c2l, List.cons_append, List.nil_append, List.getD_cons_zero,
    List.getD_cons_succ, Nat.zero_add]
  have e : (0xff : Nat) = 255 := rfl
  simp only [e, and_255, Nat.shiftRight_eq_div_pow]
  rw [c2l_eq _ _ _ _ (by omega) (by omega) (by omega)]
  omega

theorem c2l_l2c_second (v w : Nat) (h : w < 2 ^ 32) :
    c2l (l2c v ++ l2c w) 4 = w := by
  have := c2l_l2c w h []
  simp only [l2c, c2l, List.cons_append, List.nil_append, List.getD_cons_zero,
    List.getD_cons_succ, Nat.zero_add, List.append_nil] at this ⊢
  exact this

theorem c2l_lt (c : List Nat) (off : Nat) (h : ∀ x ∈ c, x < 256) : c2l c off < 2 ^ 32 := by
  have hb : ∀ i, c.getD i 0 < 256 := by
    intro i
    by_cases hi : i < c.length
    · rw [List.getD_eq_getElem _ _ hi]; exact h _ (List.getElem_mem _)
    · rw [List.getD_eq_default _ _ (by omega)]; norm_num
  unfold c2l
  rw [c2l_eq _ _ _ _ (hb _) (hb _) (hb _)]
  have := hb off; have := hb (off + 1); have := hb (off + 2); have := hb (off + 3)
  omega


theorem getD_lt (l : List Nat) (i B : Nat) (hB : 0 < B) (h : ∀ x ∈ l, x < B) :
    l.getD i 0 < B := by
  by_cases hi : i < l.length
  · rw [List.getD_eq_getElem _ _ hi]; exact h _ (List.getElem_mem _)
  · rw [List.getD_eq_default _ _ (by omega)]; exact hB

/-- The round function returns an `unsigned int`. -/
theorem f_lt (ctx : gost_ctx) (hw : ctx.words) (x : Nat) : f ctx x < 2 ^ 32 := by
  unfold gost_ctx.words at hw
  simp only [List.mem_append] at hw
  have h87 : ∀ i, ctx.k87.getD i 0 < 2 ^ 32 := fun i =>
    getD_lt _ _ _ (by norm_num) (fun x hx => hw x (Or.inl (Or.inl (Or.inl hx))))
  have h65 : ∀ i, ctx.k65.getD i 0 < 2 ^ 32 := fun i =>
    getD_lt _ _ _ (by norm_num) (fun x hx => hw x (Or.inl (Or.inl (Or.inr hx))))
  have h43 : ∀ i, ctx.k43.getD i 0 < 2 ^ 32 := fun i =>
    getD_lt _ _ _ (by norm_num) (fun x hx => hw x (Or.inl (Or.inr hx)))
  have h21 : ∀ i, ctx.k21.getD i 0 < 2 ^ 32 := fun i =>
    getD_lt _ _ _ (by norm_num) (fun x hx => hw x (Or.inr hx))
  unfold f
  apply Nat.or_lt_two_pow
  · unfold u32; omega
  · have hy := Nat.or_lt_two_pow (Nat.or_lt_two_pow (Nat.or_lt_two_pow
      (h87 ((x >>> 24) &&& 255)) (h65 ((x >>> 16) &&& 255))) (h43 ((x >>> 8) &&& 255)))
      (h21 (x &&& 255))
    rw [Nat.shiftRight_eq_div_pow]
    have : (ctx.k87.getD ((x >>> 24) &&& 255) 0 ||| ctx.k65.getD ((x >>> 16) &&& 255) 0
      ||| ctx.k43.getD ((x >>> 8) &&& 255) 0 ||| ctx.k21.getD (x &&& 255) 0) / 2 ^ (32 - 11)
      ≤ (ctx.k87.getD ((x >>> 24) &&& 255) 0 ||| ctx.k65.getD ((x >>> 16) &&& 255) 0
      ||| ctx.k43.getD ((x >>> 8) &&& 255) 0 ||| ctx.k21.getD (x &&& 255) 0) :=
      Nat.div_le_self _ _
    omega

/-- Two statements of the cipher, undone by the same two statements with the
keys and the names of the halves exchanged. -/
theorem gost_round2_swap (ctx : gost_ctx) (i j : Nat) (n : Nat × Nat) :
    gost_round2 ctx j i (gost_round2 ctx i j n).swap = n.swap := by
  have e2 : (n.1 ^^^ f ctx (u32 (n.2 ^^^ f ctx (u32 (n.1 + ctx.key.getD i 0))
      + ctx.key.getD j 0))) ^^^ f ctx (u32 (n.2 ^^^ f ctx (u32 (n.1 + ctx.key.getD i 0))
      + ctx.key.getD j 0)) = n.1 := Nat.xor_cancel_right _ _
  simp only [gost_round2, Prod.swap, e2, Nat.xor_cancel_right]

theorem gost_round2_lt (ctx : gost_ctx) (hw : ctx.words) (i j : Nat) (n : Nat × Nat)
    (h1 : n.1 < 2 ^ 32) (h2 : n.2 < 2 ^ 32) :
    (gost_round2 ctx i j n).1 < 2 ^ 32 ∧ (gost_round2 ctx i j n).2 < 2 ^ 32 :=
  ⟨Nat.xor_lt_two_pow h1 (f_lt ctx hw _), Nat.xor_lt_two_pow h2 (f_lt ctx hw _)⟩

theorem gost_pass_down_up (ctx : gost_ctx) (n : Nat × Nat) :
    gost_pass_down ctx (gost_pass_up ctx n).swap = n.swap := by
  simp only [gost_pass_down, gost_pass_up, gost_round2_swap]

theorem gost_pass_up_down (ctx : gost_ctx) (n : Nat × Nat) :
    gost_pass_up ctx (gost_pass_down ctx n).swap = n.swap := by
  simp only [gost_pass_down, gost_pass_up, gost_round2_swap]

theorem gost_pass_up_lt (ctx : gost_ctx) (hw : ctx.words) (n : Nat × Nat)
    (h1 : n.1 < 2 ^ 32) (h2 : n.2 < 2 ^ 32) :
    (gost_pass_up ctx n).1 < 2 ^ 32 ∧ (gost_pass_up ctx n).2 < 2 ^ 32 := by
  unfold gost_pass_up
  obtain ⟨a1, a2⟩ := gost_round2_lt ctx hw 0 1 n h1 h2
  obtain ⟨b1, b2⟩ := gost_round2_lt ctx hw 2 3 _ a1 a2
  obtain ⟨c1, c2⟩ := gost_round2_lt ctx hw 4 5 _ b1 b2
  exact gost_round2_lt ctx hw 6 7 _ c1 c2

theorem gost_pass_down_lt (ctx : gost_ctx) (hw : ctx.words) (n : Nat × Nat)
    (h1 : n.1 < 2 ^ 32) (h2 : n.2 < 2 ^ 32) :
    (gost_pass_down ctx n).1 < 2 ^ 32 ∧ (gost_pass_down ctx n).2 < 2 ^ 32 := by
  unfold gost_pass_down
  obtain ⟨a1, a2⟩ := gost_round2_lt ctx hw 7 6 n h1 h2
  obtain ⟨b1, b2⟩ := gost_round2_lt ctx hw 5 4 _ a1 a2
  obtain ⟨c1, c2⟩ := gost_round2_lt ctx hw 3 2 _ b1 b2
  exact gost_round2_lt ctx hw 1 0 _ c1 c2

/-- Decryption undoes encryption, for every context whose tables hold
`unsigned int` values and every block of eight bytes. -/
theorem gost_decrypt_encrypt (ctx : gost_ctx) (hw : ctx.words) (src : List Nat)
    (hl : src.length = 8) (hb : ∀ x ∈ src, x < 256) :
    gost_encrypt (gost_encrypt src ctx true) ctx false = src := by
  have hn1 := c2l_lt src 0 hb
  have hn2 := c2l_lt src 4 hb
  obtain ⟨u1a, u1b⟩ := gost_pass_up_lt ctx hw (c2l src 0, c2l src 4) hn1 hn2
  obtain ⟨u2a, u2b⟩ := gost_pass_up_lt ctx hw _ u1a u1b
  obtain ⟨u3a, u3b⟩ := gost_pass_up_lt ctx hw _ u2a u2b
  obtain ⟨d1a, d1b⟩ := gost_pass_down_lt ctx hw _ u3a u3b
  generalize hE : gost_pass_down ctx (gost_pass_up ctx (gost_pass_up ctx (gost_pass_up ctx
    (c2l src 0, c2l src 4)))) = E at d1a d1b
  have henc : gost_encrypt src ctx true = l2c E.2 ++ l2c E.1 := by
    simp only [gost_encrypt, if_true, hE]
  rw [henc]
  have hdec : gost_encrypt (l2c E.2 ++ l2c E.1) ctx false
      = l2c (c2l src 0) ++ l2c (c2l src 4) := by
    have hs : (c2l (l2c E.2 ++ l2c E.1) 0, c2l (l2c E.2 ++ l2c E.1) 4) = E.swap := by
      rw [c2l_l2c E.2 d1b, c2l_l2c_second E.2 E.1 d1a]; rfl
    simp only [gost_encrypt, Bool.false_eq_true, if_false, hs]
    rw [← hE, gost_pass_up_down, gost_pass_down_up, gost_pass_down_up, gost_pass_down_up]
    rfl
  rw [hdec]
  match src, hl with
  | [b0, b1, b2, b3, b4, b5, b6, b7], _ =>
    have h0 := hb b0 (by simp)
    have h1 := hb b1 (by simp)
    have h2 := hb b2 (by simp)
    have h3 := hb b3 (by simp)
    have h4 := hb b4 (by simp)
    have h5 := hb b5 (by simp)
    have h6 := hb b6 (by simp)
    have h7 := hb b7 (by simp)
    simp only [c2l, List.getD_cons_zero, List.getD_cons_succ, Nat.zero_add]
    rw [l2c_c2l b0 b1 b2 b3 h0 h1 h2 h3, l2c_c2l b4 b5 b6 b7 h4 h5 h6 h7]
    rfl

/-- The tables built by `kboxinit` from S-boxes of bytes hold `unsigned int`
values. -/
theorem kboxinit_words (c : gost_ctx) (kbox : KBOX) (hk : kbox.bytes) :
    (kboxinit c kbox).words := by
  unfold KBOX.bytes at hk
  simp only [List.mem_append] at hk
  have hk1 : ∀ i, kbox.k1.getD i 0 < 256 := fun i =>
    getD_lt _ _ _ (by norm_num) (fun x hx => hk x (by simp [hx]))
  have hk2 : ∀ i, kbox.k2.getD i 0 < 256 := fun i =>
    getD_lt _ _ _ (by norm_num) (fun x hx => hk x (by simp [hx]))
  intro x hx
  simp only [kboxinit, List.mem_append, List.mem_map, List.mem_range] at hx
  rcases hx with ((⟨i, _, rfl⟩ | ⟨i, _, rfl⟩) | ⟨i, _, rfl⟩) | ⟨i, _, rfl⟩
  · unfold u32; omega
  · unfold u32; omega
  · unfold u32; omega
  · apply Nat.or_lt_two_pow
    · rw [Nat.shiftLeft_eq]; have := hk2 (i >>> 4); omega
    · have := hk1 (i &&& 15); omega

theorem gost_set_key_words (ctx : gost_ctx) (key : List Nat) (hw : ctx.words) :
    (gost_set_key ctx key).words := hw

/-! ## C14 -/

/-- C14: ECB round trip.  For every block `B` of eight bytes, every key `K` and
every set of S-boxes (of bytes), in the context built by `kboxinit` and
`gost_set_key`, `gost_encrypt` with `enc = 0` applied to the result of
`gost_encrypt` with `enc = 1` on `B` returns `B`. -/
theorem gost_ecb_round_trip (c : gost_ctx) (kbox : KBOX) (K B : List Nat)
    (hk : kbox.bytes) (hl : B.length = 8) (hb : ∀ x ∈ B, x < 256) :
    gost_encrypt (gost_encrypt B (gost_set_key (kboxinit c kbox) K) true)
      (gost_set_key (kboxinit c kbox) K) false = B :=
  gost_decrypt_encrypt _ (gost_set_key_words _ K (kboxinit_words c kbox hk)) B hl hb

set_option maxRecDepth 1000000 in
/-- The S-boxes of the hash hold bytes. -/
theorem GOSThash_example_kbox_bytes : GOSThash_example_kbox.bytes := by
  unfold KBOX.bytes
  decide!

/-- C14 (witness): the block `01 02 … 08` under the key `00 01 … 1F` and the
S-boxes of the hash. -/
theorem gost_ecb_round_trip_witness :
    gost_encrypt (gost_encrypt [1, 2, 3, 4, 5, 6, 7, 8]
        (gost_set_key (kboxinit GOSTHASH_CTX_local.gost_enc_ctx GOSThash_example_kbox)
          (List.range 32)) true)
      (gost_set_key (kboxinit GOSTHASH_CTX_local.gost_enc_ctx GOSThash_example_kbox)
        (List.range 32)) false = [1, 2, 3, 4, 5, 6, 7, 8] :=
  gost_ecb_round_trip GOSTHASH_CTX_local.gost_enc_ctx GOSThash_example_kbox (List.range 32)
    [1, 2, 3, 4, 5, 6, 7, 8] GOSThash_example_kbox_bytes rfl (by decide)

/-! ## C15, C17, C18, C20: the point operations -/

/-! ## C17 -/

/-- C17: for all objects `P1` and `P2`, one of which is flagged as the point at
infinity: if `P2` is, `P1 += P2` leaves `P1` unchanged in every field; if `P1` is
and `P2` is not, `P1 += P2` makes `P1` equal to `P2` in every field. -/
theorem add_infinity (P1 P2 : ECurvePoint) (h : P2.is_O = true ∨ P1.is_O = true) :
    P1.add P2 = if P2.is_O then P1 else P2 := by
  unfold ECurvePoint.add
  rcases h with h | h
  · simp [h]
  · cases h2 : P2.is_O <;> simp [h]

/-- C17 (witness): the generator plus the point at infinity is the generator,
and the point at infinity plus the generator is the generator. -/
theorem add_infinity_witness :
    P.add { x := 0, y := 0, p := p, a := a, is_O := true } = P ∧
      ECurvePoint.add { x := 0, y := 0, p := p, a := a, is_O := true } P = P :=
  ⟨add_infinity P { x := 0, y := 0, p := p, a := a, is_O := true } (Or.inl rfl),
    add_infinity { x := 0, y := 0, p := p, a := a, is_O := true } P (Or.inr rfl)⟩

/-! ## C15 -/

set_option maxRecDepth 1000000 in
/-- C15 (the code at the failing input): the generator `P = (x_p, y_p)` plus
its opposite `(x_p, p - y_p)` is not flagged as the point at infinity by
`operator+=`: the test `y == -pt2.y` compares integers, fails, and the doubling
branch is taken, so that the result is the same object as `P + P`. -/
theorem add_opposite_not_infinity :
    (P.add neg_P).is_O = false ∧ P.add neg_P = P.add P := by
  decide!

/-! ## C20 -/

set_option maxRecDepth 1000000 in
/-- C20: for the generator `P`, `P * 2` equals `P + P` and `(P * 2) + P` equals
`P * 3`, in every field. -/
theorem mul_two_three :
    P.mul 2 = P.add P ∧ (P.mul 2).add P = P.mul 3 := by
  decide!

/-- The inverse computed by the program for a denominator coprime to the
modulus is an inverse modulo it. -/
theorem inverse_modEq (den pp : Int) (hp : 0 < pp) (hg : Int.gcd den pp = 1) :
    den * modul (inverse (modul den pp) pp) pp ≡ 1 [ZMOD pp] := by
  have hd0 : 0 ≤ modul den pp := modul_nonneg _ _ hp
  have hcop : IsCoprime (den % pp) pp := by
    have h1 : IsCoprime den pp := Int.isCoprime_iff_gcd_eq_one.2 hg
    have h2 : den % pp = den + pp * (-(den / pp)) := by
      have := Int.emod_add_ediv den pp
      linarith
    rw [h2]
    exact h1.add_mul_left_left _
  have hg2 : Nat.gcd (modul den pp).toNat pp.toNat = 1 := by
    rw [modul_eq_emod den pp hp]
    have h3 := Int.isCoprime_iff_gcd_eq_one.1 hcop
    rw [Int.gcd_eq_natAbs] at h3
    have e1 : (den % pp).toNat = (den % pp).natAbs := by
      have := Int.emod_nonneg den (ne_of_gt hp)
      omega
    have e2 : pp.toNat = pp.natAbs := by omega
    rw [e1, e2]; exact h3
  have h := inverse_mul_emod (modul den pp) pp hd0 hp hg2
  have h4 : modul den pp * inverse (modul den pp) pp ≡ 1 [ZMOD pp] := h
  calc den * modul (inverse (modul den pp) pp) pp
      ≡ modul den pp * inverse (modul den pp) pp [ZMOD pp] :=
        Int.ModEq.mul (modul_modEq den pp hp).symm (modul_modEq _ pp hp)
    _ ≡ 1 [ZMOD pp] := h4

/-- The slope computed by the program: times the denominator, it is the
numerator. -/
theorem lambda_modEq (num den pp : Int) (hp : 0 < pp) (hg : Int.gcd den pp = 1) :
    modul (modul num pp * modul (inverse (modul den pp) pp) pp) pp * den ≡ num [ZMOD pp] := by
  have h := inverse_modEq den pp hp hg
  calc modul (modul num pp * modul (inverse (modul den pp) pp) pp) pp * den
      ≡ (num * modul (inverse (modul den pp) pp) pp) * den [ZMOD pp] :=
        Int.ModEq.mul ((modul_modEq _ pp hp).trans
          (Int.ModEq.mul (modul_modEq num pp hp) (Int.ModEq.refl _))) (Int.ModEq.refl _)
    _ = num * (den * modul (inverse (modul den pp) pp) pp) := by ring
    _ ≡ num * 1 [ZMOD pp] := Int.ModEq.mul (Int.ModEq.refl _) h
    _ = num := by ring

/-! ## C18 -/

/-- C18: for objects `P1 = (x1, y1)` and `P2 = (x2, y2)` not flagged as the
point at infinity, with a positive modulus `p`, `y1 ≠ −y2` and a denominator
(`x2 − x1` when `x1 ≠ x2`, `2·y1` otherwise) coprime to `p`, the result
`(x3, y3)` of `P1 += P2` is not flagged, has `0 ≤ x3, y3 < p`, and for the slope
`λ` the program computes: when `x1 ≠ x2`, `λ·(x2 − x1) ≡ y2 − y1` and
`x3 ≡ λ² − x1 − x2`; when `x1 = x2`, `λ·2y1 ≡ 3x1² + a` and `x3 ≡ λ² − 2x1`; in
both cases `y3 ≡ λ·(x1 − x3) − y1` (mod `p`). -/
theorem add_formulas (P1 P2 : ECurvePoint) (hO1 : P1.is_O = false) (hO2 : P2.is_O = false)
    (hp : 0 < P1.p) (hy : P1.y ≠ -P2.y)
    (hden : Int.gcd (if P1.x ≠ P2.x then P2.x - P1.x else 2 * P1.y) P1.p = 1) :
    (P1.add P2).is_O = false ∧ (P1.add P2).p = P1.p ∧ (P1.add P2).a = P1.a ∧
    0 ≤ (P1.add P2).x ∧ (P1.add P2).x < P1.p ∧ 0 ≤ (P1.add P2).y ∧ (P1.add P2).y < P1.p ∧
    ∃ lam : Int,
      (P1.x ≠ P2.x → lam * (P2.x - P1.x) ≡ P2.y - P1.y [ZMOD P1.p] ∧
        (P1.add P2).x ≡ lam * lam - P1.x - P2.x [ZMOD P1.p]) ∧
      (P1.x = P2.x → lam * (2 * P1.y) ≡ 3 * P1.x * P1.x + P1.a [ZMOD P1.p] ∧
        (P1.add P2).x ≡ lam * lam - 2 * P1.x [ZMOD P1.p]) ∧
      (P1.add P2).y ≡ lam * (P1.x - (P1.add P2).x) - P1.y [ZMOD P1.p] := by
  by_cases hxx : P1.x = P2.x
  · have hadd : P1.add P2 = { P1 with
        x := modul (modul (modul (modul (3 * P1.x * P1.x + P1.a) P1.p *
            modul (inverse (modul (2 * P1.y) P1.p) P1.p) P1.p) P1.p *
            modul (modul (3 * P1.x * P1.x + P1.a) P1.p *
            modul (inverse (modul (2 * P1.y) P1.p) P1.p) P1.p) P1.p) P1.p - 2 * P1.x) P1.p
        y := modul (modul (modul (3 * P1.x * P1.x + P1.a) P1.p *
            modul (inverse (modul (2 * P1.y) P1.p) P1.p) P1.p) P1.p *
            (P1.x - modul (modul (modul (modul (3 * P1.x * P1.x + P1.a) P1.p *
            modul (inverse (modul (2 * P1.y) P1.p) P1.p) P1.p) P1.p *
            modul (modul (3 * P1.x * P1.x + P1.a) P1.p *
            modul (inverse (modul (2 * P1.y) P1.p) P1.p) P1.p) P1.p) P1.p - 2 * P1.x) P1.p)
            - P1.y) P1.p } := by
      unfold ECurvePoint.add
      simp [hO1, hO2, hy, hxx]
    rw [hadd]
    simp only [hxx, ne_eq, not_true_eq_false, if_false] at hden
    refine ⟨hO1, rfl, rfl, modul_nonneg _ _ hp, modul_lt _ _ hp, modul_nonneg _ _ hp,
      modul_lt _ _ hp, modul (modul (3 * P1.x * P1.x + P1.a) P1.p *
            modul (inverse (modul (2 * P1.y) P1.p) P1.p) P1.p) P1.p,
      fun h => absurd hxx h, fun _ => ⟨?_, ?_⟩, ?_⟩
    · exact lambda_modEq _ _ _ hp hden
    · exact (modul_modEq _ _ hp).trans
        (Int.ModEq.sub (modul_modEq _ _ hp) (Int.ModEq.refl _))
    · exact modul_modEq _ _ hp
  · have hadd : P1.add P2 = { P1 with
        x := modul (modul (modul (modul (P2.y - P1.y) P1.p *
            modul (inverse (modul (P2.x - P1.x) P1.p) P1.p) P1.p) P1.p *
            modul (modul (P2.y - P1.y) P1.p *
            modul (inverse (modul (P2.x - P1.x) P1.p) P1.p) P1.p) P1.p) P1.p - P1.x - P2.x) P1.p
        y := modul (modul (modul (P2.y - P1.y) P1.p *
            modul (inverse (modul (P2.x - P1.x) P1.p) P1.p) P1.p) P1.p *
            (P1.x - modul (modul (modul (modul (P2.y - P1.y) P1.p *
            modul (inverse (modul (P2.x - P1.x) P1.p) P1.p) P1.p) P1.p *
            modul (modul (P2.y - P1.y) P1.p *
            modul (inverse (modul (P2.x - P1.x) P1.p) P1.p) P1.p) P1.p) P1.p - P1.x - P2.x) P1.p)
            - P1.y) P1.p } := by
      unfold ECurvePoint.add
      simp [hO1, hO2, hy, hxx]
    rw [hadd]
    simp only [hxx, ne_eq, not_false_eq_true, if_true] at hden
    refine ⟨hO1, rfl, rfl, modul_nonneg _ _ hp, modul_lt _ _ hp, modul_nonneg _ _ hp,
      modul_lt _ _ hp, modul (modul (P2.y - P1.y) P1.p *
            modul (inverse (modul (P2.x - P1.x) P1.p) P1.p) P1.p) P1.p,
      fun _ => ⟨?_, ?_⟩, fun h => absurd h hxx, ?_⟩
    · exact lambda_modEq _ _ _ hp hden
    · exact (modul_modEq _ _ hp).trans
        (Int.ModEq.sub (Int.ModEq.sub (modul_modEq _ _ hp) (Int.ModEq.refl _))
          (Int.ModEq.refl _))
    · exact modul_modEq _ _ hp

set_option maxRecDepth 1000000 in
/-- C18 (witness): the generator added to itself (the doubling branch). -/
theorem add_formulas_witness :
    (P.add P).is_O = false ∧ (P.add P).p = P.p ∧ (P.add P).a = P.a ∧
    0 ≤ (P.add P).x ∧ (P.add P).x < P.p ∧ 0 ≤ (P.add P).y ∧ (P.add P).y < P.p ∧
    ∃ lam : Int,
      (P.x ≠ P.x → lam * (P.x - P.x) ≡ P.y - P.y [ZMOD P.p] ∧
        (P.add P).x ≡ lam * lam - P.x - P.x [ZMOD P.p]) ∧
      (P.x = P.x → lam * (2 * P.y) ≡ 3 * P.x * P.x + P.a [ZMOD P.p] ∧
        (P.add P).x ≡ lam * lam - 2 * P.x [ZMOD P.p]) ∧
      (P.add P).y ≡ lam * (P.x - (P.add P).x) - P.y [ZMOD P.p] :=
  add_formulas P P rfl rfl (by decide) (by decide) (by decide!)

/-! ## C16, C19: the order of the generator and curve membership -/

theorem mul_loop_zero (fuel : Nat) (result point : ECurvePoint) :
    ECurvePoint.mul_loop fuel result point 0 = result := by
  cases fuel <;> simp [ECurvePoint.mul_loop]

/-- The sum computed by `operator+=` is not flagged as the point at infinity
when the right operand is not and the left operand is flagged or fails the test
`y == -pt2.y`. -/
theorem add_is_O_false (s t : ECurvePoint) (ht : t.is_O = false)
    (h : s.is_O = true ∨ (s.is_O = false ∧ s.y ≠ -t.y)) : (s.add t).is_O = false := by
  unfold ECurvePoint.add
  rcases h with h | ⟨h, hy⟩
  · simp [ht, h]
  · by_cases hx : s.x = t.x <;> simp [ht, h, hy, hx]

/-- Two objects in range that stand for points of the curve pass the test
`y == -pt2.y` only if the right one has ordinate zero, hence order two. -/
theorem y_test_order_two [Fact (Nat.Prime pN)] (s t : ECurvePoint) (S T : (W pN).Point)
    (hs : Rep pN s S) (ht : Rep pN t T) (htO : t.is_O = false) (hy : s.y = -t.y) :
    T + T = 0 := by
  obtain ⟨⟨_, _, _, _, sy0, _⟩, _⟩ := hs
  obtain ⟨⟨_, _, _, _, ty0, _⟩, htT⟩ := ht
  have hty : t.y = 0 := by omega
  rcases htT with ⟨hc, _⟩ | ⟨_, h2, hT⟩
  · rw [htO] at hc; exact absurd hc (by decide)
  subst hT
  apply WeierstrassCurve.Affine.Point.add_self_of_Y_eq
  rw [W_negY, hty]; simp

/-- The loop of `operator*=` on a base point of order `q`, from a state that
stands for `(m • B, 2 ^ i • B)` with a scalar `n > 0` left and the total
`n · 2 ^ i + m` equal to `q`: the last addition meets two opposite points, the
test `y == -pt2.y` fails on them, and the result is not flagged as the point at
infinity. -/
theorem mul_loop_order [Fact (Nat.Prime pN)] (B : (W pN).Point)
    (hB : ∀ j : Nat, j • B = 0 ↔ qN ∣ j) (fuel : Nat)
    (result point : ECurvePoint) (n : Int) (m i : Nat)
    (hres : Rep pN result (m • B)) (hpt : Rep pN point ((2 ^ i) • B)) (hm : m < 2 ^ i)
    (hn : 0 < n) (hk : n.toNat * 2 ^ i + m = qN) (hfuel : n.toNat ≤ fuel) :
    (ECurvePoint.mul_loop fuel result point n).is_O = false := by
  induction fuel generalizing result point n m i with
  | zero => omega
  | succ fuel ih =>
    have hptO : point.is_O = false := by
      rcases hpt.2 with ⟨_, h0⟩ | ⟨h, _⟩
      · exact absurd ((hB _).1 h0) (qN_not_dvd_two_pow i)
      · exact h
    have hpt2ne : (2 ^ (i + 1)) • B ≠ 0 := fun h => qN_not_dvd_two_pow _ ((hB _).1 h)
    have h1 : (2 ^ (i + 1)) • B = (2 ^ i) • B + (2 ^ i) • B := by
      rw [pow_succ, mul_nsmul, two_nsmul]
    by_cases hn1 : n = 1
    · subst hn1
      have e : ECurvePoint.mul_loop (fuel + 1) result point 1 = result.add point := by
        simp [ECurvePoint.mul_loop, mul_loop_zero]
      rw [e]
      apply add_is_O_false _ _ hptO
      cases hrO : result.is_O with
      | true => left; rfl
      | false =>
        right
        refine ⟨rfl, fun hy => ?_⟩
        have := y_test_order_two result point _ _ hres hpt hptO hy
        rw [← h1] at this
        exact hpt2ne this
    · have hn2 : 0 < n / 2 := by omega
      have hf2 : (n / 2).toNat ≤ fuel := by omega
      have hpos : n > 0 := hn
      have hSS : ∀ c : Nat, c • B + c • B ≠ 0 ∨ c • B = 0 := by
        intro c
        by_cases hc : c • B = 0
        · right; exact hc
        · left
          intro h
          rw [← two_nsmul, ← mul_nsmul] at h
          exact hc ((hB c).2 (qN_dvd_two_mul c (by rw [Nat.mul_comm]; exact (hB _).1 h)))
      have hpt2 : Rep pN (point.add point) ((2 ^ (i + 1)) • B) := by
        rw [h1]
        apply add_rep point point _ _ hpt hpt _ (hSS _)
        rw [← h1]
        exact hpt2ne
      have hpowpos : 0 < 2 ^ i := by positivity
      by_cases hodd : n % 2 ≠ 0
      · simp only [ECurvePoint.mul_loop, hpos, hodd, if_true, not_false_eq_true, ne_eq]
        have e : n.toNat = 2 * (n / 2).toNat + 1 := by omega
        have hn2' : 1 ≤ (n / 2).toNat := by omega
        have hlt : m + 2 ^ i < qN := by
          rw [← hk, e]
          nlinarith
        have hres2 : Rep pN (result.add point) ((m + 2 ^ i) • B) := by
          rw [add_nsmul]
          apply add_rep result point _ _ hres hpt _ (hSS _)
          rw [← add_nsmul]
          intro h
          have := Nat.le_of_dvd (by omega) ((hB _).1 h)
          omega
        exact ih (result.add point) (point.add point) (n / 2) (m + 2 ^ i) (i + 1) hres2 hpt2
          (by rw [pow_succ]; omega) hn2
          (by rw [pow_succ, ← hk, e]; ring) hf2
      · simp only [ECurvePoint.mul_loop, hpos, hodd, if_true, if_false]
        have e : n.toNat = 2 * (n / 2).toNat := by omega
        exact ih result (point.add point) (n / 2) m (i + 1) hres hpt2
          (by rw [pow_succ]; omega) hn2
          (by rw [pow_succ, ← hk, e]; ring) hf2

/-! ## C16 -/

/-- C16 (the code at the failing input): the scalar multiplication `P * q` of
the generator by the group order, as `operator*=` computes it, is not flagged
as the point at infinity.  The last addition of the loop meets
`(q − 2^255)·P` and `2^255·P`, which are opposite; the test `y == -pt2.y` of
`operator+=` compares integers in `[0, p)` and fails. -/
theorem mul_order_not_infinity : (P.mul q).is_O = false := by
  haveI : Fact (Nat.Prime pN) := ⟨prime_pN⟩
  have h := mul_loop_order (WeierstrassCurve.Affine.Point.some generator_nonsingular)
    generator_nsmul_eq_zero_iff q.toNat
    { x := 0, y := 0, p := P.p, a := P.a, is_O := true } P q 0 0
    (by rw [zero_nsmul]; exact Rep_infinity pN P P_in_range)
    (by rw [pow_zero, one_nsmul]; exact Rep_P)
    (by norm_num) (by decide) (by decide) (le_refl _)
  exact h

theorem discriminant_ne_zero : (-(64 * a * a * a + 432 * b * b)) % p ≠ 0 := by decide

theorem W_discriminant : (W pN).Δ ≠ 0 := by
  have h : (W pN).Δ = (((-(64 * a * a * a + 432 * b * b) : Int)) : ZMod pN) := by
    simp only [WeierstrassCurve.Δ, WeierstrassCurve.b₂, WeierstrassCurve.b₄,
      WeierstrassCurve.b₆, WeierstrassCurve.b₈, W]
    push_cast
    ring
  rw [h]
  intro h0
  rw [ZMod.intCast_zmod_eq_zero_iff_dvd, ← p_eq_pN] at h0
  exact discriminant_ne_zero (Int.emod_eq_zero_of_dvd h0)

theorem equation_iff_on_curve (x y : Int) :
    (W pN).Equation ((x : Int) : ZMod pN) ((y : Int) : ZMod pN) ↔ on_curve x y = true := by
  rw [WeierstrassCurve.Affine.equation_iff]
  simp only [W, on_curve, decide_eq_true_eq]
  have h : (((y * y - (x * x * x + a * x + b) : Int)) : ZMod pN) = 0 ↔
      (y * y - (x * x * x + a * x + b)) % p = 0 := by
    rw [ZMod.intCast_zmod_eq_zero_iff_dvd, ← p_eq_pN]
    exact ⟨Int.emod_eq_zero_of_dvd, Int.dvd_of_emod_eq_zero⟩
  rw [← h]
  push_cast
  constructor
  · intro e; linear_combination e
  · intro e; linear_combination e

/-- An object in range whose coordinates satisfy the curve equation stands for
a point of the curve. -/
theorem Rep_of_on_curve (pt : ECurvePoint) (hr : pt.in_range p a) (hO : pt.is_O = false)
    (hc : on_curve pt.x pt.y = true) : ∃ Q : (W pN).Point, Rep pN pt Q ∧ Q ≠ 0 := by
  have h := WeierstrassCurve.Affine.nonsingular_of_Δ_ne_zero (W pN)
    ((equation_iff_on_curve pt.x pt.y).2 hc) W_discriminant
  exact ⟨WeierstrassCurve.Affine.Point.some h, ⟨hr, Or.inr ⟨hO, h, rfl⟩⟩,
    WeierstrassCurve.Affine.Point.some_ne_zero h⟩

theorem on_curve_of_Rep (pt : ECurvePoint) (Q : (W pN).Point) (h : Rep pN pt Q)
    (hO : pt.is_O = false) : on_curve pt.x pt.y = true := by
  rcases h.2 with ⟨hc, _⟩ | ⟨_, h2, _⟩
  · rw [hO] at hc; exact absurd hc (by decide)
  · exact (equation_iff_on_curve pt.x pt.y).1 h2.1

/-- The doubling branch of `operator+=` reads the right operand only for the
two tests: with equal abscissas and both tests failing, the sum with `t` is the
sum with `s` itself. -/
theorem add_eq_double (s t : ECurvePoint) (hsO : s.is_O = false) (htO : t.is_O = false)
    (hx : s.x = t.x) (hy : s.y ≠ -t.y) (hy0 : s.y ≠ -s.y) : s.add t = s.add s := by
  unfold ECurvePoint.add
  simp [hsO, htO, hy, hy0, hx]

/-! ## C19 -/

/-- C19: curve membership.  The generator `(x_p, y_p)` satisfies
`y² ≡ x³ + a·x + b (mod p)`, and for every two objects not flagged as the point
at infinity, with the fields `p` and `a` of the curve, coordinates in `[0, p)`
and satisfying the equation, the result of `operator+=` is either flagged as the
point at infinity or has coordinates in `[0, p)` that satisfy the equation. -/
theorem add_on_curve (P1 P2 : ECurvePoint) (h1 : P1.in_range p a) (h2 : P2.in_range p a)
    (hO1 : P1.is_O = false) (hO2 : P2.is_O = false)
    (hc1 : on_curve P1.x P1.y = true) (hc2 : on_curve P2.x P2.y = true) :
    on_curve x_p y_p = true ∧
      ((P1.add P2).is_O = true ∨
        ((P1.add P2).in_range p a ∧ on_curve (P1.add P2).x (P1.add P2).y = true)) := by
  haveI : Fact (Nat.Prime pN) := ⟨prime_pN⟩
  refine ⟨by decide, ?_⟩
  by_cases hy : P1.y = -P2.y
  · left
    unfold ECurvePoint.add
    simp [hO1, hO2, hy]
  · right
    obtain ⟨S, hS, hS0⟩ := Rep_of_on_curve P1 h1 hO1 hc1
    obtain ⟨T, hT, hT0⟩ := Rep_of_on_curve P2 h2 hO2 hc2
    by_cases hx : P1.x ≠ P2.x ∨ P1.y = P2.y
    · have h := add_rep_affine P1 P2 S T hS hT hO1 hO2 hy hx
      exact ⟨h.1, on_curve_of_Rep _ _ h (add_is_O_false P1 P2 hO2 (Or.inr ⟨hO1, hy⟩))⟩
    · have hxx : P1.x = P2.x := by
        by_contra hne; exact hx (Or.inl hne)
      have hyy : P1.y ≠ P2.y := fun e => hx (Or.inr e)
      have hy0 : P1.y ≠ -P1.y := by
        intro e
        have e0 : P1.y = 0 := by omega
        -- then y2² ≡ 0, so y2 = 0
        obtain ⟨⟨_, _, _, _, _, _⟩, hSr⟩ := hS
        obtain ⟨⟨_, _, _, _, ty0, ty1⟩, hTr⟩ := hT
        rcases hSr with ⟨hc, _⟩ | ⟨_, n1, _⟩
        · rw [hO1] at hc; exact absurd hc (by decide)
        rcases hTr with ⟨hc, _⟩ | ⟨_, n2, _⟩
        · rw [hO2] at hc; exact absurd hc (by decide)
        have hxc : ((P1.x : Int) : ZMod pN) = ((P2.x : Int) : ZMod pN) := by rw [hxx]
        rcases WeierstrassCurve.Affine.Y_eq_of_X_eq n1.1 n2.1 hxc with h | h
        · exact hyy ((cast_eq_iff _ _ (by assumption) (by assumption) ty0 ty1).1 h)
        · rw [W_negY, e0] at h
          have h3 : ((P2.y : Int) : ZMod pN) = 0 := by
            have : -((P2.y : Int) : ZMod pN) = 0 := by rw [← h]; simp
            exact neg_eq_zero.1 this
          have h4 := (cast_eq_zero_iff _ ty0 ty1).1 h3
          exact hyy (by rw [e0, h4])
      rw [add_eq_double P1 P2 hO1 hO2 hxx hy hy0]
      have h := add_rep_affine P1 P1 S S hS hS hO1 hO1 hy0 (Or.inr rfl)
      exact ⟨h.1, on_curve_of_Rep _ _ h (add_is_O_false P1 P1 hO1 (Or.inr ⟨hO1, hy0⟩))⟩

set_option maxRecDepth 1000000 in
/-- C19 (witness): the generator added to itself; the sum `2·P` is not flagged
and lies on the curve. -/
theorem add_on_curve_witness :
    on_curve x_p y_p = true ∧
      ((P.add P).is_O = true ∨
        ((P.add P).in_range p a ∧ on_curve (P.add P).x (P.add P).y = true)) :=
  add_on_curve P P P_in_range P_in_range rfl rfl (by decide) (by decide)

/-! ## Scalar multiples by 0 and 1, `modul`, `inverse`, `extended_euclid` -/

/-- The loop of `operator*=` leaves by its guard once it has been allowed as
many iterations as `n` has bits: further iterations do not change the result.
The operator allows `k` iterations, and `k < 2 ^ k`. -/
theorem mul_loop_fuel (fuel extra : Nat) (result point : ECurvePoint) (n : Int)
    (h : n < 2 ^ fuel) :
    ECurvePoint.mul_loop (fuel + extra) result point n
      = ECurvePoint.mul_loop fuel result point n := by
  induction fuel generalizing result point n with
  | zero =>
    have hn : ¬ (n > 0) := by
      simp only [pow_zero] at h
      omega
    cases extra with
    | zero => rfl
    | succ e => simp only [Nat.zero_add, ECurvePoint.mul_loop, if_neg hn]
  | succ fuel ih =>
    have e : fuel + 1 + extra = (fuel + extra) + 1 := by omega
    rw [e]
    simp only [ECurvePoint.mul_loop]
    split
    · apply ih
      have h2 : (2 : Int) ^ (fuel + 1) = 2 * 2 ^ fuel := by ring
      rw [h2] at h
      omega
    · rfl

/-- With a modulus other than zero no division of `modul` throws, and the
value is that of `modul`. -/
theorem modul_throw_eq (src m : Int) (hm : m ≠ 0) : modul_throw src m = some (modul src m) := by
  unfold modul_throw modul b_int_div b_int_mod
  simp only [if_neg hm, Option.some_bind]
  split <;> rfl

/-- With the modulus zero `modul` throws for every argument. -/
theorem modul_throw_zero (src : Int) : modul_throw src 0 = none := by
  unfold modul_throw b_int_div b_int_mod
  simp

/-- With a modulus other than zero `operator+=` does not throw and its result
is `ECurvePoint.add`. -/
theorem add_throw_eq (s t : ECurvePoint) (hp : s.p ≠ 0) : s.add_throw t = some (s.add t) := by
  unfold ECurvePoint.add_throw ECurvePoint.add
  simp only [modul_throw_eq _ _ hp, Option.some_bind]
  split
  · rfl
  · split
    · rfl
    · split
      · rfl
      · split <;> rfl

/-- The modulus of a sum is the modulus of one of the two operands. -/
theorem add_modulus (s t : ECurvePoint) : (s.add t).p = s.p ∨ (s.add t).p = t.p := by
  unfold ECurvePoint.add
  split
  · exact Or.inl rfl
  · split
    · exact Or.inr rfl
    · split
      · exact Or.inl rfl
      · split <;> exact Or.inl rfl

/-- With moduli other than zero the loop of `operator*=` does not throw and
its result is `ECurvePoint.mul_loop`. -/
theorem mul_loop_throw_eq (fuel : Nat) (result point : ECurvePoint) (n : Int)
    (hr : result.p ≠ 0) (hq : point.p ≠ 0) :
    ECurvePoint.mul_loop_throw fuel result point n
      = some (ECurvePoint.mul_loop fuel result point n) := by
  induction fuel generalizing result point n with
  | zero => rfl
  | succ fuel ih =>
    unfold ECurvePoint.mul_loop_throw ECurvePoint.mul_loop
    split
    · have h1 : (if n % 2 ≠ 0 then result.add_throw point else some result)
          = some (if n % 2 ≠ 0 then result.add point else result) := by
        split
        · exact add_throw_eq _ _ hr
        · rfl
      rw [h1, add_throw_eq _ _ hq]
      simp only [Option.some_bind]
      apply ih
      · split
        · rcases add_modulus result point with e | e <;> rw [e] <;> assumption
        · exact hr
      · rcases add_modulus point point with e | e <;> rw [e] <;> assumption
    · rfl

/-- With a modulus other than zero `operator*=` does not throw and its result
is `ECurvePoint.mul`. -/
theorem mul_throw_eq (pt : ECurvePoint) (k : Int) (hp : pt.p ≠ 0) :
    pt.mul_throw k = some (pt.mul k) :=
  mul_loop_throw_eq _ _ _ _ hp hp

/-- With the modulus zero and an ordinate other than zero, `P * 1` throws: the
doubling `point += point` of the first iteration calls `modul(2 * y, 0)`. -/
theorem mul_throw_one_zero_modulus (pt : ECurvePoint) (h : pt.is_O = false) (hp : pt.p = 0)
    (hy : pt.y ≠ 0) : pt.mul_throw 1 = none := by
  have hyy : ¬ pt.y = -pt.y := by omega
  have hd : pt.add_throw pt = none := by
    unfold ECurvePoint.add_throw
    simp only [h, hyy, hp, modul_throw_zero, Bool.false_eq_true, if_false, ne_eq,
      not_true_eq_false, Option.none_bind]
  have e : (1 : Int).toNat = 0 + 1 := rfl
  unfold ECurvePoint.mul_throw
  rw [e]
  unfold ECurvePoint.mul_loop_throw
  simp only [hd, Option.bind_none, Option.none_bind, gt_iff_lt, zero_lt_one, if_true]

/-- C21: for every point object `pt`, `pt * 0` is the point at infinity (the
object `(0, 0, a, p, true)` the operator starts from) and nothing is thrown;
for every `pt` not flagged as infinity whose modulus `p` is not zero, `pt * 1`
is `pt` in every field and nothing is thrown, with any number of iterations
allowed to the loop beyond the first. -/
theorem mul_zero_one (pt : ECurvePoint) :
    pt.mul_throw 0 = some { x := 0, y := 0, p := pt.p, a := pt.a, is_O := true } ∧
    pt.mul 0 = { x := 0, y := 0, p := pt.p, a := pt.a, is_O := true } ∧
    (pt.mul 0).is_O = true ∧
    (pt.is_O = false → pt.p ≠ 0 →
      pt.mul_throw 1 = some pt ∧ pt.mul 1 = pt ∧
      ∀ fuel, ECurvePoint.mul_loop_throw (fuel + 1)
        { x := 0, y := 0, p := pt.p, a := pt.a, is_O := true } pt 1 = some pt) := by
  refine ⟨rfl, ECurvePoint.mul_zero pt, by rw [ECurvePoint.mul_zero], fun h hp => ?_⟩
  have key : ∀ fuel, ECurvePoint.mul_loop (fuel + 1)
      { x := 0, y := 0, p := pt.p, a := pt.a, is_O := true } pt 1 = pt := by
    intro fuel
    cases fuel <;> simp [ECurvePoint.mul_loop, ECurvePoint.add, h]
  refine ⟨?_, key 0, fun fuel => ?_⟩
  · rw [mul_throw_eq pt 1 hp]
    exact congrArg some (key 0)
  · rw [mul_loop_throw_eq (fuel + 1) { x := 0, y := 0, p := pt.p, a := pt.a, is_O := true } pt 1
      hp hp, key fuel]

/-- The generator: `P * 0` is the point at infinity and `P * 1 = P`. -/
theorem mul_zero_one_witness :
    P.is_O = false ∧ P.p ≠ 0 ∧ P.mul_throw 1 = some P ∧ P.mul 1 = P :=
  ⟨rfl, by decide, ((mul_zero_one P).2.2.2 rfl (by decide)).1,
    ((mul_zero_one P).2.2.2 rfl (by decide)).2.1⟩

/-- The object `(0, 1)` with the modulus zero, not flagged as infinity:
`operator*=` with the scalar 1 throws, and so does every object with the
modulus zero and an ordinate other than zero. -/
theorem mul_one_throws :
    ({ x := 0, y := 1, p := 0, a := 0, is_O := false } : ECurvePoint).mul_throw 1 = none ∧
    ({ x := 0, y := 1, p := 0, a := 0, is_O := false } : ECurvePoint).add_throw
      { x := 0, y := 1, p := 0, a := 0, is_O := false } = none ∧
    modul_throw (2 * 1) 0 = none := by
  decide

/-- C22: for every integer `x` and every modulus `m > 0`, `modul(x, m)` lies in
`[0, m)` and is congruent to `x` modulo `m` (it is the least non-negative
residue), the quotient and the remainder of the source truncating toward
zero. -/
theorem modul_range (x m : Int) (hm : 0 < m) :
    0 ≤ modul x m ∧ modul x m < m ∧ modul x m ≡ x [ZMOD m] ∧ modul x m = x % m :=
  ⟨modul_nonneg x m hm, modul_lt x m hm, modul_modEq x m hm, modul_eq_emod x m hm⟩

/-- The residue of `-7` modulo `3` is `2`. -/
theorem modul_range_witness :
    (0 : Int) < 3 ∧ 0 ≤ modul (-7) 3 ∧ modul (-7) 3 < 3 ∧ modul (-7) 3 ≡ -7 [ZMOD 3] ∧
      modul (-7) 3 = 2 :=
  ⟨by decide, (modul_range (-7) 3 (by decide)).1, (modul_range (-7) 3 (by decide)).2.1,
    (modul_range (-7) 3 (by decide)).2.2.1, by decide⟩

/-- The natural-number gcd of the `toNat` of two non-negative integers is
their integer gcd. -/
theorem gcd_toNat (a n : Int) (ha : 0 ≤ a) (hn : 0 ≤ n) :
    Nat.gcd a.toNat n.toNat = Int.gcd a n := by
  rw [Int.gcd_eq_natAbs]
  have e1 : a.toNat = a.natAbs := by omega
  have e2 : n.toNat = n.natAbs := by omega
  rw [e1, e2]

/-- C23: for every `a ≥ 0` and `n > 1` with `gcd(a, n) = 1`, the value `x`
returned by `inverse(a, n)` satisfies `a·x ≡ 1 (mod n)`. -/
theorem inverse_congr (a n : Int) (ha : 0 ≤ a) (hn : 1 < n) (hg : Int.gcd a n = 1) :
    a * inverse a n ≡ 1 [ZMOD n] :=
  inverse_mul_emod a n ha (by omega) (by rw [gcd_toNat a n ha (by omega)]; exact hg)

/-- The inverse of `3` modulo `7` is returned as `-2`, and `3·(-2) ≡ 1`. -/
theorem inverse_congr_witness :
    (0 : Int) ≤ 3 ∧ (1 : Int) < 7 ∧ Int.gcd 3 7 = 1 ∧ 3 * inverse 3 7 ≡ 1 [ZMOD 7] :=
  ⟨by decide, by decide, by decide, inverse_congr 3 7 (by decide) (by decide) (by decide)⟩

/-- The coefficient `x` in the loop of `extended_euclid`: the coefficients
`x2`, `x1` have opposite signs and `|x1|·a + |x2|·b` is constant, so the
coefficient returned is bounded by that constant. -/
theorem extended_euclid_loop_bound (fuel : Nat) (a b x2 x1 y2 y1 N : Int)
    (ha : 0 < a) (hb : 0 < b) (hfuel : b.toNat < fuel)
    (hs : (0 ≤ x2 ∧ x1 ≤ 0) ∨ (x2 ≤ 0 ∧ 0 ≤ x1)) (hN : |x1| * a + |x2| * b = N) :
    |(extended_euclid_loop fuel a b x2 x1 y2 y1).2.1| ≤ N := by
  induction fuel generalizing a b x2 x1 y2 y1 with
  | zero => omega
  | succ fuel ih =>
    simp only [extended_euclid_loop, if_pos (show b > 0 from hb)]
    have hq : Int.tdiv a b = a / b := Int.tdiv_eq_ediv (le_of_lt ha) (le_of_lt hb)
    have hr : a - a / b * b = a % b := by
      have := Int.emod_add_ediv a b
      linarith [Int.mul_comm (a / b) b]
    have hr0 : 0 ≤ a % b := Int.emod_nonneg a (by omega)
    have hr1 : a % b < b := Int.emod_lt_of_pos a hb
    have hq0 : 0 ≤ a / b := Int.ediv_nonneg (le_of_lt ha) (le_of_lt hb)
    have hab : a = a / b * b + a % b := by
      have := Int.emod_add_ediv a b
      linarith [Int.mul_comm (a / b) b]
    rw [hq, hr]
    by_cases hz : a % b = 0
    · rw [hz]
      obtain ⟨f, rfl⟩ : ∃ f, fuel = f + 1 := ⟨fuel - 1, by omega⟩
      simp only [extended_euclid_loop, gt_iff_lt, lt_self_iff_false, if_false]
      have h1 : |x1| * 1 ≤ |x1| * a := mul_le_mul_of_nonneg_left (by omega) (abs_nonneg x1)
      have h2 : 0 ≤ |x2| * b := mul_nonneg (abs_nonneg x2) (le_of_lt hb)
      linarith
    · apply ih b (a % b) x1 (x2 - a / b * x1) y1 (y2 - a / b * y1) hb (by omega) (by omega)
      · rcases hs with ⟨h2, h1⟩ | ⟨h2, h1⟩
        · right
          refine ⟨h1, ?_⟩
          have : a / b * x1 ≤ 0 := mul_nonpos_of_nonneg_of_nonpos hq0 h1
          linarith
        · left
          refine ⟨h1, ?_⟩
          have : 0 ≤ a / b * x1 := mul_nonneg hq0 h1
          linarith
      · rcases hs with ⟨h2, h1⟩ | ⟨h2, h1⟩
        · have hx : 0 ≤ x2 - a / b * x1 := by
            have : a / b * x1 ≤ 0 := mul_nonpos_of_nonneg_of_nonpos hq0 h1
            linarith
          rw [abs_of_nonneg hx, abs_of_nonpos h1]
          rw [abs_of_nonpos h1, abs_of_nonneg h2] at hN
          rw [← hN]
          linear_combination (x1) * hab
        · have hx : x2 - a / b * x1 ≤ 0 := by
            have : 0 ≤ a / b * x1 := mul_nonneg hq0 h1
            linarith
          rw [abs_of_nonpos hx, abs_of_nonneg h1]
          rw [abs_of_nonneg h1, abs_of_nonpos h2] at hN
          rw [← hN]
          linear_combination (-x1) * hab

/-- The function `inverse(a, n)` for `a ≥ 0` coprime to `n > 1` returns the
coefficient that `extended_euclid` computes, strictly between `-n` and `n`. -/
theorem inverse_abs_lt (a n : Int) (ha : 0 ≤ a) (hn : 1 < n) (hg : Int.gcd a n = 1) :
    |inverse a n| < n := by
  have hg2 : Nat.gcd a.toNat n.toNat = 1 := by rw [gcd_toNat a n ha (by omega)]; exact hg
  have hmod := inverse_mul_emod a n ha (by omega) hg2
  have ha0 : 0 < a := by
    rcases lt_or_eq_of_le ha with h | h
    · exact h
    · rw [← h] at hg
      simp at hg
      omega
  obtain ⟨-, h2⟩ := extended_euclid_spec a n ha (by omega)
  have hle : |inverse a n| ≤ n := by
    unfold inverse
    rw [hg2] at h2
    simp only [h2, Nat.cast_one, if_true]
    unfold extended_euclid
    rw [if_neg (by omega)]
    apply extended_euclid_loop_bound (n.toNat + 1) a n 1 0 0 1 n ha0 (by omega) (by omega)
      (Or.inl ⟨by decide, le_refl 0⟩)
    simp
  rcases lt_or_eq_of_le hle with h | h
  · exact h
  · exfalso
    have hdvd : |inverse a n| ∣ inverse a n := (abs_dvd _ _).2 dvd_rfl
    rw [h] at hdvd
    obtain ⟨c, hc⟩ := hdvd
    rw [hc] at hmod
    have e : a * (n * c) = n * (a * c) := by ring
    rw [e, Int.mul_emod_right, Int.emod_eq_of_lt (by decide) hn] at hmod
    omega

/-- C24: for every `a ≥ 0` and `n > 1` with `gcd(a, n) = 1`, the value returned
by `inverse(a, n)` lies strictly between `-n` and `n` (it is the Bezout
coefficient as the Euclidean loop leaves it, possibly negative); it is its
reduction by `modul`, which every caller applies, that lies in `[0, n)` and is
an inverse of `a`. -/
theorem inverse_range (a n : Int) (ha : 0 ≤ a) (hn : 1 < n) (hg : Int.gcd a n = 1) :
    -n < inverse a n ∧ inverse a n < n ∧
    0 ≤ modul (inverse a n) n ∧ modul (inverse a n) n < n ∧
    a * modul (inverse a n) n ≡ 1 [ZMOD n] := by
  have h := abs_lt.1 (inverse_abs_lt a n ha hn hg)
  have hn0 : 0 < n := by omega
  have hg2 : Nat.gcd a.toNat n.toNat = 1 := by rw [gcd_toNat a n ha (by omega)]; exact hg
  refine ⟨h.1, h.2, modul_nonneg _ n hn0, modul_lt _ n hn0, ?_⟩
  exact (Int.ModEq.mul (Int.ModEq.refl a) (modul_modEq _ n hn0)).trans
    (inverse_mul_emod a n ha hn0 hg2)

/-- The bounds at `a = 3`, `n = 7`. -/
theorem inverse_range_witness :
    (0 : Int) ≤ 3 ∧ (1 : Int) < 7 ∧ Int.gcd 3 7 = 1 ∧
    -7 < inverse 3 7 ∧ inverse 3 7 < 7 ∧ modul (inverse 3 7) 7 = 5 :=
  ⟨by decide, by decide, by decide,
    (inverse_range 3 7 (by decide) (by decide) (by decide)).1,
    (inverse_range 3 7 (by decide) (by decide) (by decide)).2.1, by decide⟩

/-- The call `inverse(3, 7)` returns `-2`, which is not in `[0, 7)`. -/
theorem inverse_negative : inverse 3 7 = -2 ∧ ¬ (0 ≤ inverse 3 7) := by
  decide

/-- C25: for all integers `a` and `n` with `gcd(a, n) ≠ 1`, `inverse(a, n)`
returns the integer `0`; the function has no error path. -/
theorem inverse_not_coprime (a n : Int) (hg : Int.gcd a n ≠ 1) : inverse a n = 0 := by
  unfold inverse
  show (if (extended_euclid a n).1 = 1 then (extended_euclid a n).2.1 else 0) = 0
  rcases lt_trichotomy n 0 with hn | hn | hn
  · have e : extended_euclid a n = (a, 1, 0) := by
      unfold extended_euclid
      rw [if_neg (by omega)]
      have : n.toNat = 0 := by omega
      rw [this]
      simp only [extended_euclid_loop, gt_iff_lt, if_neg (show ¬ (0 < n) by omega)]
    rw [e]
    split
    · rename_i h1
      have h2 : a = 1 := h1
      rw [h2] at hg
      simp at hg
    · rfl
  · subst hn
    have e : extended_euclid a 0 = (a, 1, 0) := by simp [extended_euclid]
    rw [e]
    split
    · rename_i h1
      have h2 : a = 1 := h1
      rw [h2] at hg
      simp at hg
    · rfl
  · rcases le_or_lt 0 a with ha | ha
    · obtain ⟨-, h2⟩ := extended_euclid_spec a n ha (by omega)
      rw [gcd_toNat a n ha (by omega)] at h2
      split
      · rename_i h1
        rw [h1] at h2
        exact absurd (by exact_mod_cast h2.symm) hg
      · rfl
    · have e : (extended_euclid a n).2.1 = 0 := by
        unfold extended_euclid
        rw [if_neg (by omega)]
        obtain ⟨f, hf⟩ : ∃ f, n.toNat = f + 1 := ⟨n.toNat - 1, by omega⟩
        rw [hf]
        have hr : ¬ (a - a.tdiv n * n > 0) := by
          have h1 := Int.tmod_add_tdiv a n
          have h2 : a.tmod n ≤ 0 := by
            rw [tmod_of_neg]
            have := Int.tmod_nonneg n (show 0 ≤ -a by omega)
            omega
          have : a - a.tdiv n * n = a.tmod n := by linarith [Int.mul_comm (a.tdiv n) n]
          rw [this]; omega
        simp only [extended_euclid_loop, gt_iff_lt, if_pos hn]
        rw [if_neg hr]
      rw [e]
      split <;> rfl

/-- The call `inverse(2, 4)`, where `gcd(2, 4) = 2`. -/
theorem inverse_not_coprime_witness : Int.gcd 2 4 ≠ 1 ∧ inverse 2 4 = 0 :=
  ⟨by decide, inverse_not_coprime 2 4 (by decide)⟩

/-- The call `inverse(0, 7)` returns the integer `0`, and `operator+=` uses it
as the inverse of the denominator: for `(1, 1)` and `(8, 2)` over `p = 7` the
denominator is `modul(7, 7) = 0`, the slope becomes `0`, and the sum is
returned as the point `(5, 6)`. -/
theorem inverse_zero_used :
    Int.gcd 0 7 ≠ 1 ∧ inverse 0 7 = 0 ∧
    modul ((8 : Int) - 1) 7 = 0 ∧
    ({ x := 1, y := 1, p := 7, a := 0, is_O := false } : ECurvePoint).add
        { x := 8, y := 2, p := 7, a := 0, is_O := false }
      = { x := 5, y := 6, p := 7, a := 0, is_O := false } := by
  decide

/-- The loop of `extended_euclid` run from the state `s`: when the guard
`b > 0` holds at the first `k` states and fails at the next one, the loop
leaves after `k` passes with the values of that state, whatever number of
iterations at least `k` it is allowed. -/
theorem extended_euclid_loop_exit (k fuel : Nat) (s : extended_euclid_state) (hk : k ≤ fuel)
    (hg : ∀ j, j < k → 0 < (extended_euclid_body^[j] s).b)
    (he : ¬ (0 < (extended_euclid_body^[k] s).b)) :
    extended_euclid_loop fuel s.a s.b s.x2 s.x1 s.y2 s.y1
      = ((extended_euclid_body^[k] s).a, (extended_euclid_body^[k] s).x2,
          (extended_euclid_body^[k] s).y2) := by
  induction k generalizing fuel s with
  | zero =>
    simp only [Function.iterate_zero, id_eq] at he ⊢
    cases fuel with
    | zero => rfl
    | succ f => simp only [extended_euclid_loop, gt_iff_lt, if_neg he]
  | succ k ih =>
    obtain ⟨f, rfl⟩ : ∃ f, fuel = f + 1 := ⟨fuel - 1, by omega⟩
    have h0 : 0 < s.b := hg 0 (by omega)
    simp only [extended_euclid_loop, gt_iff_lt, if_pos h0, Function.iterate_succ,
      Function.comp_apply]
    have := ih f (extended_euclid_body s) (by omega)
      (fun j hj => by
        have := hg (j + 1) (by omega)
        simpa only [Function.iterate_succ, Function.comp_apply] using this)
      (by simpa only [Function.iterate_succ, Function.comp_apply] using he)
    exact this

/-- The loop of `extended_euclid` on non-negative `a`, `b` reaches a state
with `b = 0` after at most `b` passes, the guard holding before. -/
theorem extended_euclid_exit_exists (n : Nat) (s : extended_euclid_state)
    (ha : 0 ≤ s.a) (hb : 0 ≤ s.b) (hn : s.b.toNat ≤ n) :
    ∃ k, k ≤ s.b.toNat ∧ (∀ j, j < k → 0 < (extended_euclid_body^[j] s).b) ∧
      (extended_euclid_body^[k] s).b = 0 := by
  induction n generalizing s with
  | zero =>
    exact ⟨0, by omega, fun j hj => by omega, by simp only [Function.iterate_zero, id_eq]; omega⟩
  | succ n ih =>
    by_cases h0 : s.b = 0
    · exact ⟨0, by omega, fun j hj => by omega, by simpa using h0⟩
    · have hpos : 0 < s.b := by omega
      have hq : Int.tdiv s.a s.b = s.a / s.b := Int.tdiv_eq_ediv ha hb
      have hr : s.a - s.a / s.b * s.b = s.a % s.b := by
        have := Int.emod_add_ediv s.a s.b
        linarith [Int.mul_comm (s.a / s.b) s.b]
      have hr0 : 0 ≤ s.a % s.b := Int.emod_nonneg _ (by omega)
      have hr1 : s.a % s.b < s.b := Int.emod_lt_of_pos _ hpos
      have hb2 : (extended_euclid_body s).b = s.a % s.b := by
        simp only [extended_euclid_body, hq, hr]
      have ha2 : (extended_euclid_body s).a = s.b := rfl
      obtain ⟨k, hk, hg, he⟩ := ih (extended_euclid_body s) (by rw [ha2]; exact hb)
        (by rw [hb2]; exact hr0) (by rw [hb2]; omega)
      refine ⟨k + 1, by rw [hb2] at hk; omega, fun j hj => ?_, ?_⟩
      · cases j with
        | zero => simpa using hpos
        | succ j =>
          simpa only [Function.iterate_succ, Function.comp_apply] using hg j (by omega)
      · simpa only [Function.iterate_succ, Function.comp_apply] using he

/-- C26: for all integers `a ≥ 0` and `b ≥ 0`, `extended_euclid(a, b)`
terminates (the loop guard `b > 0` holds at the first `k` states and fails at
the next one, for some `k ≤ b`, and the values returned are those of that
state) and returns `(d, x, y)` with `a·x + b·y = d` and `d = gcd(a, b)`. -/
theorem extended_euclid_gcd (a b : Int) (ha : 0 ≤ a) (hb : 0 ≤ b) :
    (∃ k, k ≤ b.toNat ∧
      (∀ j, j < k → 0 < (extended_euclid_body^[j] (extended_euclid_init a b)).b) ∧
      (extended_euclid_body^[k] (extended_euclid_init a b)).b = 0 ∧
      extended_euclid a b
        = ((extended_euclid_body^[k] (extended_euclid_init a b)).a,
            (extended_euclid_body^[k] (extended_euclid_init a b)).x2,
            (extended_euclid_body^[k] (extended_euclid_init a b)).y2)) ∧
    a * (extended_euclid a b).2.1 + b * (extended_euclid a b).2.2 = (extended_euclid a b).1 ∧
    (extended_euclid a b).1 = (Int.gcd a b : Int) := by
  obtain ⟨h1, h2⟩ := extended_euclid_spec a b ha hb
  refine ⟨?_, h1.symm, by rw [h2, gcd_toNat a b ha hb]⟩
  obtain ⟨k, hk, hg, he⟩ := extended_euclid_exit_exists b.toNat (extended_euclid_init a b)
    ha hb (le_refl _)
  refine ⟨k, hk, hg, he, ?_⟩
  have hk2 : k ≤ b.toNat := hk
  unfold extended_euclid
  split
  · rename_i hb0
    have : k = 0 := by
      have : (extended_euclid_init a b).b.toNat = 0 := by
        show b.toNat = 0
        omega
      omega
    subst this
    rfl
  · exact extended_euclid_loop_exit k (b.toNat + 1) (extended_euclid_init a b)
      (by have : (extended_euclid_init a b).b = b := rfl
          rw [this] at hk; omega) hg (by omega)

/-- The call `extended_euclid(240, 46)`: the loop leaves after five passes with
`d = 2 = 240·(-9) + 46·47`. -/
theorem extended_euclid_gcd_witness :
    (0 : Int) ≤ 240 ∧ (0 : Int) ≤ 46 ∧ extended_euclid 240 46 = (2, -9, 47) ∧
    (240 : Int) * (extended_euclid 240 46).2.1 + 46 * (extended_euclid 240 46).2.2
      = (extended_euclid 240 46).1 ∧
    (extended_euclid_body^[5] (extended_euclid_init 240 46)).b = 0 :=
  ⟨by decide, by decide, by decide,
    (extended_euclid_gcd 240 46 (by decide) (by decide)).2.1, by decide⟩

/-! ## The frame of `encrypt` -/

/-- A size below `2 ^ 31` converts to the same `int`. -/
theorem int_of_size_eq (n : Nat) (h : n < 2147483648) : int_of_size n = n := by
  unfold int_of_size Int.bmod
  simp only
  omega

/-- The call `resize` with a non-negative size not below the length. -/
theorem resize_fill (s : List Nat) (n c : Nat) (h : s.length ≤ n) :
    resize s (n : Int) c = some (s ++ List.replicate (n - s.length) c) := by
  unfold resize
  rw [if_neg (by omega)]
  simp only [Int.toNat_ofNat]
  rw [List.take_of_length_le h]

/-- The eight bytes of a size. -/
theorem int64_bytes_length (n : Nat) : (int64_bytes n).length = 8 := by
  simp [int64_bytes]

/-- The frame of `encrypt` for an input that fits an `int` with its prefix and
padding: the eight bytes of the length, the input, and the bytes that fill the
last block of eight, if any. -/
theorem encrypt_frame_eq (input : List Nat) (h : input.length + 15 < 2147483648) :
    encrypt_frame input = some (int64_bytes input.length ++ input ++
      List.replicate ((8 - (8 + input.length) % 8) % 8) (8 - (8 + input.length) % 8)) := by
  unfold encrypt_frame
  simp only [List.length_append, int64_bytes_length]
  rw [int_of_size_eq _ (by omega)]
  have e1 : Int.tdiv (((8 + input.length : Nat) : Int) + 7) 8 * 8
      = (((8 + input.length + 7) / 8 * 8 : Nat) : Int) := by
    rw [Int.tdiv_eq_ediv (by omega) (by decide)]
    push_cast
    rfl
  have e2 : (8 - ((8 + input.length : Nat) : Int) % 8).toNat % 256
      = 8 - (8 + input.length) % 8 := by
    omega
  rw [e1, e2, resize_fill _ _ _ (by simp only [List.length_append, int64_bytes_length]; omega)]
  have e3 : ∀ m : Nat, (8 + m + 7) / 8 * 8 - (8 + m) = (8 - (8 + m) % 8) % 8 := by
    intro m
    omega
  simp only [List.length_append, int64_bytes_length, e3]

/-- The length of the frame: a multiple of 8 that fits an `int`. -/
theorem frame_length (input : List Nat) (h : input.length + 15 < 2147483648) :
    (int64_bytes input.length ++ input ++
      List.replicate ((8 - (8 + input.length) % 8) % 8) (8 - (8 + input.length) % 8)).length % 8 = 0
    ∧ (int64_bytes input.length ++ input ++
      List.replicate ((8 - (8 + input.length) % 8) % 8) (8 - (8 + input.length) % 8)).length
        < 2147483648 := by
  simp only [List.length_append, int64_bytes_length, List.length_replicate]
  omega

/-- A buffer of `n` bytes into which the cipher writes `n` bytes holds what
the cipher wrote. -/
theorem memcpy_buffer (n : Nat) (x : List Nat) (hx : x.length = n) :
    memcpy (List.replicate (n - ([] : List Nat).length) 0) 0 x n = x := by
  unfold memcpy
  simp only [List.take_zero, List.nil_append, List.length_nil, Nat.sub_zero, Nat.zero_add,
    List.drop_replicate, Nat.sub_self, List.replicate_zero, List.append_nil]
  exact List.take_of_length_le (by omega)

/-- The common part of `encrypt` in decrypt mode for a non-negative `len`
equal to the length of the input: the output of the cipher. -/
theorem encrypt_cipher_decrypt (des : DES_ede3_cbc) (keys : List (List Nat))
    (input input_string : List Nat) :
    encrypt_cipher des keys input input_string (input.length : Int) false
      = some (des.run input (keys.getD 0 []) (keys.getD 1 []) (keys.getD 2 [])
          (keys.getD 3 []) false) := by
  have r1 : resize [] (input.length : Int) 0
      = some (([] : List Nat) ++ List.replicate (input.length - ([] : List Nat).length) 0) :=
    resize_fill [] input.length 0 (by simp)
  unfold encrypt_cipher
  simp only [Bool.false_eq_true, if_false, Option.pure_def, Option.bind_eq_bind, r1,
    Option.some_bind, List.nil_append, Int.toNat_ofNat, false_and]
  rw [List.take_of_length_le (le_refl _), memcpy_buffer _ _ (des.length_run _ _ _ _ _ _)]

/-- The common part of `encrypt` in encrypt mode for `len` the length of
`input_string`: the cipher is applied, the result is deciphered, and it is
returned unless the deciphered bytes differ from `input_string`. -/
theorem encrypt_cipher_encrypt (des : DES_ede3_cbc) (keys : List (List Nat))
    (input frame : List Nat) :
    encrypt_cipher des keys input frame (frame.length : Int) true
      = if des.run (des.run frame (keys.getD 0 []) (keys.getD 1 []) (keys.getD 2 [])
            (keys.getD 3 []) true) (keys.getD 0 []) (keys.getD 1 []) (keys.getD 2 [])
            (keys.getD 3 []) false = frame
        then some (des.run frame (keys.getD 0 []) (keys.getD 1 []) (keys.getD 2 [])
            (keys.getD 3 []) true)
        else none := by
  have r1 : resize [] (frame.length : Int) 0
      = some (([] : List Nat) ++ List.replicate (frame.length - ([] : List Nat).length) 0) :=
    resize_fill [] frame.length 0 (by simp)
  have e2 : (des.run frame (keys.getD 0 []) (keys.getD 1 []) (keys.getD 2 [])
      (keys.getD 3 []) true).length = frame.length := des.length_run _ _ _ _ _ _
  unfold encrypt_cipher
  simp only [if_true, Option.pure_def, Option.bind_eq_bind, r1,
    Option.some_bind, List.nil_append, Int.toNat_ofNat, true_and]
  rw [List.take_of_length_le (le_refl _), memcpy_buffer _ _ (des.length_run _ _ _ _ _ _),
    List.take_of_length_le (le_of_eq e2),
    memcpy_buffer _ _ ((des.length_run _ _ _ _ _ _).trans e2)]
  by_cases hd : des.run (des.run frame (keys.getD 0 []) (keys.getD 1 []) (keys.getD 2 [])
            (keys.getD 3 []) true) (keys.getD 0 []) (keys.getD 1 []) (keys.getD 2 [])
            (keys.getD 3 []) false = frame
  · rw [if_pos hd, if_neg (by rw [hd]; simp)]
  · rw [if_neg hd, if_pos (fun e => hd e.symm)]

/-- The function `encrypt` in decrypt mode on an input whose length fits an
`int`: an exception when the length is not a multiple of 8, and the output of
the cipher on the whole input otherwise. -/
theorem encrypt_decrypt_mode (des : DES_ede3_cbc) (keys : List (List Nat)) (input : List Nat)
    (h : input.length < 2147483648) :
    encrypt des keys input false
      = if input.length % 8 ≠ 0 then none
        else some (des.run input (keys.getD 0 []) (keys.getD 1 []) (keys.getD 2 [])
          (keys.getD 3 []) false) := by
  unfold encrypt
  simp only [Bool.false_eq_true, if_false]
  rw [int_of_size_eq _ h, encrypt_cipher_decrypt]
  have e1 : Int.tmod (input.length : Int) 8 = ((input.length % 8 : Nat) : Int) := by
    rw [Int.tmod_eq_emod (by omega) (by decide)]
    rfl
  rw [e1]
  by_cases h8 : input.length % 8 = 0
  · simp only [h8, Nat.cast_zero, ne_eq, not_true_eq_false, if_false]
  · have h9 : ((input.length % 8 : Nat) : Int) ≠ 0 := by omega
    simp only [h8, h9, ne_eq, not_false_eq_true, if_true]

/-- The function `encrypt` in encrypt mode on an input that fits an `int` with
its prefix and padding: the cipher is applied to the frame, the result is
deciphered, and it is returned unless the deciphered bytes differ from the
frame. -/
theorem encrypt_encrypt_mode (des : DES_ede3_cbc) (keys : List (List Nat)) (input frame : List Nat)
    (h : input.length + 15 < 2147483648)
    (hf : frame = int64_bytes input.length ++ input ++
      List.replicate ((8 - (8 + input.length) % 8) % 8) (8 - (8 + input.length) % 8)) :
    encrypt des keys input true
      = if des.run (des.run frame (keys.getD 0 []) (keys.getD 1 []) (keys.getD 2 [])
            (keys.getD 3 []) true) (keys.getD 0 []) (keys.getD 1 []) (keys.getD 2 [])
            (keys.getD 3 []) false = frame
        then some (des.run frame (keys.getD 0 []) (keys.getD 1 []) (keys.getD 2 [])
            (keys.getD 3 []) true)
        else none := by
  obtain ⟨-, hl⟩ := frame_length input h
  rw [← hf] at hl
  unfold encrypt
  simp only [if_true]
  rw [encrypt_frame_eq input h, ← hf, Option.some_bind, int_of_size_eq _ hl,
    encrypt_cipher_encrypt]

/-- The stand-in cipher deciphers what it enciphers. -/
theorem xor_cipher_inverts (x k1 k2 k3 iv : List Nat) :
    xor_cipher.run (xor_cipher.run x k1 k2 k3 iv true) k1 k2 k3 iv false = x := by
  simp only [xor_cipher, List.map_map]
  conv_rhs => rw [← List.map_id x]
  apply List.map_congr_left
  intro a _
  simp only [Function.comp_apply, id_eq, Nat.xor_assoc, Nat.xor_self, Nat.xor_zero]

/-! ## C28 -/

/-- C28: for every plaintext `P` of length `n` (with `n + 15 < 2^31`, so that
the lengths fit `int len`), the buffer that `encrypt` hands to the cipher is
`LE64(n) ‖ P ‖ pad` where, with `B = LE64(n) ‖ P`, the pad is `(8 − |B| mod 8)
mod 8` bytes of value `8 − (|B| mod 8)`: the bytes that fill the last block of
eight, and none when `|B|` is a multiple of 8.  The ciphertext of that buffer
is returned when deciphering it gives the buffer back. -/
theorem encrypt_frame_layout (des : DES_ede3_cbc) (keys : List (List Nat)) (input : List Nat)
    (h : input.length + 15 < 2147483648) :
    ∃ frame, encrypt_frame input = some frame ∧
      frame = int64_bytes input.length ++ input ++
        List.replicate ((8 - (int64_bytes input.length ++ input).length % 8) % 8)
          (8 - (int64_bytes input.length ++ input).length % 8) ∧
      (int64_bytes input.length).length = 8 ∧
      (∀ i, i < 8 → (int64_bytes input.length).getD i 0 = input.length / 256 ^ i % 256) ∧
      frame.length % 8 = 0 ∧
      encrypt des keys input true
        = if des.run (des.run frame (keys.getD 0 []) (keys.getD 1 []) (keys.getD 2 [])
              (keys.getD 3 []) true) (keys.getD 0 []) (keys.getD 1 []) (keys.getD 2 [])
              (keys.getD 3 []) false = frame
          then some (des.run frame (keys.getD 0 []) (keys.getD 1 []) (keys.getD 2 [])
              (keys.getD 3 []) true)
          else none := by
  have hB : (int64_bytes input.length ++ input).length = 8 + input.length := by
    simp only [List.length_append, int64_bytes_length]
  refine ⟨_, encrypt_frame_eq input h, by rw [hB], int64_bytes_length _, ?_,
    (frame_length input h).1, encrypt_encrypt_mode des keys input _ h rfl⟩
  intro i hi
  unfold int64_bytes
  rw [List.getD_eq_getElem _ _ (by simpa using hi)]
  simp

/-- The frame of the one-byte plaintext `A`: length 1, the byte, seven bytes
of value 7. -/
theorem encrypt_frame_layout_witness :
    ([65] : List Nat).length + 15 < 2147483648 ∧
    encrypt_frame [65] = some [1, 0, 0, 0, 0, 0, 0, 0, 65, 7, 7, 7, 7, 7, 7, 7] ∧
    ∃ frame, encrypt_frame [65] = some frame ∧
      frame = int64_bytes ([65] : List Nat).length ++ [65] ++
        List.replicate ((8 - (int64_bytes ([65] : List Nat).length ++ [65]).length % 8) % 8)
          (8 - (int64_bytes ([65] : List Nat).length ++ [65]).length % 8) :=
  ⟨by decide, by decide,
    (encrypt_frame_layout xor_cipher keys_example [65] (by decide)).imp
      fun _ hfr => ⟨hfr.1, hfr.2.1⟩⟩

/-- The empty plaintext: `B` is the eight bytes of the length `0`, a multiple
of 8, and the buffer handed to the cipher is `B` itself, without the eight
bytes of value 8. -/
theorem encrypt_frame_aligned :
    (int64_bytes ([] : List Nat).length ++ ([] : List Nat)).length % 8 = 0 ∧
    encrypt_frame [] = some [0, 0, 0, 0, 0, 0, 0, 0] ∧
    encrypt_frame [] ≠ some (int64_bytes ([] : List Nat).length ++ [] ++ List.replicate 8 8) := by
  decide

/-! ## C27 -/

/-- C27: for every plaintext `P` of length `n` (with `n + 15 < 2^31`) and every
keyset, if deciphering inverts enciphering on buffers of a multiple of 8 bytes
then `encrypt` in encrypt mode returns a ciphertext `c`, and `encrypt` in
decrypt mode on `c` returns the whole frame `LE64(n) ‖ P ‖ pad`: nothing is
stripped; `P` is the `n` bytes that follow the first eight. -/
theorem encrypt_round_trip (des : DES_ede3_cbc) (keys : List (List Nat)) (input : List Nat)
    (h : input.length + 15 < 2147483648)
    (hinv : ∀ x : List Nat, x.length % 8 = 0 →
      des.run (des.run x (keys.getD 0 []) (keys.getD 1 []) (keys.getD 2 []) (keys.getD 3 []) true)
        (keys.getD 0 []) (keys.getD 1 []) (keys.getD 2 []) (keys.getD 3 []) false = x) :
    ∃ c frame, encrypt des keys input true = some c ∧ encrypt_frame input = some frame ∧
      encrypt des keys c false = some frame ∧
      frame.take 8 = int64_bytes input.length ∧
      (frame.drop 8).take input.length = input ∧
      8 + input.length ≤ frame.length := by
  obtain ⟨h8, hl⟩ := frame_length input h
  have hrun := hinv _ h8
  have hB : (int64_bytes input.length).length = 8 := int64_bytes_length _
  refine ⟨des.run (int64_bytes input.length ++ input ++
      List.replicate ((8 - (8 + input.length) % 8) % 8) (8 - (8 + input.length) % 8))
      (keys.getD 0 []) (keys.getD 1 []) (keys.getD 2 []) (keys.getD 3 []) true,
    _, ?_, encrypt_frame_eq input h, ?_, ?_, ?_, ?_⟩
  · rw [encrypt_encrypt_mode des keys input _ h rfl, if_pos hrun]
  · rw [encrypt_decrypt_mode des keys _ (by rw [des.length_run]; exact hl), des.length_run,
      if_neg (by omega), hrun]
  · rw [List.append_assoc, List.take_append_of_le_length (by omega),
      List.take_of_length_le (by omega)]
  · rw [List.append_assoc, List.drop_append_of_le_length (by omega),
      List.drop_of_length_le (by omega), List.nil_append, List.take_append_of_le_length (by omega),
      List.take_of_length_le (by omega)]
  · simp only [List.length_append, int64_bytes_length, List.length_replicate]
    omega

/-- The stand-in cipher and the plaintext `A`. -/
theorem encrypt_round_trip_witness :
    ([65] : List Nat).length + 15 < 2147483648 ∧
    ∃ c frame, encrypt xor_cipher keys_example [65] true = some c ∧
      encrypt_frame [65] = some frame ∧
      encrypt xor_cipher keys_example c false = some frame ∧
      frame.take 8 = int64_bytes ([65] : List Nat).length ∧
      (frame.drop 8).take ([65] : List Nat).length = [65] ∧
      8 + ([65] : List Nat).length ≤ frame.length :=
  ⟨by decide, encrypt_round_trip xor_cipher keys_example [65] (by decide)
    (fun x _ => xor_cipher_inverts x _ _ _ _)⟩

/-- The plaintext `A` under the stand-in cipher, which deciphers what it
enciphers: decrypt mode on the ciphertext returns the sixteen bytes of the
frame, not the plaintext. -/
theorem encrypt_round_trip_frame :
    encrypt xor_cipher keys_example [65] true
      = some [0, 1, 1, 1, 1, 1, 1, 1, 64, 6, 6, 6, 6, 6, 6, 6] ∧
    encrypt xor_cipher keys_example [0, 1, 1, 1, 1, 1, 1, 1, 64, 6, 6, 6, 6, 6, 6, 6] false
      = some [1, 0, 0, 0, 0, 0, 0, 0, 65, 7, 7, 7, 7, 7, 7, 7] ∧
    encrypt xor_cipher keys_example [0, 1, 1, 1, 1, 1, 1, 1, 64, 6, 6, 6, 6, 6, 6, 6] false
      ≠ some [65] := by
  decide

/-! ## C29 -/

/-- C29: in decrypt mode (`is_encrypt = false`), for every input whose length
fits `int len` (below `2^31`), `encrypt` raises an error if and only if the
input length is not a multiple of 8 bytes. -/
theorem encrypt_decrypt_error (des : DES_ede3_cbc) (keys : List (List Nat)) (input : List Nat)
    (h : input.length < 2147483648) :
    encrypt des keys input false = none ↔ input.length % 8 ≠ 0 := by
  rw [encrypt_decrypt_mode des keys input h]
  by_cases h8 : input.length % 8 = 0
  · simp [h8]
  · simp [h8]

/-- Three bytes are refused and eight bytes are accepted. -/
theorem encrypt_decrypt_error_witness :
    ([1, 2, 3] : List Nat).length < 2147483648 ∧
    (encrypt xor_cipher keys_example [1, 2, 3] false = none ↔
      ([1, 2, 3] : List Nat).length % 8 ≠ 0) ∧
    encrypt xor_cipher keys_example [1, 2, 3] false = none ∧
    encrypt xor_cipher keys_example [1, 2, 3, 4, 5, 6, 7, 8] false
      = some [0, 3, 2, 5, 4, 7, 6, 9] :=
  ⟨by decide, encrypt_decrypt_error xor_cipher keys_example [1, 2, 3] (by decide),
    by decide, by decide⟩

/-- The length `2 ^ 31` read as `int len` is `INT_MIN`. -/
theorem int_of_size_wrap : int_of_size 2147483648 = -2147483648 := by
  decide

/-- In decrypt mode an input of `2 ^ 31` bytes, a multiple of 8, passes the
test `len % 8` with `len = INT_MIN`, and `encrypted.resize(len)` throws. -/
theorem encrypt_decrypt_wrap (des : DES_ede3_cbc) (keys : List (List Nat)) (input : List Nat)
    (h : input.length = 2147483648) : encrypt des keys input false = none := by
  unfold encrypt
  rw [h, int_of_size_wrap]
  simp only [Bool.false_eq_true, if_false]
  unfold encrypt_cipher resize
  rfl

/-- The zero input of `2 ^ 31` bytes in decrypt mode: its length is a multiple
of 8 and `encrypt` raises an error. -/
theorem encrypt_decrypt_int_min :
    (List.replicate 2147483648 0).length % 8 = 0 ∧
    encrypt xor_cipher keys_example (List.replicate 2147483648 0) false = none :=
  ⟨by rw [List.length_replicate], encrypt_decrypt_wrap _ _ _ (List.length_replicate _ _)⟩

/-! ## C30 -/

/-- The loop of `gost_cbc_encrypt` does not store into `ivec`. -/
theorem gost_cbc_loop_ivec (fuel : Nat) (ctx : gost_ctx) (input : List Nat)
    (s : gost_cbc_state) : (gost_cbc_loop fuel ctx input s).ivec = s.ivec := by
  induction fuel generalizing s with
  | zero => rfl
  | succ fuel ih =>
    simp only [gost_cbc_loop]
    split
    · rw [ih]
    · rfl

/-- The loop of `gost_cbc_encrypt`, allowed enough iterations, leaves with
`0 ≤ l ≤ 8` (when `l > 0` at entry, with `0 < l`), having advanced by the
decrease of `l`. -/
theorem gost_cbc_loop_exit (fuel : Nat) (ctx : gost_ctx) (input : List Nat)
    (s : gost_cbc_state) (h0 : 0 ≤ s.l) (hf : s.l ≤ 8 * fuel + 8) :
    0 ≤ (gost_cbc_loop fuel ctx input s).l ∧ (gost_cbc_loop fuel ctx input s).l ≤ 8 ∧
    (0 < s.l → 0 < (gost_cbc_loop fuel ctx input s).l) ∧
    ((gost_cbc_loop fuel ctx input s).pos : Int) + (gost_cbc_loop fuel ctx input s).l
      = s.pos + s.l := by
  induction fuel generalizing s with
  | zero =>
    simp only [gost_cbc_loop]
    exact ⟨h0, by omega, fun hp => hp, trivial⟩
  | succ fuel ih =>
    simp only [gost_cbc_loop]
    split
    · rename_i h8
      obtain ⟨i1, i2, i3, i4⟩ := ih
        { s with
          output := memcpy s.output s.pos
            ((List.range 8).map fun i => input.getD (s.pos + i) 0
              ^^^ (gost_encrypt (get_gamma s.gamma) ctx true).getD i 0) 8
          gamma := get_gamma s.gamma
          encgamma := gost_encrypt (get_gamma s.gamma) ctx true
          l := s.l - 8, pos := s.pos + 8 }
        (by simp only; omega) (by simp only; omega)
      refine ⟨i1, i2, fun _ => i3 (by simp only; omega), ?_⟩
      rw [i4]
      simp only
      push_cast
      omega
    · rename_i h8
      exact ⟨h0, by omega, fun hp => hp, rfl⟩

/-- C30: `gost_cbc_encrypt` does not modify the caller's IV.  For every call
with `length ≥ 0` the function returns, with all `length` bytes processed, and
the buffer `ivec` holds the IV that was passed in: the gamma block is the
local `gamma`, initialised with the enciphered IV. -/
theorem gost_cbc_encrypt_ivec (input output : List Nat) (length : Int) (ctx : gost_ctx)
    (ivec : List Nat) (enc : Int) (h : 0 ≤ length) :
    ∃ r, gost_cbc_encrypt input output length ctx ivec enc = some r ∧
      r.ivec = ivec ∧ r.l = 0 ∧ r.pos = length.toNat := by
  unfold gost_cbc_encrypt
  rw [if_neg (by omega)]
  obtain ⟨i1, i2, -, i4⟩ := gost_cbc_loop_exit length.toNat ctx input
    { output := output, ivec := ivec, gamma := gost_encrypt ivec ctx true, encgamma := [],
      l := length, pos := 0 } h (by simp only; omega)
  have i5 := gost_cbc_loop_ivec length.toNat ctx input
    { output := output, ivec := ivec, gamma := gost_encrypt ivec ctx true, encgamma := [],
      l := length, pos := 0 }
  simp only at i4 i5 ⊢
  split
  · refine ⟨_, rfl, i5, rfl, ?_⟩
    simp only
    omega
  · refine ⟨_, rfl, i5, by omega, ?_⟩
    omega

/-- One byte processed with the IV of eight zero bytes. -/
theorem gost_cbc_encrypt_ivec_witness :
    (0 : Int) ≤ 1 ∧
    ∃ r, gost_cbc_encrypt [65] [0] 1 ctx_example (List.replicate 8 0) 1 = some r ∧
      r.ivec = List.replicate 8 0 ∧ r.l = 0 ∧ r.pos = (1 : Int).toNat :=
  ⟨by decide, gost_cbc_encrypt_ivec [65] [0] 1 ctx_example (List.replicate 8 0) 1 (by decide)⟩

set_option maxRecDepth 1000000 in
/-- A call that processes one byte with the IV of eight zero bytes: afterwards
the IV buffer still holds the eight zero bytes, and not the last gamma value
`67 AB 29 D0 3F 25 DE BA`. -/
theorem gost_cbc_encrypt_ivec_kept :
    (gost_cbc_encrypt [65] [0] 1 ctx_example (List.replicate 8 0) 1).map
        (fun r => (r.output, r.ivec, r.gamma))
      = some ([19], [0, 0, 0, 0, 0, 0, 0, 0], [103, 171, 41, 208, 63, 37, 222, 186]) := by
  decide!

/-! ## C31 -/

/-- C31: the field prime `p` used by the signer, the constant
57896044618658097711785492504343953926634992332820282019728792003956564821041,
equals `2^255 + 1073`, a prime between `2^255` and `2^256`. -/
theorem p_value : p = 2 ^ 255 + 1073 ∧ 2 ^ 255 < p ∧ p < 2 ^ 256 ∧ Nat.Prime p.toNat := by
  refine ⟨by unfold p; norm_num, by unfold p; norm_num, by unfold p; norm_num, ?_⟩
  have h : p.toNat = pN := by rw [p_eq_pN]; rfl
  rw [h]
  exact prime_pN

/-- The constant `p` is not `2^256 − 617`: that number is larger by
`2^255 − 1690`. -/
theorem p_not_claimed : p ≠ 2 ^ 256 - 617 ∧ (2 ^ 256 - 617 : Int) - p = 2 ^ 255 - 1690 := by
  unfold p
  norm_num

/-! ## C40 -/

/-- C40: in encrypt mode, for every plaintext of length `n` with `n + 15 < 2^31`
(so that the lengths fit `int len`) and every keyset, if deciphering inverts
enciphering under the three keys and the IV of the keyset, the decrypted buffer
equals the padded frame, the check passes, and `encrypt` returns the
ciphertext of the frame, of length `8·⌈(n + 8)/8⌉`. -/
theorem encrypt_check_passes (des : DES_ede3_cbc) (keys : List (List Nat)) (input : List Nat)
    (h : input.length + 15 < 2147483648)
    (hinv : ∀ x : List Nat, x.length % 8 = 0 →
      des.run (des.run x (keys.getD 0 []) (keys.getD 1 []) (keys.getD 2 []) (keys.getD 3 []) true)
        (keys.getD 0 []) (keys.getD 1 []) (keys.getD 2 []) (keys.getD 3 []) false = x) :
    ∃ frame c, encrypt_frame input = some frame ∧
      c = des.run frame (keys.getD 0 []) (keys.getD 1 []) (keys.getD 2 []) (keys.getD 3 []) true ∧
      des.run c (keys.getD 0 []) (keys.getD 1 []) (keys.getD 2 []) (keys.getD 3 []) false = frame ∧
      encrypt_cipher des keys input frame (int_of_size frame.length) true = some c ∧
      encrypt des keys input true = some c ∧
      c.length = 8 * ((input.length + 8 + 7) / 8) := by
  obtain ⟨h8, hl⟩ := frame_length input h
  have hrun := hinv _ h8
  refine ⟨_, _, encrypt_frame_eq input h, rfl, hrun, ?_, ?_, ?_⟩
  · rw [int_of_size_eq _ hl, encrypt_cipher_encrypt, if_pos hrun]
  · rw [encrypt_encrypt_mode des keys input _ h rfl, if_pos hrun]
  · rw [des.length_run]
    simp only [List.length_append, int64_bytes_length, List.length_replicate]
    omega

/-- The stand-in cipher and the plaintext `A`: sixteen bytes are returned. -/
theorem encrypt_check_passes_witness :
    ([65] : List Nat).length + 15 < 2147483648 ∧
    encrypt xor_cipher keys_example [65] true
      = some [0, 1, 1, 1, 1, 1, 1, 1, 64, 6, 6, 6, 6, 6, 6, 6] ∧
    ∃ frame c, encrypt_frame [65] = some frame ∧
      c = xor_cipher.run frame (keys_example.getD 0 []) (keys_example.getD 1 [])
        (keys_example.getD 2 []) (keys_example.getD 3 []) true ∧
      xor_cipher.run c (keys_example.getD 0 []) (keys_example.getD 1 [])
        (keys_example.getD 2 []) (keys_example.getD 3 []) false = frame ∧
      encrypt_cipher xor_cipher keys_example [65] frame (int_of_size frame.length) true = some c ∧
      encrypt xor_cipher keys_example [65] true = some c ∧
      c.length = 8 * ((([65] : List Nat).length + 8 + 7) / 8) :=
  ⟨by decide, by decide, encrypt_check_passes xor_cipher keys_example [65] (by decide)
    (fun x _ => xor_cipher_inverts x _ _ _ _)⟩

/-- In encrypt mode an input of `2 ^ 31 - 8` bytes makes a frame of `2 ^ 31`
bytes: `len` is `INT_MIN`, `(len + 7) / 8 * 8` is negative and
`input_string.resize` throws. -/
theorem encrypt_encrypt_wrap (des : DES_ede3_cbc) (keys : List (List Nat)) (input : List Nat)
    (h : input.length = 2147483640) : encrypt des keys input true = none := by
  have hf : encrypt_frame input = none := by
    unfold encrypt_frame
    simp only [List.length_append, int64_bytes_length, h]
    rw [show 8 + 2147483640 = 2147483648 from rfl, int_of_size_wrap]
    unfold resize
    rfl
  unfold encrypt
  simp only [if_true, hf, Option.none_bind]

/-- The zero plaintext of `2 ^ 31 - 8` bytes in encrypt mode, with the cipher
`xor_cipher`, whose decryption inverts its encryption (`xor_cipher_inverts`):
no ciphertext is returned. -/
theorem encrypt_check_wrap :
    (List.replicate 2147483640 0).length = 2147483640 ∧
    encrypt xor_cipher keys_example (List.replicate 2147483640 0) true = none :=
  ⟨List.length_replicate _ _, encrypt_encrypt_wrap _ _ _ (List.length_replicate _ _)⟩

/-! ## C36: the pre-shifted tables -/

/-- The optimised round function on the tables of `kboxinit` and the
unoptimised one on the unshifted tables return the same value, for every
S-box set and every `x`. -/
theorem f_unoptimized_eq (c d : gost_ctx) (kbox : KBOX) (x : Nat) :
    f (kboxinit c kbox) x = f_unoptimized (kboxinit_unoptimized d kbox) x := by
  obtain ⟨a1, -, -⟩ := byte_index (x >>> 24)
  obtain ⟨b1, -, -⟩ := byte_index (x >>> 16)
  obtain ⟨c1, -, -⟩ := byte_index (x >>> 8)
  obtain ⟨d1, -, -⟩ := byte_index x
  simp only [f, f_unoptimized, kboxinit, kboxinit_unoptimized, getD_map_range _ _ _ a1,
    getD_map_range _ _ _ b1, getD_map_range _ _ _ c1, getD_map_range _ _ _ d1]

/-- An entry of an S-box of a set with entries below 16, read at any index. -/
theorem nibbles_getD (kbox : KBOX) (h : kbox.nibbles) (i : Nat) :
    kbox.k1.getD i 0 < 16 ∧ kbox.k2.getD i 0 < 16 ∧ kbox.k3.getD i 0 < 16 ∧
    kbox.k4.getD i 0 < 16 ∧ kbox.k5.getD i 0 < 16 ∧ kbox.k6.getD i 0 < 16 ∧
    kbox.k7.getD i 0 < 16 ∧ kbox.k8.getD i 0 < 16 := by
  unfold KBOX.nibbles at h
  simp only [List.mem_append] at h
  refine ⟨?_, ?_, ?_, ?_, ?_, ?_, ?_, ?_⟩ <;>
    exact getD_lt _ _ _ (by norm_num) (fun x hx => h x (by simp [hx]))

/-- The indices that a byte of `x` gives to two S-boxes are two nibbles of
`x`. -/
theorem byte_nibbles (x k : Nat) :
    ((x >>> (8 * k)) &&& 255) >>> 4 = nibble x (2 * k + 1) ∧
    ((x >>> (8 * k)) &&& 255) &&& 15 = nibble x (2 * k) := by
  have e0 : x >>> (8 * k) = x / 16 ^ (2 * k) := by
    rw [Nat.shiftRight_eq_div_pow, show (16 : Nat) = 2 ^ 4 by rfl, ← pow_mul]
    congr 2
    ring
  have e1 : x / 16 ^ (2 * k + 1) = x / 16 ^ (2 * k) / 16 := by
    rw [pow_succ, Nat.div_div_eq_div_mul]
  unfold nibble
  rw [e0, e1, and_255, Nat.shiftRight_eq_div_pow]
  generalize x / 16 ^ (2 * k) = y
  have := Nat.and_pow_two_sub_one_eq_mod (y % 256) 4
  simp only [Nat.reducePow, Nat.add_one_sub_one] at this
  rw [this]
  omega

/-- The table entries selected by the four bytes, OR-ed as the round function
does, for entries below 16: the number with these eight nibbles. -/
theorem or_nibbles (v0 v1 v2 v3 v4 v5 v6 v7 : Nat) (h0 : v0 < 16) (h1 : v1 < 16) (h2 : v2 < 16)
    (h3 : v3 < 16) (h4 : v4 < 16) (h5 : v5 < 16) (h6 : v6 < 16) (h7 : v7 < 16) :
    u32 (((v7 <<< 4) ||| v6) <<< 24) ||| u32 (((v5 <<< 4) ||| v4) <<< 16)
        ||| u32 (((v3 <<< 4) ||| v2) <<< 8) ||| ((v1 <<< 4) ||| v0)
      = v0 + v1 * 16 + v2 * 16 ^ 2 + v3 * 16 ^ 3 + v4 * 16 ^ 4 + v5 * 16 ^ 5 + v6 * 16 ^ 6
        + v7 * 16 ^ 7 := by
  have p (s t : Nat) (ht : t < 16) : (s <<< 4) ||| t = s * 16 + t := by
    rw [Nat.or_comm, or_shiftLeft_eq_add _ _ 4 ht]
    omega
  rw [p v7 v6 h6, p v5 v4 h4, p v3 v2 h2, p v1 v0 h0]
  have t87 : u32 ((v7 * 16 + v6) <<< 24) = 2 ^ 24 * (v7 * 16 + v6) := by
    unfold u32; rw [Nat.shiftLeft_eq]; omega
  have t65 : u32 ((v5 * 16 + v4) <<< 16) = 2 ^ 16 * (v5 * 16 + v4) := by
    unfold u32; rw [Nat.shiftLeft_eq]; omega
  have t43 : u32 ((v3 * 16 + v2) <<< 8) = 2 ^ 8 * (v3 * 16 + v2) := by
    unfold u32; rw [Nat.shiftLeft_eq]; omega
  rw [t87, t65, t43]
  have o1 : 2 ^ 24 * (v7 * 16 + v6) ||| 2 ^ 16 * (v5 * 16 + v4)
      = 2 ^ 16 * (2 ^ 8 * (v7 * 16 + v6) + (v5 * 16 + v4)) := by
    rw [← Nat.mul_add_lt_is_or (show 2 ^ 16 * (v5 * 16 + v4) < 2 ^ 24 by omega)]
    omega
  have o2 : 2 ^ 16 * (2 ^ 8 * (v7 * 16 + v6) + (v5 * 16 + v4)) ||| 2 ^ 8 * (v3 * 16 + v2)
      = 2 ^ 8 * (2 ^ 8 * (2 ^ 8 * (v7 * 16 + v6) + (v5 * 16 + v4)) + (v3 * 16 + v2)) := by
    rw [← Nat.mul_add_lt_is_or (show 2 ^ 8 * (v3 * 16 + v2) < 2 ^ 16 by omega)]
    omega
  rw [o1, o2, ← Nat.mul_add_lt_is_or (show v1 * 16 + v0 < 2 ^ 8 by omega)]
  omega

/-- The nibbles of the number built from eight values below 16. -/
theorem nibble_sum (v0 v1 v2 v3 v4 v5 v6 v7 : Nat) (h0 : v0 < 16) (h1 : v1 < 16) (h2 : v2 < 16)
    (h3 : v3 < 16) (h4 : v4 < 16) (h5 : v5 < 16) (h6 : v6 < 16) (h7 : v7 < 16) (j : Nat)
    (hj : j < 8) :
    nibble (v0 + v1 * 16 + v2 * 16 ^ 2 + v3 * 16 ^ 3 + v4 * 16 ^ 4 + v5 * 16 ^ 5 + v6 * 16 ^ 6
        + v7 * 16 ^ 7) j = [v0, v1, v2, v3, v4, v5, v6, v7].getD j 0 := by
  unfold nibble
  interval_cases j <;> simp only [List.getD_cons_zero, List.getD_cons_succ] <;> omega

/-- The rotation by 11 bits as the program computes it. -/
theorem rotl11_eq (X : Nat) (h : X < 2 ^ 32) : u32 (X <<< 11) ||| (X >>> (32 - 11)) = rotl11 X := by
  unfold u32 rotl11
  rw [Nat.shiftLeft_eq, Nat.shiftRight_eq_div_pow]
  have e : X * 2 ^ 11 % 4294967296 = 2 ^ 11 * (X % 2 ^ 21) := by omega
  have hb : X / 2 ^ (32 - 11) < 2 ^ 11 := by
    have : X / 2 ^ (32 - 11) = X / 2097152 := rfl
    omega
  have e3 : X * 2 ^ 11 % 2 ^ 32 = 2 ^ 11 * (X % 2 ^ 21) := by omega
  rw [e, e3, ← Nat.mul_add_lt_is_or hb]

/-- The word `substitute kbox x` written out. -/
theorem substitute_eq (kbox : KBOX) (x : Nat) :
    substitute kbox x
      = kbox.k1.getD (nibble x 0) 0 + kbox.k2.getD (nibble x 1) 0 * 16
        + kbox.k3.getD (nibble x 2) 0 * 16 ^ 2 + kbox.k4.getD (nibble x 3) 0 * 16 ^ 3
        + kbox.k5.getD (nibble x 4) 0 * 16 ^ 4 + kbox.k6.getD (nibble x 5) 0 * 16 ^ 5
        + kbox.k7.getD (nibble x 6) 0 * 16 ^ 6 + kbox.k8.getD (nibble x 7) 0 * 16 ^ 7 := by
  simp [substitute, KBOX.S, List.range, List.range.loop]
  ring

/-- C36: for every S-box set and every `x` the optimised round function
(tables pre-shifted by 24, 16 and 8 in `kboxinit`, OR-ed without shifting in
`f`) returns the same value as the unoptimised one (unshifted tables, shifts
applied in `f`); when all entries of the set are below 16, that value is the
11-bit left rotation of the 32-bit word whose nibble `j` is
`S_{j+1}[nibble j of x]`. -/
theorem f_preshift (c d : gost_ctx) (kbox : KBOX) (x : Nat) :
    f (kboxinit c kbox) x = f_unoptimized (kboxinit_unoptimized d kbox) x ∧
    (kbox.nibbles →
      f (kboxinit c kbox) x = rotl11 (substitute kbox x) ∧ substitute kbox x < 2 ^ 32 ∧
      ∀ j, j < 8 → nibble (substitute kbox x) j = (kbox.S j).getD (nibble x j) 0) := by
  refine ⟨f_unoptimized_eq c d kbox x, fun hn => ?_⟩
  obtain ⟨a1, -, -⟩ := byte_index (x >>> 24)
  obtain ⟨b1, -, -⟩ := byte_index (x >>> 16)
  obtain ⟨c1, -, -⟩ := byte_index (x >>> 8)
  obtain ⟨d1, -, -⟩ := byte_index x
  have g := nibbles_getD kbox hn
  have s0 := (g (nibble x 0)).1
  have s1 := (g (nibble x 1)).2.1
  have s2 := (g (nibble x 2)).2.2.1
  have s3 := (g (nibble x 3)).2.2.2.1
  have s4 := (g (nibble x 4)).2.2.2.2.1
  have s5 := (g (nibble x 5)).2.2.2.2.2.1
  have s6 := (g (nibble x 6)).2.2.2.2.2.2.1
  have s7 := (g (nibble x 7)).2.2.2.2.2.2.2
  have n3 := byte_nibbles x 3
  have n2 := byte_nibbles x 2
  have n1 := byte_nibbles x 1
  have n0 := byte_nibbles x 0
  simp only [Nat.reduceMul, Nat.reduceAdd, Nat.shiftRight_zero] at n3 n2 n1 n0
  have hS := substitute_eq kbox x
  have hor := or_nibbles _ _ _ _ _ _ _ _ s0 s1 s2 s3 s4 s5 s6 s7
  have hlt : substitute kbox x < 2 ^ 32 := by rw [hS]; omega
  refine ⟨?_, hlt, ?_⟩
  · simp only [f, kboxinit, getD_map_range _ _ _ a1, getD_map_range _ _ _ b1,
      getD_map_range _ _ _ c1, getD_map_range _ _ _ d1, n3.1, n3.2, n2.1, n2.2, n1.1, n1.2,
      n0.1, n0.2]
    rw [hor, ← hS]
    exact rotl11_eq _ hlt
  · intro j hj
    rw [hS, nibble_sum _ _ _ _ _ _ _ _ s0 s1 s2 s3 s4 s5 s6 s7 j hj]
    unfold KBOX.S
    interval_cases j <;> rfl

set_option maxRecDepth 1000000 in
/-- The S-boxes of the hash have entries below 16. -/
theorem GOSThash_example_kbox_nibbles : GOSThash_example_kbox.nibbles := by
  unfold KBOX.nibbles
  decide!

/-- The S-boxes of the hash and the word `0x12345678`. -/
theorem f_preshift_witness :
    GOSThash_example_kbox.nibbles ∧
    f (kboxinit ctx_example GOSThash_example_kbox) 0x12345678
      = rotl11 (substitute GOSThash_example_kbox 0x12345678) ∧
    substitute GOSThash_example_kbox 0x12345678 = 0xF40584A6 ∧
    rotl11 (substitute GOSThash_example_kbox 0x12345678) = 0x2C2537A0 :=
  ⟨GOSThash_example_kbox_nibbles,
    ((f_preshift ctx_example ctx_example GOSThash_example_kbox 0x12345678).2
      GOSThash_example_kbox_nibbles).1, by decide, by decide⟩

/-! ## The output of the gamma mode -/

/-- The bytes that `l2c` stores are bytes. -/
theorem l2c_lt (w : Nat) : ∀ x ∈ l2c w, x < 256 := by
  intro x hx
  simp only [l2c, List.mem_cons, List.mem_singleton, List.not_mem_nil, or_false] at hx
  have e : (0xff : Nat) = 255 := rfl
  rcases hx with h | h | h | h <;> rw [h, e, and_255] <;> omega

/-- The function `get_gamma` on a block whose high word is an `unsigned int`:
`C1` is added to the low word modulo `2^32`, `C2` to the high word modulo
`2^32`, plus one when that addition wrapped. -/
theorem get_gamma_eq (g : List Nat) (h : c2l g 4 < 2 ^ 32) :
    get_gamma g = l2c ((c2l g 0 + C1) % 2 ^ 32)
      ++ l2c (if 2 ^ 32 ≤ c2l g 4 + C2 then (c2l g 4 + C2) % 2 ^ 32 + 1 else c2l g 4 + C2) := by
  have e1 : u32 (c2l g 0 + C1) = (c2l g 0 + C1) % 2 ^ 32 := rfl
  have hC : C2 = 16843012 := rfl
  have e2 : (if u32 (c2l g 4 + C2) < C2 then u32 (u32 (c2l g 4 + C2) + 1)
        else u32 (c2l g 4 + C2))
      = (if 2 ^ 32 ≤ c2l g 4 + C2 then (c2l g 4 + C2) % 2 ^ 32 + 1 else c2l g 4 + C2) := by
    unfold u32
    rw [hC]
    generalize c2l g 4 = w at h ⊢
    split <;> split <;> omega
  unfold get_gamma
  simp only
  rw [e1, e2]

/-- Every gamma block consists of bytes. -/
theorem gost_cbc_gamma_lt (ctx : gost_ctx) (ivec : List Nat) (j : Nat) :
    ∀ x ∈ gost_cbc_gamma ctx ivec j, x < 256 := by
  intro x hx
  cases j with
  | zero =>
    simp only [gost_cbc_gamma, Function.iterate_zero, id_eq, gost_encrypt,
      List.mem_append] at hx
    rcases hx with h | h <;> exact l2c_lt _ x h
  | succ j =>
    simp only [gost_cbc_gamma, Function.iterate_succ_apply', get_gamma, List.mem_append] at hx
    rcases hx with h | h <;> exact l2c_lt _ x h

/-- One store of the gamma mode: the `n ≤ 8` bytes at offset `8k` of the input,
XOR-ed with the head of the keystream block `k`, put in place after `8k` bytes
already produced. -/
theorem gost_cbc_store (ctx : gost_ctx) (ivec input output : List Nat) (k n : Nat) (hn : n ≤ 8) :
    memcpy ((List.range (8 * k)).map (gost_cbc_byte ctx ivec input) ++ output.drop (8 * k)) (8 * k)
        ((List.range n).map fun i => input.getD (8 * k + i) 0
          ^^^ (gost_encrypt (get_gamma (gost_cbc_gamma ctx ivec k)) ctx true).getD i 0) n
      = (List.range (8 * k + n)).map (gost_cbc_byte ctx ivec input) ++ output.drop (8 * k + n) := by
  have hA : ((List.range (8 * k)).map (gost_cbc_byte ctx ivec input)).length = 8 * k := by simp
  unfold memcpy
  rw [List.take_append_of_le_length (by omega), List.take_of_length_le (by omega),
    List.take_of_length_le (by simp), List.drop_append_eq_append_drop,
    List.drop_of_length_le (by omega), hA, List.nil_append, List.drop_drop,
    show 8 * k + n - 8 * k = n by omega, List.range_add, List.map_append, List.map_map]
  congr 2
  apply List.map_congr_left
  intro i hi
  have hi2 : i < n := List.mem_range.1 hi
  simp only [Function.comp_apply, gost_cbc_byte, gost_cbc_keystream, gost_cbc_gamma,
    Function.iterate_succ_apply']
  rw [show (8 * k + i) / 8 = k by omega, show (8 * k + i) % 8 = i by omega]

/-- The loop of `gost_cbc_encrypt` from a state that has produced `8k` bytes:
it leaves in a state of the same kind. -/
theorem gost_cbc_loop_output (fuel : Nat) (ctx : gost_ctx) (ivec input output : List Nat)
    (s : gost_cbc_state) (k : Nat) (hpos : s.pos = 8 * k)
    (hg : s.gamma = gost_cbc_gamma ctx ivec k) (h0 : 0 ≤ s.l)
    (hlen : s.pos + s.l.toNat ≤ output.length)
    (hout : s.output
      = (List.range s.pos).map (gost_cbc_byte ctx ivec input) ++ output.drop s.pos) :
    ∃ k', (gost_cbc_loop fuel ctx input s).pos = 8 * k' ∧
      (gost_cbc_loop fuel ctx input s).gamma = gost_cbc_gamma ctx ivec k' ∧
      (gost_cbc_loop fuel ctx input s).output
        = (List.range (gost_cbc_loop fuel ctx input s).pos).map (gost_cbc_byte ctx ivec input)
          ++ output.drop (gost_cbc_loop fuel ctx input s).pos := by
  induction fuel generalizing s k with
  | zero => exact ⟨k, hpos, hg, hout⟩
  | succ fuel ih =>
    simp only [gost_cbc_loop]
    split
    · rename_i h8
      apply ih _ (k + 1)
      · simp only [hpos]; ring
      · simp only [hg, gost_cbc_gamma, Function.iterate_succ_apply']
      · simp only; omega
      · simp only; omega
      · simp only
        rw [hout, hpos, hg]
        exact gost_cbc_store ctx ivec input output k 8 (le_refl 8)
    · exact ⟨k, hpos, hg, hout⟩

/-- The function `gost_cbc_encrypt` for `length ≥ 0` and an output buffer with
room for `length` bytes: the output buffer afterwards. -/
theorem gost_cbc_encrypt_eq (input output : List Nat) (length : Int) (ctx : gost_ctx)
    (ivec : List Nat) (enc : Int) (h : 0 ≤ length) (hroom : length.toNat ≤ output.length) :
    ∃ r, gost_cbc_encrypt input output length ctx ivec enc = some r ∧ r.ivec = ivec ∧
      r.output = (List.range length.toNat).map (gost_cbc_byte ctx ivec input)
        ++ output.drop length.toNat := by
  unfold gost_cbc_encrypt
  rw [if_neg (by omega)]
  obtain ⟨i1, i2, -, i4⟩ := gost_cbc_loop_exit length.toNat ctx input
    { output := output, ivec := ivec, gamma := gost_encrypt ivec ctx true, encgamma := [],
      l := length, pos := 0 } h (by simp only; omega)
  have i5 := gost_cbc_loop_ivec length.toNat ctx input
    { output := output, ivec := ivec, gamma := gost_encrypt ivec ctx true, encgamma := [],
      l := length, pos := 0 }
  obtain ⟨k, j1, j2, j3⟩ := gost_cbc_loop_output length.toNat ctx ivec input output
    { output := output, ivec := ivec, gamma := gost_encrypt ivec ctx true, encgamma := [],
      l := length, pos := 0 } 0 rfl rfl h (by simp only; omega) (by simp)
  simp only at i4 i5 ⊢
  generalize gost_cbc_loop length.toNat ctx input
    { output := output, ivec := ivec, gamma := gost_encrypt ivec ctx true, encgamma := [],
      l := length, pos := 0 } = s at *
  split
  · rename_i hl
    refine ⟨_, rfl, i5, ?_⟩
    simp only
    rw [j3, j1, j2]
    have hn : 8 * k + s.l.toNat = length.toNat := by omega
    rw [gost_cbc_store ctx ivec input output k s.l.toNat (by omega), hn]
  · rename_i hl
    refine ⟨_, rfl, i5, ?_⟩
    have hn : s.pos = length.toNat := by omega
    rw [j3, hn]

/-- Reading a list through `getD` at every index below its length gives the
list back. -/
theorem map_getD_range (l : List Nat) : (List.range l.length).map (fun i => l.getD i 0) = l := by
  apply List.ext_getElem
  · simp
  · intro i h1 h2
    simp only [List.getElem_map, List.getElem_range]
    exact List.getD_eq_getElem _ _ h2

/-! ## C37 -/

/-- C37: for every key, IV and input, every `length = n ≥ 0` and every output
buffer with room for `n` bytes, `gost_cbc_encrypt` returns having written the
first `n` bytes of the buffer and no other, with
`output[i] = input[i] XOR ks_{⌊i/8⌋}[i mod 8]`, where `ks_j = E(g_{j+1})`,
`g_0 = E(iv)`, and `g_{j+1}` is `g_j` with `C1` added to its low little-endian
word modulo `2^32` and `C2` added to its high word modulo `2^32`, plus 1 when
that addition wrapped; the last block, of 1 to 8 bytes, uses the leading bytes
of its keystream block. -/
theorem gost_cbc_encrypt_output (input output : List Nat) (length : Int) (ctx : gost_ctx)
    (ivec : List Nat) (enc : Int) (h : 0 ≤ length) (hroom : length.toNat ≤ output.length) :
    (∃ r, gost_cbc_encrypt input output length ctx ivec enc = some r ∧
      r.output.length = output.length ∧
      (∀ i, i < length.toNat →
        r.output.getD i 0 = input.getD i 0
          ^^^ (gost_encrypt (gost_cbc_gamma ctx ivec (i / 8 + 1)) ctx true).getD (i % 8) 0) ∧
      (∀ i, length.toNat ≤ i → r.output.getD i 0 = output.getD i 0)) ∧
    gost_cbc_gamma ctx ivec 0 = gost_encrypt ivec ctx true ∧
    (∀ j, gost_cbc_gamma ctx ivec (j + 1)
      = l2c ((c2l (gost_cbc_gamma ctx ivec j) 0 + C1) % 2 ^ 32)
        ++ l2c (if 2 ^ 32 ≤ c2l (gost_cbc_gamma ctx ivec j) 4 + C2
            then (c2l (gost_cbc_gamma ctx ivec j) 4 + C2) % 2 ^ 32 + 1
            else c2l (gost_cbc_gamma ctx ivec j) 4 + C2)) ∧
    C1 = 0x01010101 ∧ C2 = 0x01010104 := by
  refine ⟨?_, rfl, fun j => ?_, rfl, rfl⟩
  · obtain ⟨r, h1, -, h3⟩ := gost_cbc_encrypt_eq input output length ctx ivec enc h hroom
    have hmap : ((List.range length.toNat).map (gost_cbc_byte ctx ivec input)).length
        = length.toNat := by simp
    refine ⟨r, h1, ?_, fun i hi => ?_, fun i hi => ?_⟩
    · rw [h3, List.length_append, hmap, List.length_drop]
      omega
    · rw [h3, List.getD_append _ _ _ _ (by rw [hmap]; exact hi),
        List.getD_eq_getElem _ _ (by rw [hmap]; exact hi)]
      simp only [List.getElem_map, List.getElem_range]
      rfl
    · rw [h3, List.getD_append_right _ _ _ _ (by rw [hmap]; exact hi), hmap]
      by_cases hi2 : i < output.length
      · rw [List.getD_eq_getElem _ _ (by rw [List.length_drop]; omega),
          List.getD_eq_getElem _ _ hi2, List.getElem_drop]
        congr 1
        omega
      · rw [List.getD_eq_default _ _ (by rw [List.length_drop]; omega),
          List.getD_eq_default _ _ (by omega)]
  · have e : gost_cbc_gamma ctx ivec (j + 1) = get_gamma (gost_cbc_gamma ctx ivec j) := by
      simp only [gost_cbc_gamma, Function.iterate_succ_apply']
    rw [e]
    exact get_gamma_eq _ (c2l_lt _ _ (gost_cbc_gamma_lt ctx ivec j))

/-- The round function of the context `ctx_example` is the packed one. -/
theorem f_ctx_example (x : Nat) : f ctx_example x = f_p x :=
  f_p_eq ctx_example ⟨rfl, rfl, rfl, rfl⟩ x

set_option maxRecDepth 1000000 in
/-- The output of the gamma mode for twenty bytes, two whole blocks and four
bytes of a third one, in a buffer of 24 bytes. -/
theorem gost_cbc_example :
    (gost_cbc_encrypt (List.range 20) (List.replicate 24 7) 20 ctx_example
        (List.replicate 8 0) 1).map (fun r => r.output)
      = some [82, 83, 79, 250, 17, 93, 51, 121, 12, 85, 51, 232, 41, 134, 98, 38, 97, 230, 175,
          99, 7, 7, 7, 7] := by
  obtain ⟨r, h1, -, h3⟩ := gost_cbc_encrypt_eq (List.range 20) (List.replicate 24 7) 20
    ctx_example (List.replicate 8 0) 1 (by decide) (by decide)
  rw [h1, Option.map_some', h3]
  have hE : ∀ src, gost_encrypt src ctx_example true = encrypt_F f_p ctx_example.key src :=
    gost_encrypt_F ctx_example f_p f_ctx_example
  have hb : gost_cbc_byte ctx_example (List.replicate 8 0) (List.range 20)
      = fun i => (List.range 20).getD i 0 ^^^ (encrypt_F f_p ctx_example.key
          (get_gamma^[i / 8 + 1] (encrypt_F f_p ctx_example.key (List.replicate 8 0)))).getD
            (i % 8) 0 := by
    funext i
    simp only [gost_cbc_byte, gost_cbc_keystream, gost_cbc_gamma, hE]
  rw [hb]
  decide!

/-- Twenty bytes: two whole blocks and four bytes of a third one. -/
theorem gost_cbc_encrypt_output_witness :
    (0 : Int) ≤ 20 ∧ (20 : Int).toNat ≤ (List.replicate 24 7).length ∧
    ∃ r, gost_cbc_encrypt (List.range 20) (List.replicate 24 7) 20 ctx_example
        (List.replicate 8 0) 1 = some r ∧
      r.output.length = (List.replicate 24 7).length :=
  ⟨by decide, by decide,
    (gost_cbc_encrypt_output (List.range 20) (List.replicate 24 7) 20 ctx_example
      (List.replicate 8 0) 1 (by decide) (by decide)).1.imp fun _ hr => ⟨hr.1, hr.2.1⟩⟩

/-! ## C39 -/

/-- C39: the gamma mode ignores its direction flag and is its own inverse.  For
every key, IV, input of length `n` and output buffers with room for `n` bytes,
`gost_cbc_encrypt` returns the same memory for any two values of `enc`, and
applied to its own output with the same key and IV it returns the `n` bytes
of the input. -/
theorem gost_cbc_encrypt_involution (input output output2 : List Nat) (ctx : gost_ctx)
    (ivec : List Nat) (enc enc2 : Int) (hroom : input.length ≤ output.length)
    (hroom2 : input.length ≤ output2.length) :
    gost_cbc_encrypt input output input.length ctx ivec enc
      = gost_cbc_encrypt input output input.length ctx ivec enc2 ∧
    ∃ r r2, gost_cbc_encrypt input output input.length ctx ivec enc = some r ∧
      gost_cbc_encrypt r.output output2 input.length ctx r.ivec enc2 = some r2 ∧
      r2.output.take input.length = input := by
  refine ⟨rfl, ?_⟩
  obtain ⟨r, h1, h2, h3⟩ := gost_cbc_encrypt_eq input output input.length ctx ivec enc
    (by omega) (by simpa using hroom)
  obtain ⟨r2, k1, -, k3⟩ := gost_cbc_encrypt_eq r.output output2 input.length ctx r.ivec enc2
    (by omega) (by simpa using hroom2)
  refine ⟨r, r2, h1, k1, ?_⟩
  simp only [Int.toNat_ofNat] at h3 k3
  have hmap : ((List.range input.length).map (gost_cbc_byte ctx r.ivec r.output)).length
      = input.length := by simp
  rw [k3, List.take_append_of_le_length (by omega), List.take_of_length_le (by omega)]
  conv_rhs => rw [← map_getD_range input]
  apply List.map_congr_left
  intro i hi
  have hi2 : i < input.length := List.mem_range.1 hi
  have hb : r.output.getD i 0 = gost_cbc_byte ctx ivec input i := by
    rw [h3, List.getD_append _ _ _ _ (by simpa using hi2),
      List.getD_eq_getElem _ _ (by simpa using hi2)]
    simp only [List.getElem_map, List.getElem_range]
  rw [h2]
  show r.output.getD i 0 ^^^ _ = _
  rw [hb]
  unfold gost_cbc_byte
  rw [Nat.xor_assoc, Nat.xor_self, Nat.xor_zero]

/-- Twenty bytes enciphered and enciphered again. -/
theorem gost_cbc_encrypt_involution_witness :
    (List.range 20).length ≤ (List.replicate 24 7).length ∧
    (List.range 20).length ≤ (List.replicate 20 0).length ∧
    ∃ r r2, gost_cbc_encrypt (List.range 20) (List.replicate 24 7) (List.range 20).length
        ctx_example (List.replicate 8 0) 1 = some r ∧
      gost_cbc_encrypt r.output (List.replicate 20 0) (List.range 20).length ctx_example r.ivec 0
        = some r2 ∧
      r2.output.take (List.range 20).length = List.range 20 :=
  ⟨by decide, by decide,
    (gost_cbc_encrypt_involution (List.range 20) (List.replicate 24 7) (List.replicate 20 0)
      ctx_example (List.replicate 8 0) 1 0 (by decide) (by decide)).2⟩

/-! ## Blocks of 32 bytes -/

/-- A list of length 32 written out. -/
theorem list32 (l : List Nat) (h : l.length = 32) :
    ∃ a0 a1 a2 a3 a4 a5 a6 a7 a8 a9 a10 a11 a12 a13 a14 a15 a16 a17 a18 a19 a20 a21 a22 a23 a24 a25 a26 a27 a28 a29 a30 a31 : Nat,
      l = [a0, a1, a2, a3, a4, a5, a6, a7, a8, a9, a10, a11, a12, a13, a14, a15, a16, a17, a18, a19, a20, a21, a22, a23, a24, a25, a26, a27, a28, a29, a30, a31] := by
  match l, h with
  | [a0, a1, a2, a3, a4, a5, a6, a7, a8, a9, a10, a11, a12, a13, a14, a15, a16, a17, a18, a19, a20, a21, a22, a23, a24, a25, a26, a27, a28, a29, a30, a31], _ => exact ⟨a0, a1, a2, a3, a4, a5, a6, a7, a8, a9, a10, a11, a12, a13, a14, a15, a16, a17, a18, a19, a20, a21, a22, a23, a24, a25, a26, a27, a28, a29, a30, a31, rfl⟩

/-- The function `GOSThash_P` is the permutation of the specification. -/
theorem GOSThash_P_spec (src : List Nat) : GOSThash_P src = P_spec src := by
  rfl

/-- The function `GOSThash_A` on 32 bytes is the map `A` of the specification. -/
theorem GOSThash_A_spec (X : List Nat) (h : X.length = 32) :
    GOSThash_A X = A_spec X ∧ (GOSThash_A X).length = 32 := by
  obtain ⟨a0, a1, a2, a3, a4, a5, a6, a7, a8, a9, a10, a11, a12, a13, a14, a15, a16, a17, a18, a19, a20, a21, a22, a23, a24, a25, a26, a27, a28, a29, a30, a31, rfl⟩ := list32 X h
  exact ⟨rfl, rfl⟩

/-- The function `GOSThash_xorstr` on two blocks of 32 bytes is the `⊕` of the
specification. -/
theorem GOSThash_xorstr_spec (a b : List Nat) (ha : a.length = 32) (hb : b.length = 32) :
    GOSThash_xorstr a b 32 = xor_spec a b ∧ (GOSThash_xorstr a b 32).length = 32 := by
  have h := xor_k_eq a b 32
  unfold xor_k at h
  rw [if_pos ⟨ha, hb⟩] at h
  refine ⟨h.symm, ?_⟩
  simp [GOSThash_xorstr]

/-- The rows of `gosthash_C` are the constants of the specification, 32 bytes
each. -/
theorem gosthash_C_spec :
    gosthash_C.getD 0 [] = C_spec 1 ∧ gosthash_C.getD 1 [] = C_spec 2 ∧
    gosthash_C.getD 2 [] = C_spec 3 ∧ (C_spec 1).length = 32 ∧ (C_spec 2).length = 32 ∧
    (C_spec 3).length = 32 := by
  decide

/-- One update of `U` in `GOSThash_keygen`. -/
theorem keygen_step_U (U C : List Nat) (hU : U.length = 32) (hC : C.length = 32) :
    GOSThash_xorstr (GOSThash_A U) C 32 = xor_spec (A_spec U) C ∧
    (xor_spec (A_spec U) C).length = 32 := by
  obtain ⟨a1, a2⟩ := GOSThash_A_spec U hU
  obtain ⟨x1, x2⟩ := GOSThash_xorstr_spec (GOSThash_A U) C a2 hC
  rw [a1] at x1 x2
  exact ⟨by rw [a1]; exact x1, by rw [← x1]; exact x2⟩

/-- One update of `V` in `GOSThash_keygen`. -/
theorem keygen_step_V (V : List Nat) (hV : V.length = 32) :
    GOSThash_A (GOSThash_A V) = A_spec (A_spec V) ∧ (A_spec (A_spec V)).length = 32 := by
  obtain ⟨a1, a2⟩ := GOSThash_A_spec V hV
  obtain ⟨b1, b2⟩ := GOSThash_A_spec (GOSThash_A V) a2
  rw [a1] at b1 b2
  exact ⟨by rw [a1]; exact b1, by rw [← b1]; exact b2⟩

/-! ## C35 -/

set_option maxRecDepth 100000 in
/-- C35: for every 32-byte `H` and `M`, `GOSThash_keygen` emits
`K1 = P(H ⊕ M)` and, for `j = 2, 3, 4`, `Kj = P(U_j ⊕ V_j)` with
`U_j = A(U_{j−1}) ⊕ C_{j−1}`, `V_j = A(A(V_{j−1}))`, `U_1 = H`, `V_1 = M`, where
`C_1 = C_3 = 0`, `C_2` is row 1 of `gosthash_C`,
`A(X) = X[8..32] ‖ (X[0..8] ⊕ X[8..16])` and `P` is the byte permutation
`dst[4i + k − 1] = src[8(k − 1) + i]`; for `H = 0` and `M = GOSThash_example1_M`
the keys, read as little-endian words, are `GOSThash_example1_K1..K4`. -/
theorem GOSThash_keygen_spec (H M : List Nat) (hH : H.length = 32) (hM : M.length = 32) :
    GOSThash_keygen H M = keygen_spec H M ∧
    keygen_spec H M
      = [P_spec (xor_spec H M),
         P_spec (xor_spec (xor_spec (A_spec H) (C_spec 1)) (A_spec (A_spec M))),
         P_spec (xor_spec (U_spec H 2) (V_spec M 2)),
         P_spec (xor_spec (U_spec H 3) (V_spec M 3))] ∧
    (C_spec 1 = List.replicate 32 0 ∧ C_spec 2 = gosthash_C.getD 1 [] ∧
      C_spec 3 = List.replicate 32 0) ∧
    GOSThash_keygen (List.replicate 32 0) GOSThash_example1_M
      = [GOSThash_example1_K1.flatMap l2c, GOSThash_example1_K2.flatMap l2c,
         GOSThash_example1_K3.flatMap l2c, GOSThash_example1_K4.flatMap l2c] := by
  refine ⟨?_, rfl, ⟨rfl, rfl, rfl⟩, by decide⟩
  obtain ⟨c1, c2, c3, l1, l2, l3⟩ := gosthash_C_spec
  obtain ⟨eU2, hU2⟩ := keygen_step_U H (C_spec 1) hH l1
  obtain ⟨eU3, hU3⟩ := keygen_step_U _ (C_spec 2) hU2 l2
  obtain ⟨eU4, hU4⟩ := keygen_step_U _ (C_spec 3) hU3 l3
  obtain ⟨eV2, hV2⟩ := keygen_step_V M hM
  obtain ⟨eV3, hV3⟩ := keygen_step_V _ hV2
  obtain ⟨eV4, hV4⟩ := keygen_step_V _ hV3
  have hK : keygen_spec H M
      = [P_spec (xor_spec H M),
         P_spec (xor_spec (xor_spec (A_spec H) (C_spec 1)) (A_spec (A_spec M))),
         P_spec (xor_spec (xor_spec (A_spec (xor_spec (A_spec H) (C_spec 1))) (C_spec 2))
           (A_spec (A_spec (A_spec (A_spec M))))),
         P_spec (xor_spec
           (xor_spec (A_spec (xor_spec (A_spec (xor_spec (A_spec H) (C_spec 1))) (C_spec 2)))
             (C_spec 3))
           (A_spec (A_spec (A_spec (A_spec (A_spec (A_spec M)))))))] := rfl
  rw [hK]
  unfold GOSThash_keygen GOST_HASH_BYTES_SZ
  rw [List.take_of_length_le (le_of_eq hH), List.take_of_length_le (le_of_eq hM)]
  simp only [GOSThash_keygen_loop, GOST_HASH_BYTES_SZ, Nat.zero_add, Nat.reduceAdd,
    Nat.reduceEqDiff, if_false, if_true, Nat.add_one_sub_one, Nat.reduceSub,
    GOSThash_P_spec, c1, c2, c3, eU2, eU3, eU4, eV2, eV3, eV4,
    (GOSThash_xorstr_spec H M hH hM).1, (GOSThash_xorstr_spec _ _ hU2 hV2).1,
    (GOSThash_xorstr_spec _ _ hU3 hV3).1, (GOSThash_xorstr_spec _ _ hU4 hV4).1]

/-- The zero block and the first test message. -/
theorem GOSThash_keygen_spec_witness :
    (List.replicate 32 0).length = 32 ∧ GOSThash_example1_M.length = 32 ∧
    GOSThash_keygen (List.replicate 32 0) GOSThash_example1_M
      = keygen_spec (List.replicate 32 0) GOSThash_example1_M :=
  ⟨rfl, rfl, (GOSThash_keygen_spec (List.replicate 32 0) GOSThash_example1_M rfl rfl).1⟩

/-! ## The mixing transformation on 16-bit words -/

/-- The XOR of two 16-bit words given by their bytes. -/
theorem xor16 (x y x2 y2 : Nat) (hx : x < 256) (hx2 : x2 < 256) :
    (x + 256 * y) ^^^ (x2 + 256 * y2) = (x ^^^ x2) + 256 * (y ^^^ y2) := by
  apply Nat.eq_of_testBit_eq
  intro i
  have h1 : x + 256 * y = 2 ^ 8 * y + x := by omega
  have h2 : x2 + 256 * y2 = 2 ^ 8 * y2 + x2 := by omega
  have h3 : (x ^^^ x2) + 256 * (y ^^^ y2) = 2 ^ 8 * (y ^^^ y2) + (x ^^^ x2) := by omega
  have hxx : x ^^^ x2 < 2 ^ 8 := Nat.xor_lt_two_pow hx hx2
  rw [h1, h2, h3, Nat.testBit_xor, Nat.testBit_mul_pow_two_add _ hx,
    Nat.testBit_mul_pow_two_add _ hx2, Nat.testBit_mul_pow_two_add _ hxx]
  split <;> simp [Nat.testBit_xor]

/-- A 16-bit word as `GOSThash_fi` reads it. -/
theorem short_eq (x y : Nat) (hx : x < 256) : x ||| (y <<< 8) = x + 256 * y := by
  rw [or_shiftLeft_eq_add x y 8 hx]
  omega

/-- The two bytes that `GOSThash_fi` stores give the word back. -/
theorem short_bytes (w : Nat) (h : w < 65536) :
    (w &&& 0xff) + 256 * ((w >>> 8) &&& 0xff) = w ∧ w &&& 0xff < 256 ∧
      (w >>> 8) &&& 0xff < 256 := by
  have e : (0xff : Nat) = 255 := rfl
  rw [e, and_255, and_255, Nat.shiftRight_eq_div_pow]
  omega

/-- The XOR of bytes is a byte. -/
theorem xor_byte (x y : Nat) (hx : x < 256) (hy : y < 256) : x ^^^ y < 256 :=
  Nat.xor_lt_two_pow (n := 8) hx hy

/-- A 16-bit word from two bytes. -/
theorem short_lt (x y : Nat) (hx : x < 256) (hy : y < 256) : x + 256 * y < 65536 := by
  omega

/-- The XOR of 16-bit words is a 16-bit word. -/
theorem xor_short (x y : Nat) (hx : x < 65536) (hy : y < 65536) : x ^^^ y < 65536 :=
  Nat.xor_lt_two_pow (n := 16) hx hy

/-- The function `GOSThash_fi` on a block of 32 bytes is the map `φ` of the
specification on its sixteen words, and gives a block of 32 bytes. -/
theorem GOSThash_fi_spec (b : List Nat) (h : b.length = 32) (hb : ∀ x ∈ b, x < 256) :
    words16 (GOSThash_fi b) = phi_spec (words16 b) ∧ (GOSThash_fi b).length = 32 ∧
      ∀ x ∈ GOSThash_fi b, x < 256 := by
  obtain ⟨a0, a1, a2, a3, a4, a5, a6, a7, a8, a9, a10, a11, a12, a13, a14, a15, a16, a17, a18, a19, a20, a21, a22, a23, a24, a25, a26, a27, a28, a29, a30, a31, rfl⟩ := list32 b h
  have ha0 : a0 < 256 := hb _ (by simp)
  have ha1 : a1 < 256 := hb _ (by simp)
  have ha2 : a2 < 256 := hb _ (by simp)
  have ha3 : a3 < 256 := hb _ (by simp)
  have ha4 : a4 < 256 := hb _ (by simp)
  have ha5 : a5 < 256 := hb _ (by simp)
  have ha6 : a6 < 256 := hb _ (by simp)
  have ha7 : a7 < 256 := hb _ (by simp)
  have ha8 : a8 < 256 := hb _ (by simp)
  have ha9 : a9 < 256 := hb _ (by simp)
  have ha10 : a10 < 256 := hb _ (by simp)
  have ha11 : a11 < 256 := hb _ (by simp)
  have ha12 : a12 < 256 := hb _ (by simp)
  have ha13 : a13 < 256 := hb _ (by simp)
  have ha14 : a14 < 256 := hb _ (by simp)
  have ha15 : a15 < 256 := hb _ (by simp)
  have ha16 : a16 < 256 := hb _ (by simp)
  have ha17 : a17 < 256 := hb _ (by simp)
  have ha18 : a18 < 256 := hb _ (by simp)
  have ha19 : a19 < 256 := hb _ (by simp)
  have ha20 : a20 < 256 := hb _ (by simp)
  have ha21 : a21 < 256 := hb _ (by simp)
  have ha22 : a22 < 256 := hb _ (by simp)
  have ha23 : a23 < 256 := hb _ (by simp)
  have ha24 : a24 < 256 := hb _ (by simp)
  have ha25 : a25 < 256 := hb _ (by simp)
  have ha26 : a26 < 256 := hb _ (by simp)
  have ha27 : a27 < 256 := hb _ (by simp)
  have ha28 : a28 < 256 := hb _ (by simp)
  have ha29 : a29 < 256 := hb _ (by simp)
  have ha30 : a30 < 256 := hb _ (by simp)
  have ha31 : a31 < 256 := hb _ (by simp)
  have w0 := short_lt a0 a1 ha0 ha1
  have w1 := short_lt a2 a3 ha2 ha3
  have w2 := short_lt a4 a5 ha4 ha5
  have w3 := short_lt a6 a7 ha6 ha7
  have w12 := short_lt a24 a25 ha24 ha25
  have w15 := short_lt a30 a31 ha30 ha31
  have hxr := xor_short _ _ (xor_short _ _ (xor_short _ _ (xor_short _ _ (xor_short _ _ w0 w1) w2)
    w3) w12) w15
  obtain ⟨s1, s2, s3⟩ := short_bytes _ hxr
  have e : GOSThash_fi [a0, a1, a2, a3, a4, a5, a6, a7, a8, a9, a10, a11, a12, a13, a14, a15, a16, a17, a18, a19, a20, a21, a22, a23, a24, a25, a26, a27, a28, a29, a30, a31]
      = [a2, a3, a4, a5, a6, a7, a8, a9, a10, a11, a12, a13, a14, a15, a16, a17, a18, a19, a20,
         a21, a22, a23, a24, a25, a26, a27, a28, a29, a30, a31,
         (((a0 + 256 * a1) ^^^ (a2 + 256 * a3) ^^^ (a4 + 256 * a5) ^^^ (a6 + 256 * a7)
            ^^^ (a24 + 256 * a25) ^^^ (a30 + 256 * a31)) &&& 0xff),
         ((((a0 + 256 * a1) ^^^ (a2 + 256 * a3) ^^^ (a4 + 256 * a5) ^^^ (a6 + 256 * a7)
            ^^^ (a24 + 256 * a25) ^^^ (a30 + 256 * a31)) >>> 8) &&& 0xff)] := by
    rw [← short_eq a0 a1 ha0, ← short_eq a2 a3 ha2, ← short_eq a4 a5 ha4, ← short_eq a6 a7 ha6,
      ← short_eq a24 a25 ha24, ← short_eq a30 a31 ha30]
    rfl
  rw [e]
  refine ⟨?_, rfl, ?_⟩
  · simp only [words16, phi_spec, List.range, List.range.loop, List.map_cons, List.map_nil,
      List.getD_cons_zero, List.getD_cons_succ, Nat.reduceMul, Nat.reduceAdd, List.drop_succ_cons,
      List.drop_zero, List.take_succ_cons, List.take_zero, List.cons_append, List.nil_append,
      List.take_nil, s1]
  · intro x hx
    simp only [List.mem_cons, List.mem_singleton, List.not_mem_nil, or_false] at hx
    rcases hx with h | h | h | h | h | h | h | h | h | h | h | h | h | h | h | h | h | h | h | h |
      h | h | h | h | h | h | h | h | h | h | h | h <;> rw [h] <;> assumption

/-- The function `GOSThash_xorstr` on two blocks of 32 bytes is the XOR of
their words, and gives a block of 32 bytes. -/
theorem GOSThash_xorstr_words (a b : List Nat) (ha : a.length = 32) (hb : b.length = 32)
    (hba : ∀ x ∈ a, x < 256) (hbb : ∀ x ∈ b, x < 256) :
    words16 (GOSThash_xorstr a b 32) = xor_spec (words16 a) (words16 b) ∧
      (GOSThash_xorstr a b 32).length = 32 ∧ ∀ x ∈ GOSThash_xorstr a b 32, x < 256 := by
  obtain ⟨a0, a1, a2, a3, a4, a5, a6, a7, a8, a9, a10, a11, a12, a13, a14, a15, a16, a17, a18, a19, a20, a21, a22, a23, a24, a25, a26, a27, a28, a29, a30, a31, rfl⟩ := list32 a ha
  obtain ⟨b0, b1, b2, b3, b4, b5, b6, b7, b8, b9, b10, b11, b12, b13, b14, b15, b16, b17, b18, b19, b20, b21, b22, b23, b24, b25, b26, b27, b28, b29, b30, b31, rfl⟩ := list32 b hb
  have ha0 : a0 < 256 := hba _ (by simp)
  have ha1 : a1 < 256 := hba _ (by simp)
  have ha2 : a2 < 256 := hba _ (by simp)
  have ha3 : a3 < 256 := hba _ (by simp)
  have ha4 : a4 < 256 := hba _ (by simp)
  have ha5 : a5 < 256 := hba _ (by simp)
  have ha6 : a6 < 256 := hba _ (by simp)
  have ha7 : a7 < 256 := hba _ (by simp)
  have ha8 : a8 < 256 := hba _ (by simp)
  have ha9 : a9 < 256 := hba _ (by simp)
  have ha10 : a10 < 256 := hba _ (by simp)
  have ha11 : a11 < 256 := hba _ (by simp)
  have ha12 : a12 < 256 := hba _ (by simp)
  have ha13 : a13 < 256 := hba _ (by simp)
  have ha14 : a14 < 256 := hba _ (by simp)
  have ha15 : a15 < 256 := hba _ (by simp)
  have ha16 : a16 < 256 := hba _ (by simp)
  have ha17 : a17 < 256 := hba _ (by simp)
  have ha18 : a18 < 256 := hba _ (by simp)
  have ha19 : a19 < 256 := hba _ (by simp)
  have ha20 : a20 < 256 := hba _ (by simp)
  have ha21 : a21 < 256 := hba _ (by simp)
  have ha22 : a22 < 256 := hba _ (by simp)
  have ha23 : a23 < 256 := hba _ (by simp)
  have ha24 : a24 < 256 := hba _ (by simp)
  have ha25 : a25 < 256 := hba _ (by simp)
  have ha26 : a26 < 256 := hba _ (by simp)
  have ha27 : a27 < 256 := hba _ (by simp)
  have ha28 : a28 < 256 := hba _ (by simp)
  have ha29 : a29 < 256 := hba _ (by simp)
  have ha30 : a30 < 256 := hba _ (by simp)
  have ha31 : a31 < 256 := hba _ (by simp)
  have hb0 : b0 < 256 := hbb _ (by simp)
  have hb1 : b1 < 256 := hbb _ (by simp)
  have hb2 : b2 < 256 := hbb _ (by simp)
  have hb3 : b3 < 256 := hbb _ (by simp)
  have hb4 : b4 < 256 := hbb _ (by simp)
  have hb5 : b5 < 256 := hbb _ (by simp)
  have hb6 : b6 < 256 := hbb _ (by simp)
  have hb7 : b7 < 256 := hbb _ (by simp)
  have hb8 : b8 < 256 := hbb _ (by simp)
  have hb9 : b9 < 256 := hbb _ (by simp)
  have hb10 : b10 < 256 := hbb _ (by simp)
  have hb11 : b11 < 256 := hbb _ (by simp)
  have hb12 : b12 < 256 := hbb _ (by simp)
  have hb13 : b13 < 256 := hbb _ (by simp)
  have hb14 : b14 < 256 := hbb _ (by simp)
  have hb15 : b15 < 256 := hbb _ (by simp)
  have hb16 : b16 < 256 := hbb _ (by simp)
  have hb17 : b17 < 256 := hbb _ (by simp)
  have hb18 : b18 < 256 := hbb _ (by simp)
  have hb19 : b19 < 256 := hbb _ (by simp)
  have hb20 : b20 < 256 := hbb _ (by simp)
  have hb21 : b21 < 256 := hbb _ (by simp)
  have hb22 : b22 < 256 := hbb _ (by simp)
  have hb23 : b23 < 256 := hbb _ (by simp)
  have hb24 : b24 < 256 := hbb _ (by simp)
  have hb25 : b25 < 256 := hbb _ (by simp)
  have hb26 : b26 < 256 := hbb _ (by simp)
  have hb27 : b27 < 256 := hbb _ (by simp)
  have hb28 : b28 < 256 := hbb _ (by simp)
  have hb29 : b29 < 256 := hbb _ (by simp)
  have hb30 : b30 < 256 := hbb _ (by simp)
  have hb31 : b31 < 256 := hbb _ (by simp)
  refine ⟨?_, rfl, ?_⟩
  · simp only [GOSThash_xorstr, words16, xor_spec, List.range, List.range.loop, List.map_cons,
      List.map_nil, List.getD_cons_zero, List.getD_cons_succ, Nat.reduceMul, Nat.reduceAdd,
      List.zipWith_cons_cons, List.zipWith_nil_left,
      ← xor16 a0 a1 b0 b1 ha0 hb0,
      ← xor16 a2 a3 b2 b3 ha2 hb2,
      ← xor16 a4 a5 b4 b5 ha4 hb4,
      ← xor16 a6 a7 b6 b7 ha6 hb6,
      ← xor16 a8 a9 b8 b9 ha8 hb8,
      ← xor16 a10 a11 b10 b11 ha10 hb10,
      ← xor16 a12 a13 b12 b13 ha12 hb12,
      ← xor16 a14 a15 b14 b15 ha14 hb14,
      ← xor16 a16 a17 b16 b17 ha16 hb16,
      ← xor16 a18 a19 b18 b19 ha18 hb18,
      ← xor16 a20 a21 b20 b21 ha20 hb20,
      ← xor16 a22 a23 b22 b23 ha22 hb22,
      ← xor16 a24 a25 b24 b25 ha24 hb24,
      ← xor16 a26 a27 b26 b27 ha26 hb26,
      ← xor16 a28 a29 b28 b29 ha28 hb28,
      ← xor16 a30 a31 b30 b31 ha30 hb30]
  · intro x hx
    simp only [GOSThash_xorstr, List.range, List.range.loop, List.map_cons, List.map_nil,
      List.getD_cons_zero, List.getD_cons_succ, List.mem_cons, List.mem_singleton,
      List.not_mem_nil, or_false] at hx
    rcases hx with h | h | h | h | h | h | h | h | h | h | h | h | h | h | h | h | h | h | h | h |
      h | h | h | h | h | h | h | h | h | h | h | h <;> rw [h] <;>
      exact xor_byte _ _ (by assumption) (by assumption)

/-- The bytes of the words of a block of 32 bytes are the block. -/
theorem bytes16_words16 (b : List Nat) (h : b.length = 32) (hba : ∀ x ∈ b, x < 256) :
    bytes16 (words16 b) = b := by
  obtain ⟨a0, a1, a2, a3, a4, a5, a6, a7, a8, a9, a10, a11, a12, a13, a14, a15, a16, a17, a18, a19, a20, a21, a22, a23, a24, a25, a26, a27, a28, a29, a30, a31, rfl⟩ := list32 b h
  have ha0 : a0 < 256 := hba _ (by simp)
  have ha1 : a1 < 256 := hba _ (by simp)
  have ha2 : a2 < 256 := hba _ (by simp)
  have ha3 : a3 < 256 := hba _ (by simp)
  have ha4 : a4 < 256 := hba _ (by simp)
  have ha5 : a5 < 256 := hba _ (by simp)
  have ha6 : a6 < 256 := hba _ (by simp)
  have ha7 : a7 < 256 := hba _ (by simp)
  have ha8 : a8 < 256 := hba _ (by simp)
  have ha9 : a9 < 256 := hba _ (by simp)
  have ha10 : a10 < 256 := hba _ (by simp)
  have ha11 : a11 < 256 := hba _ (by simp)
  have ha12 : a12 < 256 := hba _ (by simp)
  have ha13 : a13 < 256 := hba _ (by simp)
  have ha14 : a14 < 256 := hba _ (by simp)
  have ha15 : a15 < 256 := hba _ (by simp)
  have ha16 : a16 < 256 := hba _ (by simp)
  have ha17 : a17 < 256 := hba _ (by simp)
  have ha18 : a18 < 256 := hba _ (by simp)
  have ha19 : a19 < 256 := hba _ (by simp)
  have ha20 : a20 < 256 := hba _ (by simp)
  have ha21 : a21 < 256 := hba _ (by simp)
  have ha22 : a22 < 256 := hba _ (by simp)
  have ha23 : a23 < 256 := hba _ (by simp)
  have ha24 : a24 < 256 := hba _ (by simp)
  have ha25 : a25 < 256 := hba _ (by simp)
  have ha26 : a26 < 256 := hba _ (by simp)
  have ha27 : a27 < 256 := hba _ (by simp)
  have ha28 : a28 < 256 := hba _ (by simp)
  have ha29 : a29 < 256 := hba _ (by simp)
  have ha30 : a30 < 256 := hba _ (by simp)
  have ha31 : a31 < 256 := hba _ (by simp)
  have e (x y : Nat) (hx : x < 256) (hy : y < 256) :
      [(x + 256 * y) % 256, (x + 256 * y) / 256 % 256] = [x, y] := by
    congr 1
    · omega
    · congr 1
      omega
  simp only [bytes16, words16, List.range, List.range.loop, List.map_cons, List.map_nil,
    List.getD_cons_zero, List.getD_cons_succ, Nat.reduceMul, Nat.reduceAdd, List.flatMap_cons,
    List.flatMap_nil,
    e a0 a1 ha0 ha1,
    e a2 a3 ha2 ha3,
    e a4 a5 ha4 ha5,
    e a6 a7 ha6 ha7,
    e a8 a9 ha8 ha9,
    e a10 a11 ha10 ha11,
    e a12 a13 ha12 ha13,
    e a14 a15 ha14 ha15,
    e a16 a17 ha16 ha17,
    e a18 a19 ha18 ha19,
    e a20 a21 ha20 ha21,
    e a22 a23 ha22 ha23,
    e a24 a25 ha24 ha25,
    e a26 a27 ha26 ha27,
    e a28 a29 ha28 ha29,
    e a30 a31 ha30 ha31]
  rfl

/-- Iterating `GOSThash_fi` on a block of 32 bytes iterates `φ` on its words. -/
theorem GOSThash_fi_iterate (n : Nat) (b : List Nat) (h : b.length = 32)
    (hb : ∀ x ∈ b, x < 256) :
    words16 (GOSThash_fi^[n] b) = phi_spec^[n] (words16 b) ∧ (GOSThash_fi^[n] b).length = 32 ∧
      ∀ x ∈ GOSThash_fi^[n] b, x < 256 := by
  induction n generalizing b with
  | zero => exact ⟨rfl, h, hb⟩
  | succ n ih =>
    obtain ⟨e1, e2, e3⟩ := GOSThash_fi_spec b h hb
    obtain ⟨i1, i2, i3⟩ := ih (GOSThash_fi b) e2 e3
    simp only [Function.iterate_succ, Function.comp_apply]
    exact ⟨by rw [i1, e1], i2, i3⟩

/-- The XOR of the specification is commutative. -/
theorem xor_spec_comm (a b : List Nat) : xor_spec a b = xor_spec b a := by
  unfold xor_spec
  exact List.zipWith_comm_of_comm _ (fun x y => Nat.xor_comm x y) a b

/-- The function `GOSThash_mixtransformation` on three blocks of 32 bytes is
the mixing of the specification. -/
theorem GOSThash_mixtransformation_spec (Hi_1 Si Mi : List Nat) (hH : Hi_1.length = 32)
    (hS : Si.length = 32) (hM : Mi.length = 32) (hH2 : ∀ x ∈ Hi_1, x < 256)
    (hS2 : ∀ x ∈ Si, x < 256) (hM2 : ∀ x ∈ Mi, x < 256) :
    GOSThash_mixtransformation Hi_1 Si Mi = mix_spec Hi_1 Si Mi ∧
      (GOSThash_mixtransformation Hi_1 Si Mi).length = 32 ∧
      ∀ x ∈ GOSThash_mixtransformation Hi_1 Si Mi, x < 256 := by
  unfold GOSThash_mixtransformation GOST_HASH_BYTES_SZ
  simp only
  rw [List.take_of_length_le (le_of_eq hS)]
  obtain ⟨a1, a2, a3⟩ := GOSThash_fi_iterate 12 Si hS hS2
  obtain ⟨b1, b2, b3⟩ := GOSThash_xorstr_words _ Mi a2 hM a3 hM2
  obtain ⟨c1, c2, c3⟩ := GOSThash_fi_spec _ b2 b3
  obtain ⟨d1, d2, d3⟩ := GOSThash_xorstr_words _ Hi_1 c2 hH c3 hH2
  obtain ⟨e1, e2, e3⟩ := GOSThash_fi_iterate 61 _ d2 d3
  refine ⟨?_, e2, e3⟩
  rw [← bytes16_words16 _ e2 e3, e1, d1, c1, b1, a1, xor_spec_comm (phi_spec^[12] (words16 Si))]
  rfl

/-- The byte loop of `GOSThash_xorstr` with the destination and the second
source at the same offset, behind the first source `buf`: after `i` bytes
(`done`) the `n` left (`rest`) are replaced by their XOR with the bytes of `buf`
in front of them, and nothing else changes. -/
theorem GOSThash_xorstr_mem_loop (n : Nat) (buf done rest : List Nat) (i : Nat)
    (hd : done.length = i) (hr : rest.length = n) (hb : i + n ≤ buf.length) :
    GOSThash_xorstr_mem n (buf ++ done ++ rest) buf.length 0 buf.length i
      = buf ++ done ++ List.zipWith (fun x y => x ^^^ y) ((buf.drop i).take n) rest := by
  induction n generalizing done rest i with
  | zero =>
    have : rest = [] := List.length_eq_zero.1 hr
    subst this
    simp [GOSThash_xorstr_mem]
  | succ n ih =>
    obtain ⟨r, rest2, rfl⟩ : ∃ r rest2, rest = r :: rest2 := by
      cases rest with
      | nil => simp at hr
      | cons r rest2 => exact ⟨r, rest2, rfl⟩
    have hi : i < buf.length := by omega
    have g1 : (buf ++ done ++ r :: rest2).getD (0 + i) 0 = buf[i] := by
      rw [Nat.zero_add, List.append_assoc, List.getD_append _ _ _ _ hi,
        List.getD_eq_getElem _ _ hi]
    have g2 : (buf ++ done ++ r :: rest2).getD (buf.length + i) 0 = r := by
      rw [List.getD_append_right _ _ _ _ (by simp [hd]), List.length_append, hd,
        Nat.sub_self]
      rfl
    have g3 : (buf ++ done ++ r :: rest2).set (buf.length + i) (buf[i] ^^^ r)
        = buf ++ (done ++ [buf[i] ^^^ r]) ++ rest2 := by
      have hl : (buf ++ done).length = buf.length + i := by simp [hd]
      rw [← hl, List.set_append_right _ _ (le_refl _), Nat.sub_self]
      simp
    simp only [GOSThash_xorstr_mem]
    rw [g1, g2, g3, ih (done ++ [buf[i] ^^^ r]) rest2 (i + 1) (by simp [hd])
      (by simpa using hr) (by omega)]
    rw [List.drop_eq_getElem_cons hi, List.take_succ_cons, List.zipWith_cons_cons]
    simp

/-- The statement `GOSThash_xorstr(Hi, buf, Hi_1, 32)` with `Hi` and `Hi_1` the
same buffer: running the byte loop on the memory that holds `buf` and then the
shared buffer leaves `buf` as it was and, in the shared buffer, the bytes that
the call writes when the buffers are distinct. -/
theorem GOSThash_xorstr_mem_alias (buf H : List Nat) (hb : buf.length = 32) (hH : H.length = 32) :
    (GOSThash_xorstr_mem 32 (buf ++ H) 32 0 32 0).drop 32 = GOSThash_xorstr buf H 32 ∧
    (GOSThash_xorstr_mem 32 (buf ++ H) 32 0 32 0).take 32 = buf := by
  have h := GOSThash_xorstr_mem_loop 32 buf [] H 0 rfl hH (by omega)
  rw [hb, List.append_nil, List.drop_zero, List.take_of_length_le (by omega)] at h
  rw [h, (GOSThash_xorstr_spec buf H hb hH).1]
  exact ⟨by rw [List.drop_append_of_le_length (by omega), List.drop_of_length_le (by omega)]; rfl,
    by rw [List.take_append_of_le_length (by omega), List.take_of_length_le (by omega)]⟩

/-! ## C34 -/

/-- C34: for every 32-byte `H_prev`, `S` and `M`, `GOSThash_mixtransformation`
produces `H = φ^61(φ(M ⊕ φ^12(S)) ⊕ H_prev)`, where `φ` XORs the 16-bit
little-endian words 0, 1, 2, 3, 12 and 15, shifts the words 1..15 down to 0..14
and stores the XOR in word 15; the call with the output buffer the same memory
as `H_prev` produces the same bytes. -/
theorem GOSThash_mixtransformation_phi (Hi_1 Si Mi : List Nat) (hH : Hi_1.length = 32)
    (hS : Si.length = 32) (hM : Mi.length = 32) (hH2 : ∀ x ∈ Hi_1, x < 256)
    (hS2 : ∀ x ∈ Si, x < 256) (hM2 : ∀ x ∈ Mi, x < 256) :
    GOSThash_mixtransformation Hi_1 Si Mi
      = bytes16 (phi_spec^[61]
          (xor_spec (phi_spec (xor_spec (words16 Mi) (phi_spec^[12] (words16 Si))))
            (words16 Hi_1))) ∧
    GOSThash_mixtransformation_inplace Hi_1 Si Mi = GOSThash_mixtransformation Hi_1 Si Mi ∧
    (∀ w : List Nat, phi_spec w
      = (w.drop 1).take 15 ++ [w.getD 0 0 ^^^ w.getD 1 0 ^^^ w.getD 2 0 ^^^ w.getD 3 0
          ^^^ w.getD 12 0 ^^^ w.getD 15 0]) := by
  refine ⟨(GOSThash_mixtransformation_spec Hi_1 Si Mi hH hS hM hH2 hS2 hM2).1, ?_, fun _ => rfl⟩
  unfold GOSThash_mixtransformation_inplace GOSThash_mixtransformation GOST_HASH_BYTES_SZ
  simp only
  rw [List.take_of_length_le (le_of_eq hS), List.take_of_length_le (le_of_eq hH)]
  obtain ⟨-, a2, a3⟩ := GOSThash_fi_iterate 12 Si hS hS2
  obtain ⟨-, b2, b3⟩ := GOSThash_xorstr_words _ Mi a2 hM a3 hM2
  obtain ⟨-, c2, -⟩ := GOSThash_fi_spec _ b2 b3
  rw [(GOSThash_xorstr_mem_alias _ Hi_1 c2 hH).1]

set_option maxRecDepth 1000000 in
/-- The first step of the first test message: `H_prev = 0`, `S` the table
`test_S` and `M = GOSThash_example1_M`.  The result is the table `test_SMix`
but for its seventh word, which the program computes as `0x505967a4`. -/
theorem GOSThash_mixtransformation_example :
    GOSThash_mixtransformation (List.replicate 32 0) (test_S.flatMap l2c) GOSThash_example1_M
      = [0x3315c034, 0x561c7de3, 0x883da687, 0xd99c4124, 0x42de7624, 0x68a03b8c, 0x505967a4,
         0xcf9a8c65].flatMap l2c ∧
    test_SMix.getD 6 0 = 0x505367a4 := by
  decide!

set_option maxRecDepth 1000000 in
/-- The first step of the first test message. -/
theorem GOSThash_mixtransformation_phi_witness :
    (List.replicate 32 0).length = 32 ∧ (test_S.flatMap l2c).length = 32 ∧
    GOSThash_example1_M.length = 32 ∧ (∀ x ∈ List.replicate 32 0, x < 256) ∧
    (∀ x ∈ test_S.flatMap l2c, x < 256) ∧ (∀ x ∈ GOSThash_example1_M, x < 256) ∧
    GOSThash_mixtransformation (List.replicate 32 0) (test_S.flatMap l2c) GOSThash_example1_M
      = bytes16 (phi_spec^[61]
          (xor_spec (phi_spec (xor_spec (words16 GOSThash_example1_M)
            (phi_spec^[12] (words16 (test_S.flatMap l2c)))))
            (words16 (List.replicate 32 0)))) :=
  ⟨rfl, rfl, rfl, by decide!, by decide!, by decide!,
    (GOSThash_mixtransformation_phi (List.replicate 32 0) (test_S.flatMap l2c)
      GOSThash_example1_M rfl rfl rfl (by decide!) (by decide!) (by decide!)).1⟩

/-! ## The end of the hash, its counters, and the one-shot function -/

/-- The length block of `GOSThash_Final`: the two counter words, low word
first, and 24 zero bytes. -/
theorem Final_length_block (d0 d1 : Nat) :
    memcpy (List.replicate 32 0) 0 (l2c d0 ++ l2c d1) 8
      = l2c d0 ++ l2c d1 ++ List.replicate 24 0 := rfl

/-- The bytes of `l2c`, low byte first. -/
theorem l2c_bytes (w : Nat) :
    l2c w = [w % 256, w / 2 ^ 8 % 256, w / 2 ^ 16 % 256, w / 2 ^ 24 % 256] := by
  unfold l2c
  have e : ∀ v : Nat, v &&& 0xff = v % 256 := fun v => Nat.and_pow_two_sub_one_eq_mod v 8
  rw [e, e, e, e, Nat.shiftRight_eq_div_pow, Nat.shiftRight_eq_div_pow,
    Nat.shiftRight_eq_div_pow]

/-- C32: for a context whose buffer is the 32-byte array of the struct,
`GOSThash_Final` outputs the step transformation of the step transformation of
`H'` and `L`, with `Z'`: `(H', Z')` is `(Hi, Z)` when no byte waits in the
buffer, and otherwise `Hi` stepped with, and `Z` summed with, the waiting bytes
padded with zeros to 32 bytes; `L` is the low counter word, the high counter
word, both low byte first, and 24 zero bytes.  The number of waiting bytes is
the bit counter divided by eight, modulo 32. -/
theorem GOSThash_Final_digest (ctx : GOSTHASH_CTX) (hbuf : ctx.buffer.length = 32) :
    (GOSThash_Final ctx).2
      = (GOSThash_steptransformation
          (GOSThash_steptransformation
            (if ctx.index = 0 then ctx.Hi
              else (GOSThash_steptransformation ctx.Hi
                (ctx.buffer.take ctx.index ++ List.replicate (32 - ctx.index) 0)
                ctx.gost_enc_ctx).1)
            (l2c ctx.datalen0 ++ l2c ctx.datalen1 ++ List.replicate 24 0)
            ctx.gost_enc_ctx).1
          (if ctx.index = 0 then ctx.Z
            else GOSThash_sumstr ctx.Z
              (ctx.buffer.take ctx.index ++ List.replicate (32 - ctx.index) 0) 32)
          ctx.gost_enc_ctx).1 ∧
      ctx.index = ctx.datalen0 / 8 % 32 ∧
      (ctx.buffer.take ctx.index ++ List.replicate (32 - ctx.index) 0).length = 32 ∧
      (l2c ctx.datalen0 ++ l2c ctx.datalen1 ++ List.replicate 24 0).length = 32 ∧
      (∀ w, l2c w = [w % 256, w / 2 ^ 8 % 256, w / 2 ^ 16 % 256, w / 2 ^ 24 % 256]) := by
  have hi := index_lt ctx
  have hlen : (ctx.buffer.take ctx.index).length = ctx.index := by
    rw [List.length_take]; omega
  have hpad : (ctx.buffer.take ctx.index ++ List.replicate (32 - ctx.index) 0).length = 32 := by
    rw [List.length_append, hlen, List.length_replicate]; omega
  refine ⟨?_, index_eq ctx, hpad, by simp [l2c], l2c_bytes⟩
  have hF : ∀ x, f ctx.core.2.2 x = f ctx.gost_enc_ctx x := fun _ => rfl
  rw [Final_eq ctx (by omega), final_core_F (f ctx.gost_enc_ctx) ctx.core hF]
  have s1 := fun a b => (step_F_eq ctx.gost_enc_ctx (f ctx.gost_enc_ctx) (fun _ => rfl) a b).1
  rw [s1, s1]
  unfold final_F
  simp only [GOSTHASH_CTX.core]
  rw [hlen, Final_length_block]
  by_cases h0 : ctx.index = 0
  · have hn : ¬ 0 > 0 := by omega
    simp only [h0, hn, if_true, if_false]
  · have hp : ctx.index > 0 := by omega
    simp only [h0, hp, if_true, if_false]
    rw [s1, ← sumstr_k_eq]
    unfold transform_F
    simp only
    rw [List.take_of_length_le (by omega)]

/-- The context of `GOSTCalc::hash` once the 13 bytes of `msg_device` have
been given to `GOSThash_Update`: they wait in the buffer. -/
theorem Update_device_buffer :
    (GOSThash_Update (GOSThash_Init GOSTHASH_CTX_local) msg_device 13).buffer.length = 32 ∧
    (GOSThash_Update (GOSThash_Init GOSTHASH_CTX_local) msg_device 13).index = 13 := by
  decide

/-- The statement of `GOSThash_Final_digest` at the context of `GOSTCalc::hash`
after the 13 bytes of `msg_device`. -/
theorem GOSThash_Final_digest_witness :
    (GOSThash_Update (GOSThash_Init GOSTHASH_CTX_local) msg_device 13).buffer.length = 32 ∧
    (GOSThash_Update (GOSThash_Init GOSTHASH_CTX_local) msg_device 13).index
      = (GOSThash_Update (GOSThash_Init GOSTHASH_CTX_local) msg_device 13).datalen0 / 8 % 32 :=
  ⟨Update_device_buffer.1,
    (GOSThash_Final_digest (GOSThash_Update (GOSThash_Init GOSTHASH_CTX_local) msg_device 13)
      Update_device_buffer.1).2.1⟩

/-- The loop of `GOSThash_Update` leaves the two counter words alone, however
many times it runs. -/
theorem Update_loop_datalen (fuel : Nat) (ctx : GOSTHASH_CTX) (input : List Nat)
    (inputLen i : Nat) :
    (GOSThash_Update_loop fuel ctx input inputLen i).1.datalen0 = ctx.datalen0 ∧
    (GOSThash_Update_loop fuel ctx input inputLen i).1.datalen1 = ctx.datalen1 := by
  induction fuel generalizing ctx i with
  | zero => exact ⟨rfl, rfl⟩
  | succ fuel ih =>
    simp only [GOSThash_Update_loop]
    split
    · obtain ⟨e1, e2⟩ := ih (GOSThashTransform ctx (List.drop i input))
        (u32 (i + GOST_HASH_BLOCK_BYTES_SZ))
      rw [e1, e2, transform_datalen0, transform_datalen1]
      exact ⟨rfl, rfl⟩
    · exact ⟨rfl, rfl⟩

/-- The two counter words after `GOSThash_Update`, as the function computes
them before the loop. -/
theorem Update_datalen (ctx : GOSTHASH_CTX) (input : List Nat) (inputLen : Nat) :
    (GOSThash_Update ctx input inputLen).datalen0
      = u32 (ctx.datalen0 + u32 (inputLen <<< 3)) ∧
    (GOSThash_Update ctx input inputLen).datalen1
      = u32 ((if u32 (ctx.datalen0 + u32 (inputLen <<< 3)) < u32 (inputLen <<< 3)
          then u32 (ctx.datalen1 + 1) else ctx.datalen1) + (inputLen >>> 29)) := by
  unfold GOSThash_Update
  simp only
  split
  · simp only [(Update_loop_datalen _ _ _ _ _).1, (Update_loop_datalen _ _ _ _ _).2,
      transform_datalen0, transform_datalen1, and_self]
  · exact ⟨rfl, rfl⟩

/-- The arithmetic of the two counter words: adding `inputLen << 3` to the low
word with a carry, and `inputLen >> 29` to the high word, adds `8 * inputLen`
to the 64-bit counter. -/
theorem counter_add (d0 d1 len : Nat) (h0 : d0 < 2 ^ 32) :
    u32 ((if u32 (d0 + u32 (len <<< 3)) < u32 (len <<< 3) then u32 (d1 + 1) else d1)
        + (len >>> 29)) * 2 ^ 32 + u32 (d0 + u32 (len <<< 3))
      = (d1 * 2 ^ 32 + d0 + 8 * len) % 2 ^ 64 := by
  rw [Nat.shiftLeft_eq, Nat.shiftRight_eq_div_pow]
  unfold u32
  split <;> omega

/-- Within the range where `i + 31` does not wrap, the loop of
`GOSThash_Update` leaves by its guard, at the last whole block. -/
theorem Update_loop_exit (fuel : Nat) (ctx : GOSTHASH_CTX) (input : List Nat) (inputLen i : Nat)
    (hi : i ≤ inputLen) (hlen : inputLen + 32 ≤ 2 ^ 32) (hfuel : (inputLen - i) / 32 < fuel) :
    (GOSThash_Update_loop fuel ctx input inputLen i).2 = i + 32 * ((inputLen - i) / 32) ∧
    ¬ (u32 ((GOSThash_Update_loop fuel ctx input inputLen i).2 + GOST_HASH_BLOCK_BYTES_SZ - 1)
        < inputLen) := by
  induction fuel generalizing ctx i with
  | zero => omega
  | succ fuel ih =>
    simp only [GOSThash_Update_loop, GOST_HASH_BLOCK_BYTES_SZ, u32]
    have h1 : (i + 32 - 1) % 4294967296 = i + 31 := by omega
    rw [h1]
    split
    · rename_i hc
      have h2 : (i + 32) % 4294967296 = i + 32 := by omega
      rw [h2]
      have h3 : (inputLen - i) / 32 = (inputLen - (i + 32)) / 32 + 1 := by omega
      obtain ⟨e1, e2⟩ := ih (GOSThashTransform ctx (List.drop i input)) (i + 32)
        (by omega) (by omega)
      simp only [GOST_HASH_BLOCK_BYTES_SZ, u32] at e2
      refine ⟨by rw [e1]; omega, e2⟩
    · rename_i hc
      have h3 : (inputLen - i) / 32 = 0 := by omega
      simp only [h3, Nat.mul_zero, Nat.add_zero, h1]
      exact ⟨trivial, hc⟩

/-- What `GOSThash_Update` does to the counters for an input of at most
`2 ^ 32 - 32` bytes: the 64-bit counter grows by eight times the length modulo
`2 ^ 64`, the number of waiting bytes by the length modulo 32, and the loop,
when it is entered, leaves by its guard. -/
theorem GOSThash_Update_counter (ctx : GOSTHASH_CTX) (input : List Nat) (inputLen : Nat)
    (h0 : ctx.datalen0 < 2 ^ 32) (hlen : inputLen + 32 ≤ 2 ^ 32) :
    (GOSThash_Update ctx input inputLen).datalen1 * 2 ^ 32
        + (GOSThash_Update ctx input inputLen).datalen0
      = (ctx.datalen1 * 2 ^ 32 + ctx.datalen0 + 8 * inputLen) % 2 ^ 64 ∧
    (GOSThash_Update ctx input inputLen).index = (ctx.index + inputLen) % 32 ∧
    (∀ c : GOSTHASH_CTX, 32 - ctx.index ≤ inputLen →
      ¬ (u32 ((GOSThash_Update_loop (inputLen / 32 + 1) c input inputLen (32 - ctx.index)).2
          + GOST_HASH_BLOCK_BYTES_SZ - 1) < inputLen)) := by
  obtain ⟨e0, e1⟩ := Update_datalen ctx input inputLen
  refine ⟨?_, ?_, ?_⟩
  · rw [e0, e1]
    exact counter_add _ _ _ h0
  · rw [index_eq, index_eq, e0, Nat.shiftLeft_eq]
    unfold u32
    omega
  · intro c hc
    have hi := index_lt ctx
    exact (Update_loop_exit _ c input inputLen (32 - ctx.index) hc hlen (by omega)).2

/-- The loop of `GOSThash_Update` for an input of `2 ^ 32 - 1` bytes, entered
at an offset `i` with `i % 32 = 31`: the guard `i + 32 - 1 < inputLen` holds at
every state, since `i + 31` wraps in `unsigned int` and is never
`2 ^ 32 - 1`. -/
theorem Update_loop_guard (fuel : Nat) (ctx : GOSTHASH_CTX) (input : List Nat) (i : Nat)
    (hi : i < 2 ^ 32) (hm : i % 32 = 31) :
    (GOSThash_Update_loop fuel ctx input 4294967295 i).2 = (i + 32 * fuel) % 2 ^ 32 := by
  induction fuel generalizing ctx i with
  | zero =>
    simp only [GOSThash_Update_loop]
    omega
  | succ fuel ih =>
    simp only [GOSThash_Update_loop, GOST_HASH_BLOCK_BYTES_SZ, u32]
    have hg : (i + 32 - 1) % 4294967296 < 4294967295 := by omega
    rw [if_pos hg, ih _ _ (by omega) (by omega)]
    omega

/-- C33: the loop of `GOSThash_Update` for an input of `2 ^ 32 - 1` bytes when
one byte waits in the buffer, so that the loop is entered at `i = 31`.  However
many iterations are allowed, the loop has used them all: `i` is
`(31 + 32 * fuel) mod 2 ^ 32`, and the guard `i + 32 - 1 < inputLen` still
holds at the state reached, so the function has not come to the code after the
loop. -/
theorem GOSThash_Update_loop_wraps (fuel : Nat) (ctx : GOSTHASH_CTX) (input : List Nat) :
    (GOSThash_Update_loop fuel ctx input 4294967295 (GOST_HASH_BLOCK_BYTES_SZ - 1)).2
      = (31 + 32 * fuel) % 2 ^ 32 ∧
    u32 ((GOSThash_Update_loop fuel ctx input 4294967295 (GOST_HASH_BLOCK_BYTES_SZ - 1)).2
      + GOST_HASH_BLOCK_BYTES_SZ - 1) < 4294967295 := by
  have e := Update_loop_guard fuel ctx input 31 (by norm_num) (by norm_num)
  have e2 : GOST_HASH_BLOCK_BYTES_SZ - 1 = 31 := rfl
  rw [e2, e]
  refine ⟨rfl, ?_⟩
  simp only [GOST_HASH_BLOCK_BYTES_SZ, u32]
  omega

/-- The loop of the one-shot `GOSThash` over a message of `m` bits transforms
the `m / 256` whole blocks in order and leaves with fewer than 256 bits. -/
theorem GOSThash_loop_eq (fuel : Nat) (k : List Nat × List Nat × gost_ctx) (M : List Nat)
    (m : Nat) (hfuel : m / 256 < fuel) :
    GOSThash_loop fuel k M (m : Int)
      = (absorb_core (m / 256) k M, M.drop (32 * (m / 256)), ((m % 256 : Nat) : Int)) := by
  induction fuel generalizing k M m with
  | zero => omega
  | succ fuel ih =>
    unfold GOSThash_loop
    by_cases hc : (m : Int) ≥ 256
    · rw [if_pos hc]
      have hm : 256 ≤ m := by omega
      have e1 : (m : Int) - 256 = ((m - 256 : Nat) : Int) := by omega
      have e2 : m / 256 = (m - 256) / 256 + 1 := by omega
      have e3 : (m - 256) % 256 = m % 256 := by omega
      simp only [e1]
      rw [ih _ _ (m - 256) (by omega), e2, e3]
      simp only [absorb_core, List.drop_drop]
      have e4 : 32 + 32 * ((m - 256) / 256) = 32 * ((m - 256) / 256 + 1) := by omega
      rw [e4]
      rfl
    · rw [if_neg hc]
      have e2 : m / 256 = 0 := by omega
      have e3 : m % 256 = m := by omega
      simp [e2, e3, absorb_core]

/-- The one-shot `GOSThash` over a whole number of bytes is the finishing of
`GOSThash_Final` on the blocks its loop has transformed. -/
theorem GOSThash_eq (M : List Nat) (c : gost_ctx) (hlen : 8 * M.length < 2 ^ 31) :
    (GOSThash M ((8 * M.length : Nat) : Int) none c).map Prod.fst
      = some (final_core
        (absorb_core (M.length / 32) (List.replicate 32 0, List.replicate 32 0, c) M)
        (8 * M.length) 0 (M.drop (32 * (M.length / 32)))) := by
  have hneg : ¬ (((8 * M.length : Nat) : Int) < 0) := by omega
  have hq : 8 * M.length / 256 = M.length / 32 := by omega
  have hr : 8 * M.length % 256 = 8 * (M.length % 32) := by omega
  have hdl : (M.drop (32 * (M.length / 32))).length = M.length % 32 := by
    rw [List.length_drop]; omega
  unfold GOSThash
  rw [if_neg hneg]
  simp only [Int.toNat_ofNat]
  rw [GOSThash_loop_eq _ _ _ _ (by omega), hq, hr]
  simp only [Option.map_some']
  unfold final_core
  rw [hdl]
  have hl : memcpy (List.replicate 32 0) 0 (l2c (8 * M.length)) 4
      = memcpy (List.replicate 32 0) 0 (l2c (8 * M.length) ++ l2c 0) 8 := rfl
  rw [hl]
  by_cases hz : M.length % 32 = 0
  · have h1 : ¬ (((8 * (M.length % 32) : Nat) : Int) > 0) := by omega
    have h2 : ¬ (M.length % 32 > 0) := by omega
    rw [if_neg h1, if_neg h2]
  · have h1 : ((8 * (M.length % 32) : Nat) : Int) > 0 := by omega
    have h2 : M.length % 32 > 0 := by omega
    rw [if_pos h1, if_pos h2]
    have h3 : (Int.tdiv ((8 * (M.length % 32) : Nat) : Int) 8).toNat = M.length % 32 := by
      have : Int.tdiv ((8 * (M.length % 32) : Nat) : Int) 8 = ((M.length % 32 : Nat) : Int) := by
        rw [Int.tdiv_eq_ediv (by omega) (by omega)]
        omega
      rw [this]
      rfl
    rw [h3]
    have h4 : memcpy (List.replicate 32 0) 0 (M.drop (32 * (M.length / 32))) (M.length % 32)
        = M.drop (32 * (M.length / 32)) ++ List.replicate (32 - M.length % 32) 0 := by
      unfold memcpy
      rw [List.take_zero, List.nil_append, List.take_of_length_le (by omega), Nat.zero_add,
        List.drop_replicate]
    rw [h4]
    have h5 : (M.drop (32 * (M.length / 32)) ++ List.replicate (32 - M.length % 32) 0).take 32
        = M.drop (32 * (M.length / 32)) ++ List.replicate (32 - M.length % 32) 0 := by
      apply List.take_of_length_le
      rw [List.length_append, hdl, List.length_replicate]
      omega
    simp only [transform_core, GOSThashTransform, GOSTHASH_CTX.core, GOST_HASH_BLOCK_BYTES_SZ, h5]

/-- The digest of `GOSThash_Init`, `GOSThash_Update` over the whole message and
`GOSThash_Final`, for a message shorter than `2 ^ 29` bytes. -/
theorem Init_Update_Final_eq (ctx0 : GOSTHASH_CTX) (M : List Nat) (hlen : M.length < 2 ^ 29) :
    (GOSThash_Final (GOSThash_Update (GOSThash_Init ctx0) M M.length)).2
      = final_core (absorb_core (M.length / 32) (GOSThash_Init ctx0).core M)
        (8 * M.length) 0 (M.drop (32 * (M.length / 32))) := by
  have h0 := Init_index ctx0
  have hi0 : (GOSThash_Init ctx0).index ≤ (GOSThash_Init ctx0).buffer.length := by omega
  obtain ⟨m1, m2, m3, m4, m5⟩ := Update_spec (GOSThash_Init ctx0) M hi0 hlen
  have mi := Update_index (GOSThash_Init ctx0) M hi0 hlen
  simp only [h0, Nat.zero_add, List.take_zero, List.nil_append, Init_datalen0,
    Init_datalen1] at m1 m2 m3 m4 m5 mi
  generalize GOSThash_Update (GOSThash_Init ctx0) M M.length = cM at m1 m2 m3 m4 m5 mi ⊢
  rw [Final_eq cM (by rw [mi]; exact m5), mi, m4, m1, m2, m3]
  have hd0 : 8 * M.length % 4294967296 = 8 * M.length := by omega
  have hd1 : (if 8 * M.length < 8 * M.length
      then 1 % 4294967296 else 0) % 4294967296 = 0 := by simp
  rw [hd0, hd1]

/-- C38: for a message `M` with `8 * |M| < 2 ^ 31`, the one-shot
`GOSThash(M, 8 * |M|, NULL, ctx)`, with the tables of `ctx` built by `kboxinit`
from `GOSThash_example_kbox`, the S-box set of `GOSThash_Init`, returns the
digest of `GOSThash_Init`, `GOSThash_Update(M)`, `GOSThash_Final`, from any
context given to `GOSThash_Init`; its loop leaves with fewer than 256 bits to
go. -/
theorem GOSThash_one_shot (M : List Nat) (c : gost_ctx) (ctx0 : GOSTHASH_CTX)
    (hlen : 8 * M.length < 2 ^ 31) (hc : c.has_kbox GOSThash_example_kbox) :
    (∃ r, GOSThash M ((8 * M.length : Nat) : Int) none c = some r ∧
      r.1 = (GOSThash_Final (GOSThash_Update (GOSThash_Init ctx0) M M.length)).2) ∧
    (GOSThash_loop (8 * M.length / 256 + 1)
      (List.replicate 32 0, List.replicate 32 0, c) M ((8 * M.length : Nat) : Int)).2.2 < 256 := by
  constructor
  · have e := GOSThash_eq M c hlen
    cases hG : GOSThash M ((8 * M.length : Nat) : Int) none c with
    | none => rw [hG] at e; exact absurd e (by simp)
    | some r =>
    rw [hG, Option.map_some', Option.some.injEq] at e
    refine ⟨r, rfl, ?_⟩
    rw [e, Init_Update_Final_eq ctx0 M (by omega)]
    have hk : ∀ x, f (GOSThash_Init ctx0).core.2.2 x = f_p x :=
      f_p_eq _ (kboxinit_has_kbox _ _)
    have hk2 : ∀ x, f (List.replicate 32 0, List.replicate 32 0, c).2.2 x = f_p x :=
      f_p_eq _ hc
    obtain ⟨a1, a2⟩ := absorb_core_F f_p (M.length / 32) _ hk M
    obtain ⟨b1, b2⟩ := absorb_core_F f_p (M.length / 32) _ hk2 M
    rw [final_core_F f_p _ a2, final_core_F f_p _ b2, a1, b1]
    rfl
  · rw [GOSThash_loop_eq _ _ _ _ (by omega)]
    simp only
    omega

/-- The statement of `GOSThash_one_shot` at the 13 bytes of `msg_device`, with
the cipher context `ctx_example` and the context of `GOSTCalc::hash`. -/
theorem GOSThash_one_shot_witness :
    8 * msg_device.length < 2 ^ 31 ∧ ctx_example.has_kbox GOSThash_example_kbox ∧
    ∃ r, GOSThash msg_device ((8 * msg_device.length : Nat) : Int) none ctx_example = some r ∧
      r.1 = (GOSThash_Final
        (GOSThash_Update (GOSThash_Init GOSTHASH_CTX_local) msg_device msg_device.length)).2 :=
  ⟨by decide, ⟨rfl, rfl, rfl, rfl⟩,
    (GOSThash_one_shot msg_device ctx_example GOSTHASH_CTX_local (by decide)
      ⟨rfl, rfl, rfl, rfl⟩).1⟩

end SignatureTool
